import Mathlib

/-!
# Process-info registry of DLB (`src/LB_comm/shmem_procinfo.c`)

A shallow embedding of the shared process registry: the per-process entries
(`pinfo_t`), the shared region (`shdata_t`), the file's static variables
(`shmem_procinfo`), and the operations that register, steal and release CPUs.

Conventions of the embedding
* `cpu_set_t` is a finite set of CPU numbers; the `CPU_*` operations of
  `<sched.h>` are the corresponding set operations.
* a `pinfo_t *` is the index of the entry in `process_info`; `NULL` is `none`.
* machine integers are `Int` (pids, return codes) or `Nat` (CPU and slot
  indices, which the code only ever uses non-negative).
* every function that the C code runs on the shared region takes the region as
  an argument and gives the new region back.
-/

namespace DLB

/-! ## Error codes (`src/apis/dlb_errors.h`) -/

def _DLB_ERROR_UPPER_BOUND : Int := 3
def DLB_NOUPDT : Int := 2
def DLB_NOTED : Int := 1
def DLB_SUCCESS : Int := 0
def DLB_ERR_UNKNOWN : Int := -1
def DLB_ERR_NOINIT : Int := -2
def DLB_ERR_INIT : Int := -3
def DLB_ERR_DISBLD : Int := -4
def DLB_ERR_NOSHMEM : Int := -5
def DLB_ERR_NOPROC : Int := -6
def DLB_ERR_PDIRTY : Int := -7
def DLB_ERR_PERM : Int := -8
def DLB_ERR_TIMEOUT : Int := -9
def DLB_ERR_NOCBK : Int := -10
def DLB_ERR_NOENT : Int := -11
def DLB_ERR_NOCOMP : Int := -12
def DLB_ERR_REQST : Int := -13
def DLB_ERR_NOMEM : Int := -14
def DLB_ERR_NOPOL : Int := -15
def _DLB_ERROR_LOWER_BOUND : Int := -16

/-! ## CPU sets -/

/-- The type `cpu_set_t` of `<sched.h>`: a set of CPU numbers. -/
abbrev cpu_set_t := Finset Nat

/-- The type `pid_t`. -/
abbrev pid_t := Int

/-- The constant `#define NOBODY 0`. -/
def NOBODY : pid_t := 0

/-- The macro `CPU_ISSET(c, set)`. -/
@[simp] def CPU_ISSET (c : Nat) (set : cpu_set_t) : Bool := decide (c ∈ set)

/-- The macro `CPU_COUNT(set)`. -/
@[simp] def CPU_COUNT (set : cpu_set_t) : Nat := set.card

/-- The macro `CPU_SET(c, set)`, as the new value of `set`. -/
@[simp] def CPU_SET (c : Nat) (set : cpu_set_t) : cpu_set_t := insert c set

/-- The macro `CPU_CLR(c, set)`, as the new value of `set`. -/
@[simp] def CPU_CLR (c : Nat) (set : cpu_set_t) : cpu_set_t := set.erase c

/-- The macro `CPU_ZERO(set)`, as the new value of `set`. -/
@[simp] def CPU_ZERO : cpu_set_t := ∅

/-- The macro `CPU_OR(dest, a, b)`, as the new value of `dest`. -/
@[simp] def CPU_OR (a b : cpu_set_t) : cpu_set_t := a ∪ b

/-- The macro `CPU_AND(dest, a, b)`, as the new value of `dest`. -/
@[simp] def CPU_AND (a b : cpu_set_t) : cpu_set_t := a ∩ b

/-- Modelled from the spec: `mu_is_subset` of `support/mask_utils`, which is not
among the sources; the spec lists it among the mask operations (a subset test). -/
@[simp] def mu_is_subset (subset superset : cpu_set_t) : Bool := decide (subset ⊆ superset)

/-- Modelled from the spec: `mu_substract` of `support/mask_utils`, which is not
among the sources; the spec lists it among the mask operations (set difference),
as the new value of the result. -/
@[simp] def mu_substract (minuend substrahend : cpu_set_t) : cpu_set_t := minuend \ substrahend

/-! ## Data model -/

/-- The struct `pinfo_t`: one entry of the process table.  The two `double`
usage counters are left out: no operation embedded here reads them. -/
structure pinfo_t where
  pid : pid_t
  dirty : Bool
  returncode : Int
  current_process_mask : cpu_set_t
  future_process_mask : cpu_set_t
  stolen_cpus : cpu_set_t
  active_cpus : Nat
deriving DecidableEq

/-- A zero-filled entry, as the shared region holds them when it is created. -/
def pinfo_t.zero : pinfo_t :=
  { pid := NOBODY, dirty := false, returncode := 0, current_process_mask := ∅,
    future_process_mask := ∅, stolen_cpus := ∅, active_cpus := 0 }

/-- The struct `shdata_t`: the contents of the shared region.  The array
`process_info` has `max_processes` entries. -/
structure shdata_t where
  initialized : Bool
  free_mask : cpu_set_t
  process_info : List pinfo_t
deriving DecidableEq

/-- The static `max_processes`: the number of entries of `process_info`
(the region is created with room for exactly that many). -/
def shdata_t.max_processes (shdata : shdata_t) : Nat := shdata.process_info.length

/-- The entry `shdata->process_info[p]`. -/
def shdata_t.proc (shdata : shdata_t) (p : Nat) : pinfo_t :=
  shdata.process_info.getD p pinfo_t.zero

/-- The region after a store to `shdata->process_info[p]`. -/
def shdata_t.setProc (shdata : shdata_t) (p : Nat) (v : pinfo_t) : shdata_t :=
  { shdata with process_info := shdata.process_info.set p v }

/-- The static variables of `shmem_procinfo.c` together with the shared region
they point at.  `shm_handler` is `true` when the handler is not `NULL`.
While the handler is `NULL` the field `shdata` keeps the contents the region
had when it was detached, and `region_deleted` tells that the last detach
destroyed the region (`SHMEM_DELETE`), so that the next attach creates it anew. -/
structure shmem_procinfo where
  shm_handler : Bool
  subprocesses_attached : Int
  max_cpus : Nat
  shdata : shdata_t
  region_deleted : Bool := false
deriving DecidableEq

/-! ## Lookup -/

/-- The function `get_process`: the first entry whose pid is `pid`. -/
def get_process (pid : pid_t) (shdata : shdata_t) : Option Nat :=
  (List.range shdata.max_processes).find? (fun p => decide ((shdata.proc p).pid = pid))

/-! ## Register / unregister -/

/-- The function `register_mask`: take `mask` out of `free_mask` and give it to
`new_owner`, or fail with `DLB_ERR_PERM` when some CPU of it is not free. -/
def register_mask (new_owner : Nat) (mask : cpu_set_t) (shdata : shdata_t) : Int × shdata_t :=
  if mu_is_subset mask shdata.free_mask then
    let s1 := { shdata with free_mask := mu_substract shdata.free_mask mask }
    let o := s1.proc new_owner
    (DLB_SUCCESS, s1.setProc new_owner
      { o with future_process_mask := CPU_OR o.future_process_mask mask, dirty := true })
  else
    (DLB_ERR_PERM, shdata)

/-- Inner loop of `unregister_mask` (`return_stolen` case): give CPU `c` back to
the first registered entry that has it in `stolen_cpus`.  The flag tells whether
the loop ended with `break`. -/
def unregister_mask_give_back (c : Nat) : List Nat → shdata_t → Bool × shdata_t
  | [], shdata => (false, shdata)
  | p :: ps, shdata =>
    let process := shdata.proc p
    if process.pid ≠ NOBODY ∧ CPU_ISSET c process.stolen_cpus then
      (true, shdata.setProc p
        { process with
          future_process_mask := CPU_SET c process.future_process_mask
          stolen_cpus := CPU_CLR c process.stolen_cpus
          dirty := true })
    else unregister_mask_give_back c ps shdata

/-- Outer loop of `unregister_mask` (`return_stolen` case), over the CPUs `cs`. -/
def unregister_mask_cpus (owner : Nat) (mask : cpu_set_t) : List Nat → shdata_t → shdata_t
  | [], shdata => shdata
  | c :: cs, shdata =>
    if CPU_ISSET c mask then
      let r := unregister_mask_give_back c (List.range shdata.max_processes) shdata
      let s1 := if r.1 then r.2 else { r.2 with free_mask := CPU_SET c r.2.free_mask }
      let o := s1.proc owner
      unregister_mask_cpus owner mask cs
        (s1.setProc owner
          { o with future_process_mask := CPU_CLR c o.future_process_mask, dirty := true })
    else unregister_mask_cpus owner mask cs shdata

/-- The function `unregister_mask`: release the CPUs of `mask` held by `owner`,
to `free_mask` or (with `return_stolen`) to the entry they were stolen from.
The callers pass a pointer to a mask of the owner's own entry; the mask is taken
by value here, which gives the same result: the `return_stolen` loop changes at
step `c` only bit `c` of the owner's future mask, after it has read that bit, and
the other branch reads the mask once. -/
def unregister_mask (max_cpus : Nat) (owner : Nat) (mask : cpu_set_t) (return_stolen : Bool)
    (shdata : shdata_t) : Int × shdata_t :=
  if CPU_COUNT mask = 0 then (DLB_SUCCESS, shdata)
  else if return_stolen then
    (DLB_SUCCESS, unregister_mask_cpus owner mask (List.range max_cpus) shdata)
  else
    let s1 := { shdata with free_mask := CPU_OR shdata.free_mask mask }
    let o := s1.proc owner
    (DLB_SUCCESS, s1.setProc owner
      { o with future_process_mask := mu_substract o.future_process_mask mask, dirty := true })

/-! ## Stealing -/

/-- The function `steal_cpu`: tell whether `cpu` can be taken from `victim`, and
unless `dry_run` move it to `new_owner` (to `free_mask` when `new_owner` is `NULL`). -/
def steal_cpu (new_owner : Option Nat) (victim : Nat) (cpu : Nat) (dry_run : Bool)
    (shdata : shdata_t) : Bool × shdata_t :=
  let v := shdata.proc victim
  let steal : Bool :=
    (!v.dirty && CPU_ISSET cpu v.current_process_mask
        && decide (CPU_COUNT v.future_process_mask > 1))
    || (v.dirty && CPU_ISSET cpu v.future_process_mask
        && decide (CPU_COUNT v.future_process_mask > 1))
  if steal && !dry_run then
    let s1 := shdata.setProc victim
      { v with
        dirty := true
        stolen_cpus := CPU_SET cpu v.stolen_cpus
        future_process_mask := CPU_CLR cpu v.future_process_mask }
    match new_owner with
    | some n =>
      let o := s1.proc n
      (steal, s1.setProc n
        { o with dirty := true, future_process_mask := CPU_SET cpu o.future_process_mask })
    | none => (steal, { s1 with free_mask := CPU_SET cpu s1.free_mask })
  else (steal, shdata)

/-- Inner loop of `steal_mask`: try the entries `ps` in order and stop at the
first registered one that gives `cpu`.  The flag tells whether the loop ended
with `break` (that is, `p < max_processes` after it). -/
def steal_mask_victims (new_owner : Option Nat) (cpu : Nat) (dry_run : Bool) :
    List Nat → shdata_t → Bool × shdata_t
  | [], shdata => (false, shdata)
  | p :: ps, shdata =>
    if (shdata.proc p).pid ≠ NOBODY then
      let r := steal_cpu new_owner p cpu dry_run shdata
      if r.1 then (true, r.2) else steal_mask_victims new_owner cpu dry_run ps r.2
    else steal_mask_victims new_owner cpu dry_run ps shdata

/-- Outer loop of `steal_mask`, over the CPUs `cs` in the order given. -/
def steal_mask_cpus (new_owner : Option Nat) (mask : cpu_set_t) (dry_run : Bool) :
    List Nat → shdata_t → Int × shdata_t
  | [], shdata => (DLB_SUCCESS, shdata)
  | c :: cs, shdata =>
    if CPU_ISSET c mask then
      let r := steal_mask_victims new_owner c dry_run (List.range shdata.max_processes) shdata
      if r.1 then steal_mask_cpus new_owner mask dry_run cs r.2
      else (DLB_ERR_PERM, r.2)
    else steal_mask_cpus new_owner mask dry_run cs shdata

/-- The function `steal_mask`: steal every CPU of `mask`, from `max_cpus-1` down to 0. -/
def steal_mask (max_cpus : Nat) (new_owner : Option Nat) (mask : cpu_set_t) (dry_run : Bool)
    (shdata : shdata_t) : Int × shdata_t :=
  steal_mask_cpus new_owner mask dry_run (List.range max_cpus).reverse shdata

/-- The three local sets of `set_new_mask`. -/
structure new_mask_sets where
  cpus_to_acquire : cpu_set_t
  cpus_to_steal : cpu_set_t
  cpus_to_free : cpu_set_t
deriving DecidableEq

/-- One iteration of the classification loop of `set_new_mask`. -/
def set_new_mask_classify (free_mask future_process_mask mask : cpu_set_t)
    (acc : new_mask_sets) (c : Nat) : new_mask_sets :=
  if CPU_ISSET c mask then
    if CPU_ISSET c free_mask then
      { acc with cpus_to_acquire := CPU_SET c acc.cpus_to_acquire }
    else if !CPU_ISSET c future_process_mask then
      { acc with cpus_to_steal := CPU_SET c acc.cpus_to_steal }
    else acc
  else if CPU_ISSET c future_process_mask then
    { acc with cpus_to_free := CPU_SET c acc.cpus_to_free }
  else acc

/-- The classification loop of `set_new_mask`, for `c` from 0 to `max_cpus-1`. -/
def set_new_mask_sets (max_cpus : Nat) (process : Nat) (mask : cpu_set_t)
    (shdata : shdata_t) : new_mask_sets :=
  (List.range max_cpus).foldl
    (set_new_mask_classify shdata.free_mask (shdata.proc process).future_process_mask mask)
    { cpus_to_acquire := CPU_ZERO, cpus_to_steal := CPU_ZERO, cpus_to_free := CPU_ZERO }

/-- The function `set_new_mask`: give `process` the CPU set `mask`: register
the free CPUs of it, steal the used ones, release the ones no longer wanted. -/
def set_new_mask (max_cpus : Nat) (process : Nat) (mask : cpu_set_t) (dry_run : Bool)
    (shdata : shdata_t) : Int × shdata_t :=
  let sets := set_new_mask_sets max_cpus process mask shdata
  let r := steal_mask max_cpus (some process) sets.cpus_to_steal dry_run shdata
  if dry_run then r
  else
    let r1 := if r.1 ≠ 0 then r else register_mask process sets.cpus_to_acquire r.2
    if r1.1 ≠ 0 then r1 else unregister_mask max_cpus process sets.cpus_to_free false r1.2

/-! ## Public operations -/

/-- The function `shmem_procinfo__setprocessmask`.  The result code is `none`
when the call goes on into the `DLB_SYNC_QUERY` polling loop, which waits for
the target process and only reads the region. -/
def shmem_procinfo__setprocessmask (pid : pid_t) (mask : cpu_set_t) (sync_query : Bool)
    (g : shmem_procinfo) : Option Int × shmem_procinfo :=
  if !g.shm_handler then (some DLB_ERR_NOSHMEM, g)
  else
    match get_process pid g.shdata with
    | none => (some DLB_ERR_NOPROC, g)
    | some process =>
      if (g.shdata.proc process).dirty then (some DLB_ERR_PDIRTY, g)
      else
        let r := set_new_mask g.max_cpus process mask true g.shdata
        let r1 := if r.1 ≠ 0 then r else set_new_mask g.max_cpus process mask false r.2
        if r1.1 = 0 ∧ sync_query then (none, { g with shdata := r1.2 })
        else (some r1.1, { g with shdata := r1.2 })

/-- The values `shmem_procinfo__polldrom` writes through its output pointers. -/
structure polldrom_out where
  new_cpus : Nat
  new_mask : cpu_set_t
deriving DecidableEq

/-- The function `shmem_procinfo__polldrom`: acknowledge a pending mask change. -/
def shmem_procinfo__polldrom (pid : pid_t) (g : shmem_procinfo) :
    Int × Option polldrom_out × shmem_procinfo :=
  if !g.shm_handler then (DLB_ERR_NOSHMEM, none, g)
  else
    match get_process pid g.shdata with
    | none => (DLB_ERR_NOPROC, none, g)
    | some process =>
      let p := g.shdata.proc process
      if !p.dirty then (DLB_NOUPDT, none, g)
      else
        let p1 : pinfo_t :=
          { p with current_process_mask := p.future_process_mask, dirty := false, returncode := 0 }
        (DLB_SUCCESS,
          some { new_cpus := CPU_COUNT p.future_process_mask, new_mask := p.future_process_mask },
          { g with shdata := g.shdata.setProc process p1 })

/-- The slot loop of `shmem_procinfo_ext__preinit`.  The result code is `none`
when the call ends in `fatal`, which aborts the calling process and leaves the
region as it is at that point. -/
def shmem_procinfo_ext__preinit_slots (max_cpus : Nat) (pid : pid_t) (mask : cpu_set_t)
    (steal : Int) : List Nat → shdata_t → Option Int × shdata_t
  | [], shdata => (none, shdata)
  | p :: ps, shdata =>
    if (shdata.proc p).pid = pid then (none, shdata)
    else if (shdata.proc p).pid = NOBODY then
      let s1 := shdata.setProc p
        { shdata.proc p with
          pid := pid
          dirty := false
          returncode := 0
          current_process_mask := CPU_ZERO
          future_process_mask := CPU_ZERO }
      let r :=
        if steal = 0 then register_mask p mask s1
        else
          let r0 := set_new_mask max_cpus p mask true s1
          if r0.1 ≠ 0 then r0 else set_new_mask max_cpus p mask false r0.2
      if r.1 ≠ 0 then (none, r.2)
      else
        (some r.1, r.2.setProc p
          { r.2.proc p with current_process_mask := mask, dirty := false, returncode := 0 })
    else shmem_procinfo_ext__preinit_slots max_cpus pid mask steal ps shdata

/-- The function `shmem_procinfo_ext__preinit`: register `pid` from outside,
stealing the CPUs of `mask` that are in use when `steal` is not 0. -/
def shmem_procinfo_ext__preinit (pid : pid_t) (mask : cpu_set_t) (steal : Int)
    (g : shmem_procinfo) : Option Int × shmem_procinfo :=
  if !g.shm_handler then (some DLB_ERR_NOSHMEM, g)
  else
    let r := shmem_procinfo_ext__preinit_slots g.max_cpus pid mask steal
      (List.range g.shdata.max_processes) g.shdata
    (r.1, { g with shdata := r.2 })

/-- The function `shmem_procinfo_ext__postfinalize`: unregister the mask of
`pid` (the future mask if the entry is dirty, the current mask otherwise) and
clear its entry. -/
def shmem_procinfo_ext__postfinalize (pid : pid_t) (return_stolen : Bool)
    (g : shmem_procinfo) : Int × shmem_procinfo :=
  if !g.shm_handler then (DLB_ERR_NOSHMEM, g)
  else
    match get_process pid g.shdata with
    | none => (DLB_ERR_NOPROC, g)
    | some process =>
      let p := g.shdata.proc process
      let r :=
        if p.dirty then
          unregister_mask g.max_cpus process p.future_process_mask return_stolen g.shdata
        else
          unregister_mask g.max_cpus process p.current_process_mask return_stolen g.shdata
      let cleared : pinfo_t :=
        { pid := NOBODY, dirty := false, returncode := 0, current_process_mask := CPU_ZERO,
          future_process_mask := CPU_ZERO, stolen_cpus := CPU_ZERO, active_cpus := 0 }
      (DLB_SUCCESS, { g with shdata := r.2.setProc process cleared })

/-- Modelled from the spec: `mu_get_system_mask` of `support/mask_utils`, which
is not among the sources: the mask of all the CPUs of the node, `[0, N_cpus)`.
`system_size` is the value of `mu_get_system_size()`. -/
def mu_get_system_mask (system_size : Nat) : cpu_set_t := Finset.range system_size

/-- Modelled from the spec: the payload of a region that `shmem_init` has just
created: zero-filled, with room for `max_processes` entries. -/
def shdata_t.zero (max_processes : Nat) : shdata_t :=
  { initialized := false, free_mask := ∅,
    process_info := List.replicate max_processes pinfo_t.zero }

/-- Modelled from the spec: `shmem_init` of `LB_comm/shmem`, which is not among
the sources ("First attacher zero-initializes the payload; later attachers
validate version and bump a local attach counter"): the payload of the region
after the attach, which is the existing one, or a zero-filled one with room for
`max_processes` entries when the region has to be created. -/
def shmem_init (max_processes : Nat) (region_deleted : Bool) (shdata : shdata_t) : shdata_t :=
  if region_deleted then shdata_t.zero max_processes else shdata

/-- Modelled from the spec: `shmem_finalize` of `LB_comm/shmem`, which is not
among the sources ("last detacher may unlink the region"): whether the region
is destroyed, which is when the call is made with `SHMEM_DELETE`. -/
def shmem_finalize (shmem_delete : Bool) : Bool := shmem_delete

/-- The function `open_shmem`: attach the region on the first call, count the
attachment otherwise. -/
def open_shmem (system_size : Nat) (g : shmem_procinfo) : shmem_procinfo :=
  if !g.shm_handler then
    { shm_handler := true
      subprocesses_attached := 1
      max_cpus := system_size
      shdata := shmem_init system_size g.region_deleted g.shdata
      region_deleted := false }
  else { g with subprocesses_attached := g.subprocesses_attached + 1 }

/-- The function `close_shmem`: drop one attachment and detach with the last
one, destroying the region if no entry is in use. -/
def close_shmem (shmem_empty : Bool) (g : shmem_procinfo) : shmem_procinfo :=
  if g.subprocesses_attached - 1 = 0 then
    { g with
      subprocesses_attached := g.subprocesses_attached - 1
      shm_handler := false
      region_deleted := shmem_finalize shmem_empty }
  else { g with subprocesses_attached := g.subprocesses_attached - 1 }

/-- The loop of `shmem_procinfo__finalize` that checks whether no entry is in use. -/
def shmem_is_empty (shdata : shdata_t) : Bool :=
  (List.range shdata.max_processes).all (fun p => decide ((shdata.proc p).pid = NOBODY))

/-- The function `shmem_procinfo__finalize`: unregister the mask of `pid` (the
future mask if the entry is dirty, the current mask otherwise), clear its
entry and close the shared memory, also when the call fails. -/
def shmem_procinfo__finalize (pid : pid_t) (return_stolen : Bool)
    (g : shmem_procinfo) : Int × shmem_procinfo :=
  let r : Int × Bool × shdata_t :=
    if !g.shm_handler then (DLB_ERR_NOSHMEM, true, g.shdata)
    else
      let r1 : Int × shdata_t :=
        match get_process pid g.shdata with
        | some process =>
          let p := g.shdata.proc process
          let r :=
            if p.dirty then
              unregister_mask g.max_cpus process p.future_process_mask return_stolen g.shdata
            else
              unregister_mask g.max_cpus process p.current_process_mask return_stolen g.shdata
          let cleared : pinfo_t :=
            { pid := NOBODY, dirty := false, returncode := 0, current_process_mask := CPU_ZERO,
              future_process_mask := CPU_ZERO, stolen_cpus := CPU_ZERO, active_cpus := 0 }
          (DLB_SUCCESS, r.2.setProc process cleared)
        | none => (DLB_ERR_NOPROC, g.shdata)
      (r1.1, shmem_is_empty r1.2, r1.2)
  (r.1, close_shmem r.2.1 { g with shdata := r.2.2 })

/-- The slot loop of `shmem_procinfo__init`: the entry found for `pid` and
whether it is a preregistered one.  `process` is the first free entry met so
far; the loop does not stop at it, it stops at an entry that holds `pid`. -/
def shmem_procinfo__init_slots (pid : pid_t) (shdata : shdata_t) :
    List Nat → Option Nat → Option Nat × Bool
  | [], process => (process, false)
  | p :: ps, process =>
    if (shdata.proc p).pid = pid then (some p, true)
    else if process.isNone ∧ (shdata.proc p).pid = NOBODY then
      shmem_procinfo__init_slots pid shdata ps (some p)
    else shmem_procinfo__init_slots pid shdata ps process

/-- The first steps of `shmem_procinfo__init`: attach, and initialize the
region (its free mask becomes the system mask) if this is its first user. -/
def shmem_procinfo__init_attach (system_size : Nat) (g : shmem_procinfo) : shmem_procinfo :=
  let g1 := open_shmem system_size g
  if !g1.shdata.initialized then
    { g1 with
      shdata :=
        { g1.shdata with free_mask := mu_get_system_mask system_size, initialized := true } }
  else g1

/-- The function `shmem_procinfo__init`: attach, initialize the region if this
is its first user, and register `pid` with `process_mask` unless it is
preregistered.  The second component is the value written to
`new_process_mask`, if any.  A failed call finalizes `pid` again. -/
def shmem_procinfo__init (system_size : Nat) (pid : pid_t) (process_mask : cpu_set_t)
    (g : shmem_procinfo) : Int × Option cpu_set_t × shmem_procinfo :=
  let g1 := shmem_procinfo__init_attach system_size g
  let s1 := g1.shdata
  let found := shmem_procinfo__init_slots pid s1 (List.range s1.max_processes) none
  let new_process_mask : Option cpu_set_t :=
    match found with
    | (some process, true) =>
      if (s1.proc process).dirty then some (s1.proc process).future_process_mask else none
    | _ => none
  let r : Int × shdata_t :=
    match found with
    | (some process, false) =>
      let r0 := register_mask process process_mask s1
      if r0.1 = DLB_SUCCESS then
        (r0.1, r0.2.setProc process
          { r0.2.proc process with
            pid := pid
            dirty := false
            returncode := 0
            current_process_mask := process_mask
            future_process_mask := process_mask })
      else r0
    | _ => (DLB_SUCCESS, s1)
  let error := if found.1.isNone then DLB_ERR_NOMEM else r.1
  let g2 : shmem_procinfo := { g1 with shdata := r.2 }
  if error ≠ DLB_SUCCESS then (error, new_process_mask, (shmem_procinfo__finalize pid false g2).2)
  else (error, new_process_mask, g2)

/-- The function `shmem_procinfo_ext__recover_stolen_cpus`: register again the
stolen CPUs of `pid` that are free. -/
def shmem_procinfo_ext__recover_stolen_cpus (pid : pid_t) (g : shmem_procinfo) :
    Int × shmem_procinfo :=
  if !g.shm_handler then (DLB_ERR_NOSHMEM, g)
  else
    match get_process pid g.shdata with
    | none => (DLB_ERR_NOPROC, g)
    | some process =>
      let recovered_cpus := CPU_AND (g.shdata.proc process).stolen_cpus g.shdata.free_mask
      let r := register_mask process recovered_cpus g.shdata
      if r.1 = DLB_SUCCESS then
        (r.1, { g with shdata := (r.2.setProc process
          { r.2.proc process with
            stolen_cpus := mu_substract (r.2.proc process).stolen_cpus recovered_cpus }) })
      else (r.1, { g with shdata := r.2 })

/-- The function `shmem_procinfo__getprocessmask`.  The second component is
the value written to `mask`.  The result code is `none` when the call goes on
into the `DLB_SYNC_QUERY` polling loop, which waits for the process and only
reads the region. -/
def shmem_procinfo__getprocessmask (pid : pid_t) (sync_query : Bool) (g : shmem_procinfo) :
    Option Int × Option cpu_set_t × shmem_procinfo :=
  if !g.shm_handler then (some DLB_ERR_NOSHMEM, none, g)
  else
    match get_process pid g.shdata with
    | none => (some DLB_ERR_NOPROC, none, g)
    | some process =>
      if !(g.shdata.proc process).dirty then
        (some DLB_SUCCESS, some (g.shdata.proc process).current_process_mask, g)
      else if !sync_query then
        (some DLB_SUCCESS, some (g.shdata.proc process).future_process_mask, g)
      else (none, none, g)

/-- The loop of `shmem_procinfo__getpidlist` over the entries `ps`: `pidlist`
holds the pids written so far, `*nelems` is their number. -/
def shmem_procinfo__getpidlist_slots (max_len : Int) (shdata : shdata_t) :
    List Nat → List pid_t → List pid_t
  | [], pidlist => pidlist
  | p :: ps, pidlist =>
    let pidlist1 :=
      if (shdata.proc p).pid ≠ NOBODY then pidlist ++ [(shdata.proc p).pid] else pidlist
    if (pidlist1.length : Int) = max_len then pidlist1
    else shmem_procinfo__getpidlist_slots max_len shdata ps pidlist1

/-- The function `shmem_procinfo__getpidlist`: the pids of the entries in
use, at most `max_len` of them.  The second component is the list written to
`pidlist`; `*nelems` is its length. -/
def shmem_procinfo__getpidlist (max_len : Int) (g : shmem_procinfo) : Int × List pid_t :=
  if !g.shm_handler then (DLB_ERR_NOSHMEM, [])
  else
    (DLB_SUCCESS,
      shmem_procinfo__getpidlist_slots max_len g.shdata (List.range g.shdata.max_processes) [])

/-! ## Sequences of calls -/

/-- A call of an administrator (`setprocessmask`) or of a process (`polldrom`). -/
inductive drom_call where
  | setprocessmask (pid : pid_t) (mask : cpu_set_t) (sync_query : Bool)
  | polldrom (pid : pid_t)
deriving DecidableEq

/-- The registry after one call. -/
def drom_call.run (g : shmem_procinfo) : drom_call → shmem_procinfo
  | .setprocessmask pid mask sync_query =>
    (shmem_procinfo__setprocessmask pid mask sync_query g).2
  | .polldrom pid => (shmem_procinfo__polldrom pid g).2.2

/-- The registry after a sequence of calls, made in the order of the list. -/
def run_calls (calls : List drom_call) (g : shmem_procinfo) : shmem_procinfo :=
  calls.foldl drom_call.run g

/-- A call of one of the operations of the process registry. -/
inductive registry_call where
  | init (pid : pid_t) (mask : cpu_set_t)
  | preinit (pid : pid_t) (mask : cpu_set_t) (steal : Int)
  | setprocessmask (pid : pid_t) (mask : cpu_set_t) (sync_query : Bool)
  | polldrom (pid : pid_t)
  | recover_stolen_cpus (pid : pid_t)
  | finalize (pid : pid_t) (return_stolen : Bool)
  | postfinalize (pid : pid_t) (return_stolen : Bool)
deriving DecidableEq

/-- The registry after one call, on a node with `system_size` CPUs. -/
def registry_call.run (system_size : Nat) (g : shmem_procinfo) :
    registry_call → shmem_procinfo
  | .init pid mask => (shmem_procinfo__init system_size pid mask g).2.2
  | .preinit pid mask steal => (shmem_procinfo_ext__preinit pid mask steal g).2
  | .setprocessmask pid mask sync_query =>
    (shmem_procinfo__setprocessmask pid mask sync_query g).2
  | .polldrom pid => (shmem_procinfo__polldrom pid g).2.2
  | .recover_stolen_cpus pid => (shmem_procinfo_ext__recover_stolen_cpus pid g).2
  | .finalize pid return_stolen => (shmem_procinfo__finalize pid return_stolen g).2
  | .postfinalize pid return_stolen =>
    (shmem_procinfo_ext__postfinalize pid return_stolen g).2

/-- The registry after a sequence of calls, made in the order of the list. -/
def run_registry_calls (system_size : Nat) (calls : List registry_call)
    (g : shmem_procinfo) : shmem_procinfo :=
  calls.foldl (registry_call.run system_size) g

/-- The empty registry of a node with `system_size` CPUs: the region is
initialized, every entry is free and every CPU is in `free_mask`. -/
def empty_registry (system_size : Nat) (g : shmem_procinfo) : Prop :=
  g.max_cpus = system_size ∧ g.shdata.initialized = true ∧
    g.shdata.free_mask = mu_get_system_mask system_size ∧
    ∀ i, i < g.shdata.max_processes → (g.shdata.proc i).pid = NOBODY

instance (system_size : Nat) (g : shmem_procinfo) : Decidable (empty_registry system_size g) := by
  unfold empty_registry; infer_instance

/-- Every registered process has a non-empty future mask. -/
def all_future_nonempty (g : shmem_procinfo) : Prop :=
  ∀ i, i < g.shdata.max_processes → (g.shdata.proc i).pid ≠ NOBODY →
    (g.shdata.proc i).future_process_mask ≠ ∅

instance (g : shmem_procinfo) : Decidable (all_future_nonempty g) := by
  unfold all_future_nonempty; infer_instance

/-! ## Registry invariants of the data model -/

/-- Invariant 9: a registered process that is not dirty has its current mask
equal to its future mask. -/
def dirty_invariant (s : shdata_t) : Prop :=
  ∀ i, i < s.max_processes → (s.proc i).pid ≠ NOBODY → (s.proc i).dirty = false →
    (s.proc i).current_process_mask = (s.proc i).future_process_mask

instance (s : shdata_t) : Decidable (dirty_invariant s) := by
  unfold dirty_invariant; infer_instance

/-- Invariant 6, between processes: the future masks of two registered
processes are disjoint. -/
def futures_disjoint (s : shdata_t) : Prop :=
  ∀ i, i < s.max_processes → ∀ j, j < s.max_processes →
    i ≠ j ∧ (s.proc i).pid ≠ NOBODY ∧ (s.proc j).pid ≠ NOBODY →
    Disjoint (s.proc i).future_process_mask (s.proc j).future_process_mask

instance (s : shdata_t) : Decidable (futures_disjoint s) := by
  unfold futures_disjoint; infer_instance

/-- Invariant 6, with the free mask: no CPU of a registered process is free. -/
def futures_not_free (s : shdata_t) : Prop :=
  ∀ i, i < s.max_processes → (s.proc i).pid ≠ NOBODY →
    Disjoint (s.proc i).future_process_mask s.free_mask

instance (s : shdata_t) : Decidable (futures_not_free s) := by
  unfold futures_not_free; infer_instance

/-- Invariant 6, covering: every CPU below `max_cpus` is free or in the future
mask of a registered process. -/
def cpus_covered (max_cpus : Nat) (s : shdata_t) : Prop :=
  ∀ c, c < max_cpus →
    c ∈ s.free_mask ∨ ∃ i, i < s.max_processes ∧ (s.proc i).pid ≠ NOBODY
      ∧ c ∈ (s.proc i).future_process_mask

instance (max_cpus : Nat) (s : shdata_t) : Decidable (cpus_covered max_cpus s) := by
  unfold cpus_covered; infer_instance

/-- The CpuMask of the data model is a set over `[0, max_cpus)`: the future
masks of the registered processes hold no CPU number from `max_cpus` on. -/
def futures_in_range (max_cpus : Nat) (s : shdata_t) : Prop :=
  ∀ i, i < s.max_processes → (s.proc i).pid ≠ NOBODY →
    ∀ c ∈ (s.proc i).future_process_mask, c < max_cpus

instance (max_cpus : Nat) (s : shdata_t) : Decidable (futures_in_range max_cpus s) := by
  unfold futures_in_range; infer_instance

/-- No two entries hold the same registered pid. -/
def pids_distinct (s : shdata_t) : Prop :=
  ∀ i, i < s.max_processes → ∀ j, j < s.max_processes → i ≠ j →
    (s.proc i).pid ≠ NOBODY → (s.proc i).pid ≠ (s.proc j).pid

instance (s : shdata_t) : Decidable (pids_distinct s) := by
  unfold pids_distinct; infer_instance

/-! ## Example registries -/

/-- An entry of a process that registered `mask` and has nothing pending. -/
def pinfo_t.clean (pid : pid_t) (mask : cpu_set_t) : pinfo_t :=
  { pid := pid, dirty := false, returncode := 0, current_process_mask := mask,
    future_process_mask := mask, stolen_cpus := ∅, active_cpus := 0 }

/-- A node of 4 CPUs on which p2 = 222 has taken CPU 1 from p1 = 111 and both
have acknowledged it: p1 is on CPU 0 and remembers CPU 1 as stolen, p2 is on
CPUs 1,2,3. -/
def node4_stolen : shmem_procinfo :=
  { shm_handler := true, subprocesses_attached := 1, max_cpus := 4,
    shdata :=
      { initialized := true, free_mask := ∅,
        process_info :=
          [{ pinfo_t.clean 111 {0} with stolen_cpus := {1} }, pinfo_t.clean 222 {1, 2, 3},
            pinfo_t.zero, pinfo_t.zero] } }

/-- An attached node of 4 CPUs on which nothing is registered yet. -/
def node4_empty : shmem_procinfo :=
  { shm_handler := true, subprocesses_attached := 1, max_cpus := 4,
    shdata :=
      { initialized := true, free_mask := {0, 1, 2, 3},
        process_info := [pinfo_t.zero, pinfo_t.zero, pinfo_t.zero, pinfo_t.zero] } }

/-- A node of 4 CPUs on which p1 = 111 holds CPU 0 and the CPU number 7, which
the node does not have, and p2 = 222 holds CPUs 1,2,3.  It is reached from
`node4_empty` by calls whose masks name CPU 7 (see `node4_beyond_reached`). -/
def node4_beyond : shmem_procinfo :=
  { shm_handler := true, subprocesses_attached := 1, max_cpus := 4,
    shdata :=
      { initialized := true, free_mask := ∅,
        process_info := [pinfo_t.clean 111 {0, 7}, pinfo_t.clean 222 {1, 2, 3},
          pinfo_t.zero, pinfo_t.zero] } }

/-- A node of 5 CPUs on which the entry of p1 = 111 is not dirty although its
current mask {1} differs from its future mask {0,1}, and the entry of
p3 = 333 is not dirty although its current mask {0,2,3} differs from its future
mask {2,3}; p2 = 222 is on CPU 4. -/
def node5_stale : shmem_procinfo :=
  { shm_handler := true, subprocesses_attached := 1, max_cpus := 5,
    shdata :=
      { initialized := true, free_mask := ∅,
        process_info :=
          [{ pinfo_t.clean 111 {0, 1} with current_process_mask := {1} },
           { pinfo_t.clean 333 {2, 3} with current_process_mask := {0, 2, 3} },
           pinfo_t.clean 222 {4}, pinfo_t.zero, pinfo_t.zero] } }

/-- A node of 4 CPUs on which CPU 0 is in the future masks of both p3 = 333
(CPUs 0,2) and p1 = 111 (CPUs 0,1); p2 = 222 is on CPU 3. -/
def node4_overlap : shmem_procinfo :=
  { shm_handler := true, subprocesses_attached := 1, max_cpus := 4,
    shdata :=
      { initialized := true, free_mask := ∅,
        process_info := [pinfo_t.clean 333 {0, 2}, pinfo_t.clean 111 {0, 1},
          pinfo_t.clean 222 {3}, pinfo_t.zero] } }

/-- A node of 4 CPUs with p1 = 111 on CPU 0 and p2 = 222 on CPUs 1,2,3. -/
def node4_last : shmem_procinfo :=
  { shm_handler := true, subprocesses_attached := 1, max_cpus := 4,
    shdata :=
      { initialized := true, free_mask := ∅,
        process_info := [pinfo_t.clean 111 {0}, pinfo_t.clean 222 {1, 2, 3},
          pinfo_t.zero, pinfo_t.zero] } }

/-- A node of 4 CPUs with p1 = 111 on CPUs 0,1 and p2 = 222 on CPUs 2,3. -/
def node4 : shmem_procinfo :=
  { shm_handler := true, subprocesses_attached := 1, max_cpus := 4,
    shdata :=
      { initialized := true, free_mask := ∅,
        process_info := [pinfo_t.clean 111 {0, 1}, pinfo_t.clean 222 {2, 3},
          pinfo_t.zero, pinfo_t.zero] } }

/-- The steal precondition in the words of the specification: the victim is
not dirty, owns the CPU in its current mask and would keep a CPU, or it is
dirty, owns the CPU in its future mask and would keep a CPU. -/
def steal_precondition (v : pinfo_t) (c : Nat) : Prop :=
  (v.dirty = false ∧ c ∈ v.current_process_mask ∧ 1 < v.future_process_mask.card)
  ∨ (v.dirty = true ∧ c ∈ v.future_process_mask ∧ 1 < v.future_process_mask.card)

instance (v : pinfo_t) (c : Nat) : Decidable (steal_precondition v c) := by
  unfold steal_precondition; infer_instance

/-- The order in which the specification has `steal_mask` handle the CPUs:
the CPUs of `mask` below `max_cpus`, highest index first. -/
def steal_order (max_cpus : Nat) (mask : cpu_set_t) : List Nat :=
  (List.range max_cpus).reverse.filter (fun c => decide (c ∈ mask))

/-- The function `steal_mask` in the words of the specification: for each CPU
in the order given, the first slot in ascending order that is registered and
satisfies the steal precondition gives the CPU; at the first CPU that no slot
gives, stop with `DLB_ERR_PERM`. -/
def steal_mask_in_order (new_owner : Option Nat) (dry_run : Bool) :
    List Nat → shdata_t → Int × shdata_t
  | [], shdata => (DLB_SUCCESS, shdata)
  | c :: cs, shdata =>
    match (List.range shdata.max_processes).find?
        (fun p => decide ((shdata.proc p).pid ≠ NOBODY ∧ steal_precondition (shdata.proc p) c)) with
    | some victim =>
      steal_mask_in_order new_owner dry_run cs (steal_cpu new_owner victim c dry_run shdata).2
    | none => (DLB_ERR_PERM, shdata)

/-- The registry part of `finalize` and `postfinalize` for the entry `process`:
its mask (the future mask if it is dirty, the current mask otherwise) is
unregistered and the entry is cleared. -/
def finalize_entry (max_cpus : Nat) (process : Nat) (return_stolen : Bool)
    (shdata : shdata_t) : shdata_t :=
  (if (shdata.proc process).dirty then
      unregister_mask max_cpus process (shdata.proc process).future_process_mask
        return_stolen shdata
    else
      unregister_mask max_cpus process (shdata.proc process).current_process_mask
        return_stolen shdata).2.setProc process pinfo_t.zero

/-- The registry part of `init` for the free entry `process`: the mask leaves
the free mask and the entry is filled in. -/
def init_entry (pid : pid_t) (process_mask : cpu_set_t) (process : Nat)
    (shdata : shdata_t) : shdata_t :=
  ({ shdata with free_mask := shdata.free_mask \ process_mask } : shdata_t).setProc process
    { shdata.proc process with
      pid := pid
      dirty := false
      returncode := 0
      current_process_mask := process_mask
      future_process_mask := process_mask }

/-- The entry that `preinit` claims for `pid`, before the mask is registered. -/
def pinfo_t.claimed (p : pinfo_t) (pid : pid_t) : pinfo_t :=
  { p with pid := pid, dirty := false, returncode := 0, current_process_mask := ∅,
           future_process_mask := ∅ }

/-- The registry part of `preinit` for the free entry `p`: the entry is claimed,
the mask is registered or (with `steal`) set by `set_new_mask`, dry run
first, and on success the entry is marked as acknowledged. -/
def preinit_entry (max_cpus : Nat) (pid : pid_t) (mask : cpu_set_t) (steal : Int) (p : Nat)
    (shdata : shdata_t) : Option Int × shdata_t :=
  let s1 := shdata.setProc p ((shdata.proc p).claimed pid)
  let r :=
    if steal = 0 then register_mask p mask s1
    else if (set_new_mask max_cpus p mask true s1).1 ≠ 0 then
      ((set_new_mask max_cpus p mask true s1).1, s1)
    else set_new_mask max_cpus p mask false s1
  if r.1 ≠ 0 then (none, r.2)
  else
    (some r.1, r.2.setProc p
      { r.2.proc p with current_process_mask := mask, dirty := false, returncode := 0 })

/-- The registry part of `recover_stolen_cpus` for the entry `k`. -/
def recover_entry (k : Nat) (shdata : shdata_t) : shdata_t :=
  ({ shdata with
      free_mask := shdata.free_mask \ ((shdata.proc k).stolen_cpus ∩ shdata.free_mask) }
    : shdata_t).setProc k
    { shdata.proc k with
      future_process_mask :=
        (shdata.proc k).future_process_mask ∪ ((shdata.proc k).stolen_cpus ∩ shdata.free_mask)
      dirty := true
      stolen_cpus := (shdata.proc k).stolen_cpus \ ((shdata.proc k).stolen_cpus ∩ shdata.free_mask) }

/-- The registry part of `polldrom` for the dirty entry `k`. -/
def polldrom_entry (k : Nat) (shdata : shdata_t) : shdata_t :=
  shdata.setProc k
    { shdata.proc k with
      current_process_mask := (shdata.proc k).future_process_mask
      dirty := false
      returncode := 0 }

/-- Invariant 9 on the CPUs that satisfy `P`: a registered process that is not
dirty has the same such CPUs in its current mask and in its future mask. -/
def dirty_invariant_on (P : Nat → Prop) (s : shdata_t) : Prop :=
  ∀ i, i < s.max_processes → (s.proc i).pid ≠ NOBODY → (s.proc i).dirty = false →
    ∀ c, P c → (c ∈ (s.proc i).current_process_mask ↔ c ∈ (s.proc i).future_process_mask)

/-- The condition on a call under which invariant 9 is kept on the CPUs that
satisfy `P`: the mask of a `preinit` that steals has no such CPU from
`max_cpus` on. -/
def registry_call.steals_within (P : Nat → Prop) (max_cpus : Nat) : registry_call → Prop
  | .preinit _ mask steal => steal ≠ 0 → ∀ c ∈ mask, P c → c < max_cpus
  | _ => True

/-- The pid a call is made for. -/
def registry_call.pid : registry_call → pid_t
  | .init pid _ => pid
  | .preinit pid _ _ => pid
  | .setprocessmask pid _ _ => pid
  | .polldrom pid => pid
  | .recover_stolen_cpus pid => pid
  | .finalize pid _ => pid
  | .postfinalize pid _ => pid

/-- Whether a call is a `finalize` or `postfinalize` with `return_stolen`. -/
def registry_call.returns_stolen : registry_call → Bool
  | .finalize _ return_stolen => return_stolen
  | .postfinalize _ return_stolen => return_stolen
  | _ => false

/-- Invariant 7: no registered process has a CPU both in its future mask and
in its stolen CPUs. -/
def stolen_future_disjoint (s : shdata_t) : Prop :=
  ∀ i, i < s.max_processes → (s.proc i).pid ≠ NOBODY →
    Disjoint (s.proc i).stolen_cpus (s.proc i).future_process_mask

instance (s : shdata_t) : Decidable (stolen_future_disjoint s) := by
  unfold stolen_future_disjoint; infer_instance

/-- The registry that `init` makes of a region just created, before it
registers anything: initialized, every CPU of the node free, every entry zero. -/
def fresh_registry (system_size : Nat) : shdata_t :=
  { initialized := true, free_mask := mu_get_system_mask system_size,
    process_info := List.replicate system_size pinfo_t.zero }

/-- The test the inner loop of `unregister_mask` makes on entry `p`: it is in
use and remembers `c` as stolen from it. -/
def claims (s : shdata_t) (c : Nat) (p : Nat) : Bool :=
  decide ((s.proc p).pid ≠ NOBODY) && CPU_ISSET c (s.proc p).stolen_cpus

/-- The entry that `unregister_mask` gives the CPU `c` back to, if any. -/
def claimant (s : shdata_t) (c : Nat) : Option Nat :=
  (List.range s.max_processes).find? (claims s c)

/-- One step of the outer loop of `unregister_mask` (`return_stolen` case) for
a CPU `c` of the mask. -/
def unregister_mask_step (owner : Nat) (c : Nat) (shdata : shdata_t) : shdata_t :=
  let r := unregister_mask_give_back c (List.range shdata.max_processes) shdata
  let s1 := if r.1 then r.2 else { r.2 with free_mask := CPU_SET c r.2.free_mask }
  s1.setProc owner
    { s1.proc owner with
      future_process_mask := CPU_CLR c (s1.proc owner).future_process_mask, dirty := true }

/-- Invariant 6, at most one owner per CPU: the future masks of the registered
processes are pairwise disjoint and disjoint from the free mask. -/
def single_owner (s : shdata_t) : Prop := futures_disjoint s ∧ futures_not_free s

instance (s : shdata_t) : Decidable (single_owner s) := by
  unfold single_owner; infer_instance

/-- Along the calls made in the order of the list, every `finalize` and
`postfinalize` with `return_stolen` is made on a registry that satisfies
invariant 7. -/
def returns_stolen_guarded (system_size : Nat) : List registry_call → shmem_procinfo → Prop
  | [], _ => True
  | call :: calls, g =>
    (call.returns_stolen = true → stolen_future_disjoint g.shdata)
      ∧ returns_stolen_guarded system_size calls (call.run system_size g)

/-- The guard is decidable, call by call. -/
def returns_stolen_guarded_decidable (system_size : Nat) :
    (calls : List registry_call) → (g : shmem_procinfo) →
      Decidable (returns_stolen_guarded system_size calls g)
  | [], _ => isTrue trivial
  | call :: calls, g =>
    @instDecidableAnd _ _ inferInstance
      (returns_stolen_guarded_decidable system_size calls (call.run system_size g))

instance (system_size : Nat) (calls : List registry_call) (g : shmem_procinfo) :
    Decidable (returns_stolen_guarded system_size calls g) :=
  returns_stolen_guarded_decidable system_size calls g

/-- The mask of a `preinit` that steals names no CPU from `max_cpus` on. -/
def registry_call.steals_in_range (max_cpus : Nat) : registry_call → Prop
  | .preinit _ mask steal => steal ≠ 0 → ∀ c ∈ mask, c < max_cpus
  | _ => True

instance (max_cpus : Nat) (call : registry_call) :
    Decidable (call.steals_in_range max_cpus) := by
  cases call <;> unfold registry_call.steals_in_range <;> infer_instance

/-- What `unregister_mask` with `return_stolen` does with the CPUs that satisfy
`D`, for the entries other than the owner `k`: a CPU goes to the entry that
`claimant` finds for it in the registry `s` before the call, which loses it
from its stolen CPUs and is left dirty, or to the free mask if there is none. -/
structure returned_frame (k : Nat) (D : Nat → Prop) (s r : shdata_t) : Prop where
  free : ∀ d, d ∈ r.free_mask ↔ d ∈ s.free_mask ∨ (D d ∧ claimant s d = none)
  future : ∀ i, i ≠ k → ∀ d,
    (d ∈ (r.proc i).future_process_mask ↔
      d ∈ (s.proc i).future_process_mask ∨ (D d ∧ claimant s d = some i))
  stolen : ∀ i, i ≠ k → ∀ d,
    (d ∈ (r.proc i).stolen_cpus ↔
      d ∈ (s.proc i).stolen_cpus ∧ ¬ (D d ∧ claimant s d = some i))
  dirty : ∀ i, i ≠ k →
    ((r.proc i).dirty = true ↔ (s.proc i).dirty = true ∨ ∃ d, D d ∧ claimant s d = some i)

/-- What a successful `preinit(pid, mask, steal)` on the free entry `p` leaves,
on a registry `s` that satisfies the invariants: the new entry, the free mask,
and what the other entries have lost to it. -/
structure steal_registered (max_cpus : Nat) (pid : pid_t) (mask : cpu_set_t) (p : Nat)
    (s t : shdata_t) : Prop where
  len : t.max_processes = s.max_processes
  free : ∀ c, c ∈ t.free_mask ↔ c ∈ s.free_mask ∧ ¬ (c < max_cpus ∧ c ∈ mask)
  new_pid : (t.proc p).pid = pid
  new_dirty : (t.proc p).dirty = false
  new_returncode : (t.proc p).returncode = 0
  new_current : (t.proc p).current_process_mask = mask
  new_future : ∀ c, c ∈ (t.proc p).future_process_mask ↔ c < max_cpus ∧ c ∈ mask
  new_stolen : (t.proc p).stolen_cpus = (s.proc p).stolen_cpus
  same : ∀ i, i ≠ p →
    ((s.proc i).pid = NOBODY
      ∨ ∀ c ∈ (s.proc i).future_process_mask, ¬ (c < max_cpus ∧ c ∈ mask)) →
    t.proc i = s.proc i
  pid_eq : ∀ i, i ≠ p → (t.proc i).pid = (s.proc i).pid
  current_eq : ∀ i, i ≠ p → (t.proc i).current_process_mask = (s.proc i).current_process_mask
  returncode_eq : ∀ i, i ≠ p → (t.proc i).returncode = (s.proc i).returncode
  future : ∀ i, i ≠ p → (s.proc i).pid ≠ NOBODY → ∀ c,
    (c ∈ (t.proc i).future_process_mask ↔
      c ∈ (s.proc i).future_process_mask ∧ ¬ (c < max_cpus ∧ c ∈ mask))
  stolen : ∀ i, i ≠ p → (s.proc i).pid ≠ NOBODY → ∀ c,
    (c ∈ (t.proc i).stolen_cpus ↔
      c ∈ (s.proc i).stolen_cpus
        ∨ (c ∈ (s.proc i).future_process_mask ∧ c < max_cpus ∧ c ∈ mask))
  dirty : ∀ i, i ≠ p → (s.proc i).pid ≠ NOBODY →
    (∃ c, c ∈ (s.proc i).future_process_mask ∧ c < max_cpus ∧ c ∈ mask) →
    (t.proc i).dirty = true
  source : ∀ c, c < max_cpus → c ∈ mask →
    c ∈ s.free_mask
      ∨ ∃ v, v ≠ p ∧ (s.proc v).pid ≠ NOBODY ∧ c ∈ (s.proc v).future_process_mask

/-- The result code of one call, on a node with `system_size` CPUs (`none`
where the operation itself has none, see `shmem_procinfo__setprocessmask` and
`shmem_procinfo_ext__preinit`). -/
def registry_call.code (system_size : Nat) (g : shmem_procinfo) : registry_call → Option Int
  | .init pid mask => some (shmem_procinfo__init system_size pid mask g).1
  | .preinit pid mask steal => (shmem_procinfo_ext__preinit pid mask steal g).1
  | .setprocessmask pid mask sync_query =>
    (shmem_procinfo__setprocessmask pid mask sync_query g).1
  | .polldrom pid => some (shmem_procinfo__polldrom pid g).1
  | .recover_stolen_cpus pid => some (shmem_procinfo_ext__recover_stolen_cpus pid g).1
  | .finalize pid return_stolen => some (shmem_procinfo__finalize pid return_stolen g).1
  | .postfinalize pid return_stolen =>
    some (shmem_procinfo_ext__postfinalize pid return_stolen g).1

/-- Every call of the list, made in order from `g`, returns `DLB_SUCCESS`. -/
def all_succeed (system_size : Nat) : List registry_call → shmem_procinfo → Prop
  | [], _ => True
  | call :: calls, g =>
    call.code system_size g = some DLB_SUCCESS
      ∧ all_succeed system_size calls (call.run system_size g)

/-- Whether every call succeeds is decidable, call by call. -/
def all_succeed_decidable (system_size : Nat) :
    (calls : List registry_call) → (g : shmem_procinfo) →
      Decidable (all_succeed system_size calls g)
  | [], _ => isTrue trivial
  | call :: calls, g =>
    @instDecidableAnd _ _ inferInstance
      (all_succeed_decidable system_size calls (call.run system_size g))

instance (system_size : Nat) (calls : List registry_call) (g : shmem_procinfo) :
    Decidable (all_succeed system_size calls g) :=
  all_succeed_decidable system_size calls g

/-- Whether a call is an `init`. -/
def registry_call.is_init : registry_call → Bool
  | .init _ _ => true
  | _ => false

/-- Whether a call is a `finalize`. -/
def registry_call.is_finalize : registry_call → Bool
  | .finalize _ _ => true
  | _ => false

/-- A process that is not attached, on a node where no region exists. -/
def node_detached : shmem_procinfo :=
  { shm_handler := false, subprocesses_attached := 0, max_cpus := 0,
    shdata := shdata_t.zero 0, region_deleted := true }

/-! ## CPU-Info registry -/

/-- Modelled from the spec: the state of a CPU in the CPU-Info registry.  The
registry is `LB_comm/shmem_cpuinfo`, which is not among the sources (only its
test `cpuinfo_01.c` is); the spec: "`state`: {DISABLED, BUSY, LENT,
RECLAIMED}". -/
inductive cpu_state where
  | DISABLED
  | BUSY
  | LENT
  | RECLAIMED
deriving DecidableEq

/-- Modelled from the spec: the CpuInfo entry, one per CPU: `owner`, the pid
that holds the permanent right of the CPU, or `NOBODY`; `guest`, the pid
allowed to run on it, or `NOBODY`; `state`; `requesters`, the pids waiting for
the CPU, first come first. -/
structure cpuinfo_t where
  owner : pid_t
  guest : pid_t
  state : cpu_state
  requesters : List pid_t
deriving DecidableEq

/-- Modelled from the spec: the entry of a CPU that no process owns
(invariant 1: "`owner == NOBODY` ⇔ CPU is DISABLED"). -/
def cpuinfo_t.zero : cpuinfo_t :=
  { owner := NOBODY, guest := NOBODY, state := cpu_state.DISABLED, requesters := [] }

/-- Modelled from the spec: the CPU-Info registry of a node, one entry per CPU. -/
structure shmem_cpuinfo where
  node_info : List cpuinfo_t
deriving DecidableEq

/-- Modelled from the spec: the entry of CPU `c` (a CPU the node does not have
is owned by nobody). -/
def shmem_cpuinfo.cpu (r : shmem_cpuinfo) (c : Nat) : cpuinfo_t :=
  r.node_info.getD c cpuinfo_t.zero

/-- Modelled from the spec: the registry after a store to the entry of CPU `c`. -/
def shmem_cpuinfo.setCpu (r : shmem_cpuinfo) (c : Nat) (e : cpuinfo_t) : shmem_cpuinfo :=
  { r with node_info := r.node_info.set c e }

/-- Modelled from the spec: `shmem_cpuinfo__init`, which is not among the
sources: "register(pid, mask): mark every c∈mask as owned by pid, state=BUSY,
guest=pid. `fails with PERM` if any c is already owned." -/
def shmem_cpuinfo__init (pid : pid_t) (mask : cpu_set_t) (r : shmem_cpuinfo) :
    Int × shmem_cpuinfo :=
  if ∃ c ∈ mask, (r.cpu c).owner ≠ NOBODY then (DLB_ERR_PERM, r)
  else
    (DLB_SUCCESS,
      { r with
        node_info := (List.range r.node_info.length).map (fun c =>
          if c ∈ mask then
            { r.cpu c with owner := pid, state := cpu_state.BUSY, guest := pid }
          else r.cpu c) })

/-- Modelled from the spec: the result of an operation on one CPU of the
CPU-Info registry, which is not among the sources: the result code, the values
written to `new_guest` and `victim` (`none` where the spec names no value), and
the registry after the call. -/
structure cpu_result where
  error : Int
  new_guest : Option pid_t
  victim : Option pid_t
  registry : shmem_cpuinfo
deriving DecidableEq

/-- Modelled from the spec: `shmem_cpuinfo__reclaim_cpu`, which is not among
the sources: "pid must be owner(c). If state==BUSY: SUCCESS, no-op. If
state==LENT with guest==NOBODY: set BUSY, guest=pid, return (pid, -1). If
state==LENT with guest==other: set RECLAIMED, record victim=other,
new_guest=pid (both run briefly until victim returns). Return `NOTED`. `fails
with PERM` if pid is not owner."  The result is `none` for an owner and a state
of which the spec says nothing. -/
def shmem_cpuinfo__reclaim_cpu (pid : pid_t) (c : Nat) (r : shmem_cpuinfo) :
    Option cpu_result :=
  if (r.cpu c).owner ≠ pid then
    some { error := DLB_ERR_PERM, new_guest := none, victim := none, registry := r }
  else
    match (r.cpu c).state with
    | cpu_state.BUSY =>
      some { error := DLB_SUCCESS, new_guest := none, victim := none, registry := r }
    | cpu_state.LENT =>
      if (r.cpu c).guest = NOBODY then
        some { error := DLB_SUCCESS, new_guest := some pid, victim := some (-1),
               registry := r.setCpu c { r.cpu c with state := cpu_state.BUSY, guest := pid } }
      else
        some { error := DLB_NOTED, new_guest := some pid, victim := some (r.cpu c).guest,
               registry := r.setCpu c { r.cpu c with state := cpu_state.RECLAIMED } }
    | _ => none

/-- Modelled from the spec: `shmem_cpuinfo__return_cpu`, which is not among
the sources: "pid is a non-owner currently hosting c. If state==RECLAIMED:
clear guest (owner resumes), state=BUSY, return owner. If state==LENT: set
guest=NOBODY, SUCCESS."  A pid that owns the CPU or does not host it gets
`DLB_ERR_PERM` (the spec's "PERM: ownership violation"; the test `cpuinfo_01.c`
expects it).  After the return of a reclaimed CPU the guest is the owner
(invariant 2: "`state == BUSY` ⇒ `guest == owner`") and the call returns
`DLB_SUCCESS` (scenario S1).  The result is `none` for a state of which the
spec says nothing. -/
def shmem_cpuinfo__return_cpu (pid : pid_t) (c : Nat) (r : shmem_cpuinfo) :
    Option cpu_result :=
  if (r.cpu c).owner = pid ∨ (r.cpu c).guest ≠ pid then
    some { error := DLB_ERR_PERM, new_guest := none, victim := none, registry := r }
  else
    match (r.cpu c).state with
    | cpu_state.RECLAIMED =>
      some { error := DLB_SUCCESS, new_guest := some (r.cpu c).owner, victim := none,
             registry := r.setCpu c
               { r.cpu c with state := cpu_state.BUSY, guest := (r.cpu c).owner } }
    | cpu_state.LENT =>
      some { error := DLB_SUCCESS, new_guest := none, victim := none,
             registry := r.setCpu c { r.cpu c with guest := NOBODY } }
    | _ => none

/-- The CPU-Info registry of a node of 4 CPUs that nobody has registered on. -/
def cpuinfo4_empty : shmem_cpuinfo :=
  { node_info := [cpuinfo_t.zero, cpuinfo_t.zero, cpuinfo_t.zero, cpuinfo_t.zero] }

/-- The CPU-Info registry of scenario S1 before the reclaim: p1 = 111 owns
CPUs 0,1 and p2 = 222 owns CPUs 2,3; p2 has lent CPU 3 and p1 has acquired
it. -/
def cpuinfo4_lent : shmem_cpuinfo :=
  { node_info :=
      [{ owner := 111, guest := 111, state := cpu_state.BUSY, requesters := [] },
       { owner := 111, guest := 111, state := cpu_state.BUSY, requesters := [] },
       { owner := 222, guest := 222, state := cpu_state.BUSY, requesters := [] },
       { owner := 222, guest := 111, state := cpu_state.LENT, requesters := [] }] }

/-- The CPUs the registry accounts for: the free ones and the ones in the
future mask of a registered process. -/
def accounted_cpus (s : shdata_t) : cpu_set_t :=
  s.free_mask ∪ (Finset.range s.max_processes).biUnion (fun p =>
    if (s.proc p).pid ≠ NOBODY then (s.proc p).future_process_mask else ∅)

/-- A registry state of a node of 4 CPUs on which p1 = 111 holds CPU 0, CPUs
1,2,3 are free, and the free entry 1 still has CPU 0 in its future mask and
CPU 2 in its stolen mask. -/
def node4_free_entry_masks : shmem_procinfo :=
  { shm_handler := true, subprocesses_attached := 1, max_cpus := 4,
    shdata :=
      { initialized := true, free_mask := {1, 2, 3},
        process_info :=
          [pinfo_t.clean 111 {0},
            { pinfo_t.zero with future_process_mask := {0}, stolen_cpus := {2} },
            pinfo_t.zero, pinfo_t.zero] } }

/-! ## Node and process numbering (`LB_MPI/process_MPI.c`) -/

/-- The counting loop of `after_init`: `_mpis_per_node`, the number of ranks
whose gathered hostname equals `hostname`. -/
def after_init_mpis_per_node (hostname : String) (recvData : List String) : Nat :=
  (recvData.filter (fun name => decide (name = hostname))).length

/-- The locals of the rank-0 block of `after_init`: the table `nodesIds` of
the hostnames met so far, `procsPerNode`, the rows of `procsIds` written so
far (in rank order) and `maxSetNode`. -/
structure after_init_locals where
  nodesIds : List String
  procsPerNode : List Nat
  procsIds : List (Nat × Nat)
  maxSetNode : Nat
deriving DecidableEq

/-- The loop `while (strcmp(recvData[i], nodesIds[j]) && (j < nodes)) j++` of
`after_init`, from `j` on, with `n = nodes - j` entries of `nodesIds` left.
With none left `j = nodes`: the test `j < nodes` ends the loop (the comparison
made before it reads past the table and its result is not used). -/
def after_init_search (name : String) (nodesIds : List String) : Nat → Nat → Nat
  | 0, j => j
  | n + 1, j =>
    if name ≠ nodesIds.getD j "" then after_init_search name nodesIds n (j + 1) else j

/-- The body of the loop over the ranks `i ≥ 1` in `after_init`, `name` being
`recvData[i]`: find the hostname in `nodesIds`; if it is not there
(`j >= nodes`) give it the entry `maxSetNode`, otherwise use the entry found.
The result is `none` when the new entry is past the end of the tables, which
have `nodes` entries. -/
def after_init_rank (nodes : Nat) (l : after_init_locals) (name : String) :
    Option after_init_locals :=
  let j := after_init_search name l.nodesIds nodes 0
  if j ≥ nodes then
    if l.maxSetNode < nodes then
      some
        { nodesIds := l.nodesIds.set l.maxSetNode name
          procsIds := l.procsIds ++ [(l.procsPerNode.getD l.maxSetNode 0, l.maxSetNode)]
          procsPerNode :=
            l.procsPerNode.set l.maxSetNode (l.procsPerNode.getD l.maxSetNode 0 + 1)
          maxSetNode := l.maxSetNode + 1 }
    else none
  else
    some
      { nodesIds := l.nodesIds.set j name
        procsIds := l.procsIds ++ [(l.procsPerNode.getD j 0, j)]
        procsPerNode := l.procsPerNode.set j (l.procsPerNode.getD j 0 + 1)
        maxSetNode := l.maxSetNode }

/-- The loop `for (i=1; i<_mpi_size; i++)` of `after_init` over the hostnames
of the ranks from 1 on. -/
def after_init_ranks (nodes : Nat) : List String → after_init_locals → Option after_init_locals
  | [], l => some l
  | name :: rest, l =>
    match after_init_rank nodes l name with
    | none => none
    | some l1 => after_init_ranks nodes rest l1

/-- The rank-0 block of the function `after_init`: the table `procsIds` that
rank 0 computes from the gathered hostnames `recvData`, row `i` being the pair
(`_process_id`, `_node_id`) scattered to rank `i`.  On rank 0 `hostname` is
`recvData[0]`.  The result is `none` when there is no rank, or when a write
goes past the end of the tables. -/
def after_init (recvData : List String) : Option (List (Nat × Nat)) :=
  match recvData with
  | [] => none
  | hostname :: rest =>
    let mpi_size := recvData.length
    let mpis_per_node := after_init_mpis_per_node hostname recvData
    let nodes := (mpi_size + mpis_per_node - 1) / mpis_per_node
    let l0 : after_init_locals :=
      { nodesIds := (List.replicate nodes "").set 0 hostname
        procsPerNode := (List.replicate nodes 0).set 0 1
        procsIds := [(0, 0)]
        maxSetNode := 1 }
    (after_init_ranks nodes rest l0).map after_init_locals.procsIds

/-- The hostnames of a list in the order of their first appearance. -/
def first_appearances (recvData : List String) : List String :=
  recvData.foldl (fun seen name => if name ∈ seen then seen else seen ++ [name]) []

/-- The number of ranks `j < i` with the same hostname as rank `i`. -/
def local_rank (recvData : List String) (i : Nat) : Nat :=
  (recvData.take i).count (recvData.getD i "")

/-- The index of the hostname of rank `i` in the order of first appearance. -/
def node_index (recvData : List String) (i : Nat) : Nat :=
  (first_appearances recvData).indexOf (recvData.getD i "")

/-- The number at which the specification bounds the number of distinct
hostnames: the number of ranks divided by the number of ranks that share the
hostname of rank 0, rounded up. -/
def nodes_bound (recvData : List String) : Nat :=
  (recvData.length + after_init_mpis_per_node (recvData.getD 0 "") recvData - 1)
    / after_init_mpis_per_node (recvData.getD 0 "") recvData

/-- The locals of the rank-0 block of `after_init` after the ranks whose
hostnames are `P` have been numbered: `nodesIds` holds the hostnames of `P` in
the order of their first appearance, followed by empty entries,
`procsPerNode` the number of ranks of `P` on each of them, and row `i` of
`procsIds` is the pair of rank `i`. -/
structure after_init_inv (nodes : Nat) (P : List String) (l : after_init_locals) : Prop where
  len : (first_appearances P).length ≤ nodes
  max : l.maxSetNode = (first_appearances P).length
  ids_len : l.nodesIds.length = nodes
  ids : ∀ k, l.nodesIds.getD k "" = (first_appearances P).getD k ""
  per_len : l.procsPerNode.length = nodes
  per : ∀ k, l.procsPerNode.getD k 0 =
    if k < (first_appearances P).length then P.count ((first_appearances P).getD k "") else 0
  rows_len : l.procsIds.length = P.length
  rows : ∀ i, i < P.length → l.procsIds.getD i (0, 0) = (local_rank P i, node_index P i)

/-! ## Basic facts about the table -/

@[simp] theorem proc_setProc (s : shdata_t) (i j : Nat) (v : pinfo_t) :
    (s.setProc i v).proc j = if i = j ∧ i < s.max_processes then v else s.proc j := by
  unfold shdata_t.setProc shdata_t.proc shdata_t.max_processes
  simp only [List.getD_eq_getElem?_getD, List.getElem?_set]
  by_cases hij : i = j
  · subst hij
    by_cases hlt : i < s.process_info.length
    · simp [hlt]
    · simp [hlt, List.getElem?_eq_none (not_lt.mp hlt)]
  · simp [hij]

@[simp] theorem free_mask_setProc (s : shdata_t) (i : Nat) (v : pinfo_t) :
    (s.setProc i v).free_mask = s.free_mask := rfl

@[simp] theorem initialized_setProc (s : shdata_t) (i : Nat) (v : pinfo_t) :
    (s.setProc i v).initialized = s.initialized := rfl

@[simp] theorem max_processes_setProc (s : shdata_t) (i : Nat) (v : pinfo_t) :
    (s.setProc i v).max_processes = s.max_processes := by
  simp [shdata_t.setProc, shdata_t.max_processes]

theorem proc_setProc_of_ne (s : shdata_t) {i j : Nat} (v : pinfo_t) (h : i ≠ j) :
    (s.setProc i v).proc j = s.proc j := by
  rw [proc_setProc, if_neg (fun hc => h hc.1)]

theorem proc_setProc_self (s : shdata_t) {i : Nat} (v : pinfo_t) (h : i < s.max_processes) :
    (s.setProc i v).proc i = v := by
  rw [proc_setProc, if_pos ⟨rfl, h⟩]

theorem register_mask_proc_of_ne (k : Nat) (m : cpu_set_t) (s : shdata_t) {i : Nat}
    (h : k ≠ i) : (register_mask k m s).2.proc i = s.proc i := by
  unfold register_mask
  split
  · rw [proc_setProc_of_ne _ _ h]; rfl
  · rfl

theorem proc_of_le (s : shdata_t) (i : Nat) (h : s.max_processes ≤ i) :
    s.proc i = pinfo_t.zero := by
  unfold shdata_t.proc shdata_t.max_processes at *
  exact List.getD_eq_default _ _ h

theorem setProc_self (s : shdata_t) (i : Nat) : s.setProc i (s.proc i) = s := by
  cases s with
  | mk ini fm l =>
    simp only [shdata_t.setProc, shdata_t.proc, shdata_t.mk.injEq, true_and]
    apply List.ext_getElem?
    intro n
    by_cases hn : i = n
    · subst hn
      by_cases hlt : i < l.length
      · simp [List.getElem?_set, hlt, List.getD_eq_getElem?_getD]
      · simp [List.getElem?_set, hlt, List.getElem?_eq_none (not_lt.mp hlt)]
    · simp [List.getElem?_set, hn]

theorem shdata_ext (s t : shdata_t) (hi : s.initialized = t.initialized)
    (hf : s.free_mask = t.free_mask) (hl : s.max_processes = t.max_processes)
    (hp : ∀ i, s.proc i = t.proc i) : s = t := by
  cases s with
  | mk si sf sl =>
    cases t with
    | mk ti tf tl =>
      simp only [shdata_t.max_processes, shdata_t.proc] at *
      subst hi hf
      simp only [shdata_t.mk.injEq, true_and]
      apply List.ext_getElem hl
      intro n h1 h2
      have := hp n
      rwa [List.getD_eq_getElem _ _ h1, List.getD_eq_getElem _ _ h2] at this

theorem get_process_some {pid : pid_t} {s : shdata_t} {k : Nat} (h : get_process pid s = some k) :
    (s.proc k).pid = pid ∧ k < s.max_processes := by
  unfold get_process at h
  have h1 := List.find?_some h
  have h2 := List.mem_of_find?_eq_some h
  exact ⟨by simpa using h1, by simpa using h2⟩

theorem get_process_none {pid : pid_t} {s : shdata_t} (h : get_process pid s = none) :
    ∀ i, i < s.max_processes → (s.proc i).pid ≠ pid := by
  unfold get_process at h
  intro i hi
  have := List.find?_eq_none.mp h i (by simpa using hi)
  simpa using this

/-! ## One steal -/

theorem steal_cpu_fst (no : Option Nat) (v c : Nat) (dry : Bool) (s : shdata_t) :
    (steal_cpu no v c dry s).1 = decide (steal_precondition (s.proc v) c) := by
  have h : (steal_cpu no v c dry s).1 =
      ((!(s.proc v).dirty && CPU_ISSET c (s.proc v).current_process_mask
          && decide (CPU_COUNT (s.proc v).future_process_mask > 1))
        || ((s.proc v).dirty && CPU_ISSET c (s.proc v).future_process_mask
          && decide (CPU_COUNT (s.proc v).future_process_mask > 1))) := by
    unfold steal_cpu
    dsimp only
    split
    · cases no <;> rfl
    · rfl
  rw [h]
  unfold steal_precondition
  by_cases hd : (s.proc v).dirty = true <;>
    by_cases h1 : c ∈ (s.proc v).current_process_mask <;>
    by_cases h2 : c ∈ (s.proc v).future_process_mask <;>
    by_cases h3 : 1 < (s.proc v).future_process_mask.card <;> simp [hd, h1, h2, h3]

theorem steal_cpu_fst_iff (no : Option Nat) (v c : Nat) (dry : Bool) (s : shdata_t) :
    (steal_cpu no v c dry s).1 = true ↔ steal_precondition (s.proc v) c := by
  rw [steal_cpu_fst]; simp

theorem steal_cpu_dry (no : Option Nat) (v c : Nat) (s : shdata_t) :
    (steal_cpu no v c true s).2 = s := by
  unfold steal_cpu; simp

theorem steal_cpu_false (no : Option Nat) (v c : Nat) (dry : Bool) (s : shdata_t)
    (h : (steal_cpu no v c dry s).1 = false) : (steal_cpu no v c dry s).2 = s := by
  unfold steal_cpu at h ⊢
  dsimp only at h ⊢
  split at h
  · rename_i hc
    cases no <;> (dsimp only at h; rw [h] at hc; simp at hc)
  · rename_i hc
    rw [if_neg hc]

theorem steal_precondition_lt {s : shdata_t} {v c : Nat}
    (h : steal_precondition (s.proc v) c) : v < s.max_processes := by
  by_contra hlt
  rw [proc_of_le s v (not_lt.mp hlt)] at h
  simp [steal_precondition, pinfo_t.zero] at h

/-- The entry of the victim after a committed steal of `c`. -/
def stolen_from (v : pinfo_t) (c : Nat) : pinfo_t :=
  { v with dirty := true, stolen_cpus := insert c v.stolen_cpus,
           future_process_mask := v.future_process_mask.erase c }

/-- The entry of the new owner after a committed steal of `c`. -/
def given_to (o : pinfo_t) (c : Nat) : pinfo_t :=
  { o with dirty := true, future_process_mask := insert c o.future_process_mask }

theorem steal_cpu_true (n v c : Nat) (s : shdata_t) (h : steal_precondition (s.proc v) c) :
    (steal_cpu (some n) v c false s).2 =
      (s.setProc v (stolen_from (s.proc v) c)).setProc n
        (given_to ((s.setProc v (stolen_from (s.proc v) c)).proc n) c) := by
  have h1 := (steal_cpu_fst_iff (some n) v c false s).mpr h
  unfold steal_cpu at h1 ⊢
  dsimp only at h1 ⊢
  split at h1
  · rename_i hc
    rw [if_pos hc]
    rfl
  · rename_i hc
    dsimp only at h1
    rw [h1] at hc
    simp at hc

theorem steal_cpu_true_proc (n v c j : Nat) (s : shdata_t)
    (h : steal_precondition (s.proc v) c) :
    (steal_cpu (some n) v c false s).2.proc j =
      if n = j ∧ n < s.max_processes then
        given_to (if v = n then stolen_from (s.proc v) c else s.proc n) c
      else if v = j then stolen_from (s.proc v) c else s.proc j := by
  have hv := steal_precondition_lt h
  rw [steal_cpu_true n v c s h]
  simp only [proc_setProc, max_processes_setProc, hv, and_true]

theorem steal_cpu_max_processes (no : Option Nat) (v c : Nat) (dry : Bool) (s : shdata_t) :
    (steal_cpu no v c dry s).2.max_processes = s.max_processes := by
  unfold steal_cpu
  dsimp only
  split
  · cases no <;> simp [shdata_t.max_processes, shdata_t.setProc]
  · rfl

theorem steal_cpu_free_mask (n v c : Nat) (dry : Bool) (s : shdata_t) :
    (steal_cpu (some n) v c dry s).2.free_mask = s.free_mask := by
  unfold steal_cpu
  dsimp only
  split <;> simp

/-- What stealing the CPUs in `D` for the new owner `n` may change in entry `j`:
the pid, the current mask, the return code and `active_cpus` never; the
membership of CPUs outside `D` in the future and stolen masks never; the dirty
flag is only raised; the future mask stays non-empty; the new owner only gains
and the others only lose. -/
structure steal_frame (n : Nat) (D : Nat → Prop) (p p1 : pinfo_t) (j : Nat) : Prop where
  pid_eq : p1.pid = p.pid
  current_eq : p1.current_process_mask = p.current_process_mask
  returncode_eq : p1.returncode = p.returncode
  active_eq : p1.active_cpus = p.active_cpus
  future_other : ∀ d, ¬ D d → (d ∈ p1.future_process_mask ↔ d ∈ p.future_process_mask)
  stolen_other : ∀ d, ¬ D d → (d ∈ p1.stolen_cpus ↔ d ∈ p.stolen_cpus)
  stolen_mono : p.stolen_cpus ⊆ p1.stolen_cpus
  dirty_mono : p.dirty = true → p1.dirty = true
  nonempty : p.future_process_mask.Nonempty → p1.future_process_mask.Nonempty
  owner_mono : j = n → p.future_process_mask ⊆ p1.future_process_mask
  other_anti : j ≠ n → p1.future_process_mask ⊆ p.future_process_mask

theorem steal_frame_refl (n : Nat) (D : Nat → Prop) (p : pinfo_t) (j : Nat) :
    steal_frame n D p p j :=
  { pid_eq := rfl, current_eq := rfl, returncode_eq := rfl, active_eq := rfl,
    future_other := fun _ _ => Iff.rfl, stolen_other := fun _ _ => Iff.rfl,
    stolen_mono := Finset.Subset.refl _,
    dirty_mono := id, nonempty := id, owner_mono := fun _ => Finset.Subset.refl _,
    other_anti := fun _ => Finset.Subset.refl _ }

theorem erase_nonempty_of_one_lt_card (m : cpu_set_t) (c : Nat) (h : 1 < m.card) :
    (m.erase c).Nonempty := by
  rw [← Finset.card_pos]
  have := Finset.pred_card_le_card_erase (s := m) (a := c)
  omega

theorem steal_frame_trans {n : Nat} {D : Nat → Prop} {p p1 p2 : pinfo_t} {j : Nat}
    (h1 : steal_frame n D p p1 j) (h2 : steal_frame n D p1 p2 j) : steal_frame n D p p2 j :=
  { pid_eq := h2.pid_eq.trans h1.pid_eq
    current_eq := h2.current_eq.trans h1.current_eq
    returncode_eq := h2.returncode_eq.trans h1.returncode_eq
    active_eq := h2.active_eq.trans h1.active_eq
    future_other := fun d hd => (h2.future_other d hd).trans (h1.future_other d hd)
    stolen_other := fun d hd => (h2.stolen_other d hd).trans (h1.stolen_other d hd)
    stolen_mono := h1.stolen_mono.trans h2.stolen_mono
    dirty_mono := fun h => h2.dirty_mono (h1.dirty_mono h)
    nonempty := fun h => h2.nonempty (h1.nonempty h)
    owner_mono := fun h => (h1.owner_mono h).trans (h2.owner_mono h)
    other_anti := fun h => (h2.other_anti h).trans (h1.other_anti h) }

theorem steal_frame_mono {n : Nat} {D E : Nat → Prop} {p p1 : pinfo_t} {j : Nat}
    (hDE : ∀ d, D d → E d) (h : steal_frame n D p p1 j) : steal_frame n E p p1 j :=
  { pid_eq := h.pid_eq, current_eq := h.current_eq, returncode_eq := h.returncode_eq
    active_eq := h.active_eq
    future_other := fun d hd => h.future_other d (fun hD => hd (hDE d hD))
    stolen_other := fun d hd => h.stolen_other d (fun hD => hd (hDE d hD))
    stolen_mono := h.stolen_mono, dirty_mono := h.dirty_mono, nonempty := h.nonempty
    owner_mono := h.owner_mono, other_anti := h.other_anti }

theorem steal_cpu_frame (n v c : Nat) (dry : Bool) (s : shdata_t) (j : Nat) :
    steal_frame n (fun d => d = c) (s.proc j) ((steal_cpu (some n) v c dry s).2.proc j) j := by
  by_cases hp : steal_precondition (s.proc v) c
  · cases dry
    · rw [steal_cpu_true_proc n v c j s hp]
      have hcard : 1 < (s.proc v).future_process_mask.card := by
        rcases hp with h | h <;> exact h.2.2
      have hne := erase_nonempty_of_one_lt_card _ c hcard
      by_cases hnj : n = j ∧ n < s.max_processes
      · rw [if_pos hnj]
        obtain ⟨rfl, _⟩ := hnj
        by_cases hvn : v = n
        · subst hvn
          simp only [if_true]
          refine ⟨rfl, rfl, rfl, rfl, ?_, ?_, ?_, fun _ => rfl, ?_, ?_, ?_⟩
          · intro d hd; simp [given_to, stolen_from, hd]
          · intro d hd; simp [given_to, stolen_from, hd]
          · simp [given_to, stolen_from]
          · intro _; simp [given_to, stolen_from]
          · intro _ x hx
            simp only [given_to, stolen_from, Finset.mem_insert, Finset.mem_erase]
            by_cases hxc : x = c
            · exact Or.inl hxc
            · exact Or.inr ⟨hxc, hx⟩
          · intro h; exact absurd rfl h
        · simp only [if_neg hvn]
          refine ⟨rfl, rfl, rfl, rfl, ?_, ?_, ?_, fun _ => rfl, ?_, ?_, ?_⟩
          · intro d hd; simp [given_to, hd]
          · intro d hd; simp [given_to]
          · simp [given_to]
          · intro _; simp [given_to]
          · intro _; simp [given_to]
          · intro h; exact absurd rfl h
      · rw [if_neg hnj]
        by_cases hvj : v = j
        · subst hvj
          simp only [if_true]
          have hvlt := steal_precondition_lt hp
          have hnv : n ≠ v := fun h => hnj ⟨h, h ▸ hvlt⟩
          refine ⟨rfl, rfl, rfl, rfl, ?_, ?_, ?_, fun _ => rfl, ?_, ?_, ?_⟩
          · intro d hd; simp [stolen_from, hd]
          · intro d hd; simp [stolen_from, hd]
          · simp [stolen_from]
          · intro _; exact hne
          · intro h; exact absurd h.symm hnv
          · intro _; simp only [stolen_from]; exact Finset.erase_subset _ _
        · simp only [if_neg hvj]
          exact steal_frame_refl n _ _ j
    · rw [steal_cpu_dry]
      exact steal_frame_refl n _ _ j
  · have hf : (steal_cpu (some n) v c dry s).1 = false := by
      rw [steal_cpu_fst]; simpa using hp
    rw [steal_cpu_false _ _ _ _ _ hf]
    exact steal_frame_refl n _ _ j

/-! ## The loops of `steal_mask` -/

/-- The test the inner loop of `steal_mask` makes on entry `p`. -/
def gives (s : shdata_t) (c : Nat) (p : Nat) : Bool :=
  decide ((s.proc p).pid ≠ NOBODY) && decide (steal_precondition (s.proc p) c)

theorem steal_mask_victims_eq (no : Option Nat) (c : Nat) (dry : Bool) (ps : List Nat)
    (s : shdata_t) :
    steal_mask_victims no c dry ps s =
      match ps.find? (gives s c) with
      | some v => (true, (steal_cpu no v c dry s).2)
      | none => (false, s) := by
  induction ps with
  | nil => rfl
  | cons p ps ih =>
    unfold steal_mask_victims
    by_cases hpid : (s.proc p).pid ≠ NOBODY
    · rw [if_pos hpid]
      by_cases hpre : steal_precondition (s.proc p) c
      · have h1 : (steal_cpu no p c dry s).1 = true := (steal_cpu_fst_iff _ _ _ _ _).mpr hpre
        have hg : gives s c p = true := by simp [gives, hpid, hpre]
        simp only [h1, if_true, List.find?_cons, hg]
      · have h1 : (steal_cpu no p c dry s).1 = false := by
          rw [steal_cpu_fst]; simpa using hpre
        have hg : gives s c p = false := by simp [gives, hpre]
        simp only [h1, steal_cpu_false _ _ _ _ _ h1, List.find?_cons, hg]
        exact ih
    · rw [if_neg hpid]
      have hg : gives s c p = false := by
        simp only [gives, Bool.and_eq_false_imp, decide_eq_true_eq]
        intro h; exact absurd h hpid
      simp only [List.find?_cons, hg]
      exact ih

theorem steal_mask_victims_max_processes (no : Option Nat) (c : Nat) (dry : Bool)
    (ps : List Nat) (s : shdata_t) :
    (steal_mask_victims no c dry ps s).2.max_processes = s.max_processes := by
  rw [steal_mask_victims_eq]
  split
  · exact steal_cpu_max_processes _ _ _ _ _
  · rfl

theorem steal_mask_victims_free_mask (n c : Nat) (dry : Bool) (ps : List Nat) (s : shdata_t) :
    (steal_mask_victims (some n) c dry ps s).2.free_mask = s.free_mask := by
  rw [steal_mask_victims_eq]
  split
  · exact steal_cpu_free_mask _ _ _ _ _
  · rfl

theorem steal_mask_victims_frame (n c : Nat) (dry : Bool) (ps : List Nat) (s : shdata_t)
    (j : Nat) :
    steal_frame n (fun d => d = c) (s.proc j)
      ((steal_mask_victims (some n) c dry ps s).2.proc j) j := by
  rw [steal_mask_victims_eq]
  split
  · exact steal_cpu_frame _ _ _ _ _ _
  · exact steal_frame_refl _ _ _ _

theorem steal_mask_cpus_max_processes (no : Option Nat) (mask : cpu_set_t) (dry : Bool)
    (cs : List Nat) (s : shdata_t) :
    (steal_mask_cpus no mask dry cs s).2.max_processes = s.max_processes := by
  induction cs generalizing s with
  | nil => rfl
  | cons c cs ih =>
    unfold steal_mask_cpus
    split
    · dsimp only
      split
      · rw [ih, steal_mask_victims_max_processes]
      · exact steal_mask_victims_max_processes _ _ _ _ _
    · exact ih s

theorem steal_mask_cpus_free_mask (n : Nat) (mask : cpu_set_t) (dry : Bool)
    (cs : List Nat) (s : shdata_t) :
    (steal_mask_cpus (some n) mask dry cs s).2.free_mask = s.free_mask := by
  induction cs generalizing s with
  | nil => rfl
  | cons c cs ih =>
    unfold steal_mask_cpus
    split
    · dsimp only
      split
      · rw [ih, steal_mask_victims_free_mask]
      · exact steal_mask_victims_free_mask _ _ _ _ _
    · exact ih s

theorem steal_mask_cpus_frame (n : Nat) (mask : cpu_set_t) (dry : Bool) (cs : List Nat)
    (s : shdata_t) (j : Nat) :
    steal_frame n (fun d => d ∈ cs ∧ d ∈ mask) (s.proc j)
      ((steal_mask_cpus (some n) mask dry cs s).2.proc j) j := by
  induction cs generalizing s with
  | nil => exact steal_frame_refl _ _ _ _
  | cons c cs ih =>
    unfold steal_mask_cpus
    split
    · rename_i hc
      have hcm : c ∈ mask := by simpa using hc
      have h1 : steal_frame n (fun d => d ∈ c :: cs ∧ d ∈ mask) (s.proc j)
          ((steal_mask_victims (some n) c dry (List.range s.max_processes) s).2.proc j) j :=
        steal_frame_mono (fun d hd => by subst hd; exact ⟨List.mem_cons_self _ _, hcm⟩)
          (steal_mask_victims_frame n c dry _ s j)
      dsimp only
      split
      · exact steal_frame_trans h1
          (steal_frame_mono (fun d hd => ⟨List.mem_cons_of_mem _ hd.1, hd.2⟩) (ih _))
      · exact h1
    · exact steal_frame_mono (fun d hd => ⟨List.mem_cons_of_mem _ hd.1, hd.2⟩) (ih s)

theorem steal_mask_cpus_code (no : Option Nat) (mask : cpu_set_t) (dry : Bool)
    (cs : List Nat) (s : shdata_t) :
    (steal_mask_cpus no mask dry cs s).1 = DLB_SUCCESS
      ∨ (steal_mask_cpus no mask dry cs s).1 = DLB_ERR_PERM := by
  induction cs generalizing s with
  | nil => exact Or.inl rfl
  | cons c cs ih =>
    unfold steal_mask_cpus
    split
    · dsimp only
      split
      · exact ih _
      · exact Or.inr rfl
    · exact ih s

theorem steal_cpu_true_owner (n v c : Nat) (s : shdata_t)
    (h : steal_precondition (s.proc v) c) (hn : n < s.max_processes) :
    c ∈ ((steal_cpu (some n) v c false s).2.proc n).future_process_mask := by
  rw [steal_cpu_true_proc n v c n s h, if_pos ⟨rfl, hn⟩]
  simp [given_to]

theorem steal_mask_victims_true_owner (n c : Nat) (ps : List Nat) (s : shdata_t)
    (h : (steal_mask_victims (some n) c false ps s).1 = true) (hn : n < s.max_processes) :
    c ∈ ((steal_mask_victims (some n) c false ps s).2.proc n).future_process_mask := by
  rw [steal_mask_victims_eq] at h ⊢
  split at h
  · rename_i v hv
    have hg := List.find?_some hv
    simp only [gives, Bool.and_eq_true, decide_eq_true_eq] at hg
    exact steal_cpu_true_owner n v c s hg.2 hn
  · simp at h

/-- After a committed `steal_mask` that succeeds, the new owner holds every
requested CPU. -/
theorem steal_mask_cpus_success_owner (n : Nat) (mask : cpu_set_t) (cs : List Nat)
    (s : shdata_t) (hn : n < s.max_processes)
    (h : (steal_mask_cpus (some n) mask false cs s).1 = DLB_SUCCESS) :
    ∀ c, c ∈ cs → c ∈ mask →
      c ∈ ((steal_mask_cpus (some n) mask false cs s).2.proc n).future_process_mask := by
  induction cs generalizing s with
  | nil => intro c hc; simp at hc
  | cons a cs ih =>
    intro c hc hcm
    unfold steal_mask_cpus at h ⊢
    split at h
    · rename_i ha
      rw [if_pos ha]
      dsimp only at h ⊢
      split at h
      · rename_i hv
        rw [if_pos hv]
        have hn1 : n < (steal_mask_victims (some n) a false (List.range s.max_processes)
            s).2.max_processes := by
          rw [steal_mask_victims_max_processes]; exact hn
        rcases List.mem_cons.mp hc with rfl | hc'
        · have := steal_mask_victims_true_owner n c _ s hv hn
          exact (steal_mask_cpus_frame n mask false cs _ n).owner_mono rfl this
        · exact ih _ hn1 h c hc' hcm
      · simp [DLB_ERR_PERM, DLB_SUCCESS] at h
    · rename_i ha
      rw [if_neg ha]
      rcases List.mem_cons.mp hc with rfl | hc'
      · exact absurd (by simpa using hcm) ha
      · exact ih s hn h c hc' hcm

/-! ## The classification loop of `set_new_mask` -/

theorem set_new_mask_sets_mem (max_cpus process : Nat) (mask : cpu_set_t) (s : shdata_t) :
    (∀ c, c ∈ (set_new_mask_sets max_cpus process mask s).cpus_to_acquire ↔
        c < max_cpus ∧ c ∈ mask ∧ c ∈ s.free_mask)
    ∧ (∀ c, c ∈ (set_new_mask_sets max_cpus process mask s).cpus_to_steal ↔
        c < max_cpus ∧ c ∈ mask ∧ c ∉ s.free_mask
          ∧ c ∉ (s.proc process).future_process_mask)
    ∧ (∀ c, c ∈ (set_new_mask_sets max_cpus process mask s).cpus_to_free ↔
        c < max_cpus ∧ c ∉ mask ∧ c ∈ (s.proc process).future_process_mask) := by
  unfold set_new_mask_sets
  induction max_cpus with
  | zero => simp
  | succ n ih =>
    rw [List.range_succ, List.foldl_append]
    simp only [List.foldl_cons, List.foldl_nil]
    obtain ⟨h1, h2, h3⟩ := ih
    generalize List.foldl
      (set_new_mask_classify s.free_mask (s.proc process).future_process_mask mask)
      { cpus_to_acquire := CPU_ZERO, cpus_to_steal := CPU_ZERO, cpus_to_free := CPU_ZERO }
      (List.range n) = acc at h1 h2 h3 ⊢
    unfold set_new_mask_classify
    refine ⟨fun c => ?_, fun c => ?_, fun c => ?_⟩ <;>
    · by_cases hcn : c = n
      · subst hcn
        split_ifs <;> simp_all
      · have hlt : c < n + 1 ↔ c < n := by omega
        split_ifs <;> simp_all

/-! ## `set_new_mask` -/

theorem steal_mask_cpus_dry (no : Option Nat) (mask : cpu_set_t) (cs : List Nat)
    (s : shdata_t) : (steal_mask_cpus no mask true cs s).2 = s := by
  induction cs generalizing s with
  | nil => rfl
  | cons c cs ih =>
    have hv : (steal_mask_victims no c true (List.range s.max_processes) s).2 = s := by
      rw [steal_mask_victims_eq]
      split
      · exact steal_cpu_dry _ _ _ _
      · rfl
    unfold steal_mask_cpus
    split
    · dsimp only
      split
      · rw [hv]; exact ih s
      · exact hv
    · exact ih s

theorem set_new_mask_dry (max_cpus k : Nat) (mask : cpu_set_t) (s : shdata_t) :
    (set_new_mask max_cpus k mask true s).2 = s := by
  unfold set_new_mask steal_mask
  simp only [if_true]
  exact steal_mask_cpus_dry _ _ _ _

theorem set_new_mask_dry_code (max_cpus k : Nat) (mask : cpu_set_t) (s : shdata_t) :
    (set_new_mask max_cpus k mask true s).1 =
      (steal_mask max_cpus (some k) (set_new_mask_sets max_cpus k mask s).cpus_to_steal
        true s).1 := by
  unfold set_new_mask
  simp only [if_true]

/-- The committing `set_new_mask`, in closed form: the steals are made; if they
succeed the CPUs to acquire leave `free_mask` for the process, and the CPUs to
free leave the process for `free_mask`. -/
theorem set_new_mask_commit (max_cpus k : Nat) (mask : cpu_set_t) (s : shdata_t) :
    set_new_mask max_cpus k mask false s =
      if (steal_mask max_cpus (some k) (set_new_mask_sets max_cpus k mask s).cpus_to_steal
          false s).1 ≠ 0 then
        steal_mask max_cpus (some k) (set_new_mask_sets max_cpus k mask s).cpus_to_steal false s
      else
        (DLB_SUCCESS,
          ({ (steal_mask max_cpus (some k) (set_new_mask_sets max_cpus k mask s).cpus_to_steal
                false s).2 with
              free_mask := (s.free_mask \ (set_new_mask_sets max_cpus k mask s).cpus_to_acquire)
                ∪ (set_new_mask_sets max_cpus k mask s).cpus_to_free } : shdata_t).setProc k
            { (steal_mask max_cpus (some k) (set_new_mask_sets max_cpus k mask s).cpus_to_steal
                false s).2.proc k with
              future_process_mask :=
                (((steal_mask max_cpus (some k)
                    (set_new_mask_sets max_cpus k mask s).cpus_to_steal
                    false s).2.proc k).future_process_mask
                  ∪ (set_new_mask_sets max_cpus k mask s).cpus_to_acquire)
                \ (set_new_mask_sets max_cpus k mask s).cpus_to_free
              dirty := true }) := by
  have hfree : (steal_mask max_cpus (some k)
      (set_new_mask_sets max_cpus k mask s).cpus_to_steal false s).2.free_mask = s.free_mask :=
    steal_mask_cpus_free_mask _ _ _ _ _
  have hacq : (set_new_mask_sets max_cpus k mask s).cpus_to_acquire ⊆ s.free_mask := by
    intro c hc
    exact ((set_new_mask_sets_mem max_cpus k mask s).1 c).mp hc |>.2.2
  unfold set_new_mask
  simp only [Bool.false_eq_true, if_false]
  generalize set_new_mask_sets max_cpus k mask s = sets at *
  generalize steal_mask max_cpus (some k) sets.cpus_to_steal false s = r at *
  obtain ⟨code, t⟩ := r
  simp only at hfree ⊢
  by_cases hcode : code ≠ 0
  · simp only [hcode, if_true, ne_eq, not_false_eq_true]
  · have hc0 : code = 0 := not_not.mp hcode
    subst hc0
    have hsub : mu_is_subset sets.cpus_to_acquire t.free_mask = true := by
      simp [hfree, hacq]
    simp only [ne_eq, not_true_eq_false, if_false, register_mask, hsub, if_true,
      DLB_SUCCESS]
    unfold unregister_mask
    by_cases hz : CPU_COUNT sets.cpus_to_free = 0
    · have he : sets.cpus_to_free = ∅ := by simpa using hz
      rw [if_pos hz]
      refine Prod.ext rfl ?_
      apply shdata_ext
      · simp
      · simp [hfree, he]
      · simp [shdata_t.max_processes, shdata_t.setProc]
      · intro i
        by_cases hki : k = i
        · subst hki
          by_cases hlt : k < t.process_info.length
          · simp [shdata_t.proc, shdata_t.setProc, hlt, List.getElem?_set, he]
          · simp [shdata_t.proc, shdata_t.setProc, hlt, List.getElem?_set,
              List.getElem?_eq_none (not_lt.mp hlt)]
        · simp [shdata_t.proc, shdata_t.setProc, hki, List.getElem?_set]
    · rw [if_neg hz]
      simp only [Bool.false_eq_true, if_false]
      refine Prod.ext rfl ?_
      apply shdata_ext
      · simp
      · simp [hfree]
      · simp [shdata_t.max_processes, shdata_t.setProc]
      · intro i
        by_cases hki : k = i
        · subst hki
          by_cases hlt : k < t.process_info.length
          · simp [shdata_t.proc, shdata_t.setProc, hlt, List.getElem?_set]
          · simp [shdata_t.proc, shdata_t.setProc, hlt, List.getElem?_set,
              List.getElem?_eq_none (not_lt.mp hlt)]
        · simp [shdata_t.proc, shdata_t.setProc, hki, List.getElem?_set]

/-- Entries other than the target of `set_new_mask` change only through the steals. -/
theorem set_new_mask_frame_other (max_cpus k : Nat) (mask : cpu_set_t) (dry : Bool)
    (s : shdata_t) (i : Nat) (hik : i ≠ k) :
    steal_frame k (fun d => d < max_cpus ∧ d ∈ mask ∧ d ∉ s.free_mask
        ∧ d ∉ (s.proc k).future_process_mask)
      (s.proc i) ((set_new_mask max_cpus k mask dry s).2.proc i) i := by
  have hsteal : steal_frame k (fun d => d < max_cpus ∧ d ∈ mask ∧ d ∉ s.free_mask
        ∧ d ∉ (s.proc k).future_process_mask) (s.proc i)
      ((steal_mask max_cpus (some k) (set_new_mask_sets max_cpus k mask s).cpus_to_steal
        false s).2.proc i) i :=
    steal_frame_mono (fun d hd => ((set_new_mask_sets_mem max_cpus k mask s).2.1 d).mp hd.2)
      (steal_mask_cpus_frame k _ false _ s i)
  cases dry
  · rw [set_new_mask_commit]
    split
    · exact hsteal
    · simp only [proc_setProc]
      rw [if_neg (fun h => hik h.1.symm)]
      exact hsteal
  · rw [set_new_mask_dry]
    exact steal_frame_refl _ _ _ _

theorem set_new_mask_max_processes (max_cpus k : Nat) (mask : cpu_set_t) (dry : Bool)
    (s : shdata_t) : (set_new_mask max_cpus k mask dry s).2.max_processes = s.max_processes := by
  cases dry
  · rw [set_new_mask_commit]
    split
    · exact steal_mask_cpus_max_processes _ _ _ _ _
    · simp only [max_processes_setProc]
      exact steal_mask_cpus_max_processes _ _ _ _ _
  · rw [set_new_mask_dry]

/-! ## `shmem_procinfo__setprocessmask` -/

/-- The call on a registered process that is not dirty: the dry run decides
whether the committing run is made. -/
theorem setprocessmask_eq (pid : pid_t) (mask : cpu_set_t) (sync : Bool) (g : shmem_procinfo)
    (k : Nat) (hh : g.shm_handler = true) (hk : get_process pid g.shdata = some k)
    (hd : (g.shdata.proc k).dirty = false) :
    shmem_procinfo__setprocessmask pid mask sync g =
      if (set_new_mask g.max_cpus k mask true g.shdata).1 ≠ 0 then
        (some (set_new_mask g.max_cpus k mask true g.shdata).1, g)
      else if (set_new_mask g.max_cpus k mask false g.shdata).1 = 0 ∧ sync = true then
        (none, { g with shdata := (set_new_mask g.max_cpus k mask false g.shdata).2 })
      else
        (some (set_new_mask g.max_cpus k mask false g.shdata).1,
          { g with shdata := (set_new_mask g.max_cpus k mask false g.shdata).2 }) := by
  obtain ⟨sh, sa, mc, sd, rd⟩ := g
  simp only at hh hk hd
  subst hh
  unfold shmem_procinfo__setprocessmask
  simp only [Bool.not_true, Bool.false_eq_true, if_false, hk, hd]
  by_cases hc : (set_new_mask mc k mask true sd).1 ≠ 0
  · have hne : ¬ ((set_new_mask mc k mask true sd).1 = 0 ∧ sync = true) :=
      fun h => hc h.1
    rw [if_pos hc, if_pos hc, if_neg hne, set_new_mask_dry]
  · rw [if_neg hc, if_neg hc, set_new_mask_dry]

/-- The registry after the call does not depend on the `DLB_SYNC_QUERY` flag. -/
theorem setprocessmask_state_sync (pid : pid_t) (mask : cpu_set_t) (sync : Bool)
    (g : shmem_procinfo) :
    (shmem_procinfo__setprocessmask pid mask sync g).2
      = (shmem_procinfo__setprocessmask pid mask false g).2 := by
  unfold shmem_procinfo__setprocessmask
  split
  · rfl
  · split
    · rfl
    · split
      · rfl
      · dsimp only
        split_ifs <;> rfl

/-- Entries other than the target of `setprocessmask` change only through steals. -/
theorem setprocessmask_frame_other (pid : pid_t) (mask : cpu_set_t) (sync : Bool)
    (g : shmem_procinfo) (i : Nat) (hi : (g.shdata.proc i).pid ≠ pid) :
    ∃ (n : Nat) (D : Nat → Prop), (∀ d, D d → d < g.max_cpus ∧ d ∈ mask) ∧
      steal_frame n D (g.shdata.proc i)
        ((shmem_procinfo__setprocessmask pid mask sync g).2.shdata.proc i) i := by
  by_cases hh : g.shm_handler = true
  · cases hk : get_process pid g.shdata with
    | none =>
      refine ⟨0, fun _ => False, fun _ h => h.elim, ?_⟩
      unfold shmem_procinfo__setprocessmask
      simp only [hh, Bool.not_true, Bool.false_eq_true, if_false, hk]
      exact steal_frame_refl _ _ _ _
    | some k =>
      have hik : i ≠ k := by
        intro h; subst h; exact hi (get_process_some hk).1
      by_cases hd : (g.shdata.proc k).dirty = true
      · refine ⟨0, fun _ => False, fun _ h => h.elim, ?_⟩
        unfold shmem_procinfo__setprocessmask
        simp only [hh, Bool.not_true, Bool.false_eq_true, if_false, hk, hd, if_true]
        exact steal_frame_refl _ _ _ _
      · have hd' : (g.shdata.proc k).dirty = false := by simpa using hd
        refine ⟨k, fun d => d < g.max_cpus ∧ d ∈ mask ∧ d ∉ g.shdata.free_mask
          ∧ d ∉ (g.shdata.proc k).future_process_mask, fun d hd => ⟨hd.1, hd.2.1⟩, ?_⟩
        rw [setprocessmask_eq pid mask sync g k hh hk hd']
        split
        · exact steal_frame_refl _ _ _ _
        · split
          · exact set_new_mask_frame_other g.max_cpus k mask false g.shdata i hik
          · exact set_new_mask_frame_other g.max_cpus k mask false g.shdata i hik
  · refine ⟨0, fun _ => False, fun _ h => h.elim, ?_⟩
    unfold shmem_procinfo__setprocessmask
    simp only [hh, Bool.not_false, if_true]
    exact steal_frame_refl _ _ _ _

/-! ## `shmem_procinfo_ext__preinit` -/

/-- Entries that are registered before `preinit` change only through steals. -/
theorem preinit_slots_frame (max_cpus : Nat) (pid : pid_t) (mask : cpu_set_t) (steal : Int)
    (ps : List Nat) (s : shdata_t) (i : Nat) (hi : (s.proc i).pid ≠ NOBODY) :
    ∃ (n : Nat) (D : Nat → Prop), (∀ d, D d → d < max_cpus ∧ d ∈ mask) ∧
      steal_frame n D (s.proc i)
        ((shmem_procinfo_ext__preinit_slots max_cpus pid mask steal ps s).2.proc i) i := by
  induction ps with
  | nil => exact ⟨0, fun _ => False, fun _ h => h.elim, steal_frame_refl _ _ _ _⟩
  | cons p ps ih =>
    unfold shmem_procinfo_ext__preinit_slots
    split
    · exact ⟨0, fun _ => False, fun _ h => h.elim, steal_frame_refl _ _ _ _⟩
    · split
      · rename_i hp0
        have hip : i ≠ p := by
          intro h; subst h; exact hi hp0
        have hs1 : ∀ v, (s.setProc p v).proc i = s.proc i := by
          intro v
          rw [proc_setProc, if_neg (fun h => hip h.1.symm)]
        dsimp only
        generalize hs1' : s.setProc p _ = s1
        have hpi : s1.proc i = s.proc i := by rw [← hs1']; exact hs1 _
        rw [← hpi]
        have hdry := set_new_mask_dry max_cpus p mask s1
        have hfr := set_new_mask_frame_other max_cpus p mask false s1 i hip
        by_cases hst : steal = 0
        · refine ⟨p, fun _ => False, fun _ h => h.elim, ?_⟩
          simp only [hst, if_true]
          split
          · rw [register_mask_proc_of_ne p mask s1 hip.symm]
            exact steal_frame_refl _ _ _ _
          · rw [proc_setProc_of_ne _ _ hip.symm, register_mask_proc_of_ne p mask s1 hip.symm]
            exact steal_frame_refl _ _ _ _
        · refine ⟨p, fun d => d < max_cpus ∧ d ∈ mask ∧ d ∉ s1.free_mask
            ∧ d ∉ (s1.proc p).future_process_mask, fun d hd => ⟨hd.1, hd.2.1⟩, ?_⟩
          simp only [hst, if_false]
          split_ifs <;> (try simp only [proc_setProc_of_ne _ _ hip.symm, hdry]) <;>
            first
              | exact hfr
              | exact steal_frame_refl _ _ _ _
      · exact ih

/-! ## Steals under the registry invariants -/

theorem registered_lt {s : shdata_t} {i : Nat} (h : (s.proc i).pid ≠ NOBODY) :
    i < s.max_processes := by
  by_contra hlt
  rw [proc_of_le s i (not_lt.mp hlt)] at h
  exact h rfl

/-- Under the dirty-flag invariant a registered victim that gives a CPU has it
in its future mask. -/
theorem steal_precondition_mem_future {s : shdata_t} {v c : Nat} (hinv : dirty_invariant s)
    (hreg : (s.proc v).pid ≠ NOBODY) (h : steal_precondition (s.proc v) c) :
    c ∈ (s.proc v).future_process_mask ∧ 1 < (s.proc v).future_process_mask.card := by
  rcases h with ⟨hd, hc, hn⟩ | ⟨_, hc, hn⟩
  · rw [hinv v (registered_lt hreg) hreg hd] at hc
    exact ⟨hc, hn⟩
  · exact ⟨hc, hn⟩

/-- Under the invariants, after a committed steal of `c` the only registered
entry that can hold `c` is the new owner. -/
theorem steal_cpu_true_holder (n v c : Nat) (s : shdata_t) (hinv : dirty_invariant s)
    (hdis : futures_disjoint s) (hreg : (s.proc v).pid ≠ NOBODY)
    (h : steal_precondition (s.proc v) c) (i : Nat) (hi : (s.proc i).pid ≠ NOBODY)
    (hc : c ∈ ((steal_cpu (some n) v c false s).2.proc i).future_process_mask) : i = n := by
  by_contra hin
  rw [steal_cpu_true_proc n v c i s h, if_neg (fun hh => hin hh.1.symm)] at hc
  by_cases hvi : v = i
  · subst hvi
    simp [stolen_from] at hc
  · rw [if_neg hvi] at hc
    have hcv := (steal_precondition_mem_future hinv hreg h).1
    have := hdis i (registered_lt hi) v (registered_lt hreg) ⟨Ne.symm hvi, hi, hreg⟩
    exact (Finset.disjoint_left.mp this hc) hcv

theorem steal_mask_victims_invariants (n c : Nat) (dry : Bool) (ps : List Nat) (s : shdata_t)
    (hinv : dirty_invariant s) (hdis : futures_disjoint s) :
    dirty_invariant (steal_mask_victims (some n) c dry ps s).2
    ∧ futures_disjoint (steal_mask_victims (some n) c dry ps s).2 := by
  have hfr := steal_mask_victims_frame n c dry ps s
  have hlen := steal_mask_victims_max_processes (some n) c dry ps s
  rw [steal_mask_victims_eq] at hfr hlen ⊢
  split
  · rename_i v hv
    rw [hv] at hfr hlen
    simp only at hfr hlen
    have hg := List.find?_some hv
    simp only [gives, Bool.and_eq_true, decide_eq_true_eq] at hg
    obtain ⟨hreg, hpre⟩ := hg
    cases dry
    · constructor
      · intro i hi hregi hd
        have hregi' : (s.proc i).pid ≠ NOBODY := by rwa [(hfr i).pid_eq] at hregi
        rw [steal_cpu_true_proc n v c i s hpre] at hd ⊢
        split at hd
        · simp [given_to] at hd
        · rename_i h1
          rw [if_neg h1]
          split at hd
          · simp [stolen_from] at hd
          · rename_i h2
            rw [if_neg h2]
            exact hinv i (registered_lt hregi') hregi' hd
      · intro i hi j hj hij
        obtain ⟨hne, hregi, hregj⟩ := hij
        have hregi' : (s.proc i).pid ≠ NOBODY := by rwa [(hfr i).pid_eq] at hregi
        have hregj' : (s.proc j).pid ≠ NOBODY := by rwa [(hfr j).pid_eq] at hregj
        have hold := hdis i (registered_lt hregi') j (registered_lt hregj')
          ⟨hne, hregi', hregj'⟩
        rw [Finset.disjoint_left] at hold ⊢
        intro d hdi hdj
        by_cases hdc : d = c
        · subst hdc
          have e1 := steal_cpu_true_holder n v d s hinv hdis hreg hpre i hregi' hdi
          have e2 := steal_cpu_true_holder n v d s hinv hdis hreg hpre j hregj' hdj
          exact hne (e1.trans e2.symm)
        · rw [(hfr i).future_other d hdc] at hdi
          rw [(hfr j).future_other d hdc] at hdj
          exact hold hdi hdj
    · rw [steal_cpu_dry]; exact ⟨hinv, hdis⟩
  · exact ⟨hinv, hdis⟩

theorem steal_mask_cpus_invariants (n : Nat) (mask : cpu_set_t) (dry : Bool) (cs : List Nat)
    (s : shdata_t) (hinv : dirty_invariant s) (hdis : futures_disjoint s) :
    dirty_invariant (steal_mask_cpus (some n) mask dry cs s).2
    ∧ futures_disjoint (steal_mask_cpus (some n) mask dry cs s).2 := by
  induction cs generalizing s with
  | nil => exact ⟨hinv, hdis⟩
  | cons a cs ih =>
    have h1 := steal_mask_victims_invariants n a dry (List.range s.max_processes) s hinv hdis
    unfold steal_mask_cpus
    split
    · dsimp only
      split
      · exact ih _ h1.1 h1.2
      · exact h1
    · exact ih s hinv hdis

/-- Under the invariants, when no registered entry gives a CPU that a registered
entry holds, that entry holds nothing else. -/
theorem not_gives_singleton (s : shdata_t) (a v : Nat) (hinv : dirty_invariant s)
    (hreg : (s.proc v).pid ≠ NOBODY) (ha : a ∈ (s.proc v).future_process_mask)
    (hg : gives s a v = false) : ∀ d ∈ (s.proc v).future_process_mask, d = a := by
  have hnp : ¬ steal_precondition (s.proc v) a := by
    intro hp
    simp [gives, hreg, hp] at hg
  have hcard : (s.proc v).future_process_mask.card ≤ 1 := by
    by_contra hc
    apply hnp
    have hc' : 1 < (s.proc v).future_process_mask.card := by omega
    by_cases hd : (s.proc v).dirty = true
    · exact Or.inr ⟨hd, ha, hc'⟩
    · have hd' : (s.proc v).dirty = false := by simpa using hd
      refine Or.inl ⟨hd', ?_, hc'⟩
      rw [hinv v (registered_lt hreg) hreg hd']
      exact ha
  intro d hd
  exact Finset.card_le_one.mp hcard d hd a ha

/-- Under the invariants, a `steal_mask` over the CPUs `cs` that ends with
`DLB_ERR_PERM` was asked for the whole future mask of some registered process. -/
theorem steal_mask_cpus_perm (n : Nat) (mask : cpu_set_t) (dry : Bool) (cs : List Nat)
    (s : shdata_t) (hnd : cs.Nodup) (hinv : dirty_invariant s) (hdis : futures_disjoint s)
    (hown : ∀ c ∈ cs, c ∈ mask →
      ∃ v, (s.proc v).pid ≠ NOBODY ∧ c ∈ (s.proc v).future_process_mask)
    (h : (steal_mask_cpus (some n) mask dry cs s).1 = DLB_ERR_PERM) :
    ∃ v, (s.proc v).pid ≠ NOBODY ∧ (s.proc v).future_process_mask.Nonempty
      ∧ ∀ d ∈ (s.proc v).future_process_mask, d ∈ cs ∧ d ∈ mask := by
  induction cs generalizing s with
  | nil => simp [steal_mask_cpus, DLB_SUCCESS, DLB_ERR_PERM] at h
  | cons a cs ih =>
    have hnd' := (List.nodup_cons.mp hnd).2
    have hacs := (List.nodup_cons.mp hnd).1
    unfold steal_mask_cpus at h
    split at h
    · rename_i ham
      have ham' : a ∈ mask := by simpa using ham
      dsimp only at h
      split at h
      · -- CPU `a` was given: go on from the next registry
        have hfr := steal_mask_victims_frame n a dry (List.range s.max_processes) s
        have hi1 := steal_mask_victims_invariants n a dry (List.range s.max_processes) s
          hinv hdis
        have hown1 : ∀ c ∈ cs, c ∈ mask → ∃ v,
            ((steal_mask_victims (some n) a dry (List.range s.max_processes) s).2.proc v).pid
              ≠ NOBODY
            ∧ c ∈ ((steal_mask_victims (some n) a dry (List.range s.max_processes)
                s).2.proc v).future_process_mask := by
          intro c hc hcm
          obtain ⟨v, hv, hcv⟩ := hown c (List.mem_cons_of_mem _ hc) hcm
          have hca : c ≠ a := fun e => hacs (e ▸ hc)
          exact ⟨v, by rw [(hfr v).pid_eq]; exact hv, ((hfr v).future_other c hca).mpr hcv⟩
        obtain ⟨v, hv, hne, hsub⟩ := ih _ hnd' hi1.1 hi1.2 hown1 h
        refine ⟨v, by rw [← (hfr v).pid_eq]; exact hv, ?_, ?_⟩
        · obtain ⟨d, hd⟩ := hne
          have hda : d ≠ a := fun e => hacs (e ▸ (hsub d hd).1)
          exact ⟨d, ((hfr v).future_other d hda).mp hd⟩
        · intro d hd
          by_cases hda : d = a
          · subst hda; exact ⟨List.mem_cons_self _ _, ham'⟩
          · have := hsub d (((hfr v).future_other d hda).mpr hd)
            exact ⟨List.mem_cons_of_mem _ this.1, this.2⟩
      · -- nobody gives CPU `a`
        rename_i hfail
        obtain ⟨v, hv, hav⟩ := hown a (List.mem_cons_self _ _) ham'
        have hgv : gives s a v = false := by
          rw [steal_mask_victims_eq] at hfail
          split at hfail
          · exact absurd rfl hfail
          · rename_i hnone
            have := List.find?_eq_none.mp hnone v (by simpa using registered_lt hv)
            simpa using this
        have hall := not_gives_singleton s a v hinv hv hav hgv
        refine ⟨v, hv, ⟨a, hav⟩, ?_⟩
        intro d hd
        rw [hall d hd]
        exact ⟨List.mem_cons_self _ _, ham'⟩
    · obtain ⟨v, hv, hne, hsub⟩ := ih s hnd' hinv hdis
        (fun c hc hcm => hown c (List.mem_cons_of_mem _ hc) hcm) h
      exact ⟨v, hv, hne, fun d hd => ⟨List.mem_cons_of_mem _ (hsub d hd).1, (hsub d hd).2⟩⟩

/-- Under the invariants, after a committed `steal_mask` that succeeds, a
requested CPU that a registered entry other than the new owner held has been
taken from that entry. -/
theorem steal_mask_cpus_success_victim (n : Nat) (mask : cpu_set_t) (cs : List Nat)
    (s : shdata_t) (hnd : cs.Nodup) (hinv : dirty_invariant s) (hdis : futures_disjoint s)
    (v c : Nat) (hvn : v ≠ n) (hreg : (s.proc v).pid ≠ NOBODY)
    (hcv : c ∈ (s.proc v).future_process_mask) (hc : c ∈ cs) (hcm : c ∈ mask)
    (h : (steal_mask_cpus (some n) mask false cs s).1 = DLB_SUCCESS) :
    c ∈ ((steal_mask_cpus (some n) mask false cs s).2.proc v).stolen_cpus
    ∧ c ∉ ((steal_mask_cpus (some n) mask false cs s).2.proc v).future_process_mask
    ∧ ((steal_mask_cpus (some n) mask false cs s).2.proc v).dirty = true := by
  induction cs generalizing s with
  | nil => simp at hc
  | cons a cs ih =>
    have hnd' := (List.nodup_cons.mp hnd).2
    have hacs := (List.nodup_cons.mp hnd).1
    unfold steal_mask_cpus at h ⊢
    split at h
    · rename_i ham
      rw [if_pos ham]
      dsimp only at h ⊢
      split at h
      · rename_i hok
        rw [if_pos hok]
        have hfr := steal_mask_victims_frame n a false (List.range s.max_processes) s
        have hi1 := steal_mask_victims_invariants n a false (List.range s.max_processes) s
          hinv hdis
        by_cases hca : c = a
        · subst hca
          have hrest := steal_mask_cpus_frame n mask false cs
            (steal_mask_victims (some n) c false (List.range s.max_processes) s).2 v
          have hstep : (steal_mask_victims (some n) c false (List.range s.max_processes)
              s).2.proc v = stolen_from (s.proc v) c := by
            rw [steal_mask_victims_eq] at hok ⊢
            split
            · rename_i p hp
              have hg := List.find?_some hp
              simp only [gives, Bool.and_eq_true, decide_eq_true_eq] at hg
              have hcp := (steal_precondition_mem_future hinv hg.1 hg.2).1
              have hpv : p = v := by
                by_contra hpv
                have := hdis p (registered_lt hg.1) v (registered_lt hreg) ⟨hpv, hg.1, hreg⟩
                exact (Finset.disjoint_left.mp this hcp) hcv
              subst hpv
              rw [steal_cpu_true_proc n p c p s hg.2, if_neg (fun hh => hvn hh.1.symm),
                if_pos rfl]
            · rename_i hnone
              rw [hnone] at hok
              simp at hok
          have hD : ¬ (c ∈ cs ∧ c ∈ mask) := fun hh => hacs hh.1
          refine ⟨?_, ?_, ?_⟩
          · rw [hrest.stolen_other c hD, hstep]; simp [stolen_from]
          · rw [hrest.future_other c hD, hstep]; simp [stolen_from]
          · apply hrest.dirty_mono; rw [hstep]; rfl
        · have hc' : c ∈ cs := by
            rcases List.mem_cons.mp hc with e | e
            · exact absurd e hca
            · exact e
          exact ih _ hnd' hi1.1 hi1.2 (by rw [(hfr v).pid_eq]; exact hreg)
            (((hfr v).future_other c hca).mpr hcv) hc' h
      · simp [DLB_ERR_PERM, DLB_SUCCESS] at h
    · rename_i ham
      rw [if_neg ham]
      have hca : c ≠ a := by
        intro e; subst e; exact ham (by simpa using hcm)
      have hc' : c ∈ cs := by
        rcases List.mem_cons.mp hc with e | e
        · exact absurd e hca
        · exact e
      exact ih s hnd' hinv hdis hreg hcv hc' h

/-- The three outcomes of `setprocessmask`: nothing is done (detached, pid not
found, entry dirty, or dry run refused), or the committing `set_new_mask` has run
on the entry `k` of the pid. -/
theorem setprocessmask_cases (pid : pid_t) (mask : cpu_set_t) (sync : Bool)
    (g : shmem_procinfo) :
    (shmem_procinfo__setprocessmask pid mask sync g).2 = g
    ∨ ∃ k, get_process pid g.shdata = some k ∧ (g.shdata.proc k).dirty = false
        ∧ g.shm_handler = true
        ∧ (set_new_mask g.max_cpus k mask true g.shdata).1 = 0
        ∧ (shmem_procinfo__setprocessmask pid mask sync g).2 =
            { g with shdata := (set_new_mask g.max_cpus k mask false g.shdata).2 } := by
  by_cases hh : g.shm_handler = true
  · cases hk : get_process pid g.shdata with
    | none =>
      left
      unfold shmem_procinfo__setprocessmask
      simp only [hh, Bool.not_true, Bool.false_eq_true, if_false, hk]
    | some k =>
      by_cases hd : (g.shdata.proc k).dirty = true
      · left
        unfold shmem_procinfo__setprocessmask
        simp only [hh, Bool.not_true, Bool.false_eq_true, if_false, hk, hd, if_true]
      · have hd' : (g.shdata.proc k).dirty = false := by simpa using hd
        rw [setprocessmask_eq pid mask sync g k hh hk hd']
        by_cases hc : (set_new_mask g.max_cpus k mask true g.shdata).1 ≠ 0
        · left; rw [if_pos hc]
        · right
          refine ⟨k, rfl, hd', hh, not_not.mp hc, ?_⟩
          rw [if_neg hc]
          split <;> rfl
  · left
    unfold shmem_procinfo__setprocessmask
    simp only [hh, Bool.not_false, if_true]

/-- The future mask of the target after the steals of a committing
`set_new_mask` that succeeded: the old one and the stolen CPUs. -/
theorem steal_mask_success_future (max_cpus k : Nat) (S : cpu_set_t) (s : shdata_t)
    (hk : k < s.max_processes) (hS : ∀ c ∈ S, c < max_cpus)
    (h : (steal_mask max_cpus (some k) S false s).1 = DLB_SUCCESS) (c : Nat) :
    c ∈ ((steal_mask max_cpus (some k) S false s).2.proc k).future_process_mask ↔
      c ∈ (s.proc k).future_process_mask ∨ c ∈ S := by
  unfold steal_mask at h ⊢
  have hfr := steal_mask_cpus_frame k S false (List.range max_cpus).reverse s k
  by_cases hc : c ∈ S
  · have := steal_mask_cpus_success_owner k S (List.range max_cpus).reverse s hk h c
      (by simpa using hS c hc) hc
    simp [this, hc]
  · rw [hfr.future_other c (fun hD => hc hD.2)]
    simp [hc]

/-- The entry of the target after a committing `set_new_mask` that succeeded. -/
theorem set_new_mask_success_future (max_cpus k : Nat) (mask : cpu_set_t) (s : shdata_t)
    (hk : k < s.max_processes)
    (h : (set_new_mask max_cpus k mask false s).1 = DLB_SUCCESS) (c : Nat) :
    (c ∈ ((set_new_mask max_cpus k mask false s).2.proc k).future_process_mask ↔
      if c < max_cpus then c ∈ mask else c ∈ (s.proc k).future_process_mask)
    ∧ ((set_new_mask max_cpus k mask false s).2.proc k).dirty = true := by
  have hmem := set_new_mask_sets_mem max_cpus k mask s
  rw [set_new_mask_commit] at h ⊢
  split at h
  · rename_i hne
    exact absurd h hne
  · rename_i hne
    have hst : (steal_mask max_cpus (some k) (set_new_mask_sets max_cpus k mask s).cpus_to_steal
        false s).1 = DLB_SUCCESS := not_not.mp hne
    have hfut := steal_mask_success_future max_cpus k _ s hk
      (fun c hc => ((hmem.2.1 c).mp hc).1) hst c
    have hk' : k < (steal_mask max_cpus (some k)
        (set_new_mask_sets max_cpus k mask s).cpus_to_steal false s).2.max_processes := by
      unfold steal_mask; rw [steal_mask_cpus_max_processes]; exact hk
    rw [if_neg hne]
    rw [proc_setProc_self _ _ (by simpa using hk')]
    refine ⟨?_, rfl⟩
    simp only [Finset.mem_sdiff, Finset.mem_union, hfut, hmem.1 c, hmem.2.1 c, hmem.2.2 c]
    by_cases hlt : c < max_cpus <;> by_cases hm : c ∈ mask <;>
      by_cases hf : c ∈ s.free_mask <;>
      by_cases ho : c ∈ (s.proc k).future_process_mask <;> simp [hlt, hm, hf, ho]

theorem set_new_mask_success_free_mask (max_cpus k : Nat) (mask : cpu_set_t) (s : shdata_t)
    (h : (set_new_mask max_cpus k mask false s).1 = DLB_SUCCESS) (c : Nat) :
    c ∈ (set_new_mask max_cpus k mask false s).2.free_mask ↔
      (c ∈ s.free_mask ∧ ¬ (c < max_cpus ∧ c ∈ mask))
      ∨ (c < max_cpus ∧ c ∉ mask ∧ c ∈ (s.proc k).future_process_mask) := by
  have hmem := set_new_mask_sets_mem max_cpus k mask s
  rw [set_new_mask_commit] at h ⊢
  split at h
  · rename_i hne
    exact absurd h hne
  · rename_i hne
    rw [if_neg hne]
    simp only [free_mask_setProc, Finset.mem_sdiff, Finset.mem_union, hmem.1 c, hmem.2.2 c]
    tauto

theorem set_new_mask_pid (max_cpus k : Nat) (mask : cpu_set_t) (dry : Bool) (s : shdata_t)
    (i : Nat) : ((set_new_mask max_cpus k mask dry s).2.proc i).pid = (s.proc i).pid := by
  by_cases hik : i = k
  · subst hik
    cases dry
    · have hfr := steal_mask_cpus_frame i (set_new_mask_sets max_cpus i mask s).cpus_to_steal
        false (List.range max_cpus).reverse s i
      rw [set_new_mask_commit]
      split
      · exact hfr.pid_eq
      · rw [proc_setProc]
        split
        · exact hfr.pid_eq
        · exact hfr.pid_eq
    · rw [set_new_mask_dry]
  · exact (set_new_mask_frame_other max_cpus k mask dry s i hik).pid_eq

/-- A committing `set_new_mask` that fails leaves the target with at least the
CPUs it had. -/
theorem set_new_mask_fail_target (max_cpus k : Nat) (mask : cpu_set_t) (s : shdata_t)
    (h : (set_new_mask max_cpus k mask false s).1 ≠ 0) :
    (s.proc k).future_process_mask
      ⊆ ((set_new_mask max_cpus k mask false s).2.proc k).future_process_mask := by
  have hfr := steal_mask_cpus_frame k (set_new_mask_sets max_cpus k mask s).cpus_to_steal
    false (List.range max_cpus).reverse s k
  rw [set_new_mask_commit] at h ⊢
  split
  · exact hfr.owner_mono rfl
  · rename_i hne
    rw [if_neg hne] at h
    exact absurd rfl h

theorem setprocessmask_preserves_nonempty (pid : pid_t) (mask : cpu_set_t) (sync : Bool)
    (g : shmem_procinfo) (hm : ∃ c ∈ mask, c < g.max_cpus) (hinv : all_future_nonempty g) :
    all_future_nonempty (shmem_procinfo__setprocessmask pid mask sync g).2 := by
  rcases setprocessmask_cases pid mask sync g with h | ⟨k, hk, _, _, _, h⟩
  · rw [h]; exact hinv
  · rw [h]
    intro i hi hreg
    simp only [set_new_mask_max_processes] at hi
    simp only [set_new_mask_pid] at hreg
    have hold := hinv i hi hreg
    by_cases hik : i = k
    · subst hik
      by_cases hc : (set_new_mask g.max_cpus i mask false g.shdata).1 = 0
      · obtain ⟨c, hcm, hclt⟩ := hm
        have := (set_new_mask_success_future g.max_cpus i mask g.shdata hi hc c).1
        rw [if_pos hclt] at this
        exact Finset.ne_empty_of_mem (this.mpr hcm)
      · have hsub := set_new_mask_fail_target g.max_cpus i mask g.shdata hc
        obtain ⟨d, hd⟩ := Finset.nonempty_iff_ne_empty.mpr hold
        exact Finset.ne_empty_of_mem (hsub hd)
    · have hfr := set_new_mask_frame_other g.max_cpus k mask false g.shdata i hik
      exact Finset.nonempty_iff_ne_empty.mp
        (hfr.nonempty (Finset.nonempty_iff_ne_empty.mpr hold))

theorem polldrom_preserves_nonempty (pid : pid_t) (g : shmem_procinfo)
    (hinv : all_future_nonempty g) :
    all_future_nonempty (shmem_procinfo__polldrom pid g).2.2 := by
  unfold shmem_procinfo__polldrom
  split
  · exact hinv
  · split
    · exact hinv
    · rename_i k hk
      dsimp only
      split
      · exact hinv
      · intro i hi hreg
        simp only [max_processes_setProc] at hi
        have hold := hinv i hi
        rw [proc_setProc] at hreg ⊢
        split
        · rename_i h
          obtain ⟨rfl, _⟩ := h
          rw [if_pos ⟨rfl, hi⟩] at hreg
          exact hold hreg
        · rename_i h
          rw [if_neg h] at hreg
          exact hold hreg

theorem setprocessmask_max_cpus (pid : pid_t) (mask : cpu_set_t) (sync : Bool)
    (g : shmem_procinfo) :
    (shmem_procinfo__setprocessmask pid mask sync g).2.max_cpus = g.max_cpus := by
  rcases setprocessmask_cases pid mask sync g with h | ⟨k, _, _, _, _, h⟩ <;> rw [h]

theorem polldrom_max_cpus (pid : pid_t) (g : shmem_procinfo) :
    (shmem_procinfo__polldrom pid g).2.2.max_cpus = g.max_cpus := by
  unfold shmem_procinfo__polldrom
  split
  · rfl
  · split
    · rfl
    · dsimp only
      split <;> rfl

/-- A `setprocessmask` that returns `DLB_SUCCESS` has run the committing
`set_new_mask` on a process that was not dirty, and that run succeeded. -/
theorem setprocessmask_success (pid : pid_t) (mask : cpu_set_t) (g : shmem_procinfo) (k : Nat)
    (hk : get_process pid g.shdata = some k)
    (hret : (shmem_procinfo__setprocessmask pid mask false g).1 = some DLB_SUCCESS) :
    (set_new_mask g.max_cpus k mask false g.shdata).1 = DLB_SUCCESS
    ∧ (shmem_procinfo__setprocessmask pid mask false g).2 =
        { g with shdata := (set_new_mask g.max_cpus k mask false g.shdata).2 }
    ∧ (g.shdata.proc k).dirty = false ∧ g.shm_handler = true := by
  have hh : g.shm_handler = true := by
    by_contra hh
    unfold shmem_procinfo__setprocessmask at hret
    simp [hh, DLB_ERR_NOSHMEM, DLB_SUCCESS] at hret
  have hd : (g.shdata.proc k).dirty = false := by
    by_contra hd
    unfold shmem_procinfo__setprocessmask at hret
    simp [hh, hk, hd, DLB_ERR_PDIRTY, DLB_SUCCESS] at hret
  rw [setprocessmask_eq pid mask false g k hh hk hd] at hret ⊢
  by_cases hne : (set_new_mask g.max_cpus k mask true g.shdata).1 ≠ 0
  · rw [if_pos hne] at hret
    simp only [Option.some.injEq] at hret
    exact absurd hret hne
  · rw [if_neg hne] at hret ⊢
    simp only [Bool.false_eq_true, and_false, if_false, Option.some.injEq] at hret ⊢
    exact ⟨hret, trivial, hd, hh⟩

theorem set_new_mask_success_other (max_cpus k : Nat) (mask : cpu_set_t) (s : shdata_t)
    (h : (set_new_mask max_cpus k mask false s).1 = DLB_SUCCESS) :
    (steal_mask max_cpus (some k) (set_new_mask_sets max_cpus k mask s).cpus_to_steal
        false s).1 = DLB_SUCCESS
    ∧ ∀ i, i ≠ k → (set_new_mask max_cpus k mask false s).2.proc i =
        (steal_mask max_cpus (some k) (set_new_mask_sets max_cpus k mask s).cpus_to_steal
          false s).2.proc i := by
  rw [set_new_mask_commit] at h ⊢
  split at h
  · rename_i hne
    exact absurd h hne
  · rename_i hne
    rw [if_neg hne]
    exact ⟨not_not.mp hne, fun i hik => proc_setProc_of_ne _ _ (Ne.symm hik)⟩

/-- The request covers the whole future mask of a registered process other than `pid`. -/
def asks_whole_mask (pid : pid_t) (mask : cpu_set_t) (s : shdata_t) : Prop :=
  ∃ j, j < s.max_processes ∧ (s.proc j).pid ≠ NOBODY ∧ (s.proc j).pid ≠ pid
    ∧ (s.proc j).future_process_mask ≠ ∅ ∧ (s.proc j).future_process_mask ⊆ mask

instance (pid : pid_t) (mask : cpu_set_t) (s : shdata_t) :
    Decidable (asks_whole_mask pid mask s) := by
  unfold asks_whole_mask; infer_instance

/-- Under the invariants a `steal_mask` for the target `k` of `set_new_mask` is
refused only when the request covers the whole future mask of another process. -/
theorem steal_mask_perm_asks_whole (pid : pid_t) (mask : cpu_set_t) (max_cpus k : Nat)
    (dry : Bool) (s : shdata_t) (hklt : k < s.max_processes) (hpid : (s.proc k).pid = pid)
    (hpids : pids_distinct s) (hdis : futures_disjoint s) (hcov : cpus_covered max_cpus s)
    (hinv : dirty_invariant s)
    (h : (steal_mask max_cpus (some k) (set_new_mask_sets max_cpus k mask s).cpus_to_steal
      dry s).1 = DLB_ERR_PERM) : asks_whole_mask pid mask s := by
  have hmem := (set_new_mask_sets_mem max_cpus k mask s).2.1
  unfold steal_mask at h
  obtain ⟨v, hv, hne, hsub⟩ := steal_mask_cpus_perm k _ dry _ s
    (List.nodup_reverse.mpr (List.nodup_range _)) hinv hdis
    (by
      intro c _ hcS
      obtain ⟨hlt, _, hnf, _⟩ := (hmem c).mp hcS
      rcases hcov c hlt with hf | ⟨i, _, hi, hci⟩
      · exact absurd hf hnf
      · exact ⟨i, hi, hci⟩) h
  have hvk : v ≠ k := by
    intro e
    subst e
    obtain ⟨d, hd⟩ := hne
    exact ((hmem d).mp (hsub d hd).2).2.2.2 hd
  refine ⟨v, registered_lt hv, hv, ?_, Finset.nonempty_iff_ne_empty.mp hne, ?_⟩
  · rw [← hpid]
    exact hpids v (registered_lt hv) k hklt hvk hv
  · intro d hd
    exact ((hmem d).mp (hsub d hd).2).2.1

/-- Under the invariants a committed `steal_mask` for a registered target
cannot succeed when the request covers the whole future mask of another process. -/
theorem steal_mask_success_not_whole (pid : pid_t) (mask : cpu_set_t) (max_cpus k : Nat)
    (s : shdata_t) (hklt : k < s.max_processes) (hpid : (s.proc k).pid = pid)
    (hreg : pid ≠ NOBODY) (hdis : futures_disjoint s) (hnf : futures_not_free s)
    (hinv : dirty_invariant s) (hrange : futures_in_range max_cpus s)
    (h : (steal_mask max_cpus (some k) (set_new_mask_sets max_cpus k mask s).cpus_to_steal
      false s).1 = DLB_SUCCESS) : ¬ asks_whole_mask pid mask s := by
  rintro ⟨j, hj, hjreg, hjpid, hjne, hjsub⟩
  have hmem := (set_new_mask_sets_mem max_cpus k mask s).2.1
  have hkreg : (s.proc k).pid ≠ NOBODY := by rw [hpid]; exact hreg
  have hjk : j ≠ k := by
    intro e; subst e; exact hjpid hpid
  unfold steal_mask at h
  have hfrj := steal_mask_cpus_frame k (set_new_mask_sets max_cpus k mask s).cpus_to_steal
    false (List.range max_cpus).reverse s j
  have hfrk := steal_mask_cpus_frame k (set_new_mask_sets max_cpus k mask s).cpus_to_steal
    false (List.range max_cpus).reverse s k
  have hi1 := steal_mask_cpus_invariants k (set_new_mask_sets max_cpus k mask s).cpus_to_steal
    false (List.range max_cpus).reverse s hinv hdis
  obtain ⟨d, hd⟩ := hfrj.nonempty (Finset.nonempty_iff_ne_empty.mpr hjne)
  have hd0 : d ∈ (s.proc j).future_process_mask := hfrj.other_anti hjk hd
  have hdS : d ∈ (set_new_mask_sets max_cpus k mask s).cpus_to_steal := by
    rw [hmem d]
    refine ⟨hrange j hj hjreg d hd0, hjsub hd0, ?_, ?_⟩
    · exact Finset.disjoint_left.mp (hnf j hj hjreg) hd0
    · exact Finset.disjoint_left.mp (hdis j hj k hklt ⟨hjk, hjreg, hkreg⟩) hd0
  have hdk := steal_mask_cpus_success_owner k _ _ s hklt h d
    (by simpa using hrange j hj hjreg d hd0) hdS
  have hlen := steal_mask_cpus_max_processes (some k)
    (set_new_mask_sets max_cpus k mask s).cpus_to_steal false (List.range max_cpus).reverse s
  have := hi1.2 j (by rw [hlen]; exact hj) k (by rw [hlen]; exact hklt)
    ⟨hjk, by rw [hfrj.pid_eq]; exact hjreg, by rw [hfrk.pid_eq]; exact hkreg⟩
  exact (Finset.disjoint_left.mp this hd) hdk

/-! ## The order of the steals -/

theorem gives_eq (s : shdata_t) (c : Nat) :
    (fun p => decide ((s.proc p).pid ≠ NOBODY ∧ steal_precondition (s.proc p) c))
      = gives s c := by
  funext p
  simp [gives, Bool.decide_and]

theorem steal_mask_cpus_eq_in_order (no : Option Nat) (mask : cpu_set_t) (dry : Bool)
    (cs : List Nat) (s : shdata_t) :
    steal_mask_cpus no mask dry cs s =
      steal_mask_in_order no dry (cs.filter (fun c => decide (c ∈ mask))) s := by
  induction cs generalizing s with
  | nil => rfl
  | cons a cs ih =>
    unfold steal_mask_cpus
    by_cases ham : a ∈ mask
    · have h1 : CPU_ISSET a mask = true := by simpa using ham
      rw [if_pos h1, List.filter_cons_of_pos (by simpa using ham)]
      unfold steal_mask_in_order
      rw [gives_eq, steal_mask_victims_eq]
      cases hf : List.find? (gives s a) (List.range s.max_processes) with
      | none => simp
      | some v => simpa using ih _
    · have h1 : ¬ CPU_ISSET a mask = true := by simpa using ham
      rw [if_neg h1, List.filter_cons_of_neg (by simpa using ham)]
      exact ih s

theorem steal_order_sorted (max_cpus : Nat) (mask : cpu_set_t) :
    (steal_order max_cpus mask).Pairwise (fun a b => a > b) := by
  unfold steal_order
  apply List.Pairwise.filter
  rw [List.pairwise_reverse]
  exact List.pairwise_lt_range max_cpus

theorem mem_steal_order (max_cpus : Nat) (mask : cpu_set_t) (c : Nat) :
    c ∈ steal_order max_cpus mask ↔ c ∈ mask ∧ c < max_cpus := by
  unfold steal_order
  simp [List.mem_filter, and_comm]

/-- A committed `steal_mask` over CPUs in descending order that ends with
`DLB_ERR_PERM` stopped at a CPU `c` that no entry gives: the requested CPUs
above `c` are with the new owner and no CPU up to `c` has moved. -/
theorem steal_mask_cpus_perm_prefix (n : Nat) (mask : cpu_set_t) (cs : List Nat)
    (s : shdata_t) (hn : n < s.max_processes) (hsorted : cs.Pairwise (fun a b => a > b))
    (h : (steal_mask_cpus (some n) mask false cs s).1 = DLB_ERR_PERM) :
    ∃ c, c ∈ cs ∧ c ∈ mask
      ∧ (∀ p, p < s.max_processes →
          ((steal_mask_cpus (some n) mask false cs s).2.proc p).pid ≠ NOBODY →
          ¬ steal_precondition ((steal_mask_cpus (some n) mask false cs s).2.proc p) c)
      ∧ (∀ d, d ∈ cs → d ∈ mask → c < d →
          d ∈ ((steal_mask_cpus (some n) mask false cs s).2.proc n).future_process_mask)
      ∧ (∀ d, d ≤ c → ∀ j,
          (d ∈ ((steal_mask_cpus (some n) mask false cs s).2.proc j).future_process_mask
            ↔ d ∈ (s.proc j).future_process_mask)
          ∧ (d ∈ ((steal_mask_cpus (some n) mask false cs s).2.proc j).stolen_cpus
            ↔ d ∈ (s.proc j).stolen_cpus)) := by
  induction cs generalizing s with
  | nil => simp [steal_mask_cpus, DLB_SUCCESS, DLB_ERR_PERM] at h
  | cons a cs ih =>
    have hgt := (List.pairwise_cons.mp hsorted).1
    have hsorted' := (List.pairwise_cons.mp hsorted).2
    unfold steal_mask_cpus at h ⊢
    split at h
    · rename_i ham
      have ham' : a ∈ mask := by simpa using ham
      rw [if_pos ham]
      dsimp only at h ⊢
      split at h
      · rename_i hok
        rw [if_pos hok]
        have hfr := steal_mask_victims_frame n a false (List.range s.max_processes) s
        have hlen := steal_mask_victims_max_processes (some n) a false
          (List.range s.max_processes) s
        obtain ⟨c, hc, hcm, hnone, habove, hbelow⟩ := ih _ (by rw [hlen]; exact hn) hsorted' h
        have hca : c < a := hgt c hc
        refine ⟨c, List.mem_cons_of_mem _ hc, hcm, ?_, ?_, ?_⟩
        · intro p hp
          exact hnone p (by rw [hlen]; exact hp)
        · intro d hd hdm hcd
          rcases List.mem_cons.mp hd with e | e
          · subst e
            have := steal_mask_victims_true_owner n d (List.range s.max_processes) s hok hn
            exact (steal_mask_cpus_frame n mask false cs _ n).owner_mono rfl this
          · exact habove d e hdm hcd
        · intro d hd j
          have hda : d ≠ a := by omega
          rw [(hbelow d hd j).1, (hbelow d hd j).2, (hfr j).future_other d hda,
            (hfr j).stolen_other d hda]
          exact ⟨Iff.rfl, Iff.rfl⟩
      · rename_i hfail
        rw [if_neg hfail]
        have hst : (steal_mask_victims (some n) a false (List.range s.max_processes) s).2 = s
            ∧ ∀ p, p < s.max_processes → gives s a p = false := by
          rw [steal_mask_victims_eq] at hfail ⊢
          split at hfail
          · exact absurd rfl hfail
          · rename_i hnone
            refine ⟨rfl, fun p hp => ?_⟩
            have := List.find?_eq_none.mp hnone p (by simpa using hp)
            simpa using this
        rw [hst.1]
        refine ⟨a, List.mem_cons_self _ _, ham', ?_, ?_, ?_⟩
        · intro p hp hreg hpre
          have := hst.2 p hp
          simp [gives, hreg, hpre] at this
        · intro d hd _ had
          rcases List.mem_cons.mp hd with e | e
          · omega
          · have := hgt d e; omega
        · intro d _ j
          exact ⟨Iff.rfl, Iff.rfl⟩
    · rename_i ham
      rw [if_neg ham]
      obtain ⟨c, hc, hcm, hnone, habove, hbelow⟩ := ih s hn hsorted' h
      refine ⟨c, List.mem_cons_of_mem _ hc, hcm, hnone, ?_, hbelow⟩
      intro d hd hdm hcd
      rcases List.mem_cons.mp hd with e | e
      · subst e; exact absurd (by simpa using hdm) ham
      · exact habove d e hdm hcd

/-! ## Steals without a new owner -/

/-- What stealing the CPUs in `D` without a new owner (the CPUs go to
`free_mask`) may change: the membership of CPUs outside `D` in the future
masks, the stolen masks and `free_mask` never; `free_mask` only grows. -/
structure release_frame (D : Nat → Prop) (s s1 : shdata_t) : Prop where
  max_processes_eq : s1.max_processes = s.max_processes
  future_other : ∀ d, ¬ D d → ∀ j,
    (d ∈ (s1.proc j).future_process_mask ↔ d ∈ (s.proc j).future_process_mask)
  stolen_other : ∀ d, ¬ D d → ∀ j, (d ∈ (s1.proc j).stolen_cpus ↔ d ∈ (s.proc j).stolen_cpus)
  free_other : ∀ d, ¬ D d → (d ∈ s1.free_mask ↔ d ∈ s.free_mask)
  free_mono : s.free_mask ⊆ s1.free_mask

theorem release_frame_refl (D : Nat → Prop) (s : shdata_t) : release_frame D s s :=
  { max_processes_eq := rfl, future_other := fun _ _ _ => Iff.rfl
    stolen_other := fun _ _ _ => Iff.rfl, free_other := fun _ _ => Iff.rfl
    free_mono := Finset.Subset.refl _ }

theorem release_frame_trans {D : Nat → Prop} {s s1 s2 : shdata_t}
    (h1 : release_frame D s s1) (h2 : release_frame D s1 s2) : release_frame D s s2 :=
  { max_processes_eq := h2.max_processes_eq.trans h1.max_processes_eq
    future_other := fun d hd j => (h2.future_other d hd j).trans (h1.future_other d hd j)
    stolen_other := fun d hd j => (h2.stolen_other d hd j).trans (h1.stolen_other d hd j)
    free_other := fun d hd => (h2.free_other d hd).trans (h1.free_other d hd)
    free_mono := h1.free_mono.trans h2.free_mono }

theorem release_frame_mono {D E : Nat → Prop} {s s1 : shdata_t} (hDE : ∀ d, D d → E d)
    (h : release_frame D s s1) : release_frame E s s1 :=
  { max_processes_eq := h.max_processes_eq
    future_other := fun d hd j => h.future_other d (fun hD => hd (hDE d hD)) j
    stolen_other := fun d hd j => h.stolen_other d (fun hD => hd (hDE d hD)) j
    free_other := fun d hd => h.free_other d (fun hD => hd (hDE d hD))
    free_mono := h.free_mono }

theorem steal_cpu_none_true (v c : Nat) (s : shdata_t) (h : steal_precondition (s.proc v) c) :
    (steal_cpu none v c false s).2 =
      { s.setProc v (stolen_from (s.proc v) c) with free_mask := insert c s.free_mask } := by
  have h1 := (steal_cpu_fst_iff none v c false s).mpr h
  unfold steal_cpu at h1 ⊢
  dsimp only at h1 ⊢
  split at h1
  · rename_i hc
    rw [if_pos hc]
    rfl
  · rename_i hc
    dsimp only at h1
    rw [h1] at hc
    simp at hc

theorem steal_cpu_none_frame (v c : Nat) (dry : Bool) (s : shdata_t) :
    release_frame (fun d => d = c) s (steal_cpu none v c dry s).2
    ∧ ((steal_cpu none v c dry s).1 = true → dry = false →
        c ∈ (steal_cpu none v c dry s).2.free_mask) := by
  by_cases hp : steal_precondition (s.proc v) c
  · cases dry
    · rw [steal_cpu_none_true v c s hp]
      have hproc : ∀ j, ({ s.setProc v (stolen_from (s.proc v) c) with
          free_mask := insert c s.free_mask } : shdata_t).proc j
          = (s.setProc v (stolen_from (s.proc v) c)).proc j := fun _ => rfl
      refine ⟨⟨?_, ?_, ?_, ?_, ?_⟩, fun _ _ => by simp⟩
      · simp [shdata_t.max_processes, shdata_t.setProc]
      · intro d hd j
        rw [hproc, proc_setProc]
        split
        · rename_i h; obtain ⟨rfl, _⟩ := h
          simp [stolen_from, hd]
        · rfl
      · intro d hd j
        rw [hproc, proc_setProc]
        split
        · rename_i h; obtain ⟨rfl, _⟩ := h
          simp [stolen_from, hd]
        · rfl
      · intro d hd
        simp [hd]
      · intro d hd
        simp [hd]
    · rw [steal_cpu_dry]
      exact ⟨release_frame_refl _ _, fun _ h => by simp at h⟩
  · have hf : (steal_cpu none v c dry s).1 = false := by
      rw [steal_cpu_fst]; simpa using hp
    rw [steal_cpu_false _ _ _ _ _ hf]
    exact ⟨release_frame_refl _ _, fun h => by rw [hf] at h; simp at h⟩

theorem steal_mask_victims_none_frame (c : Nat) (dry : Bool) (ps : List Nat) (s : shdata_t) :
    release_frame (fun d => d = c) s (steal_mask_victims none c dry ps s).2
    ∧ ((steal_mask_victims none c dry ps s).1 = true → dry = false →
        c ∈ (steal_mask_victims none c dry ps s).2.free_mask) := by
  rw [steal_mask_victims_eq]
  split
  · rename_i v hv
    have hg := List.find?_some hv
    simp only [gives, Bool.and_eq_true, decide_eq_true_eq] at hg
    refine ⟨(steal_cpu_none_frame v c dry s).1, fun _ hd => ?_⟩
    exact (steal_cpu_none_frame v c dry s).2 ((steal_cpu_fst_iff _ _ _ _ _).mpr hg.2) hd
  · exact ⟨release_frame_refl _ _, fun h => by simp at h⟩

theorem steal_mask_cpus_none_frame (mask : cpu_set_t) (dry : Bool) (cs : List Nat)
    (s : shdata_t) :
    release_frame (fun d => d ∈ cs ∧ d ∈ mask) s (steal_mask_cpus none mask dry cs s).2 := by
  induction cs generalizing s with
  | nil => exact release_frame_refl _ _
  | cons c cs ih =>
    unfold steal_mask_cpus
    split
    · rename_i hc
      have hcm : c ∈ mask := by simpa using hc
      have h1 : release_frame (fun d => d ∈ c :: cs ∧ d ∈ mask) s
          (steal_mask_victims none c dry (List.range s.max_processes) s).2 :=
        release_frame_mono (fun d hd => by subst hd; exact ⟨List.mem_cons_self _ _, hcm⟩)
          (steal_mask_victims_none_frame c dry _ s).1
      dsimp only
      split
      · exact release_frame_trans h1
          (release_frame_mono (fun d hd => ⟨List.mem_cons_of_mem _ hd.1, hd.2⟩) (ih _))
      · exact h1
    · exact release_frame_mono (fun d hd => ⟨List.mem_cons_of_mem _ hd.1, hd.2⟩) (ih s)

/-- The failure of a committed `steal_mask` without a new owner, over CPUs in
descending order: it stopped at a CPU `c` that no entry gives, the requested CPUs
above `c` are in `free_mask` and no CPU up to `c` has moved. -/
theorem steal_mask_cpus_none_perm_prefix (mask : cpu_set_t) (cs : List Nat)
    (s : shdata_t) (hsorted : cs.Pairwise (fun a b => a > b))
    (h : (steal_mask_cpus none mask false cs s).1 = DLB_ERR_PERM) :
    ∃ c, c ∈ cs ∧ c ∈ mask
      ∧ (∀ p, p < s.max_processes →
          ((steal_mask_cpus none mask false cs s).2.proc p).pid ≠ NOBODY →
          ¬ steal_precondition ((steal_mask_cpus none mask false cs s).2.proc p) c)
      ∧ (∀ d, d ∈ cs → d ∈ mask → c < d →
          d ∈ (steal_mask_cpus none mask false cs s).2.free_mask)
      ∧ (∀ d, d ≤ c → ∀ j,
          (d ∈ ((steal_mask_cpus none mask false cs s).2.proc j).future_process_mask
            ↔ d ∈ (s.proc j).future_process_mask)
          ∧ (d ∈ ((steal_mask_cpus none mask false cs s).2.proc j).stolen_cpus
            ↔ d ∈ (s.proc j).stolen_cpus)) := by
  induction cs generalizing s with
  | nil => simp [steal_mask_cpus, DLB_SUCCESS, DLB_ERR_PERM] at h
  | cons a cs ih =>
    have hgt := (List.pairwise_cons.mp hsorted).1
    have hsorted' := (List.pairwise_cons.mp hsorted).2
    unfold steal_mask_cpus at h ⊢
    split at h
    · rename_i ham
      have ham' : a ∈ mask := by simpa using ham
      rw [if_pos ham]
      dsimp only at h ⊢
      split at h
      · rename_i hok
        rw [if_pos hok]
        obtain ⟨hfr, hgot⟩ := steal_mask_victims_none_frame a false
          (List.range s.max_processes) s
        obtain ⟨c, hc, hcm, hnone, habove, hbelow⟩ := ih _ hsorted' h
        have hca : c < a := hgt c hc
        refine ⟨c, List.mem_cons_of_mem _ hc, hcm, ?_, ?_, ?_⟩
        · intro p hp
          exact hnone p (by rw [hfr.max_processes_eq]; exact hp)
        · intro d hd hdm hcd
          rcases List.mem_cons.mp hd with e | e
          · subst e
            exact (steal_mask_cpus_none_frame mask false cs _).free_mono (hgot hok rfl)
          · exact habove d e hdm hcd
        · intro d hd j
          have hda : ¬ d = a := by omega
          rw [(hbelow d hd j).1, (hbelow d hd j).2, hfr.future_other d hda j,
            hfr.stolen_other d hda j]
          exact ⟨Iff.rfl, Iff.rfl⟩
      · rename_i hfail
        rw [if_neg hfail]
        have hst : (steal_mask_victims none a false (List.range s.max_processes) s).2 = s
            ∧ ∀ p, p < s.max_processes → gives s a p = false := by
          rw [steal_mask_victims_eq] at hfail ⊢
          split at hfail
          · exact absurd rfl hfail
          · rename_i hnone
            refine ⟨rfl, fun p hp => ?_⟩
            have := List.find?_eq_none.mp hnone p (by simpa using hp)
            simpa using this
        rw [hst.1]
        refine ⟨a, List.mem_cons_self _ _, ham', ?_, ?_, ?_⟩
        · intro p hp hreg hpre
          have := hst.2 p hp
          simp [gives, hreg, hpre] at this
        · intro d hd _ had
          rcases List.mem_cons.mp hd with e | e
          · omega
          · have := hgt d e; omega
        · intro d _ j
          exact ⟨Iff.rfl, Iff.rfl⟩
    · rename_i ham
      rw [if_neg ham]
      obtain ⟨c, hc, hcm, hnone, habove, hbelow⟩ := ih s hsorted' h
      refine ⟨c, List.mem_cons_of_mem _ hc, hcm, hnone, ?_, hbelow⟩
      intro d hd hdm hcd
      rcases List.mem_cons.mp hd with e | e
      · subst e; exact absurd (by simpa using hdm) ham
      · exact habove d e hdm hcd

theorem get_process_congr (pid : pid_t) (s t : shdata_t)
    (hl : t.max_processes = s.max_processes) (hp : ∀ i, (t.proc i).pid = (s.proc i).pid) :
    get_process pid t = get_process pid s := by
  unfold get_process
  rw [hl]
  congr 1
  funext i
  rw [hp i]

/-! ## Lookup of a pid that no entry holds -/

theorem get_process_eq_none {pid : pid_t} {s : shdata_t}
    (h : ∀ i, i < s.max_processes → (s.proc i).pid ≠ pid) : get_process pid s = none := by
  unfold get_process
  rw [List.find?_eq_none]
  intro i hi
  simpa using h i (by simpa using hi)

/-! ## Changes that leave the changed entries dirty -/

/-- The region `s1` differs from `s` only in entries that it leaves dirty:
every entry keeps its pid and its current mask, and is unchanged or dirty. -/
structure dirties (s s1 : shdata_t) : Prop where
  initialized_eq : s1.initialized = s.initialized
  len : s1.max_processes = s.max_processes
  pid_eq : ∀ i, (s1.proc i).pid = (s.proc i).pid
  current_eq : ∀ i, (s1.proc i).current_process_mask = (s.proc i).current_process_mask
  same_or_dirty : ∀ i, s1.proc i = s.proc i ∨ (s1.proc i).dirty = true

theorem dirties_refl (s : shdata_t) : dirties s s :=
  ⟨rfl, rfl, fun _ => rfl, fun _ => rfl, fun _ => Or.inl rfl⟩

theorem dirties_trans {s s1 s2 : shdata_t} (h1 : dirties s s1) (h2 : dirties s1 s2) :
    dirties s s2 :=
  ⟨h2.initialized_eq.trans h1.initialized_eq, h2.len.trans h1.len,
    fun i => (h2.pid_eq i).trans (h1.pid_eq i),
    fun i => (h2.current_eq i).trans (h1.current_eq i),
    fun i => by
      rcases h2.same_or_dirty i with e | d
      · rcases h1.same_or_dirty i with e1 | d1
        · exact Or.inl (e.trans e1)
        · exact Or.inr (by rw [e]; exact d1)
      · exact Or.inr d⟩

theorem dirties_free_mask (s : shdata_t) (f : cpu_set_t) :
    dirties s { s with free_mask := f } :=
  ⟨rfl, rfl, fun _ => rfl, fun _ => rfl, fun _ => Or.inl rfl⟩

theorem dirties_setProc (s : shdata_t) (k : Nat) (v : pinfo_t)
    (hp : v.pid = (s.proc k).pid)
    (hc : v.current_process_mask = (s.proc k).current_process_mask)
    (hd : v.dirty = true) : dirties s (s.setProc k v) := by
  refine ⟨rfl, max_processes_setProc _ _ _, ?_, ?_, ?_⟩
  · intro i
    rw [proc_setProc]
    split
    · rename_i h; rw [← h.1]; exact hp
    · rfl
  · intro i
    rw [proc_setProc]
    split
    · rename_i h; rw [← h.1]; exact hc
    · rfl
  · intro i
    rw [proc_setProc]
    split
    · exact Or.inr hd
    · exact Or.inl rfl

theorem register_mask_dirties (k : Nat) (m : cpu_set_t) (s : shdata_t) :
    dirties s (register_mask k m s).2 := by
  unfold register_mask
  split
  · exact dirties_trans (dirties_free_mask s _) (dirties_setProc _ k _ rfl rfl rfl)
  · exact dirties_refl s

theorem unregister_mask_give_back_dirties (c : Nat) (ps : List Nat) (s : shdata_t) :
    dirties s (unregister_mask_give_back c ps s).2 := by
  induction ps with
  | nil => exact dirties_refl s
  | cons p ps ih =>
    unfold unregister_mask_give_back
    dsimp only
    split
    · exact dirties_setProc _ p _ rfl rfl rfl
    · exact ih

theorem unregister_mask_cpus_dirties (owner : Nat) (mask : cpu_set_t) (cs : List Nat)
    (s : shdata_t) : dirties s (unregister_mask_cpus owner mask cs s) := by
  induction cs generalizing s with
  | nil => exact dirties_refl s
  | cons c cs ih =>
    unfold unregister_mask_cpus
    split
    · dsimp only
      refine dirties_trans ?_ (ih _)
      refine dirties_trans (unregister_mask_give_back_dirties c (List.range s.max_processes) s) ?_
      split
      · exact dirties_setProc _ owner _ rfl rfl rfl
      · exact dirties_trans (dirties_free_mask _ _) (dirties_setProc _ owner _ rfl rfl rfl)
    · exact ih s

theorem unregister_mask_dirties (max_cpus owner : Nat) (mask : cpu_set_t) (rs : Bool)
    (s : shdata_t) : dirties s (unregister_mask max_cpus owner mask rs s).2 := by
  unfold unregister_mask
  split
  · exact dirties_refl s
  · split
    · exact unregister_mask_cpus_dirties _ _ _ _
    · exact dirties_trans (dirties_free_mask s _) (dirties_setProc _ owner _ rfl rfl rfl)

theorem steal_cpu_dirties (no : Option Nat) (v c : Nat) (dry : Bool) (s : shdata_t) :
    dirties s (steal_cpu no v c dry s).2 := by
  unfold steal_cpu
  dsimp only
  split
  · cases no with
    | none =>
      exact dirties_trans (dirties_setProc s v _ (by rfl) (by rfl) (by rfl))
        (dirties_free_mask _ _)
    | some n =>
      exact dirties_trans (dirties_setProc s v _ (by rfl) (by rfl) (by rfl))
        (dirties_setProc _ n _ (by rfl) (by rfl) (by rfl))
  · exact dirties_refl s

theorem steal_mask_victims_dirties (no : Option Nat) (c : Nat) (dry : Bool) (ps : List Nat)
    (s : shdata_t) : dirties s (steal_mask_victims no c dry ps s).2 := by
  rw [steal_mask_victims_eq]
  split
  · exact steal_cpu_dirties _ _ _ _ _
  · exact dirties_refl s

theorem steal_mask_cpus_dirties (no : Option Nat) (mask : cpu_set_t) (dry : Bool)
    (cs : List Nat) (s : shdata_t) : dirties s (steal_mask_cpus no mask dry cs s).2 := by
  induction cs generalizing s with
  | nil => exact dirties_refl s
  | cons c cs ih =>
    have h1 := steal_mask_victims_dirties no c dry (List.range s.max_processes) s
    unfold steal_mask_cpus
    split
    · dsimp only
      split
      · exact dirties_trans h1 (ih _)
      · exact h1
    · exact ih s

theorem set_new_mask_dirties (max_cpus k : Nat) (mask : cpu_set_t) (dry : Bool)
    (s : shdata_t) : dirties s (set_new_mask max_cpus k mask dry s).2 := by
  have h1 : dirties s (steal_mask max_cpus (some k)
      (set_new_mask_sets max_cpus k mask s).cpus_to_steal false s).2 :=
    steal_mask_cpus_dirties _ _ _ _ _
  cases dry
  · rw [set_new_mask_commit]
    split
    · exact h1
    · exact dirties_trans h1 (dirties_trans (dirties_free_mask _ _)
        (dirties_setProc _ k _ (by rfl) (by rfl) (by rfl)))
  · rw [set_new_mask_dry]
    exact dirties_refl s

/-! ## The operations in closed form -/

@[simp] theorem close_shmem_shdata (e : Bool) (g : shmem_procinfo) :
    (close_shmem e g).shdata = g.shdata := by
  unfold close_shmem; split <;> rfl

@[simp] theorem close_shmem_max_cpus (e : Bool) (g : shmem_procinfo) :
    (close_shmem e g).max_cpus = g.max_cpus := by
  unfold close_shmem; split <;> rfl

theorem postfinalize_eq (pid : pid_t) (rs : Bool) (g : shmem_procinfo) (k : Nat)
    (hh : g.shm_handler = true) (hk : get_process pid g.shdata = some k) :
    shmem_procinfo_ext__postfinalize pid rs g =
      (DLB_SUCCESS, { g with shdata := finalize_entry g.max_cpus k rs g.shdata }) := by
  unfold shmem_procinfo_ext__postfinalize finalize_entry
  simp only [hh, Bool.not_true, Bool.false_eq_true, if_false, hk]
  split <;> rfl

theorem finalize_eq (pid : pid_t) (rs : Bool) (g : shmem_procinfo) (k : Nat)
    (hh : g.shm_handler = true) (hk : get_process pid g.shdata = some k) :
    shmem_procinfo__finalize pid rs g =
      (DLB_SUCCESS, close_shmem (shmem_is_empty (finalize_entry g.max_cpus k rs g.shdata))
        { g with shdata := finalize_entry g.max_cpus k rs g.shdata }) := by
  unfold shmem_procinfo__finalize finalize_entry
  simp only [hh, Bool.not_true, Bool.false_eq_true, if_false, hk]
  split <;> rfl

theorem finalize_noproc (pid : pid_t) (rs : Bool) (g : shmem_procinfo)
    (hh : g.shm_handler = true) (hk : get_process pid g.shdata = none) :
    shmem_procinfo__finalize pid rs g =
      (DLB_ERR_NOPROC, close_shmem (shmem_is_empty g.shdata) g) := by
  obtain ⟨sh, sa, mc, sd, rd⟩ := g
  simp only at hh hk
  subst hh
  unfold shmem_procinfo__finalize
  simp only [Bool.not_true, Bool.false_eq_true, if_false, hk]

theorem finalize_noshmem (pid : pid_t) (rs : Bool) (g : shmem_procinfo)
    (hh : g.shm_handler = false) :
    shmem_procinfo__finalize pid rs g = (DLB_ERR_NOSHMEM, close_shmem true g) := by
  obtain ⟨sh, sa, mc, sd, rd⟩ := g
  simp only at hh
  subst hh
  unfold shmem_procinfo__finalize
  simp only [Bool.not_false, if_true]

/-- The slot loop of `init` finds the entry of the pid if there is one, and
the first free entry otherwise. -/
theorem init_slots_eq (pid : pid_t) (s : shdata_t) (ps : List Nat) (process : Option Nat) :
    shmem_procinfo__init_slots pid s ps process =
      match ps.find? (fun p => decide ((s.proc p).pid = pid)) with
      | some p => (some p, true)
      | none =>
        (match process with
          | some q => some q
          | none => ps.find? (fun p => decide ((s.proc p).pid = NOBODY)), false) := by
  induction ps generalizing process with
  | nil => cases process <;> rfl
  | cons p ps ih =>
    unfold shmem_procinfo__init_slots
    by_cases hp : (s.proc p).pid = pid
    · simp only [hp, if_true, List.find?_cons, decide_True]
    · rw [if_neg hp]
      have hf : decide ((s.proc p).pid = pid) = false := by simpa using hp
      simp only [List.find?_cons, hf]
      cases process with
      | some q =>
        simp only [Option.isNone_some, Bool.false_eq_true, false_and, if_false]
        rw [ih]
      | none =>
        by_cases hn : (s.proc p).pid = NOBODY
        · simp only [Option.isNone_none, hn, and_self, if_true, decide_True]
          rw [ih]
        · have hf2 : decide ((s.proc p).pid = NOBODY) = false := by simpa using hn
          rw [if_neg (fun h => hn h.2), ih]
          simp only [hf2]

theorem open_shmem_handler (system_size : Nat) (g : shmem_procinfo) :
    (open_shmem system_size g).shm_handler = true := by
  unfold open_shmem
  split
  · rfl
  · rename_i h
    simpa using h

theorem init_attach_handler (system_size : Nat) (g : shmem_procinfo) :
    (shmem_procinfo__init_attach system_size g).shm_handler = true := by
  unfold shmem_procinfo__init_attach
  dsimp only
  split
  · exact open_shmem_handler system_size g
  · exact open_shmem_handler system_size g

/-- The call `init` in closed form, on the region as it is after the attach:
a preregistered pid only reads; otherwise the first free entry is filled in if
the mask is free; a failed call finds nothing to finalize and only detaches. -/
theorem init_eq (system_size : Nat) (pid : pid_t) (mask : cpu_set_t) (g : shmem_procinfo) :
    shmem_procinfo__init system_size pid mask g =
      match get_process pid (shmem_procinfo__init_attach system_size g).shdata with
      | some p =>
        (DLB_SUCCESS,
          if ((shmem_procinfo__init_attach system_size g).shdata.proc p).dirty then
            some ((shmem_procinfo__init_attach system_size g).shdata.proc p).future_process_mask
          else none,
          shmem_procinfo__init_attach system_size g)
      | none =>
        match get_process NOBODY (shmem_procinfo__init_attach system_size g).shdata with
        | none =>
          (DLB_ERR_NOMEM, none,
            close_shmem (shmem_is_empty (shmem_procinfo__init_attach system_size g).shdata)
              (shmem_procinfo__init_attach system_size g))
        | some p =>
          if mask ⊆ (shmem_procinfo__init_attach system_size g).shdata.free_mask then
            (DLB_SUCCESS, none,
              { shmem_procinfo__init_attach system_size g with
                shdata := init_entry pid mask p
                  (shmem_procinfo__init_attach system_size g).shdata })
          else
            (DLB_ERR_PERM, none,
              close_shmem (shmem_is_empty (shmem_procinfo__init_attach system_size g).shdata)
                (shmem_procinfo__init_attach system_size g)) := by
  have hh := init_attach_handler system_size g
  unfold shmem_procinfo__init
  simp only []
  generalize shmem_procinfo__init_attach system_size g = g1 at hh ⊢
  have heta : ({ g1 with shdata := g1.shdata } : shmem_procinfo) = g1 := by cases g1; rfl
  rw [init_slots_eq]
  cases hk : get_process pid g1.shdata with
  | some p =>
    unfold get_process at hk
    simp only [hk, Option.isNone_some, Bool.false_eq_true, if_false, ne_eq, not_true_eq_false,
      heta]
  | none =>
    have hk' := hk
    unfold get_process at hk'
    cases hf : get_process NOBODY g1.shdata with
    | none =>
      have hf' := hf
      unfold get_process at hf'
      simp only [hk', hf', Option.isNone_none, if_true, heta]
      rw [if_pos (by decide)]
      rw [finalize_noproc pid false g1 hh hk]
    | some p =>
      have hf' := hf
      unfold get_process at hf'
      simp only [hk', hf', Option.isNone_some, Bool.false_eq_true, if_false]
      by_cases hsub : mask ⊆ g1.shdata.free_mask
      · have hr : register_mask p mask g1.shdata =
            (DLB_SUCCESS, ({ g1.shdata with free_mask := g1.shdata.free_mask \ mask }
              : shdata_t).setProc p
              { g1.shdata.proc p with
                future_process_mask := (g1.shdata.proc p).future_process_mask ∪ mask
                dirty := true }) := by
          unfold register_mask
          simp [hsub, shdata_t.proc]
        rw [if_pos hsub, hr]
        simp only [if_true, ne_eq, not_true_eq_false, if_false]
        refine Prod.ext rfl (Prod.ext rfl ?_)
        simp only [init_entry]
        congr 1
        apply shdata_ext
        · rfl
        · rfl
        · simp
        · intro i
          simp only [proc_setProc, max_processes_setProc]
          split
          · rename_i h
            simp only [h.2, and_self, if_true]
          · rfl
      · have hr : register_mask p mask g1.shdata = (DLB_ERR_PERM, g1.shdata) := by
          unfold register_mask
          simp [hsub]
        have hne : DLB_ERR_PERM ≠ DLB_SUCCESS := by decide
        rw [if_neg hsub, hr]
        simp only [hne, if_false, ne_eq, not_false_eq_true, if_true, heta]
        rw [finalize_noproc pid false g1 hh hk]

theorem preinit_slots_eq (max_cpus : Nat) (pid : pid_t) (mask : cpu_set_t) (steal : Int)
    (ps : List Nat) (s : shdata_t) :
    shmem_procinfo_ext__preinit_slots max_cpus pid mask steal ps s =
      match ps.find? (fun p => decide ((s.proc p).pid = pid ∨ (s.proc p).pid = NOBODY)) with
      | none => (none, s)
      | some p =>
        if (s.proc p).pid = pid then (none, s)
        else preinit_entry max_cpus pid mask steal p s := by
  induction ps with
  | nil => rfl
  | cons p ps ih =>
    unfold shmem_procinfo_ext__preinit_slots
    by_cases hp : (s.proc p).pid = pid
    · simp only [hp, if_true, List.find?_cons, true_or, decide_True]
    · rw [if_neg hp]
      by_cases hn : (s.proc p).pid = NOBODY
      · rw [if_pos hn]
        have hd : decide ((s.proc p).pid = pid ∨ (s.proc p).pid = NOBODY) = true := by
          simp [hn]
        simp only [List.find?_cons, hd, if_neg hp]
        unfold preinit_entry
        simp only [set_new_mask_dry, pinfo_t.claimed, CPU_ZERO]
        by_cases hst : steal = 0
        · simp only [hst, if_true]
        · simp only [hst, if_false]
          generalize s.setProc p _ = s1
          by_cases hdry : (set_new_mask max_cpus p mask true s1).1 ≠ 0
          · simp only [hdry, ne_eq, not_false_eq_true, if_true, set_new_mask_dry]
          · simp only [hdry, if_false, set_new_mask_dry]
      · rw [if_neg hn]
        have hd : decide ((s.proc p).pid = pid ∨ (s.proc p).pid = NOBODY) = false := by
          simp [hp, hn]
        simp only [List.find?_cons, hd]
        exact ih

/-- The call `preinit` either leaves the registry as it is (detached, pid
already there, or no free entry) or works on the first free entry. -/
theorem preinit_cases (pid : pid_t) (mask : cpu_set_t) (steal : Int) (g : shmem_procinfo) :
    (shmem_procinfo_ext__preinit pid mask steal g).2 = g
    ∨ ∃ p, p < g.shdata.max_processes ∧ (g.shdata.proc p).pid = NOBODY ∧ pid ≠ NOBODY
        ∧ (∀ i, i < p → (g.shdata.proc i).pid ≠ pid ∧ (g.shdata.proc i).pid ≠ NOBODY)
        ∧ g.shm_handler = true
        ∧ shmem_procinfo_ext__preinit pid mask steal g =
            ((preinit_entry g.max_cpus pid mask steal p g.shdata).1,
              { g with shdata := (preinit_entry g.max_cpus pid mask steal p g.shdata).2 }) := by
  obtain ⟨sh, sa, mc, sd, rd⟩ := g
  unfold shmem_procinfo_ext__preinit
  cases sh
  · left; rfl
  · simp only [Bool.not_true, Bool.false_eq_true, if_false]
    rw [preinit_slots_eq]
    cases hf : (List.range sd.max_processes).find?
        (fun p => decide ((sd.proc p).pid = pid ∨ (sd.proc p).pid = NOBODY)) with
    | none => left; rfl
    | some p =>
      by_cases hp : (sd.proc p).pid = pid
      · left
        simp only [hp, if_true]
      · right
        have h1 := List.find?_some hf
        have h2 := List.mem_of_find?_eq_some hf
        have hn : (sd.proc p).pid = NOBODY := by
          simp only [decide_eq_true_eq] at h1
          exact h1.resolve_left hp
        have hbefore : ∀ i, i < p → ¬ ((sd.proc i).pid = pid ∨ (sd.proc i).pid = NOBODY) := by
          intro i hi
          have := List.find?_range_eq_some.mp hf
          simpa using this.2.2 i hi
        refine ⟨p, by simpa using h2, hn, fun h => hp (hn.trans h.symm), ?_, trivial, ?_⟩
        · intro i hi
          exact ⟨fun h => hbefore i hi (Or.inl h), fun h => hbefore i hi (Or.inr h)⟩
        · simp only [hp, if_false]

theorem polldrom_cases (pid : pid_t) (g : shmem_procinfo) :
    (shmem_procinfo__polldrom pid g).2.2 = g
    ∨ ∃ k, get_process pid g.shdata = some k ∧ (g.shdata.proc k).dirty = true
        ∧ g.shm_handler = true
        ∧ (shmem_procinfo__polldrom pid g).2.2 =
            { g with shdata := polldrom_entry k g.shdata } := by
  unfold shmem_procinfo__polldrom
  by_cases hh : g.shm_handler = true
  · cases hk : get_process pid g.shdata with
    | none => left; simp only [hh, Bool.not_true, Bool.false_eq_true, if_false]
    | some k =>
      by_cases hd : (g.shdata.proc k).dirty = true
      · right
        refine ⟨k, rfl, hd, hh, ?_⟩
        simp only [hh, Bool.not_true, Bool.false_eq_true, if_false, hd, polldrom_entry]
      · left
        simp only [hh, Bool.not_true, Bool.false_eq_true, if_false, hd, Bool.not_false, if_true]
  · left
    simp only [hh, Bool.not_false, if_true]

theorem recover_cases (pid : pid_t) (g : shmem_procinfo) :
    (shmem_procinfo_ext__recover_stolen_cpus pid g).2 = g
    ∨ ∃ k, get_process pid g.shdata = some k ∧ g.shm_handler = true
        ∧ shmem_procinfo_ext__recover_stolen_cpus pid g =
            (DLB_SUCCESS, { g with shdata := recover_entry k g.shdata }) := by
  unfold shmem_procinfo_ext__recover_stolen_cpus
  by_cases hh : g.shm_handler = true
  · cases hk : get_process pid g.shdata with
    | none => left; simp only [hh, Bool.not_true, Bool.false_eq_true, if_false]
    | some k =>
      right
      refine ⟨k, rfl, hh, ?_⟩
      have hr : register_mask k ((g.shdata.proc k).stolen_cpus ∩ g.shdata.free_mask) g.shdata =
          (DLB_SUCCESS,
            ({ g.shdata with
                free_mask := g.shdata.free_mask
                  \ ((g.shdata.proc k).stolen_cpus ∩ g.shdata.free_mask) } : shdata_t).setProc k
              { g.shdata.proc k with
                future_process_mask := (g.shdata.proc k).future_process_mask
                  ∪ ((g.shdata.proc k).stolen_cpus ∩ g.shdata.free_mask)
                dirty := true }) := by
        unfold register_mask
        simp [shdata_t.proc, Finset.inter_subset_right]
      simp only [hh, Bool.not_true, Bool.false_eq_true, if_false, CPU_AND, hr, if_true,
        mu_substract, recover_entry]
      refine Prod.ext rfl ?_
      simp only
      congr 1
      apply shdata_ext
      · rfl
      · rfl
      · simp
      · intro i
        simp only [proc_setProc, max_processes_setProc]
        split
        · rename_i h
          simp only [h.2, and_self, if_true]
        · rfl
  · left
    simp only [hh, Bool.not_false, if_true]

theorem postfinalize_cases (pid : pid_t) (rs : Bool) (g : shmem_procinfo) :
    (shmem_procinfo_ext__postfinalize pid rs g).2 = g
    ∨ ∃ k, get_process pid g.shdata = some k ∧ g.shm_handler = true
        ∧ (shmem_procinfo_ext__postfinalize pid rs g).2 =
            { g with shdata := finalize_entry g.max_cpus k rs g.shdata } := by
  by_cases hh : g.shm_handler = true
  · cases hk : get_process pid g.shdata with
    | none =>
      left
      unfold shmem_procinfo_ext__postfinalize
      simp only [hh, Bool.not_true, Bool.false_eq_true, if_false, hk]
    | some k =>
      right
      exact ⟨k, rfl, hh, by rw [postfinalize_eq pid rs g k hh hk]⟩
  · left
    unfold shmem_procinfo_ext__postfinalize
    simp only [hh, Bool.not_false, if_true]

theorem finalize_cases (pid : pid_t) (rs : Bool) (g : shmem_procinfo) :
    (shmem_procinfo__finalize pid rs g).2.max_cpus = g.max_cpus
    ∧ ((shmem_procinfo__finalize pid rs g).2.shdata = g.shdata
      ∨ ∃ k, get_process pid g.shdata = some k ∧ g.shm_handler = true
          ∧ (shmem_procinfo__finalize pid rs g).2.shdata =
              finalize_entry g.max_cpus k rs g.shdata) := by
  by_cases hh : g.shm_handler = true
  · cases hk : get_process pid g.shdata with
    | none =>
      rw [finalize_noproc pid rs g hh hk]
      exact ⟨by simp, Or.inl (by simp)⟩
    | some k =>
      rw [finalize_eq pid rs g k hh hk]
      exact ⟨by simp, Or.inr ⟨k, rfl, hh, by simp⟩⟩
  · rw [finalize_noshmem pid rs g (by simpa using hh)]
    exact ⟨by simp, Or.inl (by simp)⟩

theorem proc_zero (n i : Nat) : (shdata_t.zero n).proc i = pinfo_t.zero := by
  unfold shdata_t.zero shdata_t.proc
  simp only [List.getD_eq_getElem?_getD, List.getElem?_replicate]
  split <;> rfl

theorem proc_fresh_registry (n i : Nat) : (fresh_registry n).proc i = pinfo_t.zero :=
  proc_zero n i

/-- The region `init` works on after the attach: the one it found, the one it
found with the free mask initialized, or a new one. -/
theorem init_attach_cases (system_size : Nat) (g : shmem_procinfo) :
    (shmem_procinfo__init_attach system_size g).shdata = g.shdata
    ∨ ((shmem_procinfo__init_attach system_size g).shdata =
          { g.shdata with free_mask := mu_get_system_mask system_size, initialized := true }
        ∧ g.shdata.initialized = false)
    ∨ (shmem_procinfo__init_attach system_size g).shdata = fresh_registry system_size := by
  unfold shmem_procinfo__init_attach open_shmem shmem_init
  by_cases hh : g.shm_handler = true
  · simp only [hh, Bool.not_true, Bool.false_eq_true, if_false]
    by_cases hi : g.shdata.initialized = true
    · left; simp only [hi, Bool.not_true, Bool.false_eq_true, if_false]
    · right; left
      have hi' : g.shdata.initialized = false := by simpa using hi
      simp only [hi', Bool.not_false, if_true, and_self]
  · have hh' : g.shm_handler = false := by simpa using hh
    simp only [hh', Bool.not_false, if_true]
    by_cases hd : g.region_deleted = true
    · right; right
      simp only [hd, if_true, shdata_t.zero, Bool.not_false, fresh_registry]
    · have hd' : g.region_deleted = false := by simpa using hd
      simp only [hd', Bool.false_eq_true, if_false]
      by_cases hi : g.shdata.initialized = true
      · left; simp only [hi, Bool.not_true, Bool.false_eq_true, if_false]
      · right; left
        have hi' : g.shdata.initialized = false := by simpa using hi
        simp only [hi', Bool.not_false, if_true, and_self]

theorem init_attach_initialized (system_size : Nat) (g : shmem_procinfo) :
    (shmem_procinfo__init_attach system_size g).shdata.initialized = true := by
  unfold shmem_procinfo__init_attach
  dsimp only
  split
  · rfl
  · rename_i h
    simpa using h

theorem init_attach_max_cpus (system_size : Nat) (g : shmem_procinfo)
    (h : g.max_cpus = system_size) :
    (shmem_procinfo__init_attach system_size g).max_cpus = system_size := by
  have h1 : (open_shmem system_size g).max_cpus = system_size := by
    unfold open_shmem
    split
    · rfl
    · exact h
  unfold shmem_procinfo__init_attach
  dsimp only
  split
  · exact h1
  · exact h1

/-- The registry after `init`, from the region as it is after the attach:
unchanged, or with the first free entry filled in. -/
theorem init_cases (system_size : Nat) (pid : pid_t) (mask : cpu_set_t) (g : shmem_procinfo) :
    (shmem_procinfo__init system_size pid mask g).2.2.max_cpus =
      (shmem_procinfo__init_attach system_size g).max_cpus
    ∧ ((shmem_procinfo__init system_size pid mask g).2.2.shdata =
        (shmem_procinfo__init_attach system_size g).shdata
      ∨ ∃ p, get_process pid (shmem_procinfo__init_attach system_size g).shdata = none
          ∧ get_process NOBODY (shmem_procinfo__init_attach system_size g).shdata = some p
          ∧ mask ⊆ (shmem_procinfo__init_attach system_size g).shdata.free_mask
          ∧ (shmem_procinfo__init system_size pid mask g).2.2.shdata =
              init_entry pid mask p (shmem_procinfo__init_attach system_size g).shdata) := by
  rw [init_eq]
  cases hk : get_process pid (shmem_procinfo__init_attach system_size g).shdata with
  | some p => exact ⟨rfl, Or.inl rfl⟩
  | none =>
    cases hf : get_process NOBODY (shmem_procinfo__init_attach system_size g).shdata with
    | none => exact ⟨by simp, Or.inl (by simp)⟩
    | some p =>
      by_cases hsub : mask ⊆ (shmem_procinfo__init_attach system_size g).shdata.free_mask
      · simp only [hsub, if_true]
        exact ⟨trivial, Or.inr ⟨p, trivial, rfl, trivial, rfl⟩⟩
      · simp only [hsub, if_false]
        exact ⟨by simp, Or.inl (by simp)⟩

/-! ## Invariant 9 along the calls -/

theorem dirty_invariant_iff_on (s : shdata_t) :
    dirty_invariant s ↔ dirty_invariant_on (fun _ => True) s := by
  unfold dirty_invariant dirty_invariant_on
  constructor
  · intro h i hi hr hd c _
    rw [h i hi hr hd]
  · intro h i hi hr hd
    ext c
    exact h i hi hr hd c trivial

theorem dirties_dirty_invariant_on {P : Nat → Prop} {s s1 : shdata_t} (h : dirties s s1)
    (hinv : dirty_invariant_on P s) : dirty_invariant_on P s1 := by
  intro i hi hr hd c hc
  rcases h.same_or_dirty i with e | d
  · rw [e] at hr hd ⊢
    exact hinv i (by rw [← h.len]; exact hi) hr hd c hc
  · rw [d] at hd
    exact absurd hd (by decide)

/-- A store of an entry that is free, dirty, or has equal masks on `P` keeps
the invariant. -/
theorem setProc_dirty_invariant_on {P : Nat → Prop} (s : shdata_t) (k : Nat) (v : pinfo_t)
    (hv : v.pid ≠ NOBODY → v.dirty = false →
      ∀ c, P c → (c ∈ v.current_process_mask ↔ c ∈ v.future_process_mask))
    (hinv : dirty_invariant_on P s) : dirty_invariant_on P (s.setProc k v) := by
  intro i hi hr hd c hc
  rw [max_processes_setProc] at hi
  rw [proc_setProc] at hr hd ⊢
  by_cases h : k = i ∧ k < s.max_processes
  · rw [if_pos h] at hr hd ⊢
    exact hv hr hd c hc
  · rw [if_neg h] at hr hd ⊢
    exact hinv i hi hr hd c hc

theorem finalize_entry_dirty_invariant_on {P : Nat → Prop} (max_cpus k : Nat) (rs : Bool)
    (s : shdata_t) (hinv : dirty_invariant_on P s) :
    dirty_invariant_on P (finalize_entry max_cpus k rs s) := by
  unfold finalize_entry
  apply setProc_dirty_invariant_on
  · intro h; exact absurd rfl h
  · split
    · exact dirties_dirty_invariant_on (unregister_mask_dirties _ _ _ _ _) hinv
    · exact dirties_dirty_invariant_on (unregister_mask_dirties _ _ _ _ _) hinv

theorem init_entry_dirty_invariant_on {P : Nat → Prop} (pid : pid_t) (mask : cpu_set_t)
    (p : Nat) (s : shdata_t) (hinv : dirty_invariant_on P s) :
    dirty_invariant_on P (init_entry pid mask p s) := by
  unfold init_entry
  apply setProc_dirty_invariant_on
  · intro _ _ c _; exact Iff.rfl
  · exact dirties_dirty_invariant_on (dirties_free_mask s _) hinv

theorem polldrom_entry_dirty_invariant_on {P : Nat → Prop} (k : Nat) (s : shdata_t)
    (hinv : dirty_invariant_on P s) : dirty_invariant_on P (polldrom_entry k s) := by
  unfold polldrom_entry
  apply setProc_dirty_invariant_on
  · intro _ _ c _; exact Iff.rfl
  · exact hinv

theorem recover_entry_dirties (k : Nat) (s : shdata_t) : dirties s (recover_entry k s) := by
  unfold recover_entry
  exact dirties_trans (dirties_free_mask s _) (dirties_setProc _ k _ (by rfl) (by rfl) (by rfl))

/-- The future mask of the entry that `preinit` has claimed, when the
registration succeeds. -/
theorem preinit_entry_future (max_cpus : Nat) (pid : pid_t) (mask : cpu_set_t) (steal : Int)
    (p : Nat) (s : shdata_t) (hp : p < s.max_processes)
    (h : (preinit_entry max_cpus pid mask steal p s).1 ≠ none) (c : Nat) :
    (preinit_entry max_cpus pid mask steal p s).1 = some DLB_SUCCESS
    ∧ (c ∈ ((preinit_entry max_cpus pid mask steal p s).2.proc p).future_process_mask ↔
        c ∈ mask ∧ (steal ≠ 0 → c < max_cpus))
    ∧ ((preinit_entry max_cpus pid mask steal p s).2.proc p).current_process_mask = mask
    ∧ ((preinit_entry max_cpus pid mask steal p s).2.proc p).dirty = false
    ∧ ((preinit_entry max_cpus pid mask steal p s).2.proc p).pid = pid := by
  unfold preinit_entry at h ⊢
  dsimp only at h ⊢
  have hp1 : p < (s.setProc p ((s.proc p).claimed pid)).max_processes := by
    rw [max_processes_setProc]; exact hp
  have hs1 : (s.setProc p ((s.proc p).claimed pid)).proc p = (s.proc p).claimed pid :=
    proc_setProc_self _ _ hp
  generalize s.setProc p ((s.proc p).claimed pid) = s1 at h hp1 hs1 ⊢
  by_cases hst : steal = 0
  · simp only [hst, if_true, ne_eq, not_true_eq_false, false_implies, and_true] at h ⊢
    unfold register_mask at h ⊢
    by_cases hsub : mu_is_subset mask s1.free_mask = true
    · simp only [hsub, if_true, DLB_SUCCESS, ne_eq, not_true_eq_false, if_false] at h ⊢
      have hlen : p < (({ s1 with free_mask := mu_substract s1.free_mask mask } : shdata_t).setProc p
          { ({ s1 with free_mask := mu_substract s1.free_mask mask } : shdata_t).proc p with
            future_process_mask := CPU_OR
              (({ s1 with free_mask := mu_substract s1.free_mask mask } : shdata_t).proc
                p).future_process_mask mask
            dirty := true }).max_processes := by
        rw [max_processes_setProc]; exact hp1
      rw [proc_setProc_self _ _ hlen]
      have hlen2 : p < ({ s1 with free_mask := mu_substract s1.free_mask mask }
          : shdata_t).max_processes := hp1
      rw [proc_setProc_self _ _ hlen2]
      have hs1' : ({ s1 with free_mask := mu_substract s1.free_mask mask } : shdata_t).proc p
          = (s.proc p).claimed pid := hs1
      simp only [hs1', pinfo_t.claimed, CPU_OR, Finset.empty_union, and_self, true_and]
    · simp only [hsub, Bool.false_eq_true, if_false, DLB_ERR_PERM, ne_eq, Int.reduceNeg,
        Int.neg_eq_zero, OfNat.ofNat_ne_zero, not_false_eq_true, if_true, not_true_eq_false] at h
  · simp only [hst, if_false, ne_eq, not_false_eq_true, true_implies] at h ⊢
    by_cases hdry : (set_new_mask max_cpus p mask true s1).1 ≠ 0
    · simp only [hdry, ne_eq, not_false_eq_true, if_true, not_true_eq_false] at h
    · simp only [hdry, if_false] at h ⊢
      by_cases hc0 : (set_new_mask max_cpus p mask false s1).1 ≠ 0
      · simp only [hc0, ne_eq, not_false_eq_true, if_true, not_true_eq_false] at h
      · have hsucc : (set_new_mask max_cpus p mask false s1).1 = DLB_SUCCESS := not_not.mp hc0
        have hfut := (set_new_mask_success_future max_cpus p mask s1 hp1 hsucc c).1
        have hpid := set_new_mask_pid max_cpus p mask false s1 p
        have hlen : p < (set_new_mask max_cpus p mask false s1).2.max_processes := by
          rw [set_new_mask_max_processes]; exact hp1
        simp only [hc0, if_false]
        rw [proc_setProc_self _ _ hlen]
        simp only [hfut, hs1, pinfo_t.claimed, Finset.not_mem_empty, hpid, and_true, true_and]
        refine ⟨by rw [hsucc], ?_⟩
        by_cases hlt : c < max_cpus
        · simp [hlt]
        · simp [hlt]

theorem register_mask_success (k : Nat) (m : cpu_set_t) (s : shdata_t)
    (h : m ⊆ s.free_mask) :
    register_mask k m s =
      (DLB_SUCCESS, ({ s with free_mask := s.free_mask \ m } : shdata_t).setProc k
        { s.proc k with
          future_process_mask := (s.proc k).future_process_mask ∪ m, dirty := true }) := by
  unfold register_mask
  have h1 : mu_is_subset m s.free_mask = true := by simpa using h
  rw [if_pos h1]
  rfl

theorem register_mask_fail (k : Nat) (m : cpu_set_t) (s : shdata_t)
    (h : ¬ m ⊆ s.free_mask) : register_mask k m s = (DLB_ERR_PERM, s) := by
  unfold register_mask
  have h1 : ¬ (mu_is_subset m s.free_mask = true) := by simpa using h
  rw [if_neg h1]

/-- The four ways `preinit` can end on the entry it has claimed: the
registration is refused before anything is changed; the committing
`set_new_mask` fails half-way; the mask is registered; the mask is set with
steals. -/
theorem preinit_entry_cases (max_cpus : Nat) (pid : pid_t) (mask : cpu_set_t) (steal : Int)
    (p : Nat) (s : shdata_t) :
    preinit_entry max_cpus pid mask steal p s = (none, s.setProc p ((s.proc p).claimed pid))
    ∨ (steal ≠ 0
        ∧ (set_new_mask max_cpus p mask false (s.setProc p ((s.proc p).claimed pid))).1 ≠ 0
        ∧ preinit_entry max_cpus pid mask steal p s =
          (none, (set_new_mask max_cpus p mask false
            (s.setProc p ((s.proc p).claimed pid))).2))
    ∨ (steal = 0 ∧ mask ⊆ (s.setProc p ((s.proc p).claimed pid)).free_mask
        ∧ preinit_entry max_cpus pid mask steal p s =
          (some DLB_SUCCESS,
            (register_mask p mask (s.setProc p ((s.proc p).claimed pid))).2.setProc p
              { (register_mask p mask (s.setProc p ((s.proc p).claimed pid))).2.proc p with
                current_process_mask := mask, dirty := false, returncode := 0 }))
    ∨ (steal ≠ 0
        ∧ (set_new_mask max_cpus p mask false (s.setProc p ((s.proc p).claimed pid))).1
            = DLB_SUCCESS
        ∧ preinit_entry max_cpus pid mask steal p s =
          (some DLB_SUCCESS,
            (set_new_mask max_cpus p mask false
              (s.setProc p ((s.proc p).claimed pid))).2.setProc p
              { (set_new_mask max_cpus p mask false
                  (s.setProc p ((s.proc p).claimed pid))).2.proc p with
                current_process_mask := mask, dirty := false, returncode := 0 })) := by
  unfold preinit_entry
  dsimp only
  generalize s.setProc p ((s.proc p).claimed pid) = s1
  by_cases hst : steal = 0
  · by_cases hsub : mask ⊆ s1.free_mask
    · refine Or.inr (Or.inr (Or.inl ⟨hst, hsub, ?_⟩))
      rw [if_pos hst, register_mask_success _ _ _ hsub, if_neg (by simp [DLB_SUCCESS])]
    · left
      rw [if_pos hst, register_mask_fail _ _ _ hsub, if_pos (by simp [DLB_ERR_PERM])]
  · by_cases hdry : (set_new_mask max_cpus p mask true s1).1 ≠ 0
    · left
      rw [if_neg hst, if_pos hdry, if_pos hdry]
    · rw [if_neg hst, if_neg hdry]
      by_cases hc0 : (set_new_mask max_cpus p mask false s1).1 ≠ 0
      · refine Or.inr (Or.inl ⟨hst, hc0, ?_⟩)
        rw [if_pos hc0]
      · have hsucc : (set_new_mask max_cpus p mask false s1).1 = DLB_SUCCESS := not_not.mp hc0
        refine Or.inr (Or.inr (Or.inr ⟨hst, hsucc, ?_⟩))
        rw [if_neg hc0, hsucc]

theorem claimed_dirty_invariant_on {P : Nat → Prop} (pid : pid_t) (p : Nat) (s : shdata_t)
    (hinv : dirty_invariant_on P s) :
    dirty_invariant_on P (s.setProc p ((s.proc p).claimed pid)) := by
  apply setProc_dirty_invariant_on _ _ _ _ hinv
  intro _ _ c _
  exact Iff.rfl

theorem preinit_entry_dirty_invariant_on {P : Nat → Prop} (max_cpus : Nat) (pid : pid_t)
    (mask : cpu_set_t) (steal : Int) (p : Nat) (s : shdata_t) (hp : p < s.max_processes)
    (hguard : steal ≠ 0 → ∀ c ∈ mask, P c → c < max_cpus)
    (hinv : dirty_invariant_on P s) :
    dirty_invariant_on P (preinit_entry max_cpus pid mask steal p s).2 := by
  have hinv1 := claimed_dirty_invariant_on pid p s hinv
  have hp1 : p < (s.setProc p ((s.proc p).claimed pid)).max_processes := by
    rw [max_processes_setProc]; exact hp
  have hs1 : (s.setProc p ((s.proc p).claimed pid)).proc p = (s.proc p).claimed pid :=
    proc_setProc_self _ _ hp
  rcases preinit_entry_cases max_cpus pid mask steal p s with h | ⟨_, _, h⟩ | ⟨hst, hsub, h⟩
      | ⟨hst, hsucc, h⟩
  · rw [h]; exact hinv1
  · rw [h]; exact dirties_dirty_invariant_on (set_new_mask_dirties _ _ _ _ _) hinv1
  · rw [h]
    apply setProc_dirty_invariant_on
    · intro _ _ c _
      generalize s.setProc p ((s.proc p).claimed pid) = s1 at hs1 hp1 hsub
      rw [register_mask_success _ _ _ hsub]
      dsimp only
      rw [proc_setProc_self _ _
        (show p < ({ s1 with free_mask := s1.free_mask \ mask } : shdata_t).max_processes
          from hp1)]
      simp [hs1, pinfo_t.claimed]
    · exact dirties_dirty_invariant_on (register_mask_dirties _ _ _) hinv1
  · rw [h]
    apply setProc_dirty_invariant_on
    · intro _ _ c hc
      have hfut := (set_new_mask_success_future max_cpus p mask _ hp1 hsucc c).1
      show c ∈ mask ↔ c ∈ ((set_new_mask max_cpus p mask false
        (s.setProc p ((s.proc p).claimed pid))).2.proc p).future_process_mask
      rw [hfut, hs1]
      by_cases hlt : c < max_cpus
      · rw [if_pos hlt]
      · rw [if_neg hlt]
        constructor
        · intro hm; exact absurd (hguard hst c hm hc) hlt
        · intro h; simp [pinfo_t.claimed] at h
    · exact dirties_dirty_invariant_on (set_new_mask_dirties _ _ _ _ _) hinv1

theorem init_attach_dirty_invariant_on {P : Nat → Prop} (system_size : Nat)
    (g : shmem_procinfo) (hinv : dirty_invariant_on P g.shdata) :
    dirty_invariant_on P (shmem_procinfo__init_attach system_size g).shdata := by
  rcases init_attach_cases system_size g with h | ⟨h, _⟩ | h
  · rw [h]; exact hinv
  · rw [h]; exact hinv
  · rw [h]
    intro i _ hr
    rw [proc_fresh_registry] at hr
    exact absurd rfl hr

/-- Every call keeps invariant 9 on the CPUs that satisfy `P`, and keeps `max_cpus`. -/
theorem registry_call_dirty_invariant_on {P : Nat → Prop} (system_size : Nat)
    (call : registry_call) (g : shmem_procinfo) (hmax : g.max_cpus = system_size)
    (hguard : call.steals_within P system_size) (hinv : dirty_invariant_on P g.shdata) :
    dirty_invariant_on P (call.run system_size g).shdata
    ∧ (call.run system_size g).max_cpus = system_size := by
  cases call with
  | init pid mask =>
    have h1 := init_attach_dirty_invariant_on system_size g hinv
    have h2 := init_attach_max_cpus system_size g hmax
    obtain ⟨hm, hs | ⟨p, _, _, _, hs⟩⟩ := init_cases system_size pid mask g
    · refine ⟨?_, ?_⟩
      · simp only [registry_call.run]; rw [hs]; exact h1
      · simp only [registry_call.run]; rw [hm]; exact h2
    · refine ⟨?_, ?_⟩
      · simp only [registry_call.run]; rw [hs]
        exact init_entry_dirty_invariant_on _ _ _ _ h1
      · simp only [registry_call.run]; rw [hm]; exact h2
  | preinit pid mask steal =>
    simp only [registry_call.run]
    rcases preinit_cases pid mask steal g with h | ⟨p, hp, _, _, _, _, h⟩
    · rw [h]; exact ⟨hinv, hmax⟩
    · rw [h]
      refine ⟨?_, hmax⟩
      apply preinit_entry_dirty_invariant_on _ _ _ _ _ _ hp _ hinv
      rw [hmax]
      exact hguard
  | setprocessmask pid mask sync =>
    simp only [registry_call.run]
    rcases setprocessmask_cases pid mask sync g with h | ⟨k, _, _, _, _, h⟩
    · rw [h]; exact ⟨hinv, hmax⟩
    · rw [h]
      exact ⟨dirties_dirty_invariant_on (set_new_mask_dirties _ _ _ _ _) hinv, hmax⟩
  | polldrom pid =>
    simp only [registry_call.run]
    rcases polldrom_cases pid g with h | ⟨k, _, _, _, h⟩
    · rw [h]; exact ⟨hinv, hmax⟩
    · rw [h]
      exact ⟨polldrom_entry_dirty_invariant_on k _ hinv, hmax⟩
  | recover_stolen_cpus pid =>
    simp only [registry_call.run]
    rcases recover_cases pid g with h | ⟨k, _, _, h⟩
    · rw [h]; exact ⟨hinv, hmax⟩
    · rw [h]
      exact ⟨dirties_dirty_invariant_on (recover_entry_dirties k _) hinv, hmax⟩
  | finalize pid rs =>
    simp only [registry_call.run]
    obtain ⟨hm, hs | ⟨k, _, _, hs⟩⟩ := finalize_cases pid rs g
    · rw [hs, hm]; exact ⟨hinv, hmax⟩
    · rw [hs, hm]
      exact ⟨finalize_entry_dirty_invariant_on _ _ _ _ hinv, hmax⟩
  | postfinalize pid rs =>
    simp only [registry_call.run]
    rcases postfinalize_cases pid rs g with h | ⟨k, _, _, h⟩
    · rw [h]; exact ⟨hinv, hmax⟩
    · rw [h]
      exact ⟨finalize_entry_dirty_invariant_on _ _ _ _ hinv, hmax⟩

/-- Every sequence of calls keeps invariant 9 on the CPUs that satisfy `P`. -/
theorem run_registry_calls_dirty_invariant_on {P : Nat → Prop} (system_size : Nat)
    (calls : List registry_call) (g : shmem_procinfo) (hmax : g.max_cpus = system_size)
    (hguard : ∀ call ∈ calls, call.steals_within P system_size)
    (hinv : dirty_invariant_on P g.shdata) :
    dirty_invariant_on P (run_registry_calls system_size calls g).shdata
    ∧ (run_registry_calls system_size calls g).max_cpus = system_size := by
  induction calls generalizing g with
  | nil => exact ⟨hinv, hmax⟩
  | cons call calls ih =>
    have h1 := registry_call_dirty_invariant_on system_size call g hmax
      (hguard call (List.mem_cons_self _ _)) hinv
    exact ih (call.run system_size g) h1.2
      (fun c hc => hguard c (List.mem_cons_of_mem _ hc)) h1.1

/-! ## Giving CPUs back (`unregister_mask` with `return_stolen`) -/

theorem unregister_mask_give_back_eq (c : Nat) (ps : List Nat) (s : shdata_t) :
    unregister_mask_give_back c ps s =
      match ps.find? (claims s c) with
      | some p =>
        (true, s.setProc p
          { s.proc p with
            future_process_mask := insert c (s.proc p).future_process_mask
            stolen_cpus := (s.proc p).stolen_cpus.erase c
            dirty := true })
      | none => (false, s) := by
  induction ps with
  | nil => rfl
  | cons p ps ih =>
    unfold unregister_mask_give_back
    dsimp only
    by_cases h : (s.proc p).pid ≠ NOBODY ∧ CPU_ISSET c (s.proc p).stolen_cpus = true
    · have hc : claims s c p = true := by
        simp only [claims, Bool.and_eq_true, decide_eq_true_eq]; exact h
      rw [if_pos h]
      simp only [List.find?_cons, hc]
      rfl
    · have hc : claims s c p = false := by
        simp only [claims, Bool.and_eq_true, decide_eq_true_eq] at h ⊢
        simpa using h
      rw [if_neg h]
      simp only [List.find?_cons, hc]
      exact ih

theorem unregister_mask_cpus_cons (owner : Nat) (mask : cpu_set_t) (c : Nat) (cs : List Nat)
    (s : shdata_t) :
    unregister_mask_cpus owner mask (c :: cs) s =
      if CPU_ISSET c mask then
        unregister_mask_cpus owner mask cs (unregister_mask_step owner c s)
      else unregister_mask_cpus owner mask cs s := rfl

/-- The step in closed form. -/
theorem unregister_mask_step_eq (k c : Nat) (s : shdata_t) :
    unregister_mask_step k c s =
      match claimant s c with
      | some p =>
        (s.setProc p
          { s.proc p with
            future_process_mask := insert c (s.proc p).future_process_mask
            stolen_cpus := (s.proc p).stolen_cpus.erase c
            dirty := true }).setProc k
          { (s.setProc p
              { s.proc p with
                future_process_mask := insert c (s.proc p).future_process_mask
                stolen_cpus := (s.proc p).stolen_cpus.erase c
                dirty := true }).proc k with
            future_process_mask := ((s.setProc p
              { s.proc p with
                future_process_mask := insert c (s.proc p).future_process_mask
                stolen_cpus := (s.proc p).stolen_cpus.erase c
                dirty := true }).proc k).future_process_mask.erase c
            dirty := true }
      | none =>
        ({ s with free_mask := insert c s.free_mask } : shdata_t).setProc k
          { s.proc k with
            future_process_mask := (s.proc k).future_process_mask.erase c, dirty := true } := by
  unfold unregister_mask_step claimant
  rw [unregister_mask_give_back_eq]
  cases (List.range s.max_processes).find? (claims s c) with
  | some p => rfl
  | none => rfl

theorem claimant_some {s : shdata_t} {c p : Nat} (h : claimant s c = some p) :
    p < s.max_processes ∧ (s.proc p).pid ≠ NOBODY ∧ c ∈ (s.proc p).stolen_cpus := by
  unfold claimant at h
  have h1 := List.find?_some h
  have h2 := List.mem_of_find?_eq_some h
  simp only [claims, Bool.and_eq_true, decide_eq_true_eq, CPU_ISSET] at h1
  exact ⟨by simpa using h2, h1.1, h1.2⟩

/-- What one step of giving back the CPU `c` of the owner `k` changes. -/
structure give_back_frame (k c : Nat) (s t : shdata_t) : Prop where
  len : t.max_processes = s.max_processes
  pid_eq : ∀ i, (t.proc i).pid = (s.proc i).pid
  future_other : ∀ i d, d ≠ c →
    (d ∈ (t.proc i).future_process_mask ↔ d ∈ (s.proc i).future_process_mask)
  stolen_anti : ∀ i, (t.proc i).stolen_cpus ⊆ (s.proc i).stolen_cpus
  free_other : ∀ d, d ≠ c → (d ∈ t.free_mask ↔ d ∈ s.free_mask)
  free_mono : s.free_mask ⊆ t.free_mask
  owner_loses : k < s.max_processes → c ∉ (t.proc k).future_process_mask
  holder : ∀ i, c ∈ (t.proc i).future_process_mask →
    i ≠ k ∧ (c ∈ (s.proc i).future_process_mask ∨ claimant s c = some i)
  taken : ∀ p, claimant s c = some p → p ≠ k → c ∈ (t.proc p).future_process_mask
  kept : ∀ i, i ≠ k → c ∈ (s.proc i).future_process_mask → c ∈ (t.proc i).future_process_mask
  freed : claimant s c = none → c ∈ t.free_mask
  free_c : c ∈ t.free_mask → c ∈ s.free_mask ∨ claimant s c = none

theorem unregister_mask_step_frame (k c : Nat) (s : shdata_t) :
    give_back_frame k c s (unregister_mask_step k c s) := by
  rw [unregister_mask_step_eq]
  cases hcl : claimant s c with
  | none =>
    dsimp only
    have hproc : ∀ i, (({ s with free_mask := insert c s.free_mask } : shdata_t).setProc k
          { s.proc k with
            future_process_mask := (s.proc k).future_process_mask.erase c, dirty := true }).proc i
        = if k = i ∧ k < s.max_processes then
            { s.proc k with
              future_process_mask := (s.proc k).future_process_mask.erase c, dirty := true }
          else s.proc i := by
      intro i
      rw [proc_setProc]
      rfl
    refine ⟨by simp [shdata_t.max_processes, shdata_t.setProc], ?_, ?_, ?_, ?_, ?_, ?_, ?_,
      ?_, ?_, ?_, ?_⟩
    · intro i
      rw [hproc]
      split
      · rename_i h; rw [← h.1]
      · rfl
    · intro i d hd
      rw [hproc]
      split
      · rename_i h; rw [← h.1]; simp [hd]
      · rfl
    · intro i
      rw [hproc]
      split
      · rename_i h; rw [← h.1]
      · exact Finset.Subset.refl _
    · intro d hd
      simp [hd]
    · intro d hd
      simp [hd]
    · intro hk
      rw [hproc, if_pos ⟨rfl, hk⟩]
      simp
    · intro i hi
      rw [hproc] at hi
      split at hi
      · simp at hi
      · rename_i h
        refine ⟨?_, Or.inl hi⟩
        intro hik
        subst hik
        have hge : ¬ i < s.max_processes := fun hlt => h ⟨rfl, hlt⟩
        rw [proc_of_le s i (not_lt.mp hge)] at hi
        simp [pinfo_t.zero] at hi
    · intro p hp
      rw [hcl] at hp
      cases hp
    · intro i hik hi
      rw [hproc, if_neg (fun h => hik h.1.symm)]
      exact hi
    · intro _
      simp
    · intro _
      exact Or.inr hcl
  | some p =>
    dsimp only
    obtain ⟨hplt, hpreg, hpst⟩ := claimant_some hcl
    have hproc : ∀ i, ((s.setProc p
          { s.proc p with
            future_process_mask := insert c (s.proc p).future_process_mask
            stolen_cpus := (s.proc p).stolen_cpus.erase c
            dirty := true }).setProc k
          { (s.setProc p
              { s.proc p with
                future_process_mask := insert c (s.proc p).future_process_mask
                stolen_cpus := (s.proc p).stolen_cpus.erase c
                dirty := true }).proc k with
            future_process_mask := ((s.setProc p
              { s.proc p with
                future_process_mask := insert c (s.proc p).future_process_mask
                stolen_cpus := (s.proc p).stolen_cpus.erase c
                dirty := true }).proc k).future_process_mask.erase c
            dirty := true }).proc i
        = if k = i ∧ k < s.max_processes then
            { s.proc k with
              future_process_mask := (s.proc k).future_process_mask.erase c
              stolen_cpus := if p = k then (s.proc k).stolen_cpus.erase c
                else (s.proc k).stolen_cpus
              dirty := true }
          else if p = i then
            { s.proc p with
              future_process_mask := insert c (s.proc p).future_process_mask
              stolen_cpus := (s.proc p).stolen_cpus.erase c
              dirty := true }
          else s.proc i := by
      intro i
      simp only [proc_setProc, max_processes_setProc, hplt, and_true]
      by_cases hki : k = i ∧ k < s.max_processes
      · rw [if_pos hki, if_pos hki]
        by_cases hpk : p = k
        · subst hpk
          simp
        · simp [hpk]
      · rw [if_neg hki, if_neg hki]
    refine ⟨by simp, ?_, ?_, ?_, ?_, ?_, ?_, ?_, ?_, ?_, ?_, ?_⟩
    · intro i
      rw [hproc]
      split
      · rename_i h; rw [← h.1]
      · split
        · rename_i h; rw [← h]
        · rfl
    · intro i d hd
      rw [hproc]
      split
      · rename_i h; rw [← h.1]; simp [hd]
      · split
        · rename_i h; rw [← h]; simp [hd]
        · rfl
    · intro i
      rw [hproc]
      split
      · rename_i h
        rw [← h.1]
        dsimp only
        split
        · exact Finset.erase_subset _ _
        · exact Finset.Subset.refl _
      · split
        · rename_i h; rw [← h]; exact Finset.erase_subset _ _
        · exact Finset.Subset.refl _
    · intro d _
      simp
    · simp
    · intro hk
      rw [hproc, if_pos ⟨rfl, hk⟩]
      simp
    · intro i hi
      rw [hproc] at hi
      split at hi
      · simp at hi
      · rename_i h
        have hik : i ≠ k := by
          intro hik
          subst hik
          have hge : ¬ i < s.max_processes := fun hlt => h ⟨rfl, hlt⟩
          split at hi
          · rename_i hpi
            subst hpi
            exact hge hplt
          · rw [proc_of_le s i (not_lt.mp hge)] at hi
            simp [pinfo_t.zero] at hi
        refine ⟨hik, ?_⟩
        split at hi
        · rename_i hpi
          subst hpi
          exact Or.inr hcl
        · exact Or.inl hi
    · intro q hq hqk
      have hqp : q = p := by
        rw [hq] at hcl
        exact (Option.some.inj hcl)
      subst hqp
      rw [hproc, if_neg (fun h => hqk h.1.symm), if_pos rfl]
      simp
    · intro i hik hi
      rw [hproc, if_neg (fun h => hik h.1.symm)]
      split
      · rename_i h; subst h; simp
      · exact hi
    · intro h
      rw [hcl] at h
      cases h
    · intro h
      exact Or.inl (by simpa using h)

/-! ## At most one owner per CPU along the calls -/

/-- CPUs of the free set `R` go to the entry `k`; nothing else gains. -/
theorem single_owner_acquire (s t : shdata_t) (k : Nat) (R : cpu_set_t)
    (hR : R ⊆ s.free_mask) (hfree : t.free_mask ⊆ s.free_mask \ R)
    (hfut : ∀ i, (t.proc i).pid ≠ NOBODY → ∀ c ∈ (t.proc i).future_process_mask,
      ((s.proc i).pid ≠ NOBODY ∧ c ∈ (s.proc i).future_process_mask) ∨ (i = k ∧ c ∈ R))
    (h : single_owner s) : single_owner t := by
  obtain ⟨hdis, hnf⟩ := h
  have hnot : ∀ i c, (s.proc i).pid ≠ NOBODY → c ∈ (s.proc i).future_process_mask →
      c ∉ s.free_mask := fun i c hr hc hf =>
    Finset.disjoint_left.mp (hnf i (registered_lt hr) hr) hc hf
  constructor
  · intro i _ j _ hij
    obtain ⟨hne, hri, hrj⟩ := hij
    rw [Finset.disjoint_left]
    intro c hci hcj
    rcases hfut i hri c hci with ⟨hsi, hci'⟩ | ⟨hik, hcR⟩
    · rcases hfut j hrj c hcj with ⟨hsj, hcj'⟩ | ⟨_, hcR⟩
      · exact Finset.disjoint_left.mp
          (hdis i (registered_lt hsi) j (registered_lt hsj) ⟨hne, hsi, hsj⟩) hci' hcj'
      · exact hnot i c hsi hci' (hR hcR)
    · rcases hfut j hrj c hcj with ⟨hsj, hcj'⟩ | ⟨hjk, _⟩
      · exact hnot j c hsj hcj' (hR hcR)
      · exact hne (hik.trans hjk.symm)
  · intro i _ hri
    rw [Finset.disjoint_left]
    intro c hci hcf
    have hcf' := hfree hcf
    rw [Finset.mem_sdiff] at hcf'
    rcases hfut i hri c hci with ⟨hsi, hci'⟩ | ⟨_, hcR⟩
    · exact hnot i c hsi hci' hcf'.1
    · exact hcf'.2 hcR

/-- CPUs `M` of the registered entry `k` go to the free mask; nothing else gains. -/
theorem single_owner_release (s t : shdata_t) (k : Nat) (M : cpu_set_t)
    (hk : (s.proc k).pid ≠ NOBODY) (hM : M ⊆ (s.proc k).future_process_mask)
    (hfree : t.free_mask ⊆ s.free_mask ∪ M)
    (hfut : ∀ i, (t.proc i).pid ≠ NOBODY → ∀ c ∈ (t.proc i).future_process_mask,
      (s.proc i).pid ≠ NOBODY ∧ c ∈ (s.proc i).future_process_mask ∧ (i = k → c ∉ M))
    (h : single_owner s) : single_owner t := by
  obtain ⟨hdis, hnf⟩ := h
  constructor
  · intro i _ j _ hij
    obtain ⟨hne, hri, hrj⟩ := hij
    rw [Finset.disjoint_left]
    intro c hci hcj
    obtain ⟨hsi, hci', _⟩ := hfut i hri c hci
    obtain ⟨hsj, hcj', _⟩ := hfut j hrj c hcj
    exact Finset.disjoint_left.mp
      (hdis i (registered_lt hsi) j (registered_lt hsj) ⟨hne, hsi, hsj⟩) hci' hcj'
  · intro i _ hri
    rw [Finset.disjoint_left]
    intro c hci hcf
    obtain ⟨hsi, hci', hnM⟩ := hfut i hri c hci
    rcases Finset.mem_union.mp (hfree hcf) with hf | hm
    · exact Finset.disjoint_left.mp (hnf i (registered_lt hsi) hsi) hci' hf
    · by_cases hik : i = k
      · exact hnM hik hm
      · exact Finset.disjoint_left.mp
          (hdis i (registered_lt hsi) k (registered_lt hk) ⟨hik, hsi, hk⟩) hci' (hM hm)

theorem register_mask_single_owner (k : Nat) (m : cpu_set_t) (s : shdata_t)
    (hk : (s.proc k).pid ≠ NOBODY) (h : single_owner s) :
    single_owner (register_mask k m s).2 := by
  by_cases hsub : m ⊆ s.free_mask
  · rw [register_mask_success _ _ _ hsub]
    apply single_owner_acquire s _ k m hsub _ _ h
    · exact Finset.Subset.refl _
    · intro i hri c hc
      rw [proc_setProc] at hri hc
      by_cases hki : k = i ∧ k < ({ s with free_mask := s.free_mask \ m }
          : shdata_t).max_processes
      · rw [if_pos hki] at hc
        obtain ⟨rfl, _⟩ := hki
        rcases Finset.mem_union.mp hc with h1 | h1
        · exact Or.inl ⟨hk, h1⟩
        · exact Or.inr ⟨rfl, h1⟩
      · rw [if_neg hki] at hri hc
        exact Or.inl ⟨hri, hc⟩
  · rw [register_mask_fail _ _ _ hsub]
    exact h

theorem unregister_mask_step_single_owner (k c : Nat) (s : shdata_t)
    (hk : (s.proc k).pid ≠ NOBODY) (hc : c ∈ (s.proc k).future_process_mask)
    (h : single_owner s) : single_owner (unregister_mask_step k c s) := by
  have F := unregister_mask_step_frame k c s
  obtain ⟨hdis, hnf⟩ := h
  have hreg : ∀ i, ((unregister_mask_step k c s).proc i).pid ≠ NOBODY →
      (s.proc i).pid ≠ NOBODY := fun i hi => by rwa [F.pid_eq i] at hi
  have hclaim : ∀ i, ((unregister_mask_step k c s).proc i).pid ≠ NOBODY →
      c ∈ ((unregister_mask_step k c s).proc i).future_process_mask →
      claimant s c = some i := by
    intro i hri hci
    obtain ⟨hik, h1 | h1⟩ := F.holder i hci
    · exact absurd hc (Finset.disjoint_left.mp
        (hdis i (registered_lt (hreg i hri)) k (registered_lt hk) ⟨hik, hreg i hri, hk⟩) h1)
    · exact h1
  constructor
  · intro i _ j _ hij
    obtain ⟨hne, hri, hrj⟩ := hij
    rw [Finset.disjoint_left]
    intro d hdi hdj
    by_cases hdc : d = c
    · subst hdc
      have e1 := hclaim i hri hdi
      have e2 := hclaim j hrj hdj
      rw [e1] at e2
      exact hne (Option.some.inj e2)
    · rw [F.future_other i d hdc] at hdi
      rw [F.future_other j d hdc] at hdj
      exact Finset.disjoint_left.mp
        (hdis i (registered_lt (hreg i hri)) j (registered_lt (hreg j hrj))
          ⟨hne, hreg i hri, hreg j hrj⟩) hdi hdj
  · intro i _ hri
    rw [Finset.disjoint_left]
    intro d hdi hdf
    by_cases hdc : d = c
    · subst hdc
      have e1 := hclaim i hri hdi
      rcases F.free_c hdf with h1 | h1
      · exact Finset.disjoint_left.mp (hnf k (registered_lt hk) hk) hc h1
      · rw [e1] at h1
        cases h1
    · rw [F.future_other i d hdc] at hdi
      rw [F.free_other d hdc] at hdf
      exact Finset.disjoint_left.mp (hnf i (registered_lt (hreg i hri)) (hreg i hri)) hdi hdf

theorem unregister_mask_cpus_single_owner (k : Nat) (mask : cpu_set_t) (cs : List Nat)
    (s : shdata_t) (hnd : cs.Nodup) (hk : (s.proc k).pid ≠ NOBODY)
    (hm : ∀ c ∈ cs, c ∈ mask → c ∈ (s.proc k).future_process_mask)
    (h : single_owner s) : single_owner (unregister_mask_cpus k mask cs s) := by
  induction cs generalizing s with
  | nil => exact h
  | cons c cs ih =>
    rw [unregister_mask_cpus_cons]
    have hnd' := (List.nodup_cons.mp hnd).2
    have hcn := (List.nodup_cons.mp hnd).1
    by_cases hcm : c ∈ mask
    · have hcm' : CPU_ISSET c mask = true := by simpa using hcm
      rw [if_pos hcm']
      have F := unregister_mask_step_frame k c s
      apply ih _ hnd'
      · rw [F.pid_eq]; exact hk
      · intro d hd hdm
        have hdc : d ≠ c := fun e => hcn (e ▸ hd)
        rw [F.future_other k d hdc]
        exact hm d (List.mem_cons_of_mem _ hd) hdm
      · exact unregister_mask_step_single_owner k c s hk
          (hm c (List.mem_cons_self _ _) hcm) h
    · have hcm' : ¬ (CPU_ISSET c mask = true) := by simpa using hcm
      rw [if_neg hcm']
      exact ih s hnd' hk (fun d hd hdm => hm d (List.mem_cons_of_mem _ hd) hdm) h

theorem unregister_mask_single_owner (max_cpus k : Nat) (m : cpu_set_t) (rs : Bool)
    (s : shdata_t) (hk : (s.proc k).pid ≠ NOBODY) (hm : m ⊆ (s.proc k).future_process_mask)
    (h : single_owner s) : single_owner (unregister_mask max_cpus k m rs s).2 := by
  unfold unregister_mask
  split
  · exact h
  · split
    · exact unregister_mask_cpus_single_owner k m _ s (List.nodup_range _) hk
        (fun c _ hc => hm hc) h
    · dsimp only
      apply single_owner_release s _ k m hk hm _ _ h
      · exact Finset.Subset.refl _
      · intro i hri c hc
        rw [proc_setProc] at hri hc
        by_cases hki : k = i ∧ k < ({ s with free_mask := CPU_OR s.free_mask m }
            : shdata_t).max_processes
        · rw [if_pos hki] at hc
          obtain ⟨rfl, _⟩ := hki
          simp only [mu_substract, Finset.mem_sdiff] at hc
          exact ⟨hk, hc.1, fun _ => hc.2⟩
        · rw [if_neg hki] at hri hc
          refine ⟨hri, hc, fun hik => ?_⟩
          subst hik
          have hge : ¬ i < s.max_processes := fun hlt => hki ⟨rfl, hlt⟩
          exact absurd (registered_lt hk) hge

/-- Nothing gains a CPU: entries and the free mask only lose. -/
theorem single_owner_anti (s t : shdata_t) (hfree : t.free_mask ⊆ s.free_mask)
    (hfut : ∀ i, (t.proc i).pid ≠ NOBODY → ∀ c ∈ (t.proc i).future_process_mask,
      (s.proc i).pid ≠ NOBODY ∧ c ∈ (s.proc i).future_process_mask)
    (h : single_owner s) : single_owner t := by
  apply single_owner_acquire s t 0 ∅ (Finset.empty_subset _) _ _ h
  · simpa using hfree
  · intro i hri c hc
    exact Or.inl (hfut i hri c hc)

theorem steal_mask_victims_not_free (n c : Nat) (dry : Bool) (ps : List Nat) (s : shdata_t)
    (hinv : dirty_invariant s) (hnf : futures_not_free s) :
    futures_not_free (steal_mask_victims (some n) c dry ps s).2 := by
  have hfr := steal_mask_victims_frame n c dry ps s
  have hfree := steal_mask_victims_free_mask n c dry ps s
  rw [steal_mask_victims_eq] at hfr hfree ⊢
  split
  · rename_i v hv
    rw [hv] at hfr hfree
    simp only at hfr hfree
    have hg := List.find?_some hv
    simp only [gives, Bool.and_eq_true, decide_eq_true_eq] at hg
    obtain ⟨hreg, hpre⟩ := hg
    have hcv := (steal_precondition_mem_future hinv hreg hpre).1
    have hcfree : c ∉ s.free_mask := fun hf =>
      Finset.disjoint_left.mp (hnf v (registered_lt hreg) hreg) hcv hf
    intro i _ hri
    have hri' : (s.proc i).pid ≠ NOBODY := by rwa [(hfr i).pid_eq] at hri
    rw [Finset.disjoint_left]
    intro d hdi hdf
    rw [hfree] at hdf
    by_cases hdc : d = c
    · subst hdc; exact hcfree hdf
    · rw [(hfr i).future_other d hdc] at hdi
      exact Finset.disjoint_left.mp (hnf i (registered_lt hri') hri') hdi hdf
  · exact hnf

theorem steal_mask_cpus_owners (n : Nat) (mask : cpu_set_t) (dry : Bool) (cs : List Nat)
    (s : shdata_t) (hinv : dirty_invariant s) (h : single_owner s) :
    dirty_invariant (steal_mask_cpus (some n) mask dry cs s).2
    ∧ single_owner (steal_mask_cpus (some n) mask dry cs s).2 := by
  induction cs generalizing s with
  | nil => exact ⟨hinv, h⟩
  | cons a cs ih =>
    have h1 := steal_mask_victims_invariants n a dry (List.range s.max_processes) s hinv h.1
    have h2 := steal_mask_victims_not_free n a dry (List.range s.max_processes) s hinv h.2
    unfold steal_mask_cpus
    split
    · dsimp only
      split
      · exact ih _ h1.1 ⟨h1.2, h2⟩
      · exact ⟨h1.1, h1.2, h2⟩
    · exact ih s hinv h

/-- The committing `set_new_mask` as the three steps of the source: steal,
register (which cannot fail, the CPUs to acquire being free), unregister. -/
theorem set_new_mask_eq_steps (max_cpus k : Nat) (mask : cpu_set_t) (s : shdata_t) :
    set_new_mask max_cpus k mask false s =
      if (steal_mask max_cpus (some k) (set_new_mask_sets max_cpus k mask s).cpus_to_steal
          false s).1 ≠ 0 then
        steal_mask max_cpus (some k) (set_new_mask_sets max_cpus k mask s).cpus_to_steal false s
      else
        unregister_mask max_cpus k (set_new_mask_sets max_cpus k mask s).cpus_to_free false
          (register_mask k (set_new_mask_sets max_cpus k mask s).cpus_to_acquire
            (steal_mask max_cpus (some k) (set_new_mask_sets max_cpus k mask s).cpus_to_steal
              false s).2).2 := by
  have hfree : (steal_mask max_cpus (some k)
      (set_new_mask_sets max_cpus k mask s).cpus_to_steal false s).2.free_mask = s.free_mask :=
    steal_mask_cpus_free_mask _ _ _ _ _
  have hacq : (set_new_mask_sets max_cpus k mask s).cpus_to_acquire ⊆ s.free_mask := by
    intro c hc
    exact ((set_new_mask_sets_mem max_cpus k mask s).1 c).mp hc |>.2.2
  unfold set_new_mask
  simp only [Bool.false_eq_true, if_false]
  generalize set_new_mask_sets max_cpus k mask s = sets at *
  generalize steal_mask max_cpus (some k) sets.cpus_to_steal false s = r at *
  by_cases hcode : r.1 ≠ 0
  · simp only [hcode, if_true, ne_eq, not_false_eq_true]
  · have hsub : sets.cpus_to_acquire ⊆ r.2.free_mask := by rw [hfree]; exact hacq
    simp only [hcode, if_false, register_mask_success _ _ _ hsub, DLB_SUCCESS, ne_eq,
      not_true_eq_false]

theorem register_mask_future_mono (k : Nat) (m : cpu_set_t) (s : shdata_t) (i : Nat) :
    (s.proc i).future_process_mask ⊆ ((register_mask k m s).2.proc i).future_process_mask := by
  unfold register_mask
  split
  · dsimp only
    rw [proc_setProc]
    split
    · rename_i h
      rw [← h.1]
      exact Finset.subset_union_left
    · exact Finset.Subset.refl _
  · exact Finset.Subset.refl _

theorem set_new_mask_single_owner (max_cpus k : Nat) (mask : cpu_set_t) (s : shdata_t)
    (hk : (s.proc k).pid ≠ NOBODY) (hinv : dirty_invariant s) (h : single_owner s) :
    single_owner (set_new_mask max_cpus k mask false s).2 := by
  have hst := steal_mask_cpus_owners k (set_new_mask_sets max_cpus k mask s).cpus_to_steal false
    (List.range max_cpus).reverse s hinv h
  have hd1 := steal_mask_cpus_dirties (some k)
    (set_new_mask_sets max_cpus k mask s).cpus_to_steal false (List.range max_cpus).reverse s
  have hfr := steal_mask_cpus_frame k (set_new_mask_sets max_cpus k mask s).cpus_to_steal
    false (List.range max_cpus).reverse s k
  have hfree : (set_new_mask_sets max_cpus k mask s).cpus_to_free
      ⊆ (s.proc k).future_process_mask := by
    intro c hc
    exact ((set_new_mask_sets_mem max_cpus k mask s).2.2 c).mp hc |>.2.2
  rw [set_new_mask_eq_steps]
  unfold steal_mask
  split
  · exact hst.2
  · have hk1 : ((steal_mask_cpus (some k) (set_new_mask_sets max_cpus k mask s).cpus_to_steal
        false (List.range max_cpus).reverse s).2.proc k).pid ≠ NOBODY := by
      rw [hd1.pid_eq]; exact hk
    apply unregister_mask_single_owner
    · rw [(register_mask_dirties _ _ _).pid_eq]; exact hk1
    · exact (hfree.trans (hfr.owner_mono rfl)).trans (register_mask_future_mono _ _ _ _)
    · exact register_mask_single_owner _ _ _ hk1 hst.2

theorem finalize_entry_initialized (max_cpus k : Nat) (rs : Bool) (s : shdata_t) :
    (finalize_entry max_cpus k rs s).initialized = s.initialized := by
  unfold finalize_entry
  rw [initialized_setProc]
  split
  · exact (unregister_mask_dirties _ _ _ _ _).initialized_eq
  · exact (unregister_mask_dirties _ _ _ _ _).initialized_eq

theorem preinit_entry_initialized (max_cpus : Nat) (pid : pid_t) (mask : cpu_set_t)
    (steal : Int) (p : Nat) (s : shdata_t) :
    (preinit_entry max_cpus pid mask steal p s).2.initialized = s.initialized := by
  rcases preinit_entry_cases max_cpus pid mask steal p s with h | ⟨_, _, h⟩ | ⟨_, _, h⟩
      | ⟨_, _, h⟩
  · rw [h]; rfl
  · rw [h]; exact (set_new_mask_dirties _ _ _ _ _).initialized_eq
  · rw [h]
    dsimp only
    rw [initialized_setProc]
    exact (register_mask_dirties _ _ _).initialized_eq
  · rw [h]
    dsimp only
    rw [initialized_setProc]
    exact (set_new_mask_dirties _ _ _ _ _).initialized_eq

theorem finalize_entry_single_owner (max_cpus k : Nat) (rs : Bool) (s : shdata_t)
    (hk : (s.proc k).pid ≠ NOBODY) (hinv : dirty_invariant s) (h : single_owner s) :
    single_owner (finalize_entry max_cpus k rs s) := by
  have hu : single_owner (if (s.proc k).dirty then
      unregister_mask max_cpus k (s.proc k).future_process_mask rs s
    else unregister_mask max_cpus k (s.proc k).current_process_mask rs s).2 := by
    split
    · exact unregister_mask_single_owner _ _ _ _ _ hk (Finset.Subset.refl _) h
    · rename_i hd
      have hd' : (s.proc k).dirty = false := by simpa using hd
      rw [hinv k (registered_lt hk) hk hd']
      exact unregister_mask_single_owner _ _ _ _ _ hk (Finset.Subset.refl _) h
  unfold finalize_entry
  generalize (if (s.proc k).dirty then
      unregister_mask max_cpus k (s.proc k).future_process_mask rs s
    else unregister_mask max_cpus k (s.proc k).current_process_mask rs s).2 = u at hu ⊢
  apply single_owner_anti _ _ _ _ hu
  · exact Finset.Subset.refl _
  · intro i hri c hc
    rw [proc_setProc] at hri hc
    by_cases hki : k = i ∧ k < u.max_processes
    · rw [if_pos hki] at hri
      exact absurd rfl hri
    · rw [if_neg hki] at hri hc
      exact ⟨hri, hc⟩

theorem init_entry_single_owner (pid : pid_t) (mask : cpu_set_t) (p : Nat) (s : shdata_t)
    (hsub : mask ⊆ s.free_mask) (h : single_owner s) :
    single_owner (init_entry pid mask p s) := by
  unfold init_entry
  apply single_owner_acquire s _ p mask hsub _ _ h
  · exact Finset.Subset.refl _
  · intro i hri c hc
    rw [proc_setProc] at hri hc
    by_cases hpi : p = i ∧ p < ({ s with free_mask := s.free_mask \ mask }
        : shdata_t).max_processes
    · rw [if_pos hpi] at hc
      exact Or.inr ⟨hpi.1.symm, hc⟩
    · rw [if_neg hpi] at hri hc
      exact Or.inl ⟨hri, hc⟩

theorem claimed_single_owner (pid : pid_t) (p : Nat) (s : shdata_t) (h : single_owner s) :
    single_owner (s.setProc p ((s.proc p).claimed pid)) := by
  apply single_owner_anti _ _ _ _ h
  · exact Finset.Subset.refl _
  · intro i hri c hc
    rw [proc_setProc] at hri hc
    by_cases hpi : p = i ∧ p < s.max_processes
    · rw [if_pos hpi] at hc
      simp [pinfo_t.claimed] at hc
    · rw [if_neg hpi] at hri hc
      exact ⟨hri, hc⟩

/-- A store to an entry that keeps its future mask keeps the owners. -/
theorem single_owner_setProc_same_future (s : shdata_t) (k : Nat) (v : pinfo_t)
    (hv : v.future_process_mask = (s.proc k).future_process_mask)
    (hpid : v.pid ≠ NOBODY → (s.proc k).pid ≠ NOBODY)
    (h : single_owner s) : single_owner (s.setProc k v) := by
  apply single_owner_anti _ _ _ _ h
  · exact Finset.Subset.refl _
  · intro i hri c hc
    rw [proc_setProc] at hri hc
    by_cases hki : k = i ∧ k < s.max_processes
    · rw [if_pos hki] at hri hc
      obtain ⟨rfl, _⟩ := hki
      rw [hv] at hc
      exact ⟨hpid hri, hc⟩
    · rw [if_neg hki] at hri hc
      exact ⟨hri, hc⟩

theorem preinit_entry_single_owner (max_cpus : Nat) (pid : pid_t) (mask : cpu_set_t)
    (steal : Int) (p : Nat) (s : shdata_t) (hp : p < s.max_processes) (hpid : pid ≠ NOBODY)
    (hinv : dirty_invariant s) (h : single_owner s) :
    single_owner (preinit_entry max_cpus pid mask steal p s).2 := by
  have h1 := claimed_single_owner pid p s h
  have hinv1 : dirty_invariant (s.setProc p ((s.proc p).claimed pid)) := by
    rw [dirty_invariant_iff_on] at hinv ⊢
    exact claimed_dirty_invariant_on pid p s hinv
  have hk1 : ((s.setProc p ((s.proc p).claimed pid)).proc p).pid ≠ NOBODY := by
    rw [proc_setProc_self _ _ hp]; exact hpid
  rcases preinit_entry_cases max_cpus pid mask steal p s with e | ⟨_, _, e⟩ | ⟨_, _, e⟩
      | ⟨_, _, e⟩
  · rw [e]; exact h1
  · rw [e]; exact set_new_mask_single_owner _ _ _ _ hk1 hinv1 h1
  · rw [e]
    dsimp only
    refine single_owner_setProc_same_future _ p _ rfl ?_ ?_
    · intro _
      rw [(register_mask_dirties _ _ _).pid_eq]; exact hk1
    · exact register_mask_single_owner _ _ _ hk1 h1
  · rw [e]
    dsimp only
    refine single_owner_setProc_same_future _ p _ rfl ?_ ?_
    · intro _
      rw [(set_new_mask_dirties _ _ _ _ _).pid_eq]; exact hk1
    · exact set_new_mask_single_owner _ _ _ _ hk1 hinv1 h1

theorem recover_entry_single_owner (k : Nat) (s : shdata_t) (hk : (s.proc k).pid ≠ NOBODY)
    (h : single_owner s) : single_owner (recover_entry k s) := by
  unfold recover_entry
  apply single_owner_acquire s _ k ((s.proc k).stolen_cpus ∩ s.free_mask)
    Finset.inter_subset_right _ _ h
  · exact Finset.Subset.refl _
  · intro i hri c hc
    rw [proc_setProc] at hri hc
    by_cases hki : k = i ∧ k < ({ s with free_mask := s.free_mask
        \ ((s.proc k).stolen_cpus ∩ s.free_mask) } : shdata_t).max_processes
    · rw [if_pos hki] at hc
      obtain ⟨rfl, _⟩ := hki
      rcases Finset.mem_union.mp hc with h1 | h1
      · exact Or.inl ⟨hk, h1⟩
      · exact Or.inr ⟨rfl, h1⟩
    · rw [if_neg hki] at hri hc
      exact Or.inl ⟨hri, hc⟩

theorem polldrom_entry_single_owner (k : Nat) (s : shdata_t) (h : single_owner s) :
    single_owner (polldrom_entry k s) := by
  unfold polldrom_entry
  exact single_owner_setProc_same_future _ _ _ rfl id h

theorem fresh_registry_single_owner (n : Nat) : single_owner (fresh_registry n) := by
  constructor
  · intro i _ j _ hij
    rw [proc_fresh_registry] at hij
    exact absurd rfl hij.2.1
  · intro i _ hri
    rw [proc_fresh_registry] at hri
    exact absurd rfl hri

/-- Every call for a pid other than 0 keeps the owners unique, in an
initialized region that satisfies invariant 9. -/
theorem registry_call_single_owner (system_size : Nat) (call : registry_call)
    (g : shmem_procinfo) (hpid : call.pid ≠ NOBODY) (hini : g.shdata.initialized = true)
    (hinv : dirty_invariant g.shdata) (h : single_owner g.shdata) :
    single_owner (call.run system_size g).shdata
    ∧ (call.run system_size g).shdata.initialized = true := by
  cases call with
  | init pid mask =>
    simp only [registry_call.run]
    have h1 : single_owner (shmem_procinfo__init_attach system_size g).shdata := by
      rcases init_attach_cases system_size g with e | ⟨_, e⟩ | e
      · rw [e]; exact h
      · rw [hini] at e; cases e
      · rw [e]; exact fresh_registry_single_owner _
    have h2 := init_attach_initialized system_size g
    obtain ⟨_, hs | ⟨p, _, _, hsub, hs⟩⟩ := init_cases system_size pid mask g
    · rw [hs]; exact ⟨h1, h2⟩
    · rw [hs]
      exact ⟨init_entry_single_owner _ _ _ _ hsub h1, h2⟩
  | preinit pid mask steal =>
    simp only [registry_call.run]
    rcases preinit_cases pid mask steal g with e | ⟨p, hp, _, hne, _, _, e⟩
    · rw [e]; exact ⟨h, hini⟩
    · rw [e]
      exact ⟨preinit_entry_single_owner _ _ _ _ _ _ hp hne hinv h,
        by rw [preinit_entry_initialized]; exact hini⟩
  | setprocessmask pid mask sync =>
    simp only [registry_call.run]
    rcases setprocessmask_cases pid mask sync g with e | ⟨k, hk, _, _, _, e⟩
    · rw [e]; exact ⟨h, hini⟩
    · rw [e]
      have hreg : (g.shdata.proc k).pid ≠ NOBODY := by
        rw [(get_process_some hk).1]; exact hpid
      exact ⟨set_new_mask_single_owner _ _ _ _ hreg hinv h,
        by rw [(set_new_mask_dirties _ _ _ _ _).initialized_eq]; exact hini⟩
  | polldrom pid =>
    simp only [registry_call.run]
    rcases polldrom_cases pid g with e | ⟨k, _, _, _, e⟩
    · rw [e]; exact ⟨h, hini⟩
    · rw [e]
      exact ⟨polldrom_entry_single_owner k _ h, hini⟩
  | recover_stolen_cpus pid =>
    simp only [registry_call.run]
    rcases recover_cases pid g with e | ⟨k, hk, _, e⟩
    · rw [e]; exact ⟨h, hini⟩
    · rw [e]
      have hreg : (g.shdata.proc k).pid ≠ NOBODY := by
        rw [(get_process_some hk).1]; exact hpid
      exact ⟨recover_entry_single_owner k _ hreg h,
        by rw [(recover_entry_dirties k _).initialized_eq]; exact hini⟩
  | finalize pid rs =>
    simp only [registry_call.run]
    obtain ⟨_, hs | ⟨k, hk, _, hs⟩⟩ := finalize_cases pid rs g
    · rw [hs]; exact ⟨h, hini⟩
    · rw [hs]
      have hreg : (g.shdata.proc k).pid ≠ NOBODY := by
        rw [(get_process_some hk).1]; exact hpid
      exact ⟨finalize_entry_single_owner _ _ _ _ hreg hinv h,
        by rw [finalize_entry_initialized]; exact hini⟩
  | postfinalize pid rs =>
    simp only [registry_call.run]
    rcases postfinalize_cases pid rs g with e | ⟨k, hk, _, e⟩
    · rw [e]; exact ⟨h, hini⟩
    · rw [e]
      have hreg : (g.shdata.proc k).pid ≠ NOBODY := by
        rw [(get_process_some hk).1]; exact hpid
      exact ⟨finalize_entry_single_owner _ _ _ _ hreg hinv h,
        by rw [finalize_entry_initialized]; exact hini⟩

/-- Every sequence of calls for pids other than 0, whose stealing `preinit`
calls name no CPU from `max_cpus` on, keeps invariant 9 and the owners unique. -/
theorem run_registry_calls_single_owner (system_size : Nat) (calls : List registry_call)
    (g : shmem_procinfo) (hmax : g.max_cpus = system_size)
    (hpid : ∀ call ∈ calls, call.pid ≠ NOBODY)
    (hguard : ∀ call ∈ calls, call.steals_within (fun _ => True) system_size)
    (hini : g.shdata.initialized = true) (hinv : dirty_invariant g.shdata)
    (h : single_owner g.shdata) :
    single_owner (run_registry_calls system_size calls g).shdata := by
  induction calls generalizing g with
  | nil => exact h
  | cons call calls ih =>
    have h1 := registry_call_dirty_invariant_on system_size call g hmax
      (hguard call (List.mem_cons_self _ _)) ((dirty_invariant_iff_on _).mp hinv)
    have h2 := registry_call_single_owner system_size call g
      (hpid call (List.mem_cons_self _ _)) hini hinv h
    exact ih (call.run system_size g) h1.2
      (fun c hc => hpid c (List.mem_cons_of_mem _ hc))
      (fun c hc => hguard c (List.mem_cons_of_mem _ hc)) h2.2
      ((dirty_invariant_iff_on _).mpr h1.1) h2.1

/-! ## No CPU is lost along the calls -/

/-- Every CPU that was free or owned is free or owned afterwards. -/
theorem cpus_covered_of_moves (max_cpus : Nat) (s t : shdata_t)
    (hfree : ∀ c, c < max_cpus → c ∈ s.free_mask →
      c ∈ t.free_mask ∨ ∃ j, (t.proc j).pid ≠ NOBODY ∧ c ∈ (t.proc j).future_process_mask)
    (hfut : ∀ c i, c < max_cpus → (s.proc i).pid ≠ NOBODY →
      c ∈ (s.proc i).future_process_mask →
      c ∈ t.free_mask ∨ ∃ j, (t.proc j).pid ≠ NOBODY ∧ c ∈ (t.proc j).future_process_mask)
    (h : cpus_covered max_cpus s) : cpus_covered max_cpus t := by
  intro c hc
  rcases h c hc with h1 | ⟨i, _, hri, hci⟩
  · rcases hfree c hc h1 with h2 | ⟨j, hrj, hcj⟩
    · exact Or.inl h2
    · exact Or.inr ⟨j, registered_lt hrj, hrj, hcj⟩
  · rcases hfut c i hc hri hci with h2 | ⟨j, hrj, hcj⟩
    · exact Or.inl h2
    · exact Or.inr ⟨j, registered_lt hrj, hrj, hcj⟩

theorem register_mask_cpus_covered (max_cpus k : Nat) (m : cpu_set_t) (s : shdata_t)
    (hk : (s.proc k).pid ≠ NOBODY) (h : cpus_covered max_cpus s) :
    cpus_covered max_cpus (register_mask k m s).2 := by
  have hd := register_mask_dirties k m s
  have hmono := register_mask_future_mono k m s
  apply cpus_covered_of_moves max_cpus s _ _ _ h
  · intro c _ hcf
    by_cases hsub : m ⊆ s.free_mask
    · rw [register_mask_success _ _ _ hsub]
      dsimp only
      have hlt : k < ({ s with free_mask := s.free_mask \ m } : shdata_t).max_processes :=
        registered_lt hk
      by_cases hcm : c ∈ m
      · right
        refine ⟨k, ?_, ?_⟩
        · rw [proc_setProc_self _ _ hlt]; exact hk
        · rw [proc_setProc_self _ _ hlt]
          exact Finset.mem_union_right _ hcm
      · left
        simp [hcf, hcm]
    · rw [register_mask_fail _ _ _ hsub]
      exact Or.inl hcf
  · intro c i _ hri hci
    exact Or.inr ⟨i, by rw [hd.pid_eq]; exact hri, hmono i hci⟩

theorem unregister_mask_false_cpus_covered (max_cpus k : Nat) (m : cpu_set_t) (s : shdata_t)
    (h : cpus_covered max_cpus s) :
    cpus_covered max_cpus (unregister_mask max_cpus k m false s).2 := by
  have hd := unregister_mask_dirties max_cpus k m false s
  unfold unregister_mask at hd ⊢
  split
  · exact h
  · rename_i hz
    rw [if_neg hz] at hd
    simp only [Bool.false_eq_true, if_false] at hd ⊢
    apply cpus_covered_of_moves max_cpus s _ _ _ h
    · intro c _ hcf
      left
      simp [hcf]
    · intro c i _ hri hci
      by_cases hcm : c ∈ m
      · left
        simp [hcm]
      · right
        refine ⟨i, by rw [hd.pid_eq]; exact hri, ?_⟩
        rw [proc_setProc]
        split
        · rename_i hki
          rw [← hki.1] at hci
          simp only [mu_substract, Finset.mem_sdiff]
          exact ⟨hci, hcm⟩
        · exact hci

theorem steal_mask_victims_cpus_covered (max_cpus n c : Nat) (dry : Bool) (ps : List Nat)
    (s : shdata_t) (hn : (s.proc n).pid ≠ NOBODY) (h : cpus_covered max_cpus s) :
    cpus_covered max_cpus (steal_mask_victims (some n) c dry ps s).2 := by
  have hfr := steal_mask_victims_frame n c dry ps s
  have hfree := steal_mask_victims_free_mask n c dry ps s
  cases dry with
  | true =>
    have : (steal_mask_victims (some n) c true ps s).2 = s := by
      rw [steal_mask_victims_eq]
      split
      · exact steal_cpu_dry _ _ _ _
      · rfl
    rw [this]; exact h
  | false =>
    by_cases hflag : (steal_mask_victims (some n) c false ps s).1 = true
    · have hown := steal_mask_victims_true_owner n c ps s hflag (registered_lt hn)
      apply cpus_covered_of_moves max_cpus s _ _ _ h
      · intro d _ hdf
        left
        rw [hfree]; exact hdf
      · intro d i _ hri hdi
        right
        by_cases hdc : d = c
        · subst hdc
          exact ⟨n, by rw [(hfr n).pid_eq]; exact hn, hown⟩
        · exact ⟨i, by rw [(hfr i).pid_eq]; exact hri,
            ((hfr i).future_other d hdc).mpr hdi⟩
    · have : (steal_mask_victims (some n) c false ps s).2 = s := by
        rw [steal_mask_victims_eq] at hflag ⊢
        split
        · rename_i v hv
          rw [hv] at hflag
          simp at hflag
        · rfl
      rw [this]; exact h

theorem steal_mask_cpus_cpus_covered (max_cpus n : Nat) (mask : cpu_set_t) (dry : Bool)
    (cs : List Nat) (s : shdata_t) (hn : (s.proc n).pid ≠ NOBODY)
    (h : cpus_covered max_cpus s) :
    cpus_covered max_cpus (steal_mask_cpus (some n) mask dry cs s).2 := by
  induction cs generalizing s with
  | nil => exact h
  | cons a cs ih =>
    have h1 := steal_mask_victims_cpus_covered max_cpus n a dry (List.range s.max_processes)
      s hn h
    have hn1 : ((steal_mask_victims (some n) a dry (List.range s.max_processes) s).2.proc
        n).pid ≠ NOBODY := by
      rw [(steal_mask_victims_frame n a dry _ s n).pid_eq]; exact hn
    unfold steal_mask_cpus
    split
    · dsimp only
      split
      · exact ih _ hn1 h1
      · exact h1
    · exact ih s hn h

theorem set_new_mask_cpus_covered (max_cpus k : Nat) (mask : cpu_set_t) (s : shdata_t)
    (hk : (s.proc k).pid ≠ NOBODY) (h : cpus_covered max_cpus s) :
    cpus_covered max_cpus (set_new_mask max_cpus k mask false s).2 := by
  have hst := steal_mask_cpus_cpus_covered max_cpus k
    (set_new_mask_sets max_cpus k mask s).cpus_to_steal false (List.range max_cpus).reverse s hk h
  have hd1 := steal_mask_cpus_dirties (some k)
    (set_new_mask_sets max_cpus k mask s).cpus_to_steal false (List.range max_cpus).reverse s
  rw [set_new_mask_eq_steps]
  unfold steal_mask
  split
  · exact hst
  · apply unregister_mask_false_cpus_covered
    apply register_mask_cpus_covered
    · rw [hd1.pid_eq]; exact hk
    · exact hst

theorem unregister_mask_step_cpus_covered (max_cpus k c : Nat) (s : shdata_t)
    (hcl : claimant s c ≠ some k) (h : cpus_covered max_cpus s) :
    cpus_covered max_cpus (unregister_mask_step k c s) := by
  have F := unregister_mask_step_frame k c s
  apply cpus_covered_of_moves max_cpus s _ _ _ h
  · intro d _ hdf
    exact Or.inl (F.free_mono hdf)
  · intro d i _ hri hdi
    by_cases hdc : d = c
    · subst hdc
      cases hp : claimant s d with
      | none => exact Or.inl (F.freed hp)
      | some p =>
        right
        have hpk : p ≠ k := fun e => hcl (e ▸ hp)
        exact ⟨p, by rw [F.pid_eq]; exact (claimant_some hp).2.1, F.taken p hp hpk⟩
    · right
      exact ⟨i, by rw [F.pid_eq]; exact hri, (F.future_other i d hdc).mpr hdi⟩

theorem unregister_mask_cpus_cpus_covered (max_cpus k : Nat) (mask : cpu_set_t)
    (cs : List Nat) (s : shdata_t)
    (hst : ∀ c ∈ cs, c ∈ mask → c ∉ (s.proc k).stolen_cpus)
    (h : cpus_covered max_cpus s) :
    cpus_covered max_cpus (unregister_mask_cpus k mask cs s) := by
  induction cs generalizing s with
  | nil => exact h
  | cons c cs ih =>
    rw [unregister_mask_cpus_cons]
    by_cases hcm : c ∈ mask
    · have hcm' : CPU_ISSET c mask = true := by simpa using hcm
      rw [if_pos hcm']
      have F := unregister_mask_step_frame k c s
      apply ih
      · intro d hd hdm hds
        exact hst d (List.mem_cons_of_mem _ hd) hdm (F.stolen_anti k hds)
      · apply unregister_mask_step_cpus_covered max_cpus k c s _ h
        intro hcl
        exact hst c (List.mem_cons_self _ _) hcm (claimant_some hcl).2.2
    · have hcm' : ¬ (CPU_ISSET c mask = true) := by simpa using hcm
      rw [if_neg hcm']
      exact ih s (fun d hd hdm => hst d (List.mem_cons_of_mem _ hd) hdm) h

/-- After the give-back loop the owner holds none of the CPUs of the mask
that the loop went through, and nothing it did not hold before. -/
theorem unregister_mask_cpus_owner (k : Nat) (mask : cpu_set_t) (cs : List Nat)
    (s : shdata_t) (hk : k < s.max_processes) (hnd : cs.Nodup) (d : Nat)
    (hd : d ∈ ((unregister_mask_cpus k mask cs s).proc k).future_process_mask) :
    d ∈ (s.proc k).future_process_mask ∧ ¬ (d ∈ cs ∧ d ∈ mask) := by
  induction cs generalizing s with
  | nil => exact ⟨hd, fun h => by simp at h⟩
  | cons c cs ih =>
    rw [unregister_mask_cpus_cons] at hd
    have hnd' := (List.nodup_cons.mp hnd).2
    have hcn := (List.nodup_cons.mp hnd).1
    by_cases hcm : c ∈ mask
    · have hcm' : CPU_ISSET c mask = true := by simpa using hcm
      rw [if_pos hcm'] at hd
      have F := unregister_mask_step_frame k c s
      obtain ⟨h1, h2⟩ := ih _ (by rw [F.len]; exact hk) hnd' hd
      have hdc : d ≠ c := by
        intro e
        subst e
        exact F.owner_loses hk h1
      refine ⟨(F.future_other k d hdc).mp h1, ?_⟩
      rintro ⟨hdcs, hdm⟩
      rcases List.mem_cons.mp hdcs with e | e
      · exact hdc e
      · exact h2 ⟨e, hdm⟩
    · have hcm' : ¬ (CPU_ISSET c mask = true) := by simpa using hcm
      rw [if_neg hcm'] at hd
      obtain ⟨h1, h2⟩ := ih s hk hnd' hd
      refine ⟨h1, ?_⟩
      rintro ⟨hdcs, hdm⟩
      rcases List.mem_cons.mp hdcs with e | e
      · subst e; exact hcm hdm
      · exact h2 ⟨e, hdm⟩

/-- Unregistering a mask that holds every CPU of the owner below `max_cpus`
and clearing the entry loses no CPU, provided that with `return_stolen` the
owner does not itself claim a CPU of the mask. -/
theorem unregister_clear_cpus_covered (max_cpus k : Nat) (m : cpu_set_t) (rs : Bool)
    (s : shdata_t) (hk : (s.proc k).pid ≠ NOBODY)
    (hm : ∀ c, c < max_cpus → c ∈ (s.proc k).future_process_mask → c ∈ m)
    (hst : rs = true → ∀ c, c < max_cpus → c ∈ m → c ∉ (s.proc k).stolen_cpus)
    (h : cpus_covered max_cpus s) :
    cpus_covered max_cpus ((unregister_mask max_cpus k m rs s).2.setProc k pinfo_t.zero) := by
  have hklt := registered_lt hk
  have hd := unregister_mask_dirties max_cpus k m rs s
  have hu : cpus_covered max_cpus (unregister_mask max_cpus k m rs s).2
      ∧ ∀ c, c < max_cpus →
          c ∉ ((unregister_mask max_cpus k m rs s).2.proc k).future_process_mask := by
    cases rs with
    | false =>
      refine ⟨unregister_mask_false_cpus_covered max_cpus k m s h, ?_⟩
      intro c hc hcf
      unfold unregister_mask at hcf
      split at hcf
      · rename_i hz
        have he : m = ∅ := by simpa using hz
        have := hm c hc hcf
        rw [he] at this
        simp at this
      · simp only [Bool.false_eq_true, if_false] at hcf
        rw [proc_setProc_self _ _
          (show k < ({ s with free_mask := CPU_OR s.free_mask m } : shdata_t).max_processes
            from hklt)] at hcf
        simp only [mu_substract, Finset.mem_sdiff] at hcf
        exact hcf.2 (hm c hc hcf.1)
    | true =>
      unfold unregister_mask
      split
      · rename_i hz
        have he : m = ∅ := by simpa using hz
        refine ⟨h, ?_⟩
        intro c hc hcf
        have := hm c hc hcf
        rw [he] at this
        simp at this
      · simp only [if_true]
        refine ⟨?_, ?_⟩
        · apply unregister_mask_cpus_cpus_covered max_cpus k m _ s _ h
          intro c hc hcm
          exact hst rfl c (by simpa using hc) hcm
        · intro c hc hcf
          obtain ⟨h1, h2⟩ := unregister_mask_cpus_owner k m _ s hklt (List.nodup_range _) c hcf
          exact h2 ⟨by simpa using hc, hm c hc h1⟩
  generalize (unregister_mask max_cpus k m rs s).2 = u at hu hd ⊢
  apply cpus_covered_of_moves max_cpus u _ _ _ hu.1
  · intro c _ hcf
    exact Or.inl hcf
  · intro c i hc hri hci
    right
    have hik : i ≠ k := by
      intro e; subst e; exact hu.2 c hc hci
    refine ⟨i, ?_, ?_⟩
    · rw [proc_setProc_of_ne _ _ (Ne.symm hik)]; exact hri
    · rw [proc_setProc_of_ne _ _ (Ne.symm hik)]; exact hci

theorem finalize_entry_cpus_covered (max_cpus k : Nat) (rs : Bool) (s : shdata_t)
    (hk : (s.proc k).pid ≠ NOBODY) (hdirty : dirty_invariant_on (fun c => c < max_cpus) s)
    (hrs : rs = true → Disjoint (s.proc k).stolen_cpus (s.proc k).future_process_mask)
    (h : cpus_covered max_cpus s) : cpus_covered max_cpus (finalize_entry max_cpus k rs s) := by
  unfold finalize_entry
  by_cases hd : (s.proc k).dirty = true
  · rw [if_pos hd]
    apply unregister_clear_cpus_covered max_cpus k _ rs s hk (fun c _ hc => hc) _ h
    intro hr c _ hcf hcs
    exact Finset.disjoint_left.mp (hrs hr) hcs hcf
  · rw [if_neg hd]
    have hd' : (s.proc k).dirty = false := by simpa using hd
    have hw := hdirty k (registered_lt hk) hk hd'
    apply unregister_clear_cpus_covered max_cpus k _ rs s hk
      (fun c hc hcf => (hw c hc).mpr hcf) _ h
    intro hr c hc hcc hcs
    exact Finset.disjoint_left.mp (hrs hr) hcs ((hw c hc).mp hcc)

/-- A store to a free entry, or one that keeps the pid and the future mask,
loses no CPU. -/
theorem setProc_cpus_covered (max_cpus : Nat) (s : shdata_t) (k : Nat) (v : pinfo_t)
    (hv : (s.proc k).pid ≠ NOBODY →
      v.pid ≠ NOBODY ∧ (s.proc k).future_process_mask ⊆ v.future_process_mask)
    (h : cpus_covered max_cpus s) : cpus_covered max_cpus (s.setProc k v) := by
  apply cpus_covered_of_moves max_cpus s _ _ _ h
  · intro c _ hcf
    exact Or.inl hcf
  · intro c i _ hri hci
    right
    refine ⟨i, ?_, ?_⟩
    · rw [proc_setProc]
      split
      · rename_i hki; rw [← hki.1] at hri; exact (hv hri).1
      · exact hri
    · rw [proc_setProc]
      split
      · rename_i hki; rw [← hki.1] at hri hci; exact (hv hri).2 hci
      · exact hci

theorem init_entry_cpus_covered (max_cpus : Nat) (pid : pid_t) (mask : cpu_set_t) (p : Nat)
    (s : shdata_t) (hpid : pid ≠ NOBODY) (hp : p < s.max_processes)
    (hfree : (s.proc p).pid = NOBODY) (h : cpus_covered max_cpus s) :
    cpus_covered max_cpus (init_entry pid mask p s) := by
  unfold init_entry
  have hlt : p < ({ s with free_mask := s.free_mask \ mask } : shdata_t).max_processes := hp
  apply cpus_covered_of_moves max_cpus s _ _ _ h
  · intro c _ hcf
    by_cases hcm : c ∈ mask
    · right
      refine ⟨p, ?_, ?_⟩
      · rw [proc_setProc_self _ _ hlt]; exact hpid
      · rw [proc_setProc_self _ _ hlt]; exact hcm
    · left
      simp [hcf, hcm]
  · intro c i _ hri hci
    right
    have hip : p ≠ i := by
      intro e; subst e; exact hri hfree
    refine ⟨i, ?_, ?_⟩
    · rw [proc_setProc_of_ne _ _ hip]; exact hri
    · rw [proc_setProc_of_ne _ _ hip]; exact hci

theorem preinit_entry_cpus_covered (max_cpus : Nat) (pid : pid_t) (mask : cpu_set_t)
    (steal : Int) (p : Nat) (s : shdata_t) (hp : p < s.max_processes)
    (hfree : (s.proc p).pid = NOBODY) (hpid : pid ≠ NOBODY) (h : cpus_covered max_cpus s) :
    cpus_covered max_cpus (preinit_entry max_cpus pid mask steal p s).2 := by
  have h1 : cpus_covered max_cpus (s.setProc p ((s.proc p).claimed pid)) :=
    setProc_cpus_covered max_cpus s p _ (fun hr => absurd hfree hr) h
  have hk1 : ((s.setProc p ((s.proc p).claimed pid)).proc p).pid ≠ NOBODY := by
    rw [proc_setProc_self _ _ hp]; exact hpid
  rcases preinit_entry_cases max_cpus pid mask steal p s with e | ⟨_, _, e⟩ | ⟨_, _, e⟩
      | ⟨_, _, e⟩
  · rw [e]; exact h1
  · rw [e]; exact set_new_mask_cpus_covered _ _ _ _ hk1 h1
  · rw [e]
    dsimp only
    refine setProc_cpus_covered max_cpus _ p _ (fun hr => ⟨hr, Finset.Subset.refl _⟩) ?_
    exact register_mask_cpus_covered _ _ _ _ hk1 h1
  · rw [e]
    dsimp only
    refine setProc_cpus_covered max_cpus _ p _ (fun hr => ⟨hr, Finset.Subset.refl _⟩) ?_
    exact set_new_mask_cpus_covered _ _ _ _ hk1 h1

theorem recover_entry_cpus_covered (max_cpus k : Nat) (s : shdata_t)
    (hk : (s.proc k).pid ≠ NOBODY) (h : cpus_covered max_cpus s) :
    cpus_covered max_cpus (recover_entry k s) := by
  unfold recover_entry
  have hlt : k < ({ s with free_mask := s.free_mask
      \ ((s.proc k).stolen_cpus ∩ s.free_mask) } : shdata_t).max_processes := registered_lt hk
  apply cpus_covered_of_moves max_cpus s _ _ _ h
  · intro c _ hcf
    by_cases hcs : c ∈ (s.proc k).stolen_cpus
    · right
      refine ⟨k, ?_, ?_⟩
      · rw [proc_setProc_self _ _ hlt]; exact hk
      · rw [proc_setProc_self _ _ hlt]
        simp [hcs, hcf]
    · left
      simp [hcf, hcs]
  · intro c i _ hri hci
    right
    refine ⟨i, ?_, ?_⟩
    · rw [proc_setProc]
      split
      · rename_i hki; rw [← hki.1] at hri; exact hri
      · exact hri
    · rw [proc_setProc]
      split
      · rename_i hki; rw [← hki.1] at hci; simp [hci]
      · exact hci

theorem polldrom_entry_cpus_covered (max_cpus k : Nat) (s : shdata_t)
    (h : cpus_covered max_cpus s) : cpus_covered max_cpus (polldrom_entry k s) := by
  unfold polldrom_entry
  exact setProc_cpus_covered max_cpus s k _ (fun hr => ⟨hr, Finset.Subset.refl _⟩) h

theorem init_attach_cpus_covered (system_size : Nat) (g : shmem_procinfo)
    (h : cpus_covered system_size g.shdata) :
    cpus_covered system_size (shmem_procinfo__init_attach system_size g).shdata := by
  rcases init_attach_cases system_size g with e | ⟨e, _⟩ | e
  · rw [e]; exact h
  · rw [e]
    intro c hc
    left
    simpa [mu_get_system_mask] using hc
  · rw [e]
    intro c hc
    left
    simpa [fresh_registry, mu_get_system_mask] using hc

theorem steals_within_lt (system_size : Nat) (call : registry_call) :
    call.steals_within (fun c => c < system_size) system_size := by
  cases call <;> simp only [registry_call.steals_within]
  intro _ c _ h
  exact h

/-- Every call for a pid other than 0 loses no CPU, provided that a call with
`return_stolen` is made on a registry that satisfies invariant 7. -/
theorem registry_call_cpus_covered (system_size : Nat) (call : registry_call)
    (g : shmem_procinfo) (hmax : g.max_cpus = system_size) (hpid : call.pid ≠ NOBODY)
    (hrs : call.returns_stolen = true → stolen_future_disjoint g.shdata)
    (hdirty : dirty_invariant_on (fun c => c < system_size) g.shdata)
    (h : cpus_covered system_size g.shdata) :
    cpus_covered system_size (call.run system_size g).shdata := by
  subst hmax
  cases call with
  | init pid mask =>
    simp only [registry_call.run]
    have h1 := init_attach_cpus_covered g.max_cpus g h
    obtain ⟨_, hs | ⟨p, _, hf, _, hs⟩⟩ := init_cases g.max_cpus pid mask g
    · rw [hs]; exact h1
    · rw [hs]
      exact init_entry_cpus_covered _ _ _ _ _ hpid (get_process_some hf).2
        (get_process_some hf).1 h1
  | preinit pid mask steal =>
    simp only [registry_call.run]
    rcases preinit_cases pid mask steal g with e | ⟨p, hp, hfree, hne, _, _, e⟩
    · rw [e]; exact h
    · rw [e]
      exact preinit_entry_cpus_covered _ _ _ _ _ _ hp hfree hne h
  | setprocessmask pid mask sync =>
    simp only [registry_call.run]
    rcases setprocessmask_cases pid mask sync g with e | ⟨k, hk, _, _, _, e⟩
    · rw [e]; exact h
    · rw [e]
      have hreg : (g.shdata.proc k).pid ≠ NOBODY := by
        rw [(get_process_some hk).1]; exact hpid
      exact set_new_mask_cpus_covered _ _ _ _ hreg h
  | polldrom pid =>
    simp only [registry_call.run]
    rcases polldrom_cases pid g with e | ⟨k, _, _, _, e⟩
    · rw [e]; exact h
    · rw [e]
      exact polldrom_entry_cpus_covered _ k _ h
  | recover_stolen_cpus pid =>
    simp only [registry_call.run]
    rcases recover_cases pid g with e | ⟨k, hk, _, e⟩
    · rw [e]; exact h
    · rw [e]
      have hreg : (g.shdata.proc k).pid ≠ NOBODY := by
        rw [(get_process_some hk).1]; exact hpid
      exact recover_entry_cpus_covered _ k _ hreg h
  | finalize pid rs =>
    simp only [registry_call.run]
    obtain ⟨_, hs | ⟨k, hk, _, hs⟩⟩ := finalize_cases pid rs g
    · rw [hs]; exact h
    · rw [hs]
      have hreg : (g.shdata.proc k).pid ≠ NOBODY := by
        rw [(get_process_some hk).1]; exact hpid
      exact finalize_entry_cpus_covered _ _ _ _ hreg hdirty
        (fun hr => hrs hr k (registered_lt hreg) hreg) h
  | postfinalize pid rs =>
    simp only [registry_call.run]
    rcases postfinalize_cases pid rs g with e | ⟨k, hk, _, e⟩
    · rw [e]; exact h
    · rw [e]
      have hreg : (g.shdata.proc k).pid ≠ NOBODY := by
        rw [(get_process_some hk).1]; exact hpid
      exact finalize_entry_cpus_covered _ _ _ _ hreg hdirty
        (fun hr => hrs hr k (registered_lt hreg) hreg) h

/-- Every sequence of calls for pids other than 0 loses no CPU, provided that
the calls with `return_stolen` are made on registries that satisfy invariant 7. -/
theorem run_registry_calls_cpus_covered (system_size : Nat) (calls : List registry_call)
    (g : shmem_procinfo) (hmax : g.max_cpus = system_size)
    (hpid : ∀ call ∈ calls, call.pid ≠ NOBODY)
    (hrs : returns_stolen_guarded system_size calls g)
    (hdirty : dirty_invariant_on (fun c => c < system_size) g.shdata)
    (h : cpus_covered system_size g.shdata) :
    cpus_covered system_size (run_registry_calls system_size calls g).shdata := by
  induction calls generalizing g with
  | nil => exact h
  | cons call calls ih =>
    have h1 := registry_call_dirty_invariant_on system_size call g hmax
      (steals_within_lt system_size call) hdirty
    have h2 := registry_call_cpus_covered system_size call g hmax
      (hpid call (List.mem_cons_self _ _)) hrs.1 hdirty h
    exact ih (call.run system_size g) h1.2
      (fun c hc => hpid c (List.mem_cons_of_mem _ hc)) hrs.2 h1.1 h2

/-! ## The dirty flag between `setprocessmask` and `polldrom` -/

theorem set_new_mask_code (max_cpus k : Nat) (mask : cpu_set_t) (dry : Bool) (s : shdata_t) :
    (set_new_mask max_cpus k mask dry s).1 = DLB_SUCCESS
      ∨ (set_new_mask max_cpus k mask dry s).1 = DLB_ERR_PERM := by
  cases dry
  · rw [set_new_mask_commit]
    split
    · exact steal_mask_cpus_code _ _ _ _ _
    · exact Or.inl rfl
  · rw [set_new_mask_dry_code]
    exact steal_mask_cpus_code _ _ _ _ _

theorem setprocessmask_dirty (pid : pid_t) (mask : cpu_set_t) (sync : Bool)
    (g : shmem_procinfo) (k : Nat) (hh : g.shm_handler = true)
    (hk : get_process pid g.shdata = some k) (hd : (g.shdata.proc k).dirty = true) :
    shmem_procinfo__setprocessmask pid mask sync g = (some DLB_ERR_PDIRTY, g) := by
  unfold shmem_procinfo__setprocessmask
  simp only [hh, Bool.not_true, Bool.false_eq_true, if_false, hk, hd, if_true]

theorem setprocessmask_clean_code (pid : pid_t) (mask : cpu_set_t) (sync : Bool)
    (g : shmem_procinfo) (k : Nat) (hh : g.shm_handler = true)
    (hk : get_process pid g.shdata = some k) (hd : (g.shdata.proc k).dirty = false) :
    (shmem_procinfo__setprocessmask pid mask sync g).1 ≠ some DLB_ERR_PDIRTY := by
  rw [setprocessmask_eq pid mask sync g k hh hk hd]
  have h1 := set_new_mask_code g.max_cpus k mask true g.shdata
  have h2 := set_new_mask_code g.max_cpus k mask false g.shdata
  split
  · rcases h1 with e | e <;> rw [e] <;> simp [DLB_SUCCESS, DLB_ERR_PERM, DLB_ERR_PDIRTY]
  · split
    · simp
    · rcases h2 with e | e <;> rw [e] <;> simp [DLB_SUCCESS, DLB_ERR_PERM, DLB_ERR_PDIRTY]

theorem polldrom_entry_dirties_other (k : Nat) (s : shdata_t) :
    (polldrom_entry k s).max_processes = s.max_processes
    ∧ (∀ i, ((polldrom_entry k s).proc i).pid = (s.proc i).pid)
    ∧ ∀ i, i ≠ k → (polldrom_entry k s).proc i = s.proc i := by
  unfold polldrom_entry
  refine ⟨max_processes_setProc _ _ _, ?_, ?_⟩
  · intro i
    rw [proc_setProc]
    split
    · rename_i h; rw [← h.1]
    · rfl
  · intro i hi
    exact proc_setProc_of_ne _ _ (Ne.symm hi)

/-- A call of `setprocessmask`, or of `polldrom` for another pid, leaves a
dirty process dirty and in its entry. -/
theorem drom_call_run_keeps_dirty (pid : pid_t) (k : Nat) (call : drom_call)
    (g : shmem_procinfo) (hcall : call ≠ .polldrom pid) (hh : g.shm_handler = true)
    (hk : get_process pid g.shdata = some k) (hd : (g.shdata.proc k).dirty = true) :
    (call.run g).shm_handler = true ∧ get_process pid (call.run g).shdata = some k
    ∧ ((call.run g).shdata.proc k).dirty = true := by
  cases call with
  | setprocessmask q mask sync =>
    simp only [drom_call.run]
    rcases setprocessmask_cases q mask sync g with e | ⟨j, _, _, _, _, e⟩
    · rw [e]; exact ⟨hh, hk, hd⟩
    · rw [e]
      have D := set_new_mask_dirties g.max_cpus j mask false g.shdata
      refine ⟨hh, ?_, ?_⟩
      · rw [get_process_congr pid g.shdata _ D.len D.pid_eq]; exact hk
      · rcases D.same_or_dirty k with e1 | e1
        · simp only; rw [e1]; exact hd
        · exact e1
  | polldrom q =>
    have hq : q ≠ pid := fun e => hcall (by rw [e])
    simp only [drom_call.run]
    rcases polldrom_cases q g with e | ⟨j, hj, _, _, e⟩
    · rw [e]; exact ⟨hh, hk, hd⟩
    · rw [e]
      obtain ⟨hl, hp, ho⟩ := polldrom_entry_dirties_other j g.shdata
      have hjk : k ≠ j := by
        intro e1
        subst e1
        exact hq ((get_process_some hj).1.symm.trans (get_process_some hk).1)
      refine ⟨hh, ?_, ?_⟩
      · rw [get_process_congr pid g.shdata _ hl hp]; exact hk
      · simp only; rw [ho k hjk]; exact hd

theorem run_calls_keeps_dirty (pid : pid_t) (k : Nat) (calls : List drom_call)
    (g : shmem_procinfo) (hcalls : ∀ call ∈ calls, call ≠ .polldrom pid)
    (hh : g.shm_handler = true) (hk : get_process pid g.shdata = some k)
    (hd : (g.shdata.proc k).dirty = true) :
    (run_calls calls g).shm_handler = true ∧ get_process pid (run_calls calls g).shdata = some k
    ∧ ((run_calls calls g).shdata.proc k).dirty = true := by
  induction calls generalizing g with
  | nil => exact ⟨hh, hk, hd⟩
  | cons call calls ih =>
    obtain ⟨h1, h2, h3⟩ := drom_call_run_keeps_dirty pid k call g
      (hcalls call (List.mem_cons_self _ _)) hh hk hd
    exact ih (call.run g) (fun c hc => hcalls c (List.mem_cons_of_mem _ hc)) h1 h2 h3

/-! ## What the calls do to the current masks -/

theorem polldrom_dirty_eq (pid : pid_t) (g : shmem_procinfo) (k : Nat)
    (hh : g.shm_handler = true) (hk : get_process pid g.shdata = some k)
    (hd : (g.shdata.proc k).dirty = true) :
    shmem_procinfo__polldrom pid g =
      (DLB_SUCCESS,
        some { new_cpus := (g.shdata.proc k).future_process_mask.card,
               new_mask := (g.shdata.proc k).future_process_mask },
        { g with shdata := polldrom_entry k g.shdata }) := by
  unfold shmem_procinfo__polldrom polldrom_entry
  simp only [hh, Bool.not_true, Bool.false_eq_true, if_false, hk, hd, CPU_COUNT]

theorem getprocessmask_clean (pid : pid_t) (sync : Bool) (g : shmem_procinfo) (k : Nat)
    (hh : g.shm_handler = true) (hk : get_process pid g.shdata = some k)
    (hd : (g.shdata.proc k).dirty = false) :
    shmem_procinfo__getprocessmask pid sync g =
      (some DLB_SUCCESS, some (g.shdata.proc k).current_process_mask, g) := by
  unfold shmem_procinfo__getprocessmask
  simp only [hh, Bool.not_true, Bool.false_eq_true, if_false, hk, hd, Bool.not_false, if_true]

theorem getprocessmask_dirty (pid : pid_t) (g : shmem_procinfo) (k : Nat)
    (hh : g.shm_handler = true) (hk : get_process pid g.shdata = some k)
    (hd : (g.shdata.proc k).dirty = true) :
    shmem_procinfo__getprocessmask pid false g =
      (some DLB_SUCCESS, some (g.shdata.proc k).future_process_mask, g) := by
  unfold shmem_procinfo__getprocessmask
  simp only [hh, Bool.not_true, Bool.false_eq_true, if_false, hk, hd, Bool.not_false, if_true]

theorem init_attach_attached (system_size : Nat) (g : shmem_procinfo)
    (hh : g.shm_handler = true) :
    (shmem_procinfo__init_attach system_size g).shdata.max_processes = g.shdata.max_processes
    ∧ ∀ i, (shmem_procinfo__init_attach system_size g).shdata.proc i = g.shdata.proc i := by
  unfold shmem_procinfo__init_attach open_shmem
  simp only [hh, Bool.not_true, Bool.false_eq_true, if_false]
  split
  · exact ⟨rfl, fun _ => rfl⟩
  · exact ⟨rfl, fun _ => rfl⟩

theorem finalize_entry_proc_other (max_cpus k : Nat) (rs : Bool) (s : shdata_t) (i : Nat)
    (hik : i ≠ k) :
    ((finalize_entry max_cpus k rs s).proc i).current_process_mask
      = (s.proc i).current_process_mask := by
  unfold finalize_entry
  rw [proc_setProc_of_ne _ _ (Ne.symm hik)]
  split
  · exact (unregister_mask_dirties _ _ _ _ _).current_eq i
  · exact (unregister_mask_dirties _ _ _ _ _).current_eq i

theorem finalize_entry_proc_self (max_cpus k : Nat) (rs : Bool) (s : shdata_t)
    (hk : k < s.max_processes) : (finalize_entry max_cpus k rs s).proc k = pinfo_t.zero := by
  unfold finalize_entry
  apply proc_setProc_self
  split
  · rw [(unregister_mask_dirties _ _ _ _ _).len]; exact hk
  · rw [(unregister_mask_dirties _ _ _ _ _).len]; exact hk

theorem preinit_entry_current_other (max_cpus : Nat) (pid : pid_t) (mask : cpu_set_t)
    (steal : Int) (p : Nat) (s : shdata_t) (i : Nat) (hip : i ≠ p) :
    ((preinit_entry max_cpus pid mask steal p s).2.proc i).current_process_mask
      = (s.proc i).current_process_mask := by
  have h1 : ((s.setProc p ((s.proc p).claimed pid)).proc i) = s.proc i :=
    proc_setProc_of_ne _ _ (Ne.symm hip)
  rcases preinit_entry_cases max_cpus pid mask steal p s with e | ⟨_, _, e⟩ | ⟨_, _, e⟩
      | ⟨_, _, e⟩
  · rw [e]; simp only; rw [h1]
  · rw [e]; simp only
    rw [(set_new_mask_dirties _ _ _ _ _).current_eq i, h1]
  · rw [e]; simp only
    rw [proc_setProc_of_ne _ _ (Ne.symm hip), (register_mask_dirties _ _ _).current_eq i, h1]
  · rw [e]; simp only
    rw [proc_setProc_of_ne _ _ (Ne.symm hip), (set_new_mask_dirties _ _ _ _ _).current_eq i, h1]

/-- A call other than `polldrom`, `finalize` and `postfinalize` of the process
in entry `i` leaves the current mask of that process as it is. -/
theorem registry_call_current (system_size : Nat) (call : registry_call) (g : shmem_procinfo)
    (i : Nat) (hh : g.shm_handler = true) (hi : (g.shdata.proc i).pid ≠ NOBODY)
    (hcall : call ≠ .polldrom (g.shdata.proc i).pid
      ∧ ∀ rs, call ≠ .finalize (g.shdata.proc i).pid rs
        ∧ call ≠ .postfinalize (g.shdata.proc i).pid rs) :
    ((call.run system_size g).shdata.proc i).current_process_mask
      = (g.shdata.proc i).current_process_mask := by
  cases call with
  | init pid mask =>
    simp only [registry_call.run]
    obtain ⟨_, ha⟩ := init_attach_attached system_size g hh
    obtain ⟨_, hs | ⟨p, _, hf, _, hs⟩⟩ := init_cases system_size pid mask g
    · rw [hs, ha]
    · rw [hs]
      have hpi : p ≠ i := by
        intro e
        subst e
        have := (get_process_some hf).1
        rw [ha] at this
        exact hi this
      unfold init_entry
      rw [proc_setProc_of_ne _ _ hpi]
      exact congrArg _ (ha i)
  | preinit pid mask steal =>
    simp only [registry_call.run]
    rcases preinit_cases pid mask steal g with e | ⟨p, _, hfree, _, _, _, e⟩
    · rw [e]
    · rw [e]
      have hip : i ≠ p := by
        intro e1; subst e1; exact hi hfree
      exact preinit_entry_current_other _ _ _ _ _ _ _ hip
  | setprocessmask pid mask sync =>
    simp only [registry_call.run]
    rcases setprocessmask_cases pid mask sync g with e | ⟨k, _, _, _, _, e⟩
    · rw [e]
    · rw [e]
      exact (set_new_mask_dirties _ _ _ _ _).current_eq i
  | polldrom pid =>
    simp only [registry_call.run]
    rcases polldrom_cases pid g with e | ⟨k, hk, _, _, e⟩
    · rw [e]
    · rw [e]
      have hik : i ≠ k := by
        intro e1
        subst e1
        exact hcall.1 (by rw [(get_process_some hk).1])
      simp only
      rw [(polldrom_entry_dirties_other k g.shdata).2.2 i hik]
  | recover_stolen_cpus pid =>
    simp only [registry_call.run]
    rcases recover_cases pid g with e | ⟨k, _, _, e⟩
    · rw [e]
    · rw [e]
      exact (recover_entry_dirties k _).current_eq i
  | finalize pid rs =>
    simp only [registry_call.run]
    obtain ⟨_, hs | ⟨k, hk, _, hs⟩⟩ := finalize_cases pid rs g
    · rw [hs]
    · rw [hs]
      have hik : i ≠ k := by
        intro e1
        subst e1
        exact (hcall.2 rs).1 (by rw [(get_process_some hk).1])
      exact finalize_entry_proc_other _ _ _ _ _ hik
  | postfinalize pid rs =>
    simp only [registry_call.run]
    rcases postfinalize_cases pid rs g with e | ⟨k, hk, _, e⟩
    · rw [e]
    · rw [e]
      have hik : i ≠ k := by
        intro e1
        subst e1
        exact (hcall.2 rs).2 (by rw [(get_process_some hk).1])
      exact finalize_entry_proc_other _ _ _ _ _ hik

/-- What a dirty process with future mask `mask` is told: by `getprocessmask`
before it polls, by `polldrom`, and by `getprocessmask` after it has polled. -/
theorem dirty_round_trip (pid : pid_t) (mask : cpu_set_t) (g : shmem_procinfo) (k : Nat)
    (hh : g.shm_handler = true) (hk : get_process pid g.shdata = some k)
    (hd : (g.shdata.proc k).dirty = true)
    (hf : (g.shdata.proc k).future_process_mask = mask) :
    shmem_procinfo__getprocessmask pid false g = (some DLB_SUCCESS, some mask, g)
    ∧ (shmem_procinfo__polldrom pid g).1 = DLB_SUCCESS
    ∧ (shmem_procinfo__polldrom pid g).2.1 = some { new_cpus := mask.card, new_mask := mask }
    ∧ ((shmem_procinfo__polldrom pid g).2.2.shdata.proc k).current_process_mask = mask
    ∧ ∀ sync_query : Bool,
        shmem_procinfo__getprocessmask pid sync_query (shmem_procinfo__polldrom pid g).2.2
        = (some DLB_SUCCESS, some mask, (shmem_procinfo__polldrom pid g).2.2) := by
  have hklt := (get_process_some hk).2
  have hpoll := polldrom_dirty_eq pid g k hh hk hd
  have hp := polldrom_entry_dirties_other k g.shdata
  have hentry : (polldrom_entry k g.shdata).proc k
      = { g.shdata.proc k with
          current_process_mask := mask, dirty := false, returncode := 0 } := by
    unfold polldrom_entry
    rw [proc_setProc_self _ _ hklt, hf]
  have hk2 : get_process pid (polldrom_entry k g.shdata) = some k := by
    rw [get_process_congr pid _ _ hp.1 hp.2.1]; exact hk
  rw [hpoll, hf]
  refine ⟨?_, rfl, rfl, ?_, ?_⟩
  · rw [getprocessmask_dirty pid g k hh hk hd, hf]
  · simp only [hentry]
  · intro sync
    have key := getprocessmask_clean pid sync
      ({ g with shdata := polldrom_entry k g.shdata } : shmem_procinfo) k hh hk2
      (by simp only [hentry])
    simp only [hentry] at key
    exact key

/-! ## The empty registry -/

theorem steals_in_range_within (max_cpus : Nat) (call : registry_call)
    (h : call.steals_in_range max_cpus) : call.steals_within (fun _ => True) max_cpus := by
  cases call <;> simp only [registry_call.steals_within]
  intro hs c hc _
  exact h hs c hc

theorem empty_registry_dirty_invariant_on (P : Nat → Prop) (system_size : Nat)
    (g : shmem_procinfo) (h : empty_registry system_size g) :
    dirty_invariant_on P g.shdata :=
  fun i hi hr => absurd (h.2.2.2 i hi) hr

theorem empty_registry_single_owner (system_size : Nat) (g : shmem_procinfo)
    (h : empty_registry system_size g) : single_owner g.shdata :=
  ⟨fun i hi _ _ hij => absurd (h.2.2.2 i hi) hij.2.1, fun i hi hr => absurd (h.2.2.2 i hi) hr⟩

theorem empty_registry_cpus_covered (system_size : Nat) (g : shmem_procinfo)
    (h : empty_registry system_size g) : cpus_covered system_size g.shdata := by
  intro c hc
  left
  rw [h.2.2.1]
  simpa [mu_get_system_mask] using hc

theorem get_process_eq_some {pid : pid_t} {s : shdata_t} {k : Nat} (hk : k < s.max_processes)
    (hp : (s.proc k).pid = pid) (hmin : ∀ j, j < k → (s.proc j).pid ≠ pid) :
    get_process pid s = some k := by
  unfold get_process
  rw [List.find?_range_eq_some]
  refine ⟨by simpa using hp, by simpa using hk, ?_⟩
  intro j hj
  simpa using hmin j hj

/-- On a region that exists and is initialized `init` works on the registry as
it is. -/
theorem init_attach_shdata_of_initialized (system_size : Nat) (g : shmem_procinfo)
    (hex : g.shm_handler = true ∨ g.region_deleted = false)
    (hini : g.shdata.initialized = true) :
    (shmem_procinfo__init_attach system_size g).shdata = g.shdata := by
  unfold shmem_procinfo__init_attach open_shmem shmem_init
  by_cases hh : g.shm_handler = true
  · simp only [hh, Bool.not_true, Bool.false_eq_true, if_false, hini]
  · have hh' : g.shm_handler = false := by simpa using hh
    have hd : g.region_deleted = false := by
      rcases hex with h | h
      · exact absurd h hh
      · exact h
    simp only [hh', Bool.not_false, if_true, hd, Bool.false_eq_true, if_false, hini,
      Bool.not_true]

/-! ## Finalizing without `return_stolen` -/

theorem unregister_mask_false_free_mask (max_cpus k : Nat) (m : cpu_set_t) (s : shdata_t) :
    (unregister_mask max_cpus k m false s).2.free_mask = s.free_mask ∪ m := by
  unfold unregister_mask
  split
  · rename_i h0
    have h1 : m = ∅ := by simpa using h0
    simp [h1]
  · simp

theorem unregister_mask_false_proc_of_ne (max_cpus k : Nat) (m : cpu_set_t) (s : shdata_t)
    (i : Nat) (hik : i ≠ k) : (unregister_mask max_cpus k m false s).2.proc i = s.proc i := by
  unfold unregister_mask
  split
  · rfl
  · simp only [Bool.false_eq_true, if_false]
    rw [proc_setProc_of_ne _ _ (Ne.symm hik)]
    rfl

theorem unregister_mask_max_processes (max_cpus k : Nat) (m : cpu_set_t) (rs : Bool)
    (s : shdata_t) : (unregister_mask max_cpus k m rs s).2.max_processes = s.max_processes :=
  (unregister_mask_dirties max_cpus k m rs s).len

/-- The mask that `finalize` and `postfinalize` unregister for the entry `k`. -/
theorem finalize_entry_eq (max_cpus k : Nat) (rs : Bool) (s : shdata_t) (M : cpu_set_t)
    (hM : M = if (s.proc k).dirty then (s.proc k).future_process_mask
      else (s.proc k).current_process_mask) :
    finalize_entry max_cpus k rs s =
      (unregister_mask max_cpus k M rs s).2.setProc k pinfo_t.zero := by
  unfold finalize_entry
  rw [hM]
  split <;> rfl

/-! ## Who gets the CPUs that are given back -/

/-- Every entry after one step of giving back the CPU `c` of the owner `k`. -/
theorem unregister_mask_step_proc (k c : Nat) (s : shdata_t) (i : Nat) :
    (unregister_mask_step k c s).proc i =
      match claimant s c with
      | none =>
        if k = i ∧ k < s.max_processes then
          { s.proc k with
            future_process_mask := (s.proc k).future_process_mask.erase c, dirty := true }
        else s.proc i
      | some p =>
        if k = i ∧ k < s.max_processes then
          { s.proc k with
            future_process_mask := (s.proc k).future_process_mask.erase c
            stolen_cpus := if p = k then (s.proc k).stolen_cpus.erase c
              else (s.proc k).stolen_cpus
            dirty := true }
        else if p = i then
          { s.proc p with
            future_process_mask := insert c (s.proc p).future_process_mask
            stolen_cpus := (s.proc p).stolen_cpus.erase c
            dirty := true }
        else s.proc i := by
  rw [unregister_mask_step_eq]
  cases hcl : claimant s c with
  | none =>
    dsimp only
    rw [proc_setProc]
    rfl
  | some p =>
    dsimp only
    obtain ⟨hplt, _, _⟩ := claimant_some hcl
    simp only [proc_setProc, max_processes_setProc, hplt, and_true]
    by_cases hki : k = i ∧ k < s.max_processes
    · rw [if_pos hki, if_pos hki]
      by_cases hpk : p = k
      · subst hpk
        simp
      · simp [hpk]
    · rw [if_neg hki, if_neg hki]

theorem unregister_mask_step_free_mask (k c : Nat) (s : shdata_t) :
    (unregister_mask_step k c s).free_mask =
      if claimant s c = none then insert c s.free_mask else s.free_mask := by
  rw [unregister_mask_step_eq]
  cases hcl : claimant s c with
  | none => rfl
  | some p => rfl

/-- An entry other than the owner changes in a step only if the CPU is given
back to it. -/
theorem unregister_mask_step_proc_of_ne (k c : Nat) (s : shdata_t) (i : Nat) (hik : i ≠ k) :
    (unregister_mask_step k c s).proc i =
      if claimant s c = some i then
        { s.proc i with
          future_process_mask := insert c (s.proc i).future_process_mask
          stolen_cpus := (s.proc i).stolen_cpus.erase c
          dirty := true }
      else s.proc i := by
  rw [unregister_mask_step_proc]
  cases hcl : claimant s c with
  | none =>
    dsimp only
    rw [if_neg (fun h => hik h.1.symm)]
    simp
  | some p =>
    dsimp only
    rw [if_neg (fun h => hik h.1.symm)]
    by_cases hpi : p = i
    · subst hpi
      simp
    · rw [if_neg hpi, if_neg (fun h => hpi (Option.some.inj h))]

/-- A step for the CPU `c` changes no entry in what it remembers of another CPU. -/
theorem unregister_mask_step_claims (k c : Nat) (s : shdata_t) (d : Nat) (hd : d ≠ c)
    (p : Nat) : claims (unregister_mask_step k c s) d p = claims s d p := by
  have hpid := (unregister_mask_step_frame k c s).pid_eq p
  have hst : d ∈ ((unregister_mask_step k c s).proc p).stolen_cpus ↔ d ∈ (s.proc p).stolen_cpus := by
    rw [unregister_mask_step_proc]
    cases hcl : claimant s c with
    | none =>
      dsimp only
      split
      · rename_i h; rw [← h.1]
      · rfl
    | some q =>
      dsimp only
      split
      · rename_i h
        rw [← h.1]
        dsimp only
        split
        · simp [hd]
        · rfl
      · split
        · rename_i h; rw [← h]; simp [hd]
        · rfl
  unfold claims
  rw [hpid]
  simp only [CPU_ISSET, hst]

theorem unregister_mask_step_claimant (k c : Nat) (s : shdata_t) (d : Nat) (hd : d ≠ c) :
    claimant (unregister_mask_step k c s) d = claimant s d := by
  unfold claimant
  rw [(unregister_mask_step_frame k c s).len]
  congr 1
  funext p
  exact unregister_mask_step_claims k c s d hd p

theorem returned_frame_refl (k : Nat) (D : Nat → Prop) (s : shdata_t) (hD : ∀ d, ¬ D d) :
    returned_frame k D s s :=
  ⟨fun d => ⟨Or.inl, fun h => h.elim id (fun h1 => absurd h1.1 (hD d))⟩,
    fun _ _ d => ⟨Or.inl, fun h => h.elim id (fun h1 => absurd h1.1 (hD d))⟩,
    fun _ _ d => ⟨fun h => ⟨h, fun h1 => hD d h1.1⟩, fun h => h.1⟩,
    fun _ _ => ⟨Or.inl, fun h => h.elim id (fun ⟨d, h1, _⟩ => absurd h1 (hD d))⟩⟩

theorem returned_frame_congr {k : Nat} {D E : Nat → Prop} {s r : shdata_t}
    (hDE : ∀ d, D d ↔ E d) (h : returned_frame k D s r) : returned_frame k E s r := by
  have : D = E := funext fun d => propext (hDE d)
  rw [← this]
  exact h

theorem unregister_mask_step_returned (k c : Nat) (s : shdata_t) :
    returned_frame k (fun d => d = c) s (unregister_mask_step k c s) := by
  refine ⟨?_, ?_, ?_, ?_⟩
  · intro d
    rw [unregister_mask_step_free_mask]
    by_cases hcl : claimant s c = none
    · rw [if_pos hcl]
      constructor
      · intro h
        rcases Finset.mem_insert.mp h with h | h
        · exact Or.inr ⟨h, by rw [h]; exact hcl⟩
        · exact Or.inl h
      · rintro (h | ⟨h, _⟩)
        · exact Finset.mem_insert_of_mem h
        · rw [h]; exact Finset.mem_insert_self _ _
    · rw [if_neg hcl]
      constructor
      · exact Or.inl
      · rintro (h | ⟨h, h1⟩)
        · exact h
        · rw [h] at h1; exact absurd h1 hcl
  · intro i hik d
    rw [unregister_mask_step_proc_of_ne k c s i hik]
    by_cases hcl : claimant s c = some i
    · rw [if_pos hcl]
      dsimp only
      constructor
      · intro h
        rcases Finset.mem_insert.mp h with h | h
        · exact Or.inr ⟨h, by rw [h]; exact hcl⟩
        · exact Or.inl h
      · rintro (h | ⟨h, _⟩)
        · exact Finset.mem_insert_of_mem h
        · rw [h]; exact Finset.mem_insert_self _ _
    · rw [if_neg hcl]
      constructor
      · exact Or.inl
      · rintro (h | ⟨h, h1⟩)
        · exact h
        · rw [h] at h1; exact absurd h1 hcl
  · intro i hik d
    rw [unregister_mask_step_proc_of_ne k c s i hik]
    by_cases hcl : claimant s c = some i
    · rw [if_pos hcl]
      dsimp only
      rw [Finset.mem_erase]
      constructor
      · rintro ⟨h1, h2⟩
        exact ⟨h2, fun h => h1 h.1⟩
      · rintro ⟨h1, h2⟩
        exact ⟨fun h => h2 ⟨h, by rw [h]; exact hcl⟩, h1⟩
    · rw [if_neg hcl]
      constructor
      · intro h
        exact ⟨h, fun h1 => hcl (by rw [← h1.1]; exact h1.2)⟩
      · exact fun h => h.1
  · intro i hik
    rw [unregister_mask_step_proc_of_ne k c s i hik]
    by_cases hcl : claimant s c = some i
    · rw [if_pos hcl]
      dsimp only
      exact ⟨fun _ => Or.inr ⟨c, rfl, hcl⟩, fun _ => rfl⟩
    · rw [if_neg hcl]
      constructor
      · exact Or.inl
      · rintro (h | ⟨d, h, h1⟩)
        · exact h
        · rw [h] at h1; exact absurd h1 hcl

/-- The outer loop of `unregister_mask` gives each CPU of the mask to the entry
that claims it in the registry before the loop. -/
theorem unregister_mask_cpus_returned (k : Nat) (mask : cpu_set_t) (cs : List Nat)
    (s : shdata_t) (hnd : cs.Nodup) :
    returned_frame k (fun d => d ∈ cs ∧ d ∈ mask) s (unregister_mask_cpus k mask cs s) := by
  induction cs generalizing s with
  | nil => exact returned_frame_refl k _ s (fun d h => by simp at h)
  | cons c cs ih =>
    rw [unregister_mask_cpus_cons]
    have hc : c ∉ cs := (List.nodup_cons.mp hnd).1
    have hnd1 : cs.Nodup := (List.nodup_cons.mp hnd).2
    by_cases hm : c ∈ mask
    · have hm' : CPU_ISSET c mask = true := by simpa using hm
      rw [if_pos hm']
      have h1 := unregister_mask_step_returned k c s
      have h2 := ih (unregister_mask_step k c s) hnd1
      have hcl : ∀ d, d ∈ cs → claimant (unregister_mask_step k c s) d = claimant s d :=
        fun d hd => unregister_mask_step_claimant k c s d (fun h => hc (h ▸ hd))
      refine ⟨?_, ?_, ?_, ?_⟩
      · intro d
        rw [h2.free, h1.free]
        constructor
        · rintro ((h | ⟨h, h3⟩) | ⟨⟨h, h3⟩, h4⟩)
          · exact Or.inl h
          · exact Or.inr ⟨⟨by rw [h]; exact List.mem_cons_self _ _, by rw [h]; exact hm⟩, h3⟩
          · exact Or.inr ⟨⟨List.mem_cons_of_mem _ h, h3⟩, by rw [← hcl d h]; exact h4⟩
        · rintro (h | ⟨⟨h, h3⟩, h4⟩)
          · exact Or.inl (Or.inl h)
          · rcases List.mem_cons.mp h with h | h
            · exact Or.inl (Or.inr ⟨h, h4⟩)
            · exact Or.inr ⟨⟨h, h3⟩, by rw [hcl d h]; exact h4⟩
      · intro i hik d
        rw [h2.future i hik, h1.future i hik]
        constructor
        · rintro ((h | ⟨h, h3⟩) | ⟨⟨h, h3⟩, h4⟩)
          · exact Or.inl h
          · exact Or.inr ⟨⟨by rw [h]; exact List.mem_cons_self _ _, by rw [h]; exact hm⟩, h3⟩
          · exact Or.inr ⟨⟨List.mem_cons_of_mem _ h, h3⟩, by rw [← hcl d h]; exact h4⟩
        · rintro (h | ⟨⟨h, h3⟩, h4⟩)
          · exact Or.inl (Or.inl h)
          · rcases List.mem_cons.mp h with h | h
            · exact Or.inl (Or.inr ⟨h, h4⟩)
            · exact Or.inr ⟨⟨h, h3⟩, by rw [hcl d h]; exact h4⟩
      · intro i hik d
        rw [h2.stolen i hik, h1.stolen i hik]
        constructor
        · rintro ⟨⟨h, h3⟩, h4⟩
          refine ⟨h, ?_⟩
          rintro ⟨⟨h5, h6⟩, h7⟩
          rcases List.mem_cons.mp h5 with h5 | h5
          · exact h3 ⟨h5, h7⟩
          · exact h4 ⟨⟨h5, h6⟩, by rw [hcl d h5]; exact h7⟩
        · rintro ⟨h, h3⟩
          refine ⟨⟨h, fun h4 => h3 ⟨⟨by rw [h4.1]; exact List.mem_cons_self _ _,
            by rw [h4.1]; exact hm⟩, h4.2⟩⟩, ?_⟩
          rintro ⟨⟨h5, h6⟩, h7⟩
          exact h3 ⟨⟨List.mem_cons_of_mem _ h5, h6⟩, by rw [← hcl d h5]; exact h7⟩
      · intro i hik
        rw [h2.dirty i hik, h1.dirty i hik]
        constructor
        · rintro ((h | ⟨d, h, h3⟩) | ⟨d, ⟨h, h3⟩, h4⟩)
          · exact Or.inl h
          · exact Or.inr ⟨d, ⟨by rw [h]; exact List.mem_cons_self _ _, by rw [h]; exact hm⟩, h3⟩
          · exact Or.inr ⟨d, ⟨List.mem_cons_of_mem _ h, h3⟩, by rw [← hcl d h]; exact h4⟩
        · rintro (h | ⟨d, ⟨h, h3⟩, h4⟩)
          · exact Or.inl (Or.inl h)
          · rcases List.mem_cons.mp h with h | h
            · exact Or.inl (Or.inr ⟨d, h, h4⟩)
            · exact Or.inr ⟨d, ⟨h, h3⟩, by rw [hcl d h]; exact h4⟩
    · have hm' : ¬ CPU_ISSET c mask = true := by simpa using hm
      rw [if_neg hm']
      refine returned_frame_congr (fun d => ?_) (ih s hnd1)
      constructor
      · exact fun h => ⟨List.mem_cons_of_mem _ h.1, h.2⟩
      · rintro ⟨h, h1⟩
        rcases List.mem_cons.mp h with h | h
        · rw [h] at h1; exact absurd h1 hm
        · exact ⟨h, h1⟩

/-- The function `unregister_mask` with `return_stolen`: each CPU of the mask
below `max_cpus` goes to the entry that claims it, or to the free mask. -/
theorem unregister_mask_true_returned (max_cpus k : Nat) (m : cpu_set_t) (s : shdata_t) :
    returned_frame k (fun d => d < max_cpus ∧ d ∈ m) s
      (unregister_mask max_cpus k m true s).2 := by
  unfold unregister_mask
  split
  · rename_i h0
    have h1 : m = ∅ := by simpa using h0
    exact returned_frame_refl k _ s (fun d h => by rw [h1] at h; simp at h)
  · simp only [if_true]
    exact returned_frame_congr (fun d => by simp)
      (unregister_mask_cpus_returned k m (List.range max_cpus) s (List.nodup_range _))

/-! ## The victims of the steals for a new owner -/

/-- Under the dirty-flag invariant, one pass of the inner loop of `steal_mask`
changes an entry other than the new owner only if it is registered and has the
CPU in its future mask; the CPU then goes to its stolen CPUs. -/
theorem steal_mask_victims_victim (n c : Nat) (ps : List Nat) (s : shdata_t)
    (hinv : dirty_invariant s) (j : Nat) (hjn : j ≠ n) :
    ((s.proc j).pid = NOBODY → (steal_mask_victims (some n) c false ps s).2.proc j = s.proc j)
    ∧ (∀ d ∈ ((steal_mask_victims (some n) c false ps s).2.proc j).stolen_cpus,
        d ∈ (s.proc j).stolen_cpus ∨ (d = c ∧ d ∈ (s.proc j).future_process_mask))
    ∧ ((steal_mask_victims (some n) c false ps s).2.proc j = s.proc j
        ∨ c ∈ (s.proc j).future_process_mask) := by
  rw [steal_mask_victims_eq]
  cases hv : ps.find? (gives s c) with
  | none => exact ⟨fun _ => rfl, fun d hd => Or.inl hd, Or.inl rfl⟩
  | some v =>
    have hg := List.find?_some hv
    simp only [gives, Bool.and_eq_true, decide_eq_true_eq] at hg
    obtain ⟨hreg, hpre⟩ := hg
    dsimp only
    rw [steal_cpu_true_proc n v c j s hpre, if_neg (fun h => hjn h.1.symm)]
    by_cases hvj : v = j
    · subst hvj
      rw [if_pos rfl]
      have hcf := (steal_precondition_mem_future hinv hreg hpre).1
      refine ⟨fun h => absurd h hreg, ?_, Or.inr hcf⟩
      intro d hd
      simp only [stolen_from, Finset.mem_insert] at hd
      rcases hd with hd | hd
      · exact Or.inr ⟨hd, hd ▸ hcf⟩
      · exact Or.inl hd
    · rw [if_neg hvj]
      exact ⟨fun _ => rfl, fun d hd => Or.inl hd, Or.inl rfl⟩

/-- Under the invariants, the steals for the new owner `n` change an entry
other than `n` only if it is registered and has a CPU of the mask in its future
mask; what it gains in its stolen CPUs comes from its future mask. -/
theorem steal_mask_cpus_victim (n : Nat) (mask : cpu_set_t) (cs : List Nat) (s : shdata_t)
    (hinv : dirty_invariant s) (hdis : futures_disjoint s) (j : Nat) (hjn : j ≠ n) :
    ((s.proc j).pid = NOBODY → (steal_mask_cpus (some n) mask false cs s).2.proc j = s.proc j)
    ∧ (∀ d ∈ ((steal_mask_cpus (some n) mask false cs s).2.proc j).stolen_cpus,
        d ∈ (s.proc j).stolen_cpus
          ∨ (d ∈ (s.proc j).future_process_mask ∧ d ∈ cs ∧ d ∈ mask))
    ∧ ((steal_mask_cpus (some n) mask false cs s).2.proc j = s.proc j
        ∨ ∃ d, d ∈ cs ∧ d ∈ mask ∧ d ∈ (s.proc j).future_process_mask) := by
  induction cs generalizing s with
  | nil => exact ⟨fun _ => rfl, fun d hd => Or.inl hd, Or.inl rfl⟩
  | cons c cs ih =>
    have h1 := steal_mask_victims_victim n c (List.range s.max_processes) s hinv j hjn
    have hi1 := steal_mask_victims_invariants n c false (List.range s.max_processes) s hinv hdis
    have hfr := steal_mask_victims_frame n c false (List.range s.max_processes) s j
    unfold steal_mask_cpus
    by_cases hm : CPU_ISSET c mask = true
    · rw [if_pos hm]
      have hm' : c ∈ mask := by simpa using hm
      dsimp only
      split
      · have h2 := ih _ hi1.1 hi1.2
        refine ⟨?_, ?_, ?_⟩
        · intro hu
          rw [h2.1 (by rw [hfr.pid_eq]; exact hu), h1.1 hu]
        · intro d hd
          rcases h2.2.1 d hd with h | ⟨h, h3, h4⟩
          · rcases h1.2.1 d h with h | ⟨h, h5⟩
            · exact Or.inl h
            · exact Or.inr ⟨h5, by rw [h]; exact List.mem_cons_self _ _, by rw [h]; exact hm'⟩
          · exact Or.inr ⟨hfr.other_anti hjn h, List.mem_cons_of_mem _ h3, h4⟩
        · rcases h2.2.2 with h | ⟨d, h, h3, h4⟩
          · rcases h1.2.2 with h5 | h5
            · exact Or.inl (h.trans h5)
            · exact Or.inr ⟨c, List.mem_cons_self _ _, hm', h5⟩
          · exact Or.inr ⟨d, List.mem_cons_of_mem _ h, h3, hfr.other_anti hjn h4⟩
      · refine ⟨h1.1, ?_, ?_⟩
        · intro d hd
          rcases h1.2.1 d hd with h | ⟨h, h5⟩
          · exact Or.inl h
          · exact Or.inr ⟨h5, by rw [h]; exact List.mem_cons_self _ _, by rw [h]; exact hm'⟩
        · rcases h1.2.2 with h5 | h5
          · exact Or.inl h5
          · exact Or.inr ⟨c, List.mem_cons_self _ _, hm', h5⟩
    · rw [if_neg hm]
      have h2 := ih s hinv hdis
      exact ⟨h2.1,
        fun d hd => (h2.2.1 d hd).imp id (fun h => ⟨h.1, List.mem_cons_of_mem _ h.2.1, h.2.2⟩),
        h2.2.2.imp id (fun ⟨d, h, h3, h4⟩ => ⟨d, List.mem_cons_of_mem _ h, h3, h4⟩)⟩

/-- A new owner that does not hold the CPU is not the victim of its steal. -/
theorem steal_mask_victims_new_owner (n c : Nat) (ps : List Nat) (s : shdata_t)
    (hcur : c ∉ (s.proc n).current_process_mask)
    (hfut : c ∉ (s.proc n).future_process_mask) :
    ((steal_mask_victims (some n) c false ps s).2.proc n).stolen_cpus = (s.proc n).stolen_cpus
    ∧ ∀ v, ps.find? (gives s c) = some v → v ≠ n := by
  have hne : ∀ v, ps.find? (gives s c) = some v → v ≠ n := by
    intro v hv e
    have hg := List.find?_some hv
    simp only [gives, Bool.and_eq_true, decide_eq_true_eq] at hg
    rw [e] at hg
    rcases hg.2 with ⟨_, h, _⟩ | ⟨_, h, _⟩
    · exact hcur h
    · exact hfut h
  refine ⟨?_, hne⟩
  rw [steal_mask_victims_eq]
  cases hv : ps.find? (gives s c) with
  | none => rfl
  | some v =>
    have hg := List.find?_some hv
    simp only [gives, Bool.and_eq_true, decide_eq_true_eq] at hg
    have hvn := hne v hv
    dsimp only
    rw [steal_cpu_true_proc n v c n s hg.2]
    simp only [true_and, if_neg hvn]
    split <;> rfl

/-- The CPUs that are still to be stolen stay out of the masks of the new owner. -/
theorem steal_mask_victims_keeps_new (n c : Nat) (ps : List Nat) (s : shdata_t)
    (mask : cpu_set_t) (cs : List Nat) (hc : c ∉ cs)
    (hnew : ∀ d ∈ cs, d ∈ mask →
      d ∉ (s.proc n).current_process_mask ∧ d ∉ (s.proc n).future_process_mask) :
    ∀ d ∈ cs, d ∈ mask →
      d ∉ ((steal_mask_victims (some n) c false ps s).2.proc n).current_process_mask
      ∧ d ∉ ((steal_mask_victims (some n) c false ps s).2.proc n).future_process_mask := by
  intro d hd hm
  have hfr := steal_mask_victims_frame n c false ps s n
  have hdc : ¬ d = c := fun e => hc (e ▸ hd)
  rw [hfr.current_eq, hfr.future_other d hdc]
  exact hnew d hd hm

/-- The steals never take a CPU from a new owner that holds none of them:
its stolen CPUs are as before. -/
theorem steal_mask_cpus_new_owner (n : Nat) (mask : cpu_set_t) (cs : List Nat) (s : shdata_t)
    (hnd : cs.Nodup)
    (hnew : ∀ c ∈ cs, c ∈ mask →
      c ∉ (s.proc n).current_process_mask ∧ c ∉ (s.proc n).future_process_mask) :
    ((steal_mask_cpus (some n) mask false cs s).2.proc n).stolen_cpus
      = (s.proc n).stolen_cpus := by
  induction cs generalizing s with
  | nil => rfl
  | cons c cs ih =>
    have hc : c ∉ cs := (List.nodup_cons.mp hnd).1
    have hnd1 : cs.Nodup := (List.nodup_cons.mp hnd).2
    unfold steal_mask_cpus
    by_cases hm : CPU_ISSET c mask = true
    · rw [if_pos hm]
      have hm' : c ∈ mask := by simpa using hm
      have hcn := hnew c (List.mem_cons_self _ _) hm'
      have h1 := (steal_mask_victims_new_owner n c (List.range s.max_processes) s
        hcn.1 hcn.2).1
      have hk := steal_mask_victims_keeps_new n c (List.range s.max_processes) s mask cs hc
        (fun d hd => hnew d (List.mem_cons_of_mem _ hd))
      dsimp only
      split
      · rw [ih _ hnd1 hk, h1]
      · exact h1
    · rw [if_neg hm]
      exact ih s hnd1 (fun d hd => hnew d (List.mem_cons_of_mem _ hd))

/-- Under the invariants, every CPU that is stolen for a new owner that holds
none of them comes from the future mask of a registered process. -/
theorem steal_mask_cpus_success_source (n : Nat) (mask : cpu_set_t) (cs : List Nat)
    (s : shdata_t) (hnd : cs.Nodup) (hinv : dirty_invariant s) (hdis : futures_disjoint s)
    (hnew : ∀ c ∈ cs, c ∈ mask →
      c ∉ (s.proc n).current_process_mask ∧ c ∉ (s.proc n).future_process_mask)
    (h : (steal_mask_cpus (some n) mask false cs s).1 = DLB_SUCCESS) :
    ∀ c ∈ cs, c ∈ mask →
      ∃ v, v ≠ n ∧ (s.proc v).pid ≠ NOBODY ∧ c ∈ (s.proc v).future_process_mask := by
  induction cs generalizing s with
  | nil => intro c hc; simp at hc
  | cons c cs ih =>
    have hc : c ∉ cs := (List.nodup_cons.mp hnd).1
    have hnd1 : cs.Nodup := (List.nodup_cons.mp hnd).2
    have hi1 := steal_mask_victims_invariants n c false (List.range s.max_processes) s hinv hdis
    unfold steal_mask_cpus at h
    by_cases hm : CPU_ISSET c mask = true
    · rw [if_pos hm] at h
      have hm' : c ∈ mask := by simpa using hm
      have hcn := hnew c (List.mem_cons_self _ _) hm'
      have hk := steal_mask_victims_keeps_new n c (List.range s.max_processes) s mask cs hc
        (fun d hd => hnew d (List.mem_cons_of_mem _ hd))
      dsimp only at h
      split at h
      · rename_i hfound
        have h2 := ih _ hnd1 hi1.1 hi1.2 hk h
        intro d hd hdm
        rcases List.mem_cons.mp hd with hd | hd
        · rw [hd]
          rw [steal_mask_victims_eq] at hfound
          cases hv : (List.range s.max_processes).find? (gives s c) with
          | none => rw [hv] at hfound; simp at hfound
          | some v =>
            have hg := List.find?_some hv
            simp only [gives, Bool.and_eq_true, decide_eq_true_eq] at hg
            have hcf := (steal_precondition_mem_future hinv hg.1 hg.2).1
            exact ⟨v, fun e => hcn.2 (e ▸ hcf), hg.1, hcf⟩
        · obtain ⟨v, hvn, hreg, hcv⟩ := h2 d hd hdm
          have hfr := steal_mask_victims_frame n c false (List.range s.max_processes) s v
          exact ⟨v, hvn, by rw [← hfr.pid_eq]; exact hreg, hfr.other_anti hvn hcv⟩
      · have hne : DLB_ERR_PERM ≠ DLB_SUCCESS := by decide
        exact absurd h hne
    · rw [if_neg hm] at h
      intro d hd hdm
      rcases List.mem_cons.mp hd with hd | hd
      · rw [hd] at hdm
        exact absurd (by simpa using hdm) hm
      · exact ih s hnd1 hinv hdis (fun d hd => hnew d (List.mem_cons_of_mem _ hd)) h d hd hdm

theorem set_new_mask_success_stolen (max_cpus k : Nat) (mask : cpu_set_t) (s : shdata_t)
    (hk : k < s.max_processes)
    (h : (set_new_mask max_cpus k mask false s).1 = DLB_SUCCESS) :
    ((set_new_mask max_cpus k mask false s).2.proc k).stolen_cpus =
      ((steal_mask max_cpus (some k) (set_new_mask_sets max_cpus k mask s).cpus_to_steal
        false s).2.proc k).stolen_cpus := by
  have hsteal := (set_new_mask_success_other max_cpus k mask s h).1
  have h0 : ¬ (steal_mask max_cpus (some k) (set_new_mask_sets max_cpus k mask s).cpus_to_steal
      false s).1 ≠ 0 := by
    rw [hsteal]; decide
  rw [set_new_mask_commit, if_neg h0]
  dsimp only
  rw [proc_setProc_self]
  exact hk.trans_eq (steal_mask_cpus_max_processes _ _ _ _ _).symm

/-- A successful `preinit` with `steal` on a registry that satisfies the
invariants: the new entry gets the CPUs of the mask below `max_cpus`, the
free ones from the free mask and the others from the registered processes that
held them. -/
theorem preinit_entry_steal_registered (max_cpus : Nat) (pid : pid_t) (mask : cpu_set_t)
    (steal : Int) (p : Nat) (s : shdata_t) (hst : steal ≠ 0) (hp : p < s.max_processes)
    (hinv : dirty_invariant s) (hdis : futures_disjoint s) (hnf : futures_not_free s)
    (hret : (preinit_entry max_cpus pid mask steal p s).1 = some DLB_SUCCESS) :
    steal_registered max_cpus pid mask p s (preinit_entry max_cpus pid mask steal p s).2 := by
  have hp1 : p < (s.setProc p ((s.proc p).claimed pid)).max_processes := by
    rw [max_processes_setProc]; exact hp
  have hs1p : (s.setProc p ((s.proc p).claimed pid)).proc p = (s.proc p).claimed pid :=
    proc_setProc_self _ _ hp
  have hs1o : ∀ i, i ≠ p → (s.setProc p ((s.proc p).claimed pid)).proc i = s.proc i :=
    fun i hi => proc_setProc_of_ne _ _ (Ne.symm hi)
  have hs1f : (s.setProc p ((s.proc p).claimed pid)).free_mask = s.free_mask := rfl
  have hs1l : (s.setProc p ((s.proc p).claimed pid)).max_processes = s.max_processes :=
    max_processes_setProc _ _ _
  have hinv1 : dirty_invariant (s.setProc p ((s.proc p).claimed pid)) :=
    (dirty_invariant_iff_on _).mpr
      (claimed_dirty_invariant_on pid p s ((dirty_invariant_iff_on _).mp hinv))
  have hso1 := claimed_single_owner pid p s ⟨hdis, hnf⟩
  rcases preinit_entry_cases max_cpus pid mask steal p s with h | ⟨_, _, h⟩ | ⟨h0, _⟩
    | ⟨_, hcode, h⟩
  · rw [h] at hret; cases hret
  · rw [h] at hret; cases hret
  · exact absurd h0 hst
  · rw [h]
    dsimp only
    generalize s.setProc p ((s.proc p).claimed pid) = s1 at *
    have hcur1 : (s1.proc p).current_process_mask = ∅ := by rw [hs1p]; rfl
    have hfut1 : (s1.proc p).future_process_mask = ∅ := by rw [hs1p]; rfl
    obtain ⟨hsteal, hother⟩ := set_new_mask_success_other max_cpus p mask s1 hcode
    have hstolen := set_new_mask_success_stolen max_cpus p mask s1 hp1 hcode
    have hS : ∀ c, c ∈ (set_new_mask_sets max_cpus p mask s1).cpus_to_steal ↔
        c < max_cpus ∧ c ∈ mask ∧ c ∉ s.free_mask := by
      intro c
      rw [(set_new_mask_sets_mem max_cpus p mask s1).2.1 c, hfut1, hs1f]
      simp
    have hlen : (set_new_mask max_cpus p mask false s1).2.max_processes = s.max_processes := by
      rw [set_new_mask_max_processes, hs1l]
    unfold steal_mask at hsteal hother hstolen
    have hnd : (List.range max_cpus).reverse.Nodup := List.nodup_reverse.mpr (List.nodup_range _)
    have hmem : ∀ c, c ∈ (List.range max_cpus).reverse ↔ c < max_cpus := fun c => by simp
    have hnew : ∀ c ∈ (List.range max_cpus).reverse,
        c ∈ (set_new_mask_sets max_cpus p mask s1).cpus_to_steal →
        c ∉ (s1.proc p).current_process_mask ∧ c ∉ (s1.proc p).future_process_mask := by
      intro c _ _
      rw [hcur1, hfut1]
      simp
    have hto : ∀ i, i ≠ p →
        ((set_new_mask max_cpus p mask false s1).2.setProc p
          { (set_new_mask max_cpus p mask false s1).2.proc p with
            current_process_mask := mask, dirty := false, returncode := 0 }).proc i
        = (steal_mask_cpus (some p) (set_new_mask_sets max_cpus p mask s1).cpus_to_steal false
            (List.range max_cpus).reverse s1).2.proc i := by
      intro i hi
      rw [proc_setProc_of_ne _ _ (Ne.symm hi), hother i hi]
    have htp : ((set_new_mask max_cpus p mask false s1).2.setProc p
          { (set_new_mask max_cpus p mask false s1).2.proc p with
            current_process_mask := mask, dirty := false, returncode := 0 }).proc p
        = { (set_new_mask max_cpus p mask false s1).2.proc p with
            current_process_mask := mask, dirty := false, returncode := 0 } :=
      proc_setProc_self _ _ (by rw [hlen]; exact hp)
    have hfr := fun i => steal_mask_cpus_frame p
      (set_new_mask_sets max_cpus p mask s1).cpus_to_steal false (List.range max_cpus).reverse s1 i
    have hvic := fun i hi => steal_mask_cpus_victim p
      (set_new_mask_sets max_cpus p mask s1).cpus_to_steal (List.range max_cpus).reverse s1
      hinv1 hso1.1 i hi
    have hsv := fun i c hi hreg hcv hc hcm => steal_mask_cpus_success_victim p
      (set_new_mask_sets max_cpus p mask s1).cpus_to_steal (List.range max_cpus).reverse s1
      hnd hinv1 hso1.1 i c hi hreg hcv hc hcm hsteal
    have hinS : ∀ i, i ≠ p → (s.proc i).pid ≠ NOBODY → ∀ c,
        c ∈ (s.proc i).future_process_mask → c < max_cpus → c ∈ mask →
        c ∈ (set_new_mask_sets max_cpus p mask s1).cpus_to_steal := by
      intro i _ hreg c hcv hc hcm
      refine (hS c).mpr ⟨hc, hcm, fun hf => ?_⟩
      exact Finset.disjoint_left.mp (hnf i (registered_lt hreg) hreg) hcv hf
    refine ⟨?_, ?_, ?_, ?_, ?_, ?_, ?_, ?_, ?_, ?_, ?_, ?_, ?_, ?_, ?_, ?_⟩
    · rw [max_processes_setProc, hlen]
    · intro c
      rw [free_mask_setProc, set_new_mask_success_free_mask max_cpus p mask s1 hcode c, hfut1,
        hs1f]
      simp
    · rw [htp]
      dsimp only
      rw [set_new_mask_pid, hs1p]
      rfl
    · rw [htp]
    · rw [htp]
    · rw [htp]
    · intro c
      rw [htp]
      dsimp only
      rw [(set_new_mask_success_future max_cpus p mask s1 hp1 hcode c).1, hfut1]
      by_cases hc : c < max_cpus
      · simp [hc]
      · simp [hc]
    · rw [htp]
      dsimp only
      rw [hstolen, steal_mask_cpus_new_owner p _ _ s1 hnd hnew, hs1p]
      rfl
    · intro i hi hcond
      rw [hto i hi, ← hs1o i hi]
      rcases hcond with hu | hno
      · exact (hvic i hi).1 (by rw [hs1o i hi]; exact hu)
      · rcases (hvic i hi).2.2 with h1 | ⟨d, hd, hdS, hdf⟩
        · exact h1
        · rw [hs1o i hi] at hdf
          exact absurd ⟨((hS d).mp hdS).1, ((hS d).mp hdS).2.1⟩ (hno d hdf)
    · intro i hi
      rw [hto i hi, (hfr i).pid_eq, hs1o i hi]
    · intro i hi
      rw [hto i hi, (hfr i).current_eq, hs1o i hi]
    · intro i hi
      rw [hto i hi, (hfr i).returncode_eq, hs1o i hi]
    · intro i hi hreg c
      rw [hto i hi]
      constructor
      · intro hc
        have hcs : c ∈ (s.proc i).future_process_mask := by
          rw [← hs1o i hi]; exact (hfr i).other_anti hi hc
        refine ⟨hcs, fun hcm => ?_⟩
        have := hsv i c hi (by rw [hs1o i hi]; exact hreg) (by rw [hs1o i hi]; exact hcs)
          ((hmem c).mpr hcm.1) (hinS i hi hreg c hcs hcm.1 hcm.2)
        exact this.2.1 hc
      · rintro ⟨hcs, hcm⟩
        rw [(hfr i).future_other c (fun hD => hcm ⟨((hS c).mp hD.2).1, ((hS c).mp hD.2).2.1⟩),
          hs1o i hi]
        exact hcs
    · intro i hi hreg c
      rw [hto i hi]
      constructor
      · intro hc
        rcases (hvic i hi).2.1 c hc with h1 | ⟨h1, _, h3⟩
        · left; rw [← hs1o i hi]; exact h1
        · right
          rw [hs1o i hi] at h1
          exact ⟨h1, ((hS c).mp h3).1, ((hS c).mp h3).2.1⟩
      · rintro (h1 | ⟨h1, h2, h3⟩)
        · apply (hfr i).stolen_mono
          rw [hs1o i hi]; exact h1
        · exact (hsv i c hi (by rw [hs1o i hi]; exact hreg) (by rw [hs1o i hi]; exact h1)
            ((hmem c).mpr h2) (hinS i hi hreg c h1 h2 h3)).1
    · rintro i hi hreg ⟨c, h1, h2, h3⟩
      rw [hto i hi]
      exact (hsv i c hi (by rw [hs1o i hi]; exact hreg) (by rw [hs1o i hi]; exact h1)
        ((hmem c).mpr h2) (hinS i hi hreg c h1 h2 h3)).2.2
    · intro c hc hcm
      by_cases hf : c ∈ s.free_mask
      · exact Or.inl hf
      · right
        obtain ⟨v, hvp, hreg, hcv⟩ := steal_mask_cpus_success_source p _ _ s1 hnd hinv1 hso1.1
          hnew hsteal c ((hmem c).mpr hc) ((hS c).mpr ⟨hc, hcm, hf⟩)
        rw [hs1o v hvp] at hreg hcv
        exact ⟨v, hvp, hreg, hcv⟩

/-! ## Stealing for a new process and giving back -/

theorem claimant_eq_some {s : shdata_t} {c v : Nat} (hv : v < s.max_processes)
    (hc : claims s c v = true)
    (huniq : ∀ i, i < s.max_processes → claims s c i = true → i = v) :
    claimant s c = some v := by
  unfold claimant
  cases h : (List.range s.max_processes).find? (claims s c) with
  | none =>
    have := List.find?_eq_none.mp h v (by simpa using hv)
    exact absurd hc this
  | some x =>
    have h1 := List.find?_some h
    have h2 := List.mem_of_find?_eq_some h
    rw [huniq x (by simpa using h2) h1]

theorem claimant_eq_none {s : shdata_t} {c : Nat}
    (h : ∀ i, i < s.max_processes → claims s c i = false) : claimant s c = none := by
  unfold claimant
  rw [List.find?_eq_none]
  intro i hi
  rw [h i (by simpa using hi)]
  simp

/-- A successful `preinit` has claimed the first free entry, which no entry
holding the pid precedes. -/
theorem preinit_success (pid : pid_t) (mask : cpu_set_t) (steal : Int) (g : shmem_procinfo)
    (hret : (shmem_procinfo_ext__preinit pid mask steal g).1 = some DLB_SUCCESS) :
    ∃ p, p < g.shdata.max_processes ∧ (g.shdata.proc p).pid = NOBODY ∧ pid ≠ NOBODY
      ∧ (∀ i, i < p → (g.shdata.proc i).pid ≠ pid ∧ (g.shdata.proc i).pid ≠ NOBODY)
      ∧ g.shm_handler = true
      ∧ (preinit_entry g.max_cpus pid mask steal p g.shdata).1 = some DLB_SUCCESS
      ∧ (shmem_procinfo_ext__preinit pid mask steal g).2 =
          { g with shdata := (preinit_entry g.max_cpus pid mask steal p g.shdata).2 } := by
  have hne : (some DLB_ERR_NOSHMEM : Option Int) ≠ some DLB_SUCCESS := by decide
  obtain ⟨sh, sa, mc, sd, rd⟩ := g
  unfold shmem_procinfo_ext__preinit at hret ⊢
  cases sh
  · exact absurd hret hne
  · simp only [Bool.not_true, Bool.false_eq_true, if_false] at hret ⊢
    rw [preinit_slots_eq] at hret ⊢
    cases hf : (List.range sd.max_processes).find?
        (fun p => decide ((sd.proc p).pid = pid ∨ (sd.proc p).pid = NOBODY)) with
    | none => rw [hf] at hret; cases hret
    | some p =>
      rw [hf] at hret
      by_cases hp : (sd.proc p).pid = pid
      · simp only [hp, if_true] at hret
        cases hret
      · simp only [hp, if_false] at hret ⊢
        have h1 := List.find?_some hf
        have h2 := List.mem_of_find?_eq_some hf
        have hn : (sd.proc p).pid = NOBODY := by
          simp only [decide_eq_true_eq] at h1
          exact h1.resolve_left hp
        have hbefore : ∀ i, i < p → ¬ ((sd.proc i).pid = pid ∨ (sd.proc i).pid = NOBODY) := by
          intro i hi
          have := List.find?_range_eq_some.mp hf
          simpa using this.2.2 i hi
        refine ⟨p, by simpa using h2, hn, fun h => hp (hn.trans h.symm), ?_, trivial, hret, rfl⟩
        intro i hi
        exact ⟨fun h => hbefore i hi (Or.inl h), fun h => hbefore i hi (Or.inr h)⟩
/-- The registry after a steal for the new entry `p` and the return of its
mask with `return_stolen`: if no entry remembered a stolen CPU before the
steal, every CPU is back where it was. -/
theorem steal_then_return (max_cpus : Nat) (pid : pid_t) (mask : cpu_set_t) (p : Nat)
    (s t : shdata_t) (h : steal_registered max_cpus pid mask p s t)
    (hfree : (s.proc p).pid = NOBODY) (hdis : futures_disjoint s) (hnf : futures_not_free s)
    (hstolen : ∀ i, i < s.max_processes → (s.proc i).stolen_cpus = ∅) :
    ((unregister_mask max_cpus p mask true t).2.setProc p pinfo_t.zero).free_mask = s.free_mask
    ∧ (∀ i, (s.proc i).pid ≠ NOBODY →
        (((unregister_mask max_cpus p mask true t).2.setProc p pinfo_t.zero).proc
            i).future_process_mask = (s.proc i).future_process_mask
        ∧ (((unregister_mask max_cpus p mask true t).2.setProc p pinfo_t.zero).proc
            i).current_process_mask = (s.proc i).current_process_mask)
    ∧ (∀ i, (((unregister_mask max_cpus p mask true t).2.setProc p pinfo_t.zero).proc
        i).stolen_cpus = ∅)
    ∧ (∀ i, (s.proc i).pid ≠ NOBODY →
        (∃ c, c ∈ (s.proc i).future_process_mask ∧ c < max_cpus ∧ c ∈ mask) →
        (((unregister_mask max_cpus p mask true t).2.setProc p pinfo_t.zero).proc i).dirty = true)
    ∧ (∀ i, (((unregister_mask max_cpus p mask true t).2.setProc p pinfo_t.zero).proc i).pid
        = (s.proc i).pid) := by
  have hfr := unregister_mask_true_returned max_cpus p mask t
  have hd := unregister_mask_dirties max_cpus p mask true t
  generalize (unregister_mask max_cpus p mask true t).2 = u at hfr hd
  have hst0 : ∀ i, (s.proc i).stolen_cpus = ∅ := by
    intro i
    by_cases hi : i < s.max_processes
    · exact hstolen i hi
    · rw [proc_of_le s i (not_lt.mp hi)]; rfl
  have hst : ∀ i, i ≠ p → ∀ c, c ∈ (t.proc i).stolen_cpus →
      (s.proc i).pid ≠ NOBODY ∧ c ∈ (s.proc i).future_process_mask ∧ c < max_cpus ∧ c ∈ mask := by
    intro i hi c hc
    by_cases hreg : (s.proc i).pid = NOBODY
    · rw [h.same i hi (Or.inl hreg), hst0 i] at hc
      simp at hc
    · rcases (h.stolen i hi hreg c).mp hc with h1 | h1
      · rw [hst0 i] at h1; simp at h1
      · exact ⟨hreg, h1⟩
  have hclaims : ∀ i c, claims t c i = true →
      i ≠ p ∧ (s.proc i).pid ≠ NOBODY ∧ c ∈ (s.proc i).future_process_mask
        ∧ c < max_cpus ∧ c ∈ mask := by
    intro i c hc
    simp only [claims, Bool.and_eq_true, decide_eq_true_eq, CPU_ISSET] at hc
    have hip : i ≠ p := by
      intro e
      rw [e, h.new_stolen, hst0 p] at hc
      simp at hc
    exact ⟨hip, hst i hip c hc.2⟩
  have hcl_some : ∀ v c, v ≠ p → (s.proc v).pid ≠ NOBODY → c ∈ (s.proc v).future_process_mask →
      c < max_cpus → c ∈ mask → claimant t c = some v := by
    intro v c hvp hreg hcv hc hcm
    refine claimant_eq_some (by rw [h.len]; exact registered_lt hreg) ?_ ?_
    · simp only [claims, Bool.and_eq_true, decide_eq_true_eq, CPU_ISSET]
      exact ⟨by rw [h.pid_eq v hvp]; exact hreg,
        (h.stolen v hvp hreg c).mpr (Or.inr ⟨hcv, hc, hcm⟩)⟩
    · intro i _ hi
      obtain ⟨_, hregi, hci, _⟩ := hclaims i c hi
      by_contra hne
      exact Finset.disjoint_left.mp
        (hdis i (registered_lt hregi) v (registered_lt hreg) ⟨hne, hregi, hreg⟩) hci hcv
  have hcl_none : ∀ c, c ∈ s.free_mask → claimant t c = none := by
    intro c hc
    refine claimant_eq_none (fun i _ => ?_)
    by_contra hne
    have hne' : claims t c i = true := by simpa using hne
    obtain ⟨_, hregi, hci, _⟩ := hclaims i c hne'
    exact Finset.disjoint_left.mp (hnf i (registered_lt hregi) hregi) hci hc
  have hpne : ∀ i, (s.proc i).pid ≠ NOBODY → i ≠ p := fun i hreg e => hreg (e ▸ hfree)
  refine ⟨?_, ?_, ?_, ?_, ?_⟩
  · rw [free_mask_setProc]
    ext c
    rw [hfr.free c, h.free c]
    constructor
    · rintro (h1 | ⟨⟨hc, hcm⟩, hcl⟩)
      · exact h1.1
      · rcases h.source c hc hcm with hf | ⟨v, hvp, hreg, hcv⟩
        · exact hf
        · rw [hcl_some v c hvp hreg hcv hc hcm] at hcl
          cases hcl
    · intro hc
      by_cases hD : c < max_cpus ∧ c ∈ mask
      · exact Or.inr ⟨hD, hcl_none c hc⟩
      · exact Or.inl ⟨hc, hD⟩
  · intro i hreg
    have hip := hpne i hreg
    rw [proc_setProc_of_ne _ _ (Ne.symm hip)]
    refine ⟨?_, ?_⟩
    · ext c
      rw [hfr.future i hip c, h.future i hip hreg c]
      constructor
      · rintro (h1 | ⟨_, hcl⟩)
        · exact h1.1
        · have hcs := (claimant_some hcl).2.2
          exact (hst i hip c hcs).2.1
      · intro hc
        by_cases hD : c < max_cpus ∧ c ∈ mask
        · exact Or.inr ⟨hD, hcl_some i c hip hreg hc hD.1 hD.2⟩
        · exact Or.inl ⟨hc, hD⟩
    · rw [hd.current_eq, h.current_eq i hip]
  · intro i
    by_cases hip : i = p
    · rw [hip, proc_setProc]
      split
      · rfl
      · rename_i hlt
        have hge : u.max_processes ≤ p := by
          by_contra hlt'
          exact hlt ⟨rfl, not_le.mp hlt'⟩
        rw [proc_of_le u p hge]
        rfl
    · rw [proc_setProc_of_ne _ _ (Ne.symm hip)]
      ext c
      rw [hfr.stolen i hip c]
      constructor
      · rintro ⟨hc, hno⟩
        obtain ⟨hreg, hcv, hlt, hcm⟩ := hst i hip c hc
        exact absurd ⟨⟨hlt, hcm⟩, hcl_some i c hip hreg hcv hlt hcm⟩ hno
      · intro hc
        simp at hc
  · intro i hreg hex
    have hip := hpne i hreg
    rw [proc_setProc_of_ne _ _ (Ne.symm hip)]
    exact (hfr.dirty i hip).mpr (Or.inl (h.dirty i hip hreg hex))
  · intro i
    by_cases hip : i = p
    · rw [hip, proc_setProc, hfree]
      split
      · rfl
      · rename_i hlt
        have hge : u.max_processes ≤ p := by
          by_contra hlt'
          exact hlt ⟨rfl, not_le.mp hlt'⟩
        rw [proc_of_le u p hge]
        rfl
    · rw [proc_setProc_of_ne _ _ (Ne.symm hip), hd.pid_eq, h.pid_eq i hip]

/-! ## `shmem_procinfo_ext__recover_stolen_cpus` on a registered process -/

theorem recover_eq (pid : pid_t) (g : shmem_procinfo) (k : Nat) (hh : g.shm_handler = true)
    (hk : get_process pid g.shdata = some k) :
    shmem_procinfo_ext__recover_stolen_cpus pid g =
      (DLB_SUCCESS, { g with shdata := recover_entry k g.shdata }) := by
  rcases recover_cases pid g with h | ⟨k1, hk1, _, h⟩
  · unfold shmem_procinfo_ext__recover_stolen_cpus at h ⊢
    have hr := register_mask_success k ((g.shdata.proc k).stolen_cpus ∩ g.shdata.free_mask)
      g.shdata Finset.inter_subset_right
    simp only [hh, Bool.not_true, Bool.false_eq_true, if_false, hk, CPU_AND, hr, if_true,
      mu_substract] at h ⊢
    refine Prod.ext rfl ?_
    simp only
    congr 1
    apply shdata_ext
    · rfl
    · rfl
    · simp [recover_entry]
    · intro i
      simp only [proc_setProc, max_processes_setProc, recover_entry]
      split
      · rename_i h1
        simp only [h1.2, and_self, if_true]
      · rfl
  · rw [hk] at hk1
    rw [h, Option.some.inj hk1]

/-! ## Attachments -/

theorem init_attach_counter (system_size : Nat) (g : shmem_procinfo) :
    (shmem_procinfo__init_attach system_size g).subprocesses_attached =
      if g.shm_handler then g.subprocesses_attached + 1 else 1 := by
  have h1 : (open_shmem system_size g).subprocesses_attached =
      if g.shm_handler then g.subprocesses_attached + 1 else 1 := by
    unfold open_shmem
    cases g.shm_handler <;> rfl
  unfold shmem_procinfo__init_attach
  dsimp only
  split
  · exact h1
  · exact h1

/-- A successful `init` keeps the attachment it has made. -/
theorem init_success_attached (system_size : Nat) (pid : pid_t) (mask : cpu_set_t)
    (g : shmem_procinfo) (h : (shmem_procinfo__init system_size pid mask g).1 = DLB_SUCCESS) :
    (shmem_procinfo__init system_size pid mask g).2.2.shm_handler = true
    ∧ (shmem_procinfo__init system_size pid mask g).2.2.subprocesses_attached =
        if g.shm_handler then g.subprocesses_attached + 1 else 1 := by
  have hne1 : DLB_ERR_NOMEM ≠ DLB_SUCCESS := by decide
  have hne2 : DLB_ERR_PERM ≠ DLB_SUCCESS := by decide
  have hh := init_attach_handler system_size g
  have hc := init_attach_counter system_size g
  rw [init_eq] at h ⊢
  cases hk : get_process pid (shmem_procinfo__init_attach system_size g).shdata with
  | some p => exact ⟨hh, hc⟩
  | none =>
    rw [hk] at h
    cases hf : get_process NOBODY (shmem_procinfo__init_attach system_size g).shdata with
    | none => rw [hf] at h; exact absurd h hne1
    | some p =>
      rw [hf] at h
      by_cases hsub : mask ⊆ (shmem_procinfo__init_attach system_size g).shdata.free_mask
      · simp only [hsub, if_true]
        exact ⟨hh, hc⟩
      · simp only [hsub, if_false] at h
        exact absurd h hne2

/-- Every `finalize` gives up one attachment, and detaches with the last. -/
theorem finalize_counter (pid : pid_t) (rs : Bool) (g : shmem_procinfo) :
    (shmem_procinfo__finalize pid rs g).2.subprocesses_attached = g.subprocesses_attached - 1
    ∧ (shmem_procinfo__finalize pid rs g).2.shm_handler =
        if g.subprocesses_attached - 1 = 0 then false else g.shm_handler := by
  unfold shmem_procinfo__finalize close_shmem
  dsimp only
  split <;> exact ⟨rfl, rfl⟩

theorem is_init_eq {call : registry_call} (h : call.is_init = true) :
    ∃ pid mask, call = .init pid mask := by
  cases call <;> simp [registry_call.is_init] at h
  exact ⟨_, _, rfl⟩

theorem is_finalize_eq {call : registry_call} (h : call.is_finalize = true) :
    ∃ pid rs, call = .finalize pid rs := by
  cases call <;> simp [registry_call.is_finalize] at h
  exact ⟨_, _, rfl⟩

theorem run_registry_calls_cons (system_size : Nat) (call : registry_call)
    (calls : List registry_call) (g : shmem_procinfo) :
    run_registry_calls system_size (call :: calls) g =
      run_registry_calls system_size calls (call.run system_size g) := rfl

theorem run_registry_calls_append (system_size : Nat) (calls1 calls2 : List registry_call)
    (g : shmem_procinfo) :
    run_registry_calls system_size (calls1 ++ calls2) g =
      run_registry_calls system_size calls2 (run_registry_calls system_size calls1 g) := by
  unfold run_registry_calls
  rw [List.foldl_append]

/-- Successful `init` calls on an attached process add one attachment each. -/
theorem run_inits_attached (system_size : Nat) (calls : List registry_call)
    (g : shmem_procinfo) (hall : ∀ call ∈ calls, call.is_init = true)
    (hs : all_succeed system_size calls g) (hh : g.shm_handler = true) :
    (run_registry_calls system_size calls g).shm_handler = true
    ∧ (run_registry_calls system_size calls g).subprocesses_attached
        = g.subprocesses_attached + calls.length := by
  induction calls generalizing g with
  | nil => exact ⟨hh, by simp [run_registry_calls]⟩
  | cons call calls ih =>
    obtain ⟨pid, mask, e⟩ := is_init_eq (hall call (List.mem_cons_self _ _))
    subst e
    have h1 := init_success_attached system_size pid mask g (Option.some.inj hs.1)
    rw [hh] at h1
    have h2 := ih (registry_call.run system_size g (.init pid mask))
      (fun c hc => hall c (List.mem_cons_of_mem _ hc)) hs.2 h1.1
    rw [run_registry_calls_cons]
    refine ⟨h2.1, ?_⟩
    rw [h2.2]
    show (shmem_procinfo__init system_size pid mask g).2.2.subprocesses_attached + _ = _
    rw [h1.2]
    simp only [if_true, List.length_cons]
    push_cast
    ring

/-- Successful `init` calls of a process that was detached leave it attached
once for each call. -/
theorem run_inits_from_detached (system_size : Nat) (calls : List registry_call)
    (g : shmem_procinfo) (hall : ∀ call ∈ calls, call.is_init = true)
    (hs : all_succeed system_size calls g) (h0 : g.shm_handler = false) (hne : calls ≠ []) :
    (run_registry_calls system_size calls g).shm_handler = true
    ∧ (run_registry_calls system_size calls g).subprocesses_attached = calls.length := by
  cases calls with
  | nil => exact absurd rfl hne
  | cons call calls =>
    obtain ⟨pid, mask, e⟩ := is_init_eq (hall call (List.mem_cons_self _ _))
    subst e
    have h1 := init_success_attached system_size pid mask g (Option.some.inj hs.1)
    rw [h0] at h1
    have h2 := run_inits_attached system_size calls
      (registry_call.run system_size g (.init pid mask))
      (fun c hc => hall c (List.mem_cons_of_mem _ hc)) hs.2 h1.1
    rw [run_registry_calls_cons]
    refine ⟨h2.1, ?_⟩
    rw [h2.2]
    show (shmem_procinfo__init system_size pid mask g).2.2.subprocesses_attached + _ = _
    rw [h1.2]
    simp only [Bool.false_eq_true, if_false, List.length_cons]
    push_cast
    ring

/-- As many `finalize` calls as there are attachments detach the process. -/
theorem run_finalizes_detach (system_size : Nat) (calls : List registry_call)
    (g : shmem_procinfo) (hall : ∀ call ∈ calls, call.is_finalize = true)
    (hh : g.shm_handler = true) (hn : g.subprocesses_attached = calls.length)
    (hne : calls ≠ []) :
    (run_registry_calls system_size calls g).shm_handler = false := by
  induction calls generalizing g with
  | nil => exact absurd rfl hne
  | cons call calls ih =>
    obtain ⟨pid, rs, e⟩ := is_finalize_eq (hall call (List.mem_cons_self _ _))
    subst e
    have h1 := finalize_counter pid rs g
    rw [hn, hh] at h1
    simp only [List.length_cons] at h1
    rw [run_registry_calls_cons]
    show (run_registry_calls system_size calls (shmem_procinfo__finalize pid rs g).2).shm_handler
      = false
    cases calls with
    | nil =>
      have h2 := h1.2
      simp at h2
      exact h2
    | cons c cs =>
      apply ih
      · exact fun c1 hc => hall c1 (List.mem_cons_of_mem _ hc)
      · rw [h1.2]
        simp only [List.length_cons]
        rw [if_neg]
        push_cast
        omega
      · rw [h1.1]
        simp only [List.length_cons]
        push_cast
        ring
      · simp

/-- Every operation of a detached process returns `DLB_ERR_NOSHMEM`. -/
theorem detached_noshmem (g : shmem_procinfo) (h : g.shm_handler = false) (pid : pid_t)
    (mask : cpu_set_t) (steal : Int) (rs sync : Bool) (max_len : Int) :
    (shmem_procinfo__finalize pid rs g).1 = DLB_ERR_NOSHMEM
    ∧ (shmem_procinfo_ext__preinit pid mask steal g).1 = some DLB_ERR_NOSHMEM
    ∧ (shmem_procinfo_ext__postfinalize pid rs g).1 = DLB_ERR_NOSHMEM
    ∧ (shmem_procinfo_ext__recover_stolen_cpus pid g).1 = DLB_ERR_NOSHMEM
    ∧ (shmem_procinfo__getprocessmask pid sync g).1 = some DLB_ERR_NOSHMEM
    ∧ (shmem_procinfo__setprocessmask pid mask sync g).1 = some DLB_ERR_NOSHMEM
    ∧ (shmem_procinfo__polldrom pid g).1 = DLB_ERR_NOSHMEM
    ∧ (shmem_procinfo__getpidlist max_len g).1 = DLB_ERR_NOSHMEM := by
  refine ⟨?_, ?_, ?_, ?_, ?_, ?_, ?_, ?_⟩
  · rw [finalize_noshmem pid rs g h]
  · unfold shmem_procinfo_ext__preinit; simp [h]
  · unfold shmem_procinfo_ext__postfinalize; simp [h]
  · unfold shmem_procinfo_ext__recover_stolen_cpus; simp [h]
  · unfold shmem_procinfo__getprocessmask; simp [h]
  · unfold shmem_procinfo__setprocessmask; simp [h]
  · unfold shmem_procinfo__polldrom; simp [h]
  · unfold shmem_procinfo__getpidlist; simp [h]

/-! ## `preinit` without `steal` -/

/-- The registration of `preinit` without `steal` on the free entry `p`: it
leaves what `init` leaves. -/
theorem preinit_entry_register (max_cpus : Nat) (pid : pid_t) (mask : cpu_set_t) (p : Nat)
    (s : shdata_t) (hp : p < s.max_processes) (hsub : mask ⊆ s.free_mask) :
    preinit_entry max_cpus pid mask 0 p s = (some DLB_SUCCESS, init_entry pid mask p s) := by
  have hsub1 : mask ⊆ (s.setProc p ((s.proc p).claimed pid)).free_mask := hsub
  have hne : ¬ DLB_SUCCESS ≠ 0 := by decide
  unfold preinit_entry
  dsimp only
  rw [if_pos rfl, register_mask_success _ _ _ hsub1]
  dsimp only
  rw [if_neg hne]
  refine Prod.ext rfl ?_
  dsimp only
  unfold init_entry
  apply shdata_ext
  · rfl
  · rfl
  · simp [shdata_t.max_processes, shdata_t.setProc]
  · intro i
    simp only [proc_setProc, max_processes_setProc]
    have hlt : p < ({ s.setProc p ((s.proc p).claimed pid) with
        free_mask := (s.setProc p ((s.proc p).claimed pid)).free_mask \ mask }
          : shdata_t).max_processes := by
      show p < (s.setProc p ((s.proc p).claimed pid)).max_processes
      rw [max_processes_setProc]; exact hp
    have hlt2 : p < ({ s with free_mask := s.free_mask \ mask } : shdata_t).max_processes := hp
    by_cases hpi : p = i
    · subst hpi
      simp only [hlt, hlt2, and_self, if_true, true_and]
      simp [hp, pinfo_t.claimed]
    · simp only [hpi, false_and, if_false]
      exact proc_setProc_of_ne s _ hpi

/-- The entry `preinit` works on when no entry holds the pid: the first free one. -/
theorem preinit_eq (pid : pid_t) (mask : cpu_set_t) (steal : Int) (g : shmem_procinfo)
    (k : Nat) (hh : g.shm_handler = true)
    (hno : ∀ i, i < g.shdata.max_processes → (g.shdata.proc i).pid ≠ pid)
    (hk : k < g.shdata.max_processes) (hfree : (g.shdata.proc k).pid = NOBODY)
    (hmin : ∀ j, j < k → (g.shdata.proc j).pid ≠ NOBODY) :
    shmem_procinfo_ext__preinit pid mask steal g =
      ((preinit_entry g.max_cpus pid mask steal k g.shdata).1,
        { g with shdata := (preinit_entry g.max_cpus pid mask steal k g.shdata).2 }) := by
  have hf : (List.range g.shdata.max_processes).find?
      (fun p => decide ((g.shdata.proc p).pid = pid ∨ (g.shdata.proc p).pid = NOBODY))
      = some k := by
    rw [List.find?_range_eq_some]
    refine ⟨by simp [hfree], by simpa using hk, ?_⟩
    intro j hj
    simp [hno j (hj.trans hk), hmin j hj]
  unfold shmem_procinfo_ext__preinit
  simp only [hh, Bool.not_true, Bool.false_eq_true, if_false]
  rw [preinit_slots_eq, hf]
  simp only [hno k hk, if_false]

/-! ## Conservation of the CPUs -/

theorem mem_accounted_cpus (s : shdata_t) (c : Nat) :
    c ∈ accounted_cpus s ↔
      c ∈ s.free_mask
      ∨ ∃ i, (s.proc i).pid ≠ NOBODY ∧ c ∈ (s.proc i).future_process_mask := by
  unfold accounted_cpus
  simp only [Finset.mem_union, Finset.mem_biUnion, Finset.mem_range]
  constructor
  · rintro (h | ⟨i, _, h⟩)
    · exact Or.inl h
    · by_cases hr : (s.proc i).pid ≠ NOBODY
      · rw [if_pos hr] at h; exact Or.inr ⟨i, hr, h⟩
      · rw [if_neg hr] at h; simp at h
  · rintro (h | ⟨i, hr, h⟩)
    · exact Or.inl h
    · exact Or.inr ⟨i, registered_lt hr, by rw [if_pos hr]; exact h⟩

theorem accounted_cpus_eq (s t : shdata_t)
    (h1 : ∀ c, c ∈ s.free_mask → c ∈ accounted_cpus t)
    (h2 : ∀ c i, (s.proc i).pid ≠ NOBODY → c ∈ (s.proc i).future_process_mask →
      c ∈ accounted_cpus t)
    (h3 : ∀ c, c ∈ t.free_mask → c ∈ accounted_cpus s)
    (h4 : ∀ c i, (t.proc i).pid ≠ NOBODY → c ∈ (t.proc i).future_process_mask →
      c ∈ accounted_cpus s) :
    accounted_cpus t = accounted_cpus s := by
  ext c
  constructor
  · intro h
    rcases (mem_accounted_cpus t c).mp h with hf | ⟨i, hr, hc⟩
    · exact h3 c hf
    · exact h4 c i hr hc
  · intro h
    rcases (mem_accounted_cpus s c).mp h with hf | ⟨i, hr, hc⟩
    · exact h1 c hf
    · exact h2 c i hr hc

/-- A store to the free mask and to a registered entry that moves CPUs only
between the two keeps the accounted CPUs. -/
theorem accounted_cpus_store (s : shdata_t) (k : Nat) (v : pinfo_t) (f : cpu_set_t)
    (hk : (s.proc k).pid ≠ NOBODY) (hv : v.pid ≠ NOBODY)
    (h : ∀ c, (c ∈ f ∨ c ∈ v.future_process_mask) ↔
      (c ∈ s.free_mask ∨ c ∈ (s.proc k).future_process_mask)) :
    accounted_cpus (({ s with free_mask := f } : shdata_t).setProc k v) = accounted_cpus s := by
  have hlt : k < ({ s with free_mask := f } : shdata_t).max_processes := registered_lt hk
  have hself : (({ s with free_mask := f } : shdata_t).setProc k v).proc k = v :=
    proc_setProc_self _ _ hlt
  have hother : ∀ i, i ≠ k →
      (({ s with free_mask := f } : shdata_t).setProc k v).proc i = s.proc i := by
    intro i hik
    exact proc_setProc_of_ne _ _ (Ne.symm hik)
  apply accounted_cpus_eq
  · intro c hc
    rw [mem_accounted_cpus]
    rcases (h c).mpr (Or.inl hc) with hf | hvf
    · exact Or.inl hf
    · exact Or.inr ⟨k, by rw [hself]; exact hv, by rw [hself]; exact hvf⟩
  · intro c i hr hc
    rw [mem_accounted_cpus]
    by_cases hik : i = k
    · subst hik
      rcases (h c).mpr (Or.inr hc) with hf | hvf
      · exact Or.inl hf
      · exact Or.inr ⟨i, by rw [hself]; exact hv, by rw [hself]; exact hvf⟩
    · exact Or.inr ⟨i, by rw [hother i hik]; exact hr, by rw [hother i hik]; exact hc⟩
  · intro c hc
    rw [mem_accounted_cpus]
    rcases (h c).mp (Or.inl hc) with hf | hkf
    · exact Or.inl hf
    · exact Or.inr ⟨k, hk, hkf⟩
  · intro c i hr hc
    rw [mem_accounted_cpus]
    by_cases hik : i = k
    · subst hik
      rw [hself] at hc
      rcases (h c).mp (Or.inr hc) with hf | hkf
      · exact Or.inl hf
      · exact Or.inr ⟨i, hk, hkf⟩
    · rw [hother i hik] at hr hc
      exact Or.inr ⟨i, hr, hc⟩

theorem register_mask_accounted (k : Nat) (m : cpu_set_t) (s : shdata_t)
    (hk : (s.proc k).pid ≠ NOBODY) :
    accounted_cpus (register_mask k m s).2 = accounted_cpus s := by
  by_cases hsub : m ⊆ s.free_mask
  · rw [register_mask_success _ _ _ hsub]
    refine accounted_cpus_store s k _ _ hk ?_ ?_
    · exact hk
    · intro c
      have := @hsub c
      simp only [Finset.mem_sdiff, Finset.mem_union]
      tauto
  · rw [register_mask_fail _ _ _ hsub]

theorem unregister_mask_false_accounted (max_cpus k : Nat) (m : cpu_set_t) (s : shdata_t)
    (hk : (s.proc k).pid ≠ NOBODY) (hsub : m ⊆ (s.proc k).future_process_mask) :
    accounted_cpus (unregister_mask max_cpus k m false s).2 = accounted_cpus s := by
  unfold unregister_mask
  split
  · rfl
  · simp only [Bool.false_eq_true, if_false]
    refine accounted_cpus_store s k _ _ hk ?_ ?_
    · exact hk
    · intro c
      have := @hsub c
      simp only [CPU_OR, mu_substract, Finset.mem_sdiff, Finset.mem_union]
      constructor
      · rintro ((hf | hm) | ⟨hc, _⟩)
        · exact Or.inl hf
        · exact Or.inr (this hm)
        · exact Or.inr hc
      · rintro (hf | hc)
        · exact Or.inl (Or.inl hf)
        · by_cases hm : c ∈ m
          · exact Or.inl (Or.inr hm)
          · exact Or.inr ⟨hc, hm⟩

theorem recover_entry_accounted (k : Nat) (s : shdata_t) (hk : (s.proc k).pid ≠ NOBODY) :
    accounted_cpus (recover_entry k s) = accounted_cpus s := by
  unfold recover_entry
  refine accounted_cpus_store s k _ _ hk ?_ ?_
  · exact hk
  · intro c
    simp only [Finset.mem_sdiff, Finset.mem_union, Finset.mem_inter]
    tauto

theorem dirties_dirty_invariant {s s1 : shdata_t} (h : dirties s s1)
    (hinv : dirty_invariant s) : dirty_invariant s1 :=
  (dirty_invariant_iff_on s1).mpr
    (dirties_dirty_invariant_on h ((dirty_invariant_iff_on s).mp hinv))

/-- Under invariant 9 a steal moves the CPU from the future mask of a
registered entry to the future mask of the new owner: the accounted CPUs stay
the same. -/
theorem steal_mask_victims_accounted (n c : Nat) (dry : Bool) (ps : List Nat) (s : shdata_t)
    (hn : (s.proc n).pid ≠ NOBODY) (hinv : dirty_invariant s) :
    accounted_cpus (steal_mask_victims (some n) c dry ps s).2 = accounted_cpus s := by
  have hfr := steal_mask_victims_frame n c dry ps s
  have hfree := steal_mask_victims_free_mask n c dry ps s
  cases dry with
  | true =>
    have : (steal_mask_victims (some n) c true ps s).2 = s := by
      rw [steal_mask_victims_eq]
      split
      · exact steal_cpu_dry _ _ _ _
      · rfl
    rw [this]
  | false =>
    by_cases hflag : (steal_mask_victims (some n) c false ps s).1 = true
    · have hown := steal_mask_victims_true_owner n c ps s hflag (registered_lt hn)
      have hsrc : ∃ v, (s.proc v).pid ≠ NOBODY ∧ c ∈ (s.proc v).future_process_mask := by
        rw [steal_mask_victims_eq] at hflag
        split at hflag
        · rename_i v hv
          have hg := List.find?_some hv
          simp only [gives, Bool.and_eq_true, decide_eq_true_eq] at hg
          exact ⟨v, hg.1, (steal_precondition_mem_future hinv hg.1 hg.2).1⟩
        · simp at hflag
      apply accounted_cpus_eq
      · intro d hd
        rw [mem_accounted_cpus, hfree]
        exact Or.inl hd
      · intro d i hri hdi
        rw [mem_accounted_cpus]
        right
        by_cases hdc : d = c
        · subst hdc
          exact ⟨n, by rw [(hfr n).pid_eq]; exact hn, hown⟩
        · exact ⟨i, by rw [(hfr i).pid_eq]; exact hri,
            ((hfr i).future_other d hdc).mpr hdi⟩
      · intro d hd
        rw [hfree] at hd
        rw [mem_accounted_cpus]
        exact Or.inl hd
      · intro d i hri hdi
        rw [mem_accounted_cpus]
        right
        by_cases hdc : d = c
        · subst hdc
          exact hsrc
        · exact ⟨i, by rw [← (hfr i).pid_eq]; exact hri,
            ((hfr i).future_other d hdc).mp hdi⟩
    · have : (steal_mask_victims (some n) c false ps s).2 = s := by
        rw [steal_mask_victims_eq] at hflag ⊢
        split
        · rename_i v hv
          rw [hv] at hflag
          simp at hflag
        · rfl
      rw [this]

theorem steal_mask_cpus_accounted (n : Nat) (mask : cpu_set_t) (dry : Bool) (cs : List Nat)
    (s : shdata_t) (hn : (s.proc n).pid ≠ NOBODY) (hinv : dirty_invariant s) :
    accounted_cpus (steal_mask_cpus (some n) mask dry cs s).2 = accounted_cpus s := by
  induction cs generalizing s with
  | nil => rfl
  | cons a cs ih =>
    have h1 := steal_mask_victims_accounted n a dry (List.range s.max_processes) s hn hinv
    have hd := steal_mask_victims_dirties (some n) a dry (List.range s.max_processes) s
    have hn1 : ((steal_mask_victims (some n) a dry (List.range s.max_processes) s).2.proc
        n).pid ≠ NOBODY := by
      rw [hd.pid_eq]; exact hn
    have hinv1 := dirties_dirty_invariant hd hinv
    unfold steal_mask_cpus
    split
    · dsimp only
      split
      · rw [ih _ hn1 hinv1, h1]
      · exact h1
    · exact ih s hn hinv

/-- Under invariant 9 the committing `set_new_mask` on a registered entry
keeps the accounted CPUs, also when it fails after some steals. -/
theorem set_new_mask_accounted (max_cpus k : Nat) (mask : cpu_set_t) (s : shdata_t)
    (hk : (s.proc k).pid ≠ NOBODY) (hinv : dirty_invariant s) :
    accounted_cpus (set_new_mask max_cpus k mask false s).2 = accounted_cpus s := by
  have hst := steal_mask_cpus_accounted k
    (set_new_mask_sets max_cpus k mask s).cpus_to_steal false (List.range max_cpus).reverse s
    hk hinv
  have hd1 := steal_mask_cpus_dirties (some k)
    (set_new_mask_sets max_cpus k mask s).cpus_to_steal false (List.range max_cpus).reverse s
  have hfr := steal_mask_cpus_frame k
    (set_new_mask_sets max_cpus k mask s).cpus_to_steal false (List.range max_cpus).reverse s k
  have hfreeable : (set_new_mask_sets max_cpus k mask s).cpus_to_free
      ⊆ (s.proc k).future_process_mask := by
    intro c hc
    exact (((set_new_mask_sets_mem max_cpus k mask s).2.2 c).mp hc).2.2
  rw [set_new_mask_eq_steps]
  unfold steal_mask
  split
  · exact hst
  · have hk1 : ((steal_mask_cpus (some k) (set_new_mask_sets max_cpus k mask s).cpus_to_steal
        false (List.range max_cpus).reverse s).2.proc k).pid ≠ NOBODY := by
      rw [hd1.pid_eq]; exact hk
    have hd2 := register_mask_dirties k (set_new_mask_sets max_cpus k mask s).cpus_to_acquire
      (steal_mask_cpus (some k) (set_new_mask_sets max_cpus k mask s).cpus_to_steal
        false (List.range max_cpus).reverse s).2
    rw [unregister_mask_false_accounted, register_mask_accounted _ _ _ hk1, hst]
    · rw [hd2.pid_eq]; exact hk1
    · exact (hfreeable.trans (hfr.owner_mono rfl)).trans (register_mask_future_mono _ _ _ _)

theorem setprocessmask_accounted (pid : pid_t) (mask : cpu_set_t) (sync : Bool)
    (g : shmem_procinfo) (hpid : pid ≠ NOBODY) (hinv : dirty_invariant g.shdata) :
    accounted_cpus (shmem_procinfo__setprocessmask pid mask sync g).2.shdata
      = accounted_cpus g.shdata := by
  rcases setprocessmask_cases pid mask sync g with h | ⟨k, hk, _, _, _, h⟩
  · rw [h]
  · rw [h]
    have hkr : (g.shdata.proc k).pid ≠ NOBODY := by
      rw [(get_process_some hk).1]; exact hpid
    exact set_new_mask_accounted g.max_cpus k mask g.shdata hkr hinv

theorem setprocessmask_single_owner (pid : pid_t) (mask : cpu_set_t) (sync : Bool)
    (g : shmem_procinfo) (hpid : pid ≠ NOBODY) (hinv : dirty_invariant g.shdata)
    (h : single_owner g.shdata) :
    single_owner (shmem_procinfo__setprocessmask pid mask sync g).2.shdata := by
  rcases setprocessmask_cases pid mask sync g with he | ⟨k, hk, _, _, _, he⟩
  · rw [he]; exact h
  · rw [he]
    have hkr : (g.shdata.proc k).pid ≠ NOBODY := by
      rw [(get_process_some hk).1]; exact hpid
    exact set_new_mask_single_owner g.max_cpus k mask g.shdata hkr hinv h

theorem recover_accounted (pid : pid_t) (g : shmem_procinfo) (hpid : pid ≠ NOBODY) :
    accounted_cpus (shmem_procinfo_ext__recover_stolen_cpus pid g).2.shdata
      = accounted_cpus g.shdata := by
  rcases recover_cases pid g with h | ⟨k, hk, _, h⟩
  · rw [h]
  · rw [h]
    have hkr : (g.shdata.proc k).pid ≠ NOBODY := by
      rw [(get_process_some hk).1]; exact hpid
    exact recover_entry_accounted k g.shdata hkr

theorem recover_entry_single_owner_free (k : Nat) (s : shdata_t)
    (hk : (s.proc k).pid = NOBODY) (h : single_owner s) : single_owner (recover_entry k s) := by
  have hd := recover_entry_dirties k s
  apply single_owner_anti s _ _ _ h
  · unfold recover_entry
    exact Finset.sdiff_subset
  · intro i hri c hc
    have hri' : (s.proc i).pid ≠ NOBODY := by rw [← hd.pid_eq]; exact hri
    have hik : k ≠ i := by
      intro e
      subst e
      exact hri' hk
    unfold recover_entry at hc
    rw [proc_setProc_of_ne _ _ hik] at hc
    exact ⟨hri', hc⟩

/-- The call `recover_stolen_cpus` keeps the future masks and the free mask
disjoint, whatever the pid. -/
theorem recover_single_owner (pid : pid_t) (g : shmem_procinfo)
    (h : single_owner g.shdata) :
    single_owner (shmem_procinfo_ext__recover_stolen_cpus pid g).2.shdata := by
  rcases recover_cases pid g with he | ⟨k, _, _, he⟩
  · rw [he]; exact h
  · rw [he]
    by_cases hkr : (g.shdata.proc k).pid = NOBODY
    · exact recover_entry_single_owner_free k g.shdata hkr h
    · exact recover_entry_single_owner k g.shdata hkr h

/-! ## The numbering of `after_init` -/

theorem first_appearances_concat (P : List String) (name : String) :
    first_appearances (P ++ [name]) =
      if name ∈ first_appearances P then first_appearances P
      else first_appearances P ++ [name] := by
  unfold first_appearances
  rw [List.foldl_append]
  rfl

theorem mem_first_appearances (P : List String) (name : String) :
    name ∈ first_appearances P ↔ name ∈ P := by
  induction P using List.reverseRecOn generalizing name with
  | nil => simp [first_appearances]
  | append_singleton P a ih =>
    rw [first_appearances_concat]
    by_cases ha : a ∈ first_appearances P
    · rw [if_pos ha, ih, List.mem_append, List.mem_singleton]
      constructor
      · exact Or.inl
      · rintro (h | h)
        · exact h
        · rw [h]; exact (ih a).mp ha
    · rw [if_neg ha, List.mem_append, List.mem_append, ih]

theorem first_appearances_nodup (P : List String) : (first_appearances P).Nodup := by
  induction P using List.reverseRecOn with
  | nil => simp [first_appearances]
  | append_singleton P a ih =>
    rw [first_appearances_concat]
    by_cases ha : a ∈ first_appearances P
    · rw [if_pos ha]; exact ih
    · rw [if_neg ha]
      rw [List.nodup_append]
      refine ⟨ih, List.nodup_singleton a, ?_⟩
      intro x hx hxa
      rw [List.mem_singleton] at hxa
      exact ha (hxa ▸ hx)

theorem first_appearances_prefix (P R : List String) :
    ∃ X, first_appearances (P ++ R) = first_appearances P ++ X := by
  induction R generalizing P with
  | nil => exact ⟨[], by simp⟩
  | cons a R ih =>
    obtain ⟨X, hX⟩ := ih (P ++ [a])
    have e : P ++ a :: R = (P ++ [a]) ++ R := by simp
    rw [e, hX, first_appearances_concat]
    by_cases ha : a ∈ first_appearances P
    · rw [if_pos ha]; exact ⟨X, rfl⟩
    · rw [if_neg ha]; exact ⟨[a] ++ X, by simp⟩

theorem first_appearances_length_mono (P R : List String) :
    (first_appearances P).length ≤ (first_appearances (P ++ R)).length := by
  obtain ⟨X, hX⟩ := first_appearances_prefix P R
  rw [hX, List.length_append]
  exact Nat.le_add_right _ _

theorem getD_indexOf (F : List String) (name : String) (h : name ∈ F) :
    F.getD (F.indexOf name) "" = name := by
  have hlt : F.indexOf name < F.length := List.indexOf_lt_length.mpr h
  rw [List.getD_eq_getElem _ _ hlt]
  exact List.indexOf_get hlt

theorem getD_mem_of_lt (F : List String) (k : Nat) (h : k < F.length) : F.getD k "" ∈ F := by
  rw [List.getD_eq_getElem _ _ h]
  exact List.getElem_mem _

theorem getD_of_le (F : List String) (k : Nat) (h : F.length ≤ k) : F.getD k "" = "" :=
  List.getD_eq_default _ _ h

theorem indexOf_le_of_getD (F : List String) (name : String) (k : Nat) (hk : k < F.length)
    (h : F.getD k "" = name) : F.indexOf name ≤ k := by
  induction F generalizing k with
  | nil => simp at hk
  | cons a F ih =>
    by_cases ha : a = name
    · subst ha; simp
    · cases k with
      | zero => simp at h; exact absurd h ha
      | succ k =>
        rw [List.indexOf_cons_ne _ ha]
        simp only [List.getD_cons_succ] at h
        simp only [List.length_cons, Nat.add_lt_add_iff_right] at hk
        exact Nat.succ_le_succ (ih k hk h)

theorem nodup_getD_inj (F : List String) (hnd : F.Nodup) (i j : Nat) (hi : i < F.length)
    (hj : j < F.length) (h : F.getD i "" = F.getD j "") : i = j := by
  rw [List.getD_eq_getElem _ _ hi, List.getD_eq_getElem _ _ hj] at h
  exact (List.Nodup.getElem_inj_iff hnd).mp h

theorem getD_set_eq (l : List String) (k i : Nat) (v : String) :
    (l.set k v).getD i "" = if k = i ∧ k < l.length then v else l.getD i "" := by
  simp only [List.getD_eq_getElem?_getD, List.getElem?_set]
  by_cases hki : k = i
  · subst hki
    by_cases hlt : k < l.length
    · simp [hlt]
    · simp [hlt, List.getElem?_eq_none (not_lt.mp hlt)]
  · simp [hki]

theorem getD_set_nat (l : List Nat) (k i : Nat) (v : Nat) :
    (l.set k v).getD i 0 = if k = i ∧ k < l.length then v else l.getD i 0 := by
  simp only [List.getD_eq_getElem?_getD, List.getElem?_set]
  by_cases hki : k = i
  · subst hki
    by_cases hlt : k < l.length
    · simp [hlt]
    · simp [hlt, List.getElem?_eq_none (not_lt.mp hlt)]
  · simp [hki]

/-- What the search loop returns: the first index from `j` on, among the `n`
entries left, at which `nodesIds` holds `name`, and `j + n` if there is none. -/
theorem after_init_search_spec (name : String) (ids : List String) (n j : Nat) :
    j ≤ after_init_search name ids n j
    ∧ after_init_search name ids n j ≤ j + n
    ∧ (∀ k, j ≤ k → k < after_init_search name ids n j → ids.getD k "" ≠ name)
    ∧ (after_init_search name ids n j < j + n →
        ids.getD (after_init_search name ids n j) "" = name) := by
  induction n generalizing j with
  | zero =>
    unfold after_init_search
    refine ⟨Nat.le_refl _, Nat.le_refl _, ?_, ?_⟩
    · intro k h1 h2; omega
    · intro h; omega
  | succ n ih =>
    unfold after_init_search
    by_cases hne : name ≠ ids.getD j ""
    · rw [if_pos hne]
      obtain ⟨h1, h2, h3, h4⟩ := ih (j + 1)
      refine ⟨by omega, by omega, ?_, ?_⟩
      · intro k hk1 hk2
        by_cases hkj : k = j
        · subst hkj; exact fun e => hne e.symm
        · exact h3 k (by omega) hk2
      · intro h; exact h4 (by omega)
    · rw [if_neg hne]
      refine ⟨Nat.le_refl _, by omega, ?_, ?_⟩
      · intro k h1 h2; omega
      · intro _; exact (not_not.mp hne).symm

/-- The search on a table that holds the hostnames `F` followed by empty
entries: the index of a non-empty `name` in `F`, and `nodes` if it is not
there. -/
theorem after_init_search_eq (name : String) (ids F : List String) (nodes : Nat)
    (hF : F.length ≤ nodes) (hids : ∀ k, ids.getD k "" = F.getD k "") (hname : name ≠ "") :
    after_init_search name ids nodes 0 = if name ∈ F then F.indexOf name else nodes := by
  obtain ⟨_, h2, h3, h4⟩ := after_init_search_spec name ids nodes 0
  by_cases hmem : name ∈ F
  · rw [if_pos hmem]
    have hlt : F.indexOf name < F.length := List.indexOf_lt_length.mpr hmem
    have hle : after_init_search name ids nodes 0 ≤ F.indexOf name := by
      by_contra hgt
      exact h3 (F.indexOf name) (Nat.zero_le _) (by omega)
        (by rw [hids, getD_indexOf F name hmem])
    have hr := h4 (by omega)
    rw [hids] at hr
    have := indexOf_le_of_getD F name _ (by omega) hr
    omega
  · rw [if_neg hmem]
    by_contra hne
    have hr := h4 (by omega)
    rw [hids] at hr
    by_cases hlt : after_init_search name ids nodes 0 < F.length
    · exact hmem (hr ▸ getD_mem_of_lt F _ hlt)
    · rw [getD_of_le F _ (not_lt.mp hlt)] at hr
      exact hname hr.symm

theorem getD_concat_lt (P : List String) (name : String) (i : Nat) (hi : i < P.length) :
    (P ++ [name]).getD i "" = P.getD i "" := by
  simp [List.getD_eq_getElem?_getD, List.getElem?_append_left hi]

theorem getD_concat_length (P : List String) (name : String) :
    (P ++ [name]).getD P.length "" = name := by
  simp [List.getD_eq_getElem?_getD]

theorem rows_concat_lt (rows : List (Nat × Nat)) (x : Nat × Nat) (i : Nat)
    (hi : i < rows.length) : (rows ++ [x]).getD i (0, 0) = rows.getD i (0, 0) := by
  simp [List.getD_eq_getElem?_getD, List.getElem?_append_left hi]

theorem rows_concat_length (rows : List (Nat × Nat)) (x : Nat × Nat) :
    (rows ++ [x]).getD rows.length (0, 0) = x := by
  simp [List.getD_eq_getElem?_getD]

theorem local_rank_concat_lt (P : List String) (name : String) (i : Nat) (hi : i < P.length) :
    local_rank (P ++ [name]) i = local_rank P i := by
  unfold local_rank
  rw [List.take_append_of_le_length (Nat.le_of_lt hi), getD_concat_lt P name i hi]

theorem local_rank_concat_length (P : List String) (name : String) :
    local_rank (P ++ [name]) P.length = P.count name := by
  unfold local_rank
  rw [getD_concat_length, List.take_left']
  rfl

theorem node_index_concat_lt (P : List String) (name : String) (i : Nat) (hi : i < P.length) :
    node_index (P ++ [name]) i = node_index P i := by
  unfold node_index
  rw [getD_concat_lt P name i hi]
  obtain ⟨X, hX⟩ := first_appearances_prefix P [name]
  rw [hX]
  exact List.indexOf_append_of_mem
    ((mem_first_appearances P _).mpr (getD_mem_of_lt P i hi))

theorem node_index_concat_length (P : List String) (name : String) :
    node_index (P ++ [name]) P.length
      = (first_appearances (P ++ [name])).indexOf name := by
  unfold node_index
  rw [getD_concat_length]

theorem count_concat (P : List String) (name h : String) :
    (P ++ [name]).count h = P.count h + if name = h then 1 else 0 := by
  rw [List.count_append, List.count_singleton']

/-- One rank more: the loop body keeps `after_init_inv`, and does not write
past the tables when they have room for the hostnames met. -/
theorem after_init_rank_inv (nodes : Nat) (P : List String) (l : after_init_locals)
    (name : String) (h : after_init_inv nodes P l) (hname : name ≠ "")
    (hb : (first_appearances (P ++ [name])).length ≤ nodes) :
    ∃ l1, after_init_rank nodes l name = some l1 ∧ after_init_inv nodes (P ++ [name]) l1 := by
  have hs := after_init_search_eq name l.nodesIds (first_appearances P) nodes h.len h.ids hname
  have hF := first_appearances_concat P name
  have hnd := first_appearances_nodup P
  unfold after_init_rank
  dsimp only
  rw [hs]
  by_cases hmem : name ∈ first_appearances P
  · rw [if_pos hmem] at hF ⊢
    have hlt : (first_appearances P).indexOf name < (first_appearances P).length :=
      List.indexOf_lt_length.mpr hmem
    have hget := getD_indexOf (first_appearances P) name hmem
    rw [if_neg (by have := h.len; omega)]
    refine ⟨_, rfl, ?_⟩
    refine
      { len := hb, max := ?_, ids_len := ?_, ids := ?_, per_len := ?_, per := ?_,
        rows_len := ?_, rows := ?_ }
    · rw [hF]; exact h.max
    · simp [h.ids_len]
    · intro k
      rw [hF, getD_set_eq, ← h.ids k]
      split
      · rename_i hk
        rw [← hk.1, h.ids, hget]
      · rfl
    · simp [h.per_len]
    · intro k
      rw [hF, getD_set_nat, h.per_len, count_concat]
      by_cases hk : (first_appearances P).indexOf name = k
      · subst hk
        rw [if_pos ⟨rfl, by have := h.len; omega⟩, h.per, if_pos hlt, if_pos hlt, hget,
          if_pos rfl]
      · rw [if_neg (fun e => hk e.1), h.per]
        by_cases hkl : k < (first_appearances P).length
        · rw [if_pos hkl, if_pos hkl]
          have hne : ¬ name = (first_appearances P).getD k "" := by
            intro e
            apply hk
            exact nodup_getD_inj _ hnd _ _ hlt hkl (by rw [hget, e])
          rw [if_neg hne]
          rfl
        · rw [if_neg hkl, if_neg hkl]
    · simp [h.rows_len]
    · intro i hi
      rw [List.length_append, List.length_singleton] at hi
      by_cases hiP : i < P.length
      · rw [rows_concat_lt _ _ _ (by rw [h.rows_len]; exact hiP), h.rows i hiP,
          local_rank_concat_lt P name i hiP, node_index_concat_lt P name i hiP]
      · have e : i = P.length := by omega
        subst e
        rw [← h.rows_len, rows_concat_length, h.rows_len, local_rank_concat_length,
          node_index_concat_length, hF, h.per, if_pos hlt, hget]
  · rw [if_neg hmem] at hF ⊢
    have hnotP : name ∉ P := fun hp => hmem ((mem_first_appearances P name).mpr hp)
    have hroom : (first_appearances P).length < nodes := by
      rw [hF, List.length_append, List.length_singleton] at hb
      omega
    rw [if_pos (Nat.le_refl _), h.max, if_pos hroom]
    refine ⟨_, rfl, ?_⟩
    refine
      { len := hb, max := ?_, ids_len := ?_, ids := ?_, per_len := ?_, per := ?_,
        rows_len := ?_, rows := ?_ }
    · rw [hF]; simp
    · simp [h.ids_len]
    · intro k
      rw [hF, getD_set_eq, h.ids_len, h.ids]
      by_cases hk : (first_appearances P).length = k
      · subst hk
        rw [if_pos ⟨rfl, hroom⟩, getD_concat_length]
      · rw [if_neg (fun e => hk e.1)]
        by_cases hkl : k < (first_appearances P).length
        · rw [getD_concat_lt _ _ _ hkl]
        · rw [getD_of_le _ _ (not_lt.mp hkl), getD_of_le]
          rw [List.length_append, List.length_singleton]
          omega
    · simp [h.per_len]
    · intro k
      rw [hF, getD_set_nat, h.per_len, List.length_append, List.length_singleton]
      by_cases hk : (first_appearances P).length = k
      · subst hk
        rw [if_pos ⟨rfl, hroom⟩, h.per, if_neg (Nat.lt_irrefl _),
          if_pos (Nat.lt_succ_self _), getD_concat_length, count_concat, if_pos rfl,
          List.count_eq_zero_of_not_mem hnotP]
      · rw [if_neg (fun e => hk e.1), h.per]
        have hk1 : k ≠ (first_appearances P).length := fun e => hk e.symm
        by_cases hkl : k < (first_appearances P).length
        · have hne : ¬ name = (first_appearances P).getD k "" := by
            intro e
            exact hmem (e ▸ getD_mem_of_lt _ k hkl)
          rw [if_pos hkl, if_pos (Nat.lt_succ_of_lt hkl), getD_concat_lt _ _ _ hkl,
            count_concat, if_neg hne]
          rfl
        · rw [if_neg hkl, if_neg (by omega)]
    · simp [h.rows_len]
    · intro i hi
      rw [List.length_append, List.length_singleton] at hi
      by_cases hiP : i < P.length
      · rw [rows_concat_lt _ _ _ (by rw [h.rows_len]; exact hiP), h.rows i hiP,
          local_rank_concat_lt P name i hiP, node_index_concat_lt P name i hiP]
      · have e : i = P.length := by omega
        subst e
        rw [← h.rows_len, rows_concat_length, h.rows_len, local_rank_concat_length,
          node_index_concat_length, hF, h.per, if_neg (Nat.lt_irrefl _),
          List.count_eq_zero_of_not_mem hnotP, List.indexOf_append_of_not_mem hmem]
        simp

theorem after_init_ranks_inv (nodes : Nat) (rest P : List String) (l : after_init_locals)
    (h : after_init_inv nodes P l) (hrest : ∀ name ∈ rest, name ≠ "")
    (hb : (first_appearances (P ++ rest)).length ≤ nodes) :
    ∃ l1, after_init_ranks nodes rest l = some l1 ∧ after_init_inv nodes (P ++ rest) l1 := by
  induction rest generalizing P l with
  | nil => exact ⟨l, rfl, by simpa using h⟩
  | cons name rest ih =>
    have e : P ++ name :: rest = (P ++ [name]) ++ rest := by simp
    have hb1 : (first_appearances (P ++ [name])).length ≤ nodes := by
      have := first_appearances_length_mono (P ++ [name]) rest
      rw [← e] at this
      omega
    obtain ⟨l1, h1, hinv1⟩ := after_init_rank_inv nodes P l name h
      (hrest name (List.mem_cons_self _ _)) hb1
    obtain ⟨l2, h2, hinv2⟩ := ih (P ++ [name]) l1 hinv1
      (fun n hn => hrest n (List.mem_cons_of_mem _ hn)) (by rw [← e]; exact hb)
    refine ⟨l2, ?_, by rw [e]; exact hinv2⟩
    unfold after_init_ranks
    rw [h1]
    exact h2

theorem first_appearances_singleton (hostname : String) :
    first_appearances [hostname] = [hostname] := by
  simp [first_appearances]

theorem after_init_inv_first (nodes : Nat) (hostname : String) (hn : 1 ≤ nodes) :
    after_init_inv nodes [hostname]
      { nodesIds := (List.replicate nodes "").set 0 hostname
        procsPerNode := (List.replicate nodes 0).set 0 1
        procsIds := [(0, 0)]
        maxSetNode := 1 } := by
  refine
    { len := ?_, max := ?_, ids_len := ?_, ids := ?_, per_len := ?_, per := ?_,
      rows_len := ?_, rows := ?_ }
  · rw [first_appearances_singleton]; exact hn
  · rw [first_appearances_singleton]; rfl
  · simp
  · intro k
    rw [first_appearances_singleton, getD_set_eq]
    cases k with
    | zero => simp; omega
    | succ k =>
      rw [if_neg (fun e => absurd e.1 (by omega))]
      simp only [List.getD_eq_getElem?_getD, List.getElem?_replicate]
      split <;> simp
  · simp
  · intro k
    rw [first_appearances_singleton, getD_set_nat]
    cases k with
    | zero => simp; omega
    | succ k =>
      rw [if_neg (fun e => absurd e.1 (by omega))]
      simp only [List.getD_eq_getElem?_getD, List.getElem?_replicate]
      split <;> simp
  · rfl
  · intro i hi
    have e : i = 0 := by simpa using hi
    subst e
    simp [local_rank, node_index, first_appearances_singleton]

theorem first_appearances_length (recvData : List String) :
    (first_appearances recvData).length = recvData.toFinset.card := by
  rw [← List.toFinset_card_of_nodup (first_appearances_nodup recvData)]
  congr 1
  ext name
  simp [mem_first_appearances]

/-- Ranks are on the same host exactly when their hostname has the same index. -/
theorem node_index_eq_iff (recvData : List String) (i j : Nat) (hi : i < recvData.length)
    (hj : j < recvData.length) :
    node_index recvData i = node_index recvData j ↔
      recvData.getD i "" = recvData.getD j "" := by
  unfold node_index
  constructor
  · intro h
    have h1 := getD_indexOf (first_appearances recvData) (recvData.getD i "")
      ((mem_first_appearances _ _).mpr (getD_mem_of_lt recvData i hi))
    have h2 := getD_indexOf (first_appearances recvData) (recvData.getD j "")
      ((mem_first_appearances _ _).mpr (getD_mem_of_lt recvData j hj))
    rw [← h1, ← h2, h]
  · intro h
    rw [h]

/-- Of two ranks on the same host the later one has the higher local rank. -/
theorem local_rank_lt (recvData : List String) (i j : Nat) (hij : i < j)
    (hj : j < recvData.length) (h : recvData.getD i "" = recvData.getD j "") :
    local_rank recvData i < local_rank recvData j := by
  unfold local_rank
  rw [← h]
  have hi : i < recvData.length := by omega
  have e1 : recvData.take j = recvData.take (i + 1) ++ (recvData.take j).drop (i + 1) := by
    have := (List.take_append_drop (i + 1) (recvData.take j)).symm
    rwa [List.take_take, Nat.min_eq_left (by omega)] at this
  have e2 : recvData.take (i + 1) = recvData.take i ++ [recvData.getD i ""] := by
    rw [List.take_succ, List.getD_eq_getElem _ _ hi, List.getElem?_eq_getElem hi]
    rfl
  rw [e1, e2, List.count_append, List.count_append, List.count_singleton_self]
  omega

/-- The table rank 0 computes, when the hostnames are not empty and the tables
have room for the distinct ones: row `i` is the local rank of rank `i` and the
index of its hostname. -/
theorem after_init_table (hostname : String) (rest : List String)
    (hnames : ∀ name ∈ hostname :: rest, name ≠ "")
    (hnodes : (first_appearances (hostname :: rest)).length ≤ nodes_bound (hostname :: rest)) :
    after_init (hostname :: rest) =
      some ((List.range (hostname :: rest).length).map (fun i =>
        (local_rank (hostname :: rest) i, node_index (hostname :: rest) i))) := by
  have h1 : 1 ≤ (first_appearances (hostname :: rest)).length := by
    have : hostname ∈ first_appearances (hostname :: rest) :=
      (mem_first_appearances _ _).mpr (List.mem_cons_self _ _)
    exact List.length_pos_of_mem this
  have hn : 1 ≤ nodes_bound (hostname :: rest) := le_trans h1 hnodes
  obtain ⟨l1, hl1, hinv⟩ := after_init_ranks_inv (nodes_bound (hostname :: rest)) rest
    [hostname] _ (after_init_inv_first _ hostname hn)
    (fun n hn => hnames n (List.mem_cons_of_mem _ hn)) hnodes
  have hrun : after_init (hostname :: rest) = some l1.procsIds :=
    congrArg (Option.map after_init_locals.procsIds) hl1
  rw [hrun]
  congr 1
  have hlen : l1.procsIds.length = (hostname :: rest).length := hinv.rows_len
  apply List.ext_getElem
  · simp [hlen]
  · intro i hi1 hi2
    have hrow := hinv.rows i (by rw [← hinv.rows_len]; exact hi1)
    rw [List.getD_eq_getElem _ _ hi1] at hrow
    rw [hrow]
    simp

/-! ## `shmem_procinfo__getpidlist` -/

/-- With room for at least one more pid, the loop of `getpidlist` writes the
pids of the entries in use, in the order of the entries, up to `max_len`. -/
theorem getpidlist_slots_eq (max_len : Int) (s : shdata_t) (ps : List Nat) (acc : List pid_t)
    (hacc : (acc.length : Int) < max_len) :
    shmem_procinfo__getpidlist_slots max_len s ps acc =
      (acc ++ (ps.filter (fun p => decide ((s.proc p).pid ≠ NOBODY))).map
        (fun p => (s.proc p).pid)).take max_len.toNat := by
  induction ps generalizing acc with
  | nil =>
    unfold shmem_procinfo__getpidlist_slots
    simp only [List.filter_nil, List.map_nil, List.append_nil]
    rw [List.take_of_length_le]
    omega
  | cons p ps ih =>
    unfold shmem_procinfo__getpidlist_slots
    dsimp only
    by_cases hp : (s.proc p).pid ≠ NOBODY
    · have hf : List.filter (fun p => decide ((s.proc p).pid ≠ NOBODY)) (p :: ps)
          = p :: List.filter (fun p => decide ((s.proc p).pid ≠ NOBODY)) ps := by
        simp [List.filter_cons, hp]
      rw [if_pos hp, hf, List.map_cons]
      have e : acc ++ (s.proc p).pid ::
          List.map (fun p => (s.proc p).pid)
            (List.filter (fun p => decide ((s.proc p).pid ≠ NOBODY)) ps)
          = (acc ++ [(s.proc p).pid]) ++ List.map (fun p => (s.proc p).pid)
            (List.filter (fun p => decide ((s.proc p).pid ≠ NOBODY)) ps) := by simp
      by_cases hlen : ((acc ++ [(s.proc p).pid]).length : Int) = max_len
      · rw [if_pos hlen, e]
        have hn : max_len.toNat = (acc ++ [(s.proc p).pid]).length := by omega
        rw [hn, List.take_left']
        rfl
      · rw [if_neg hlen, e]
        apply ih
        simp only [List.length_append, List.length_singleton] at hlen ⊢
        omega
    · have hf : List.filter (fun p => decide ((s.proc p).pid ≠ NOBODY)) (p :: ps)
          = List.filter (fun p => decide ((s.proc p).pid ≠ NOBODY)) ps := by
        simp only [ne_eq, not_not] at hp
        simp [List.filter_cons, hp]
      rw [if_neg hp, hf, if_neg (by omega)]
      exact ih acc hacc

/-- On an attached registry and with `max_len ≥ 1`, `getpidlist` returns
`DLB_SUCCESS` and writes the pids of the first `max_len` entries in use. -/
theorem getpidlist_eq (max_len : Int) (g : shmem_procinfo) (hh : g.shm_handler = true)
    (hlen : 0 < max_len) :
    shmem_procinfo__getpidlist max_len g =
      (DLB_SUCCESS,
        (((List.range g.shdata.max_processes).filter
            (fun p => decide ((g.shdata.proc p).pid ≠ NOBODY))).map
          (fun p => (g.shdata.proc p).pid)).take max_len.toNat) := by
  unfold shmem_procinfo__getpidlist
  rw [hh]
  simp only [Bool.not_true, Bool.false_eq_true, if_false]
  rw [getpidlist_slots_eq max_len g.shdata _ [] (by simpa using hlen)]
  rfl

/-! ## Claims -/

/-- C1 (dry-run atomicity), evaluated where it fails: on the node of 4 CPUs with
p1 on CPUs 0,1 and p2 on CPUs 2,3, `setprocessmask(p2, {0,1,2,3})` returns
`DLB_ERR_PERM` and yet CPU 1 has moved from p1 to p2 and both are dirty: the dry
run accepts each CPU on the unchanged registry, the committing run refuses CPU 0
after it has taken CPU 1. -/
theorem setprocessmask_perm_after_partial_steal :
    shmem_procinfo__setprocessmask 222 {0, 1, 2, 3} false node4 =
      (some DLB_ERR_PERM,
        { node4 with
          shdata :=
            { initialized := true, free_mask := ∅,
              process_info :=
                [{ pinfo_t.clean 111 {0, 1} with
                    dirty := true, future_process_mask := {0}, stolen_cpus := {1} },
                 { pinfo_t.clean 222 {2, 3} with dirty := true, future_process_mask := {1, 2, 3} },
                 pinfo_t.zero, pinfo_t.zero] } })
    ∧ (shmem_procinfo__setprocessmask 222 {0, 1, 2, 3} false node4).2 ≠ node4 := by
  decide

/-- C2 as stated fails: on the node of 4 CPUs every registered process has a
non-empty future mask, and the single call `setprocessmask(p1, {})` succeeds and
leaves p1 registered with an empty future mask; so does `setprocessmask(p1, {7})`,
whose mask names no CPU of the node. -/
theorem empty_mask_empties_target :
    all_future_nonempty node4
    ∧ (shmem_procinfo__setprocessmask 111 ∅ false node4).1 = some DLB_SUCCESS
    ∧ ¬ all_future_nonempty (run_calls [drom_call.setprocessmask 111 ∅ false] node4)
    ∧ (shmem_procinfo__setprocessmask 111 {7} false node4).1 = some DLB_SUCCESS
    ∧ ¬ all_future_nonempty (run_calls [drom_call.setprocessmask 111 {7} false] node4) := by
  decide

/-- C2, amended: starting from a registry in which every registered process has
a non-empty future mask, no finite sequence of `setprocessmask` calls (any pids,
either flag) and `polldrom` calls in which every requested mask contains at
least one CPU below `max_cpus` reaches a registry in which some registered
process has an empty future mask. -/
theorem last_cpu_protection (calls : List drom_call) (g : shmem_procinfo)
    (hmasks : ∀ pid mask sync_query,
      drom_call.setprocessmask pid mask sync_query ∈ calls → ∃ c ∈ mask, c < g.max_cpus)
    (hinv : all_future_nonempty g) :
    all_future_nonempty (run_calls calls g) := by
  unfold run_calls
  induction calls generalizing g with
  | nil => exact hinv
  | cons call calls ih =>
    rw [List.foldl_cons]
    cases call with
    | setprocessmask pid mask sync =>
      apply ih
      · intro pid' mask' sync' hmem
        have := hmasks pid' mask' sync' (List.mem_cons_of_mem _ hmem)
        simpa only [drom_call.run, setprocessmask_max_cpus] using this
      · exact setprocessmask_preserves_nonempty pid mask sync g
          (hmasks pid mask sync (List.mem_cons_self _ _)) hinv
    | polldrom pid =>
      apply ih
      · intro pid' mask' sync' hmem
        have := hmasks pid' mask' sync' (List.mem_cons_of_mem _ hmem)
        simpa only [drom_call.run, polldrom_max_cpus] using this
      · exact polldrom_preserves_nonempty pid g hinv

/-- Witness of C2 amended: p2 asks for CPUs 0,1,2,3 (refused after CPU 1 has
moved), p1 polls, p2 asks for CPUs 0,3: both still own a CPU. -/
theorem last_cpu_protection_witness :
    all_future_nonempty
      (run_calls [drom_call.setprocessmask 222 {0, 1, 2, 3} false, drom_call.polldrom 111,
        drom_call.polldrom 222, drom_call.setprocessmask 222 {0, 3} false] node4) :=
  last_cpu_protection _ node4
    (by
      intro pid mask sync h
      simp only [List.mem_cons, List.mem_singleton, drom_call.setprocessmask.injEq,
        reduceCtorEq, or_false, false_or, List.not_mem_nil] at h
      rcases h with ⟨_, rfl, _⟩ | ⟨_, rfl, _⟩
      · exact ⟨0, by decide, by decide⟩
      · exact ⟨0, by decide, by decide⟩)
    (by decide)

/-- C3: whatever `setprocessmask(pid, mask)` or `preinit(pid, mask, steal)` does
and returns, every registered process other than `pid` that had a non-empty
future mask before the call is still registered under the same pid with a
non-empty future mask after it. -/
theorem steal_never_empties_victim (pid : pid_t) (mask : cpu_set_t) (sync_query : Bool)
    (steal : Int) (g : shmem_procinfo) (i : Nat)
    (hreg : (g.shdata.proc i).pid ≠ NOBODY) (hother : (g.shdata.proc i).pid ≠ pid)
    (hne : (g.shdata.proc i).future_process_mask ≠ ∅) :
    (((shmem_procinfo__setprocessmask pid mask sync_query g).2.shdata.proc i).pid
        = (g.shdata.proc i).pid
      ∧ ((shmem_procinfo__setprocessmask pid mask sync_query g).2.shdata.proc i).future_process_mask
        ≠ ∅)
    ∧ (((shmem_procinfo_ext__preinit pid mask steal g).2.shdata.proc i).pid
        = (g.shdata.proc i).pid
      ∧ ((shmem_procinfo_ext__preinit pid mask steal g).2.shdata.proc i).future_process_mask
        ≠ ∅) := by
  have hne' := Finset.nonempty_iff_ne_empty.mpr hne
  constructor
  · obtain ⟨n, D, _, hf⟩ := setprocessmask_frame_other pid mask sync_query g i hother
    exact ⟨hf.pid_eq, Finset.nonempty_iff_ne_empty.mp (hf.nonempty hne')⟩
  · unfold shmem_procinfo_ext__preinit
    split
    · exact ⟨rfl, hne⟩
    · obtain ⟨n, D, _, hf⟩ := preinit_slots_frame g.max_cpus pid mask steal
        (List.range g.shdata.max_processes) g.shdata i hreg
      exact ⟨hf.pid_eq, Finset.nonempty_iff_ne_empty.mp (hf.nonempty hne')⟩

/-- Witness of C3: on the node of 4 CPUs, p2 takes CPU 1 from p1, which keeps CPU 0. -/
theorem steal_never_empties_victim_witness :
    ((((shmem_procinfo__setprocessmask 222 {1, 2, 3} false node4).2.shdata.proc 0).pid
        = (node4.shdata.proc 0).pid
      ∧ ((shmem_procinfo__setprocessmask 222 {1, 2, 3} false node4).2.shdata.proc 0).future_process_mask
        ≠ ∅)
    ∧ (((shmem_procinfo_ext__preinit 222 {1, 2, 3} 1 node4).2.shdata.proc 0).pid
        = (node4.shdata.proc 0).pid
      ∧ ((shmem_procinfo_ext__preinit 222 {1, 2, 3} 1 node4).2.shdata.proc 0).future_process_mask
        ≠ ∅))
    ∧ ((shmem_procinfo__setprocessmask 222 {1, 2, 3} false node4).2.shdata.proc 0).future_process_mask
        = {0} :=
  ⟨steal_never_empties_victim 222 {1, 2, 3} false 1 node4 0 (by decide) (by decide) (by decide),
    by decide⟩

/-- The registry `node4_beyond` is reached from the empty node of 4 CPUs:
an administrator preregisters pid 333 on CPUs 3 and 7 with steal, finalizes it
(its current mask, CPU 7 included, goes to `free_mask`), then preregisters
pid 111 on CPUs 0 and 7 and pid 222 on CPUs 1,2,3. -/
theorem node4_beyond_reached :
    (shmem_procinfo_ext__preinit 222 {1, 2, 3} 0
      (shmem_procinfo_ext__preinit 111 {0, 7} 0
        (shmem_procinfo_ext__postfinalize 333 false
          (shmem_procinfo_ext__preinit 333 {3, 7} 1 node4_empty).2).2).2)
      = (some DLB_SUCCESS, node4_beyond) := by
  decide

/-- C4 as stated fails: the registry `node4_beyond` satisfies every hypothesis
of the claim, p2 = 222 is registered and not dirty, the mask {0,1,2,3,7}
contains the whole non-empty future mask {0,7} of p1, and yet
`setprocessmask(p2, {0,1,2,3,7})` returns `DLB_SUCCESS`: `steal_mask` only counts
down from `max_cpus-1`, takes CPU 0 and leaves p1 with the CPU number 7. -/
theorem whole_mask_beyond_max_cpus_succeeds :
    pids_distinct node4_beyond.shdata ∧ futures_disjoint node4_beyond.shdata
    ∧ futures_not_free node4_beyond.shdata ∧ cpus_covered 4 node4_beyond.shdata
    ∧ dirty_invariant node4_beyond.shdata
    ∧ get_process 222 node4_beyond.shdata = some 1
    ∧ (node4_beyond.shdata.proc 1).dirty = false
    ∧ (node4_beyond.shdata.proc 0).pid = 111
    ∧ (node4_beyond.shdata.proc 0).future_process_mask ≠ ∅
    ∧ (node4_beyond.shdata.proc 0).future_process_mask ⊆ {0, 1, 2, 3, 7}
    ∧ (shmem_procinfo__setprocessmask 222 {0, 1, 2, 3, 7} false node4_beyond).1
        = some DLB_SUCCESS
    ∧ ((shmem_procinfo__setprocessmask 222 {0, 1, 2, 3, 7} false
        node4_beyond).2.shdata.proc 0).future_process_mask = {7} := by
  decide

/-- C4, amended: in a registry where the registered pids are distinct, the
future masks of the registered processes are pairwise disjoint, disjoint from
`free_mask` and within `[0, max_cpus)`, every CPU below `max_cpus` is free or in
a registered future mask, and every process that is not dirty has its current
mask equal to its future mask, `setprocessmask(pid, mask)` without `DLB_SYNC_QUERY` on a
registered pid that is not dirty returns `DLB_ERR_PERM` if and only if `mask`
contains the whole non-empty future mask of some other registered process, and
returns `DLB_SUCCESS` otherwise. -/
theorem setprocessmask_perm_iff (pid : pid_t) (mask : cpu_set_t) (g : shmem_procinfo) (k : Nat)
    (hh : g.shm_handler = true) (hk : get_process pid g.shdata = some k)
    (hreg : pid ≠ NOBODY) (hd : (g.shdata.proc k).dirty = false)
    (hpids : pids_distinct g.shdata) (hdis : futures_disjoint g.shdata)
    (hnf : futures_not_free g.shdata) (hcov : cpus_covered g.max_cpus g.shdata)
    (hinv : dirty_invariant g.shdata) (hrange : futures_in_range g.max_cpus g.shdata) :
    ((shmem_procinfo__setprocessmask pid mask false g).1 = some DLB_ERR_PERM
        ↔ ∃ j, j < g.shdata.max_processes ∧ (g.shdata.proc j).pid ≠ NOBODY
            ∧ (g.shdata.proc j).pid ≠ pid
            ∧ (g.shdata.proc j).future_process_mask ≠ ∅
            ∧ (g.shdata.proc j).future_process_mask ⊆ mask)
    ∧ ((¬ ∃ j, j < g.shdata.max_processes ∧ (g.shdata.proc j).pid ≠ NOBODY
            ∧ (g.shdata.proc j).pid ≠ pid
            ∧ (g.shdata.proc j).future_process_mask ≠ ∅
            ∧ (g.shdata.proc j).future_process_mask ⊆ mask) →
        (shmem_procinfo__setprocessmask pid mask false g).1 = some DLB_SUCCESS) := by
  change ((shmem_procinfo__setprocessmask pid mask false g).1 = some DLB_ERR_PERM
        ↔ asks_whole_mask pid mask g.shdata)
    ∧ (¬ asks_whole_mask pid mask g.shdata →
        (shmem_procinfo__setprocessmask pid mask false g).1 = some DLB_SUCCESS)
  obtain ⟨hpid, hklt⟩ := get_process_some hk
  have key : ((shmem_procinfo__setprocessmask pid mask false g).1 = some DLB_ERR_PERM
        ∧ asks_whole_mask pid mask g.shdata)
      ∨ ((shmem_procinfo__setprocessmask pid mask false g).1 = some DLB_SUCCESS
        ∧ ¬ asks_whole_mask pid mask g.shdata) := by
    rw [setprocessmask_eq pid mask false g k hh hk hd]
    by_cases hdry : (set_new_mask g.max_cpus k mask true g.shdata).1 ≠ 0
    · left
      rw [if_pos hdry]
      rw [set_new_mask_dry_code] at hdry ⊢
      have hperm : (steal_mask g.max_cpus (some k)
          (set_new_mask_sets g.max_cpus k mask g.shdata).cpus_to_steal true g.shdata).1
          = DLB_ERR_PERM := by
        rcases steal_mask_cpus_code (some k)
          (set_new_mask_sets g.max_cpus k mask g.shdata).cpus_to_steal true
          (List.range g.max_cpus).reverse g.shdata with h0 | h0
        · exact absurd h0 hdry
        · exact h0
      exact ⟨by rw [hperm], steal_mask_perm_asks_whole pid mask g.max_cpus k true g.shdata
        hklt hpid hpids hdis hcov hinv hperm⟩
    · rw [if_neg hdry]
      simp only [Bool.false_eq_true, and_false, if_false]
      rw [set_new_mask_commit]
      by_cases hst : (steal_mask g.max_cpus (some k)
          (set_new_mask_sets g.max_cpus k mask g.shdata).cpus_to_steal false g.shdata).1 ≠ 0
      · left
        rw [if_pos hst]
        have hperm : (steal_mask g.max_cpus (some k)
            (set_new_mask_sets g.max_cpus k mask g.shdata).cpus_to_steal false g.shdata).1
            = DLB_ERR_PERM := by
          rcases steal_mask_cpus_code (some k)
            (set_new_mask_sets g.max_cpus k mask g.shdata).cpus_to_steal false
            (List.range g.max_cpus).reverse g.shdata with h0 | h0
          · exact absurd h0 hst
          · exact h0
        exact ⟨by rw [hperm], steal_mask_perm_asks_whole pid mask g.max_cpus k false g.shdata
          hklt hpid hpids hdis hcov hinv hperm⟩
      · right
        rw [if_neg hst]
        exact ⟨rfl, steal_mask_success_not_whole pid mask g.max_cpus k g.shdata hklt hpid hreg
          hdis hnf hinv hrange (not_not.mp hst)⟩
  rcases key with ⟨h1, h2⟩ | ⟨h1, h2⟩
  · exact ⟨⟨fun _ => h2, fun _ => h1⟩, fun hn => absurd h2 hn⟩
  · refine ⟨⟨fun h => ?_, fun h => absurd h h2⟩, fun _ => h1⟩
    rw [h1] at h
    simp [DLB_SUCCESS, DLB_ERR_PERM] at h

/-- Witness of C4 amended: p1 = 111 owns CPU 0 and p2 = 222 owns CPUs 1,2,3; the request
`setprocessmask(p2, {0,1,2,3})` covers the whole mask of p1 and returns
`DLB_ERR_PERM`, the request `setprocessmask(p2, {1,2})` returns `DLB_SUCCESS`. -/
theorem setprocessmask_perm_iff_witness :
    (shmem_procinfo__setprocessmask 222 {0, 1, 2, 3} false node4_last).1 = some DLB_ERR_PERM
    ∧ (shmem_procinfo__setprocessmask 222 {1, 2} false node4_last).1 = some DLB_SUCCESS :=
  ⟨(setprocessmask_perm_iff 222 {0, 1, 2, 3} node4_last 1 (by decide) (by decide) (by decide)
      (by decide) (by decide) (by decide) (by decide) (by decide) (by decide)
      (by decide)).1.mpr (by decide),
    (setprocessmask_perm_iff 222 {1, 2} node4_last 1 (by decide) (by decide) (by decide)
      (by decide) (by decide) (by decide) (by decide) (by decide) (by decide)
      (by decide)).2 (by decide)⟩

/-- C5 as stated fails: in the registry `node4_beyond` the future masks are
pairwise disjoint, p1 = 111 is registered and not dirty, the mask {0} is within
`[0, max_cpus)` and `setprocessmask(p1, {0})` returns `DLB_SUCCESS`, yet the
future mask of p1 is then {0,7}, not {0}, and `free_mask` is empty, not
`(free_mask \ mask) ∪ (future mask \ mask)` = {7}: the loop of `set_new_mask`
never looks at the CPU number 7. -/
theorem success_keeps_cpus_beyond_max_cpus :
    futures_disjoint node4_beyond.shdata
    ∧ get_process 111 node4_beyond.shdata = some 0
    ∧ (node4_beyond.shdata.proc 0).dirty = false
    ∧ (shmem_procinfo__setprocessmask 111 {0} false node4_beyond).1 = some DLB_SUCCESS
    ∧ ((shmem_procinfo__setprocessmask 111 {0} false
        node4_beyond).2.shdata.proc 0).future_process_mask = {0, 7}
    ∧ ((shmem_procinfo__setprocessmask 111 {0} false
        node4_beyond).2.shdata.proc 0).future_process_mask ≠ {0}
    ∧ (shmem_procinfo__setprocessmask 111 {0} false node4_beyond).2.shdata.free_mask = ∅
    ∧ (shmem_procinfo__setprocessmask 111 {0} false node4_beyond).2.shdata.free_mask
        ≠ (node4_beyond.shdata.free_mask \ {0})
          ∪ ((node4_beyond.shdata.proc 0).future_process_mask \ {0}) := by
  decide

/-- C5, amended: if `setprocessmask(pid, mask)` without `DLB_SYNC_QUERY` returns
`DLB_SUCCESS` for the pid found in slot `k`, with `mask` and the old future mask
of the process within `[0, max_cpus)`, then afterwards the future mask of the
process is `mask`, the process is dirty, and `free_mask` is
`(old free_mask \ mask) ∪ (old future mask \ mask)`. -/
theorem setprocessmask_success_postcondition (pid : pid_t) (mask : cpu_set_t)
    (g : shmem_procinfo) (k : Nat) (hk : get_process pid g.shdata = some k)
    (hmask : ∀ c ∈ mask, c < g.max_cpus)
    (hfut : ∀ c ∈ (g.shdata.proc k).future_process_mask, c < g.max_cpus)
    (hret : (shmem_procinfo__setprocessmask pid mask false g).1 = some DLB_SUCCESS) :
    ((shmem_procinfo__setprocessmask pid mask false g).2.shdata.proc k).future_process_mask
        = mask
    ∧ ((shmem_procinfo__setprocessmask pid mask false g).2.shdata.proc k).dirty = true
    ∧ (shmem_procinfo__setprocessmask pid mask false g).2.shdata.free_mask
        = (g.shdata.free_mask \ mask) ∪ ((g.shdata.proc k).future_process_mask \ mask) := by
  have hklt := (get_process_some hk).2
  obtain ⟨hret, hst, _, _⟩ := setprocessmask_success pid mask g k hk hret
  rw [hst]
  · have h1 := fun c => (set_new_mask_success_future g.max_cpus k mask g.shdata hklt hret c).1
    have h2 := (set_new_mask_success_future g.max_cpus k mask g.shdata hklt hret 0).2
    have h3 := set_new_mask_success_free_mask g.max_cpus k mask g.shdata hret
    refine ⟨?_, h2, ?_⟩
    · ext c
      rw [h1 c]
      by_cases hlt : c < g.max_cpus
      · simp [hlt]
      · simp only [hlt, if_false]
        constructor
        · intro h; exact absurd (hfut c h) hlt
        · intro h; exact absurd (hmask c h) hlt
    · ext c
      rw [h3 c]
      simp only [Finset.mem_union, Finset.mem_sdiff]
      constructor
      · rintro (⟨hf, hn⟩ | ⟨hlt, hnm, ho⟩)
        · exact Or.inl ⟨hf, fun hm => hn ⟨hmask c hm, hm⟩⟩
        · exact Or.inr ⟨ho, hnm⟩
      · rintro (⟨hf, hnm⟩ | ⟨ho, hnm⟩)
        · exact Or.inl ⟨hf, fun h => hnm h.2⟩
        · exact Or.inr ⟨hfut c ho, hnm, ho⟩

/-- Witness of C5 amended: on the node of 4 CPUs p2 releases CPU 3 and takes CPU 1. -/
theorem setprocessmask_success_postcondition_witness :
    ((shmem_procinfo__setprocessmask 222 {1, 2} false node4).2.shdata.proc 1).future_process_mask
        = {1, 2}
    ∧ ((shmem_procinfo__setprocessmask 222 {1, 2} false node4).2.shdata.proc 1).dirty = true
    ∧ (shmem_procinfo__setprocessmask 222 {1, 2} false node4).2.shdata.free_mask
        = (node4.shdata.free_mask \ {1, 2})
          ∪ ((node4.shdata.proc 1).future_process_mask \ {1, 2}) :=
  setprocessmask_success_postcondition 222 {1, 2} node4 1 (by decide) (by decide) (by decide)
    (by decide)

/-- C6 as stated fails, in three ways.  (1) In `node4_beyond` the call
`setprocessmask(p2, {1,2,3,7})` succeeds; CPU 7 is in the mask, not free, not
in the future mask of p2 and in the future mask of p1, and afterwards it is
still with p1 and not with p2 (CPU numbers from `max_cpus` on are never looked
at).  (2) In `node5_stale` the call `setprocessmask(p2, {0,4})` succeeds; CPU 0
is in the future mask of p1 but is taken from p3, whose stale current mask has
it, so p1 keeps it.  (3) In `node4_overlap` the call `setprocessmask(p2, {0,3})`
succeeds; CPU 0 is in the future masks of p3 and p1 and is taken from p3, the
first slot, so p1 keeps it. -/
theorem committed_steal_misses_victim :
    ((shmem_procinfo__setprocessmask 222 {1, 2, 3, 7} false node4_beyond).1 = some DLB_SUCCESS
      ∧ 7 ∈ ({1, 2, 3, 7} : cpu_set_t) ∧ 7 ∉ node4_beyond.shdata.free_mask
      ∧ 7 ∉ (node4_beyond.shdata.proc 1).future_process_mask
      ∧ (node4_beyond.shdata.proc 0).pid = 111
      ∧ 7 ∈ (node4_beyond.shdata.proc 0).future_process_mask
      ∧ 7 ∉ ((shmem_procinfo__setprocessmask 222 {1, 2, 3, 7} false
          node4_beyond).2.shdata.proc 1).future_process_mask
      ∧ 7 ∈ ((shmem_procinfo__setprocessmask 222 {1, 2, 3, 7} false
          node4_beyond).2.shdata.proc 0).future_process_mask)
    ∧ ((shmem_procinfo__setprocessmask 222 {0, 4} false node5_stale).1 = some DLB_SUCCESS
      ∧ 0 ∈ ({0, 4} : cpu_set_t) ∧ 0 ∉ node5_stale.shdata.free_mask
      ∧ 0 ∉ (node5_stale.shdata.proc 2).future_process_mask
      ∧ (node5_stale.shdata.proc 0).pid = 111
      ∧ 0 ∈ (node5_stale.shdata.proc 0).future_process_mask
      ∧ 0 ∈ ((shmem_procinfo__setprocessmask 222 {0, 4} false
          node5_stale).2.shdata.proc 0).future_process_mask
      ∧ 0 ∉ ((shmem_procinfo__setprocessmask 222 {0, 4} false
          node5_stale).2.shdata.proc 0).stolen_cpus)
    ∧ ((shmem_procinfo__setprocessmask 222 {0, 3} false node4_overlap).1 = some DLB_SUCCESS
      ∧ 0 ∈ ({0, 3} : cpu_set_t) ∧ 0 ∉ node4_overlap.shdata.free_mask
      ∧ 0 ∉ (node4_overlap.shdata.proc 2).future_process_mask
      ∧ (node4_overlap.shdata.proc 1).pid = 111
      ∧ 0 ∈ (node4_overlap.shdata.proc 1).future_process_mask
      ∧ 0 ∈ ((shmem_procinfo__setprocessmask 222 {0, 3} false
          node4_overlap).2.shdata.proc 1).future_process_mask
      ∧ 0 ∉ ((shmem_procinfo__setprocessmask 222 {0, 3} false
          node4_overlap).2.shdata.proc 1).stolen_cpus) := by
  decide

/-- C6, amended: in a registry where the future masks of the registered
processes are pairwise disjoint and every process that is not dirty has its current mask equal
to its future mask, whenever `setprocessmask(pid, mask)` returns `DLB_SUCCESS`
for the pid found in slot `k`, every CPU `c` of `mask` below `max_cpus` that was
neither free nor in the future mask of the process and was in the future mask of
a registered process `v` is afterwards in the future mask of the process, out of
the future mask of `v` and in `stolen_cpus` of `v`, which is dirty and has its
current mask unchanged. -/
theorem committed_steal_effect (pid : pid_t) (mask : cpu_set_t) (g : shmem_procinfo)
    (k v c : Nat) (hk : get_process pid g.shdata = some k)
    (hdis : futures_disjoint g.shdata) (hinv : dirty_invariant g.shdata)
    (hret : (shmem_procinfo__setprocessmask pid mask false g).1 = some DLB_SUCCESS)
    (hc : c < g.max_cpus) (hcm : c ∈ mask) (hcf : c ∉ g.shdata.free_mask)
    (hck : c ∉ (g.shdata.proc k).future_process_mask)
    (hreg : (g.shdata.proc v).pid ≠ NOBODY)
    (hcv : c ∈ (g.shdata.proc v).future_process_mask) :
    c ∈ ((shmem_procinfo__setprocessmask pid mask false g).2.shdata.proc k).future_process_mask
    ∧ c ∉ ((shmem_procinfo__setprocessmask pid mask false g).2.shdata.proc v).future_process_mask
    ∧ c ∈ ((shmem_procinfo__setprocessmask pid mask false g).2.shdata.proc v).stolen_cpus
    ∧ ((shmem_procinfo__setprocessmask pid mask false g).2.shdata.proc v).dirty = true
    ∧ ((shmem_procinfo__setprocessmask pid mask false g).2.shdata.proc v).current_process_mask
        = (g.shdata.proc v).current_process_mask := by
  have hklt := (get_process_some hk).2
  obtain ⟨hret, hst, _, _⟩ := setprocessmask_success pid mask g k hk hret
  have hvk : v ≠ k := by
    intro e; subst e; exact hck hcv
  obtain ⟨hsteal, hother⟩ := set_new_mask_success_other g.max_cpus k mask g.shdata hret
  have hcS : c ∈ (set_new_mask_sets g.max_cpus k mask g.shdata).cpus_to_steal :=
    ((set_new_mask_sets_mem g.max_cpus k mask g.shdata).2.1 c).mpr ⟨hc, hcm, hcf, hck⟩
  unfold steal_mask at hsteal hother
  have hvic := steal_mask_cpus_success_victim k _ (List.range g.max_cpus).reverse g.shdata
    (List.nodup_reverse.mpr (List.nodup_range _)) hinv hdis v c hvk hreg hcv
    (by simpa using hc) hcS hsteal
  have hfr := steal_mask_cpus_frame k
    (set_new_mask_sets g.max_cpus k mask g.shdata).cpus_to_steal false
    (List.range g.max_cpus).reverse g.shdata v
  rw [hst]
  simp only [hother v hvk]
  refine ⟨?_, hvic.2.1, hvic.1, hvic.2.2, hfr.current_eq⟩
  rw [(set_new_mask_success_future g.max_cpus k mask g.shdata hklt hret c).1, if_pos hc]
  exact hcm

/-- Witness of C6 amended: on the node of 4 CPUs p2 asks for CPUs 1,2,3 and CPU 1 is
taken from p1. -/
theorem committed_steal_effect_witness :
    1 ∈ ((shmem_procinfo__setprocessmask 222 {1, 2, 3} false node4).2.shdata.proc 1).future_process_mask
    ∧ 1 ∉ ((shmem_procinfo__setprocessmask 222 {1, 2, 3} false node4).2.shdata.proc 0).future_process_mask
    ∧ 1 ∈ ((shmem_procinfo__setprocessmask 222 {1, 2, 3} false node4).2.shdata.proc 0).stolen_cpus
    ∧ ((shmem_procinfo__setprocessmask 222 {1, 2, 3} false node4).2.shdata.proc 0).dirty = true
    ∧ ((shmem_procinfo__setprocessmask 222 {1, 2, 3} false node4).2.shdata.proc 0).current_process_mask
        = (node4.shdata.proc 0).current_process_mask :=
  committed_steal_effect 222 {1, 2, 3} node4 1 0 1 (by decide) (by decide) (by decide)
    (by decide) (by decide) (by decide) (by decide) (by decide) (by decide) (by decide)

/-- C7 as stated fails: p1 has CPU 1 in `stolen_cpus`, p2 holds CPUs 1,2,3 and
gives up CPU 1 with `setprocessmask(p2, {2,3})`; the call succeeds, CPU 1 goes to
`free_mask` and is in the future mask of no process, p1 included.  And in
`node4_beyond`, where p1 holds CPU 0 and the CPU number 7 and no `stolen_cpus`
has 7, `setprocessmask(p1, {0})` succeeds and CPU 7 is not put in `free_mask`:
it stays with p1. -/
theorem setprocessmask_does_not_give_back :
    (shmem_procinfo__setprocessmask 222 {2, 3} false node4_stolen).1 = some DLB_SUCCESS
    ∧ 1 ∈ (node4_stolen.shdata.proc 1).future_process_mask \ {2, 3}
    ∧ (node4_stolen.shdata.proc 0).pid ≠ NOBODY
    ∧ 1 ∈ (node4_stolen.shdata.proc 0).stolen_cpus
    ∧ 1 ∉ ((shmem_procinfo__setprocessmask 222 {2, 3} false
        node4_stolen).2.shdata.proc 0).future_process_mask
    ∧ (∀ i, i < 4 → 1 ∉ ((shmem_procinfo__setprocessmask 222 {2, 3} false
        node4_stolen).2.shdata.proc i).future_process_mask)
    ∧ 1 ∈ (shmem_procinfo__setprocessmask 222 {2, 3} false node4_stolen).2.shdata.free_mask
    ∧ (shmem_procinfo__setprocessmask 111 {0} false node4_beyond).1 = some DLB_SUCCESS
    ∧ 7 ∈ (node4_beyond.shdata.proc 0).future_process_mask \ {0}
    ∧ (∀ i, i < 4 → 7 ∉ (node4_beyond.shdata.proc i).stolen_cpus)
    ∧ 7 ∉ (shmem_procinfo__setprocessmask 111 {0} false node4_beyond).2.shdata.free_mask
    ∧ 7 ∈ ((shmem_procinfo__setprocessmask 111 {0} false
        node4_beyond).2.shdata.proc 0).future_process_mask := by
  decide

/-- C7, amended: when `setprocessmask(pid, mask)` succeeds for the pid found in
slot `k`, every CPU `c` below `max_cpus` of the old future mask of the process
that is not in `mask` is put in `free_mask` and taken out of the future mask of
the process, whether or not some `stolen_cpus` contains it: in every other entry
the membership of `c` in the future mask and in `stolen_cpus` is unchanged. -/
theorem setprocessmask_frees_to_free_mask (pid : pid_t) (mask : cpu_set_t)
    (g : shmem_procinfo) (k c : Nat) (hk : get_process pid g.shdata = some k)
    (hret : (shmem_procinfo__setprocessmask pid mask false g).1 = some DLB_SUCCESS)
    (hc : c < g.max_cpus) (hold : c ∈ (g.shdata.proc k).future_process_mask)
    (hnm : c ∉ mask) :
    c ∈ (shmem_procinfo__setprocessmask pid mask false g).2.shdata.free_mask
    ∧ c ∉ ((shmem_procinfo__setprocessmask pid mask false g).2.shdata.proc k).future_process_mask
    ∧ ∀ i, i ≠ k →
        (c ∈ ((shmem_procinfo__setprocessmask pid mask false g).2.shdata.proc i).future_process_mask
          ↔ c ∈ (g.shdata.proc i).future_process_mask)
        ∧ (c ∈ ((shmem_procinfo__setprocessmask pid mask false g).2.shdata.proc i).stolen_cpus
          ↔ c ∈ (g.shdata.proc i).stolen_cpus) := by
  have hklt := (get_process_some hk).2
  obtain ⟨hret, hst, _, _⟩ := setprocessmask_success pid mask g k hk hret
  rw [hst]
  · refine ⟨?_, ?_, ?_⟩
    · rw [set_new_mask_success_free_mask g.max_cpus k mask g.shdata hret c]
      exact Or.inr ⟨hc, hnm, hold⟩
    · rw [(set_new_mask_success_future g.max_cpus k mask g.shdata hklt hret c).1, if_pos hc]
      exact hnm
    · intro i hik
      have hfr := set_new_mask_frame_other g.max_cpus k mask false g.shdata i hik
      exact ⟨hfr.future_other c (fun hD => hnm hD.2.1), hfr.stolen_other c (fun hD => hnm hD.2.1)⟩

/-- Witness of C7 amended: the registry of the counterexample; CPU 1 goes to
`free_mask` and p1 keeps it in `stolen_cpus` without getting it back. -/
theorem setprocessmask_frees_to_free_mask_witness :
    1 ∈ (shmem_procinfo__setprocessmask 222 {2, 3} false node4_stolen).2.shdata.free_mask
    ∧ 1 ∉ ((shmem_procinfo__setprocessmask 222 {2, 3} false
        node4_stolen).2.shdata.proc 1).future_process_mask
    ∧ ∀ i, i ≠ 1 →
        (1 ∈ ((shmem_procinfo__setprocessmask 222 {2, 3} false
            node4_stolen).2.shdata.proc i).future_process_mask
          ↔ 1 ∈ (node4_stolen.shdata.proc i).future_process_mask)
        ∧ (1 ∈ ((shmem_procinfo__setprocessmask 222 {2, 3} false
            node4_stolen).2.shdata.proc i).stolen_cpus
          ↔ 1 ∈ (node4_stolen.shdata.proc i).stolen_cpus) :=
  setprocessmask_frees_to_free_mask 222 {2, 3} node4_stolen 1 1 (by decide) (by decide)
    (by decide) (by decide) (by decide)

/-- C8: `steal_cpu(new_owner, victim, cpu, dry_run)` returns true exactly when
the victim is not dirty, has the CPU in its current mask and has more than one
CPU in its future mask, or is dirty, has the CPU in its future mask and has more
than one CPU in its future mask; and when `dry_run` is set or the result is
false the registry is left as it was. -/
theorem steal_cpu_iff_precondition (new_owner : Option Nat) (victim cpu : Nat)
    (dry_run : Bool) (shdata : shdata_t) :
    ((steal_cpu new_owner victim cpu dry_run shdata).1 = true ↔
      ((shdata.proc victim).dirty = false
          ∧ cpu ∈ (shdata.proc victim).current_process_mask
          ∧ 1 < (shdata.proc victim).future_process_mask.card)
        ∨ ((shdata.proc victim).dirty = true
          ∧ cpu ∈ (shdata.proc victim).future_process_mask
          ∧ 1 < (shdata.proc victim).future_process_mask.card))
    ∧ (dry_run = true ∨ (steal_cpu new_owner victim cpu dry_run shdata).1 = false →
        (steal_cpu new_owner victim cpu dry_run shdata).2 = shdata) := by
  refine ⟨steal_cpu_fst_iff new_owner victim cpu dry_run shdata, ?_⟩
  rintro (h | h)
  · subst h; exact steal_cpu_dry _ _ _ _
  · exact steal_cpu_false _ _ _ _ _ h

/-- Witness of C8: on the node of 4 CPUs a dry-run steal of CPU 1 from p1 (slot 0)
for p2 (slot 1) answers true and changes nothing, and the committed one moves the CPU. -/
theorem steal_cpu_iff_precondition_witness :
    (steal_cpu (some 1) 0 1 true node4.shdata).1 = true
    ∧ (steal_cpu (some 1) 0 1 true node4.shdata).2 = node4.shdata
    ∧ ((steal_cpu (some 1) 0 1 false node4.shdata).2.proc 0).future_process_mask = {0} :=
  ⟨((steal_cpu_iff_precondition (some 1) 0 1 true node4.shdata).1).mpr (by decide),
    (steal_cpu_iff_precondition (some 1) 0 1 true node4.shdata).2 (Or.inl rfl),
    by decide⟩

/-- C9: `steal_mask(new_owner, mask, dry_run)` handles the CPUs of `mask` below
`max_cpus` in strictly descending order and, for each, takes the CPU from the
first registered slot in ascending order that satisfies the steal precondition,
stopping with `DLB_ERR_PERM` at the first CPU that no slot gives: it computes
what `steal_mask_in_order` computes on `steal_order`.  When the committing call
fails (the new owner being `NULL` or an entry of the table), it has stopped at
a CPU `c` of `mask` that no registered slot gives; every CPU of `mask` below
`max_cpus` with index greater than `c` has been transferred (it is in the
future mask of the new owner, or in `free_mask` when there is none), and for no
CPU with index up to `c` has the membership in any future mask or `stolen_cpus`
changed. -/
theorem steal_mask_order (max_cpus : Nat) (new_owner : Option Nat) (mask : cpu_set_t)
    (dry_run : Bool) (shdata : shdata_t) :
    (steal_order max_cpus mask).Pairwise (fun a b => a > b)
    ∧ (∀ c, c ∈ steal_order max_cpus mask ↔ c ∈ mask ∧ c < max_cpus)
    ∧ steal_mask max_cpus new_owner mask dry_run shdata
        = steal_mask_in_order new_owner dry_run (steal_order max_cpus mask) shdata
    ∧ ((∀ n, new_owner = some n → n < shdata.max_processes) →
        (steal_mask max_cpus new_owner mask false shdata).1 = DLB_ERR_PERM →
        ∃ c, c ∈ mask ∧ c < max_cpus
          ∧ (∀ p, p < shdata.max_processes →
              ((steal_mask max_cpus new_owner mask false shdata).2.proc p).pid ≠ NOBODY →
              ¬ steal_precondition ((steal_mask max_cpus new_owner mask false shdata).2.proc p) c)
          ∧ (∀ d, d ∈ mask → d < max_cpus → c < d →
              match new_owner with
              | some n =>
                d ∈ ((steal_mask max_cpus new_owner mask false shdata).2.proc n).future_process_mask
              | none => d ∈ (steal_mask max_cpus new_owner mask false shdata).2.free_mask)
          ∧ (∀ d, d ≤ c → ∀ j,
              (d ∈ ((steal_mask max_cpus new_owner mask false shdata).2.proc j).future_process_mask
                ↔ d ∈ (shdata.proc j).future_process_mask)
              ∧ (d ∈ ((steal_mask max_cpus new_owner mask false shdata).2.proc j).stolen_cpus
                ↔ d ∈ (shdata.proc j).stolen_cpus))) := by
  refine ⟨steal_order_sorted max_cpus mask, mem_steal_order max_cpus mask, ?_, ?_⟩
  · unfold steal_mask steal_order
    exact steal_mask_cpus_eq_in_order _ _ _ _ _
  · intro hn h
    unfold steal_mask at h ⊢
    have hsorted : (List.range max_cpus).reverse.Pairwise (fun a b => a > b) := by
      rw [List.pairwise_reverse]
      exact List.pairwise_lt_range max_cpus
    cases new_owner with
    | none =>
      obtain ⟨c, hc, hcm, hnone, habove, hbelow⟩ :=
        steal_mask_cpus_none_perm_prefix mask _ shdata hsorted h
      have hclt : c < max_cpus := by simpa using hc
      exact ⟨c, hcm, hclt, hnone,
        fun d hdm hdlt hcd => habove d (by simpa using hdlt) hdm hcd, hbelow⟩
    | some n =>
      obtain ⟨c, hc, hcm, hnone, habove, hbelow⟩ :=
        steal_mask_cpus_perm_prefix n mask _ shdata (hn n rfl) hsorted h
      have hclt : c < max_cpus := by simpa using hc
      exact ⟨c, hcm, hclt, hnone,
        fun d hdm hdlt hcd => habove d (by simpa using hdlt) hdm hcd, hbelow⟩

/-- Witness of C9: on the node of 4 CPUs the only victim p1 owns CPUs 0,1 and is
not dirty; asked for CPUs 0,1 it gives CPU 1, the call stops with `DLB_ERR_PERM`
at CPU 0, and p1 keeps exactly CPU 0. -/
theorem steal_mask_order_witness :
    (steal_mask 4 (some 1) {0, 1} false node4.shdata).1 = DLB_ERR_PERM
    ∧ ((steal_mask 4 (some 1) {0, 1} false node4.shdata).2.proc 0).future_process_mask = {0}
    ∧ ((steal_mask 4 (some 1) {0, 1} false node4.shdata).2.proc 1).future_process_mask
        = {1, 2, 3}
    ∧ ∃ c, c ∈ ({0, 1} : cpu_set_t) ∧ c < 4
      ∧ (∀ p, p < node4.shdata.max_processes →
          ((steal_mask 4 (some 1) {0, 1} false node4.shdata).2.proc p).pid ≠ NOBODY →
          ¬ steal_precondition ((steal_mask 4 (some 1) {0, 1} false node4.shdata).2.proc p) c)
      ∧ (∀ d, d ∈ ({0, 1} : cpu_set_t) → d < 4 → c < d →
          d ∈ ((steal_mask 4 (some 1) {0, 1} false node4.shdata).2.proc 1).future_process_mask)
      ∧ (∀ d, d ≤ c → ∀ j,
          (d ∈ ((steal_mask 4 (some 1) {0, 1} false node4.shdata).2.proc j).future_process_mask
            ↔ d ∈ (node4.shdata.proc j).future_process_mask)
          ∧ (d ∈ ((steal_mask 4 (some 1) {0, 1} false node4.shdata).2.proc j).stolen_cpus
            ↔ d ∈ (node4.shdata.proc j).stolen_cpus)) :=
  ⟨by decide, by decide, by decide,
    (steal_mask_order 4 (some 1) {0, 1} false node4.shdata).2.2.2
      (by intro n hn; cases hn; decide) (by decide)⟩

/-- C10: `polldrom(pid)` on an attached registry where `pid` is found in slot `k`:
if the entry is not dirty the call returns `DLB_NOUPDT`, writes nothing and
changes nothing; if it is dirty the call returns `DLB_SUCCESS` with `new_mask`
the future mask and `new_cpus` its size, afterwards the current mask equals the
future mask, dirty is false and returncode is 0, and the rest of the entry, the
free mask, the statics and every other entry are unchanged.  In both cases an
immediate second `polldrom(pid)` returns `DLB_NOUPDT`. -/
theorem polldrom_acknowledges (pid : pid_t) (g : shmem_procinfo) (k : Nat)
    (hh : g.shm_handler = true) (hk : get_process pid g.shdata = some k) :
    ((g.shdata.proc k).dirty = false →
        shmem_procinfo__polldrom pid g = (DLB_NOUPDT, none, g))
    ∧ ((g.shdata.proc k).dirty = true →
        (shmem_procinfo__polldrom pid g).1 = DLB_SUCCESS
        ∧ (shmem_procinfo__polldrom pid g).2.1 =
            some { new_cpus := (g.shdata.proc k).future_process_mask.card,
                   new_mask := (g.shdata.proc k).future_process_mask }
        ∧ (shmem_procinfo__polldrom pid g).2.2.shdata.proc k =
            { g.shdata.proc k with
              current_process_mask := (g.shdata.proc k).future_process_mask
              dirty := false
              returncode := 0 }
        ∧ (shmem_procinfo__polldrom pid g).2.2.shdata.free_mask = g.shdata.free_mask
        ∧ (shmem_procinfo__polldrom pid g).2.2.shdata.initialized = g.shdata.initialized
        ∧ (shmem_procinfo__polldrom pid g).2.2.shdata.max_processes = g.shdata.max_processes
        ∧ (∀ i, i ≠ k →
            (shmem_procinfo__polldrom pid g).2.2.shdata.proc i = g.shdata.proc i)
        ∧ (shmem_procinfo__polldrom pid g).2.2.shm_handler = g.shm_handler
        ∧ (shmem_procinfo__polldrom pid g).2.2.max_cpus = g.max_cpus
        ∧ (shmem_procinfo__polldrom pid g).2.2.subprocesses_attached = g.subprocesses_attached)
    ∧ (shmem_procinfo__polldrom pid (shmem_procinfo__polldrom pid g).2.2).1 = DLB_NOUPDT := by
  have hklt := (get_process_some hk).2
  have hclean : (g.shdata.proc k).dirty = false →
      shmem_procinfo__polldrom pid g = (DLB_NOUPDT, none, g) := by
    intro hd
    unfold shmem_procinfo__polldrom
    simp only [hh, Bool.not_true, Bool.false_eq_true, if_false, hk, hd, Bool.not_false, if_true]
  have hdirty : (g.shdata.proc k).dirty = true →
      shmem_procinfo__polldrom pid g =
        (DLB_SUCCESS,
          some { new_cpus := (g.shdata.proc k).future_process_mask.card,
                 new_mask := (g.shdata.proc k).future_process_mask },
          { g with shdata := (g.shdata.setProc k
              { g.shdata.proc k with
                current_process_mask := (g.shdata.proc k).future_process_mask
                dirty := false
                returncode := 0 }) }) := by
    intro hd
    unfold shmem_procinfo__polldrom
    simp only [hh, Bool.not_true, Bool.false_eq_true, if_false, hk, hd, CPU_COUNT]
  refine ⟨hclean, ?_, ?_⟩
  · intro hd
    rw [hdirty hd]
    refine ⟨rfl, rfl, ?_, rfl, rfl, ?_, ?_, rfl, rfl, rfl⟩
    · exact proc_setProc_self _ _ hklt
    · exact max_processes_setProc _ _ _
    · intro i hi
      exact proc_setProc_of_ne _ _ (Ne.symm hi)
  · by_cases hd : (g.shdata.proc k).dirty = true
    · rw [hdirty hd]
      have hk' : get_process pid (g.shdata.setProc k
              { g.shdata.proc k with
                current_process_mask := (g.shdata.proc k).future_process_mask
                dirty := false
                returncode := 0 }) = some k := by
        rw [get_process_congr pid g.shdata _ (max_processes_setProc _ _ _)]
        · exact hk
        · intro i
          rw [proc_setProc]
          split
          · rename_i h; rw [← h.1]
          · rfl
      unfold shmem_procinfo__polldrom
      simp only [hh, Bool.not_true, Bool.false_eq_true, if_false, hk',
        proc_setProc_self _ _ hklt, Bool.not_false, if_true]
    · have hd' : (g.shdata.proc k).dirty = false := by simpa using hd
      rw [hclean hd', hclean hd']

/-- Witness of C10: after p2 has taken CPU 1 from p1, p1 polls and learns its new mask. -/
theorem polldrom_acknowledges_witness :
    (shmem_procinfo__polldrom 111 (shmem_procinfo__setprocessmask 222 {1, 2, 3} false node4).2).1
      = DLB_SUCCESS
    ∧ (shmem_procinfo__polldrom 111
        (shmem_procinfo__setprocessmask 222 {1, 2, 3} false node4).2).2.1
      = some { new_cpus := 1, new_mask := {0} }
    ∧ shmem_procinfo__polldrom 222 node4 = (DLB_NOUPDT, none, node4) :=
  ⟨((polldrom_acknowledges 111 (shmem_procinfo__setprocessmask 222 {1, 2, 3} false node4).2 0
      (by decide) (by decide)).2.1 (by decide)).1,
    by decide,
    (polldrom_acknowledges 222 node4 1 (by decide) (by decide)).1 (by decide)⟩

/-- C11: `getprocessmask(pid)` without `DLB_SYNC_QUERY` on an attached registry
where `pid` is found in slot `k` returns `DLB_SUCCESS` and writes the current
mask of the process when it is not dirty and its future mask when it is dirty;
and `getprocessmask`, whatever its arguments and its result, leaves the
registry as it is. -/
theorem getprocessmask_nonblocking (pid : pid_t) (g : shmem_procinfo) (k : Nat)
    (hh : g.shm_handler = true) (hk : get_process pid g.shdata = some k) :
    ((g.shdata.proc k).dirty = false →
        shmem_procinfo__getprocessmask pid false g =
          (some DLB_SUCCESS, some (g.shdata.proc k).current_process_mask, g))
    ∧ ((g.shdata.proc k).dirty = true →
        shmem_procinfo__getprocessmask pid false g =
          (some DLB_SUCCESS, some (g.shdata.proc k).future_process_mask, g))
    ∧ ∀ (pid1 : pid_t) (sync_query : Bool) (g1 : shmem_procinfo),
        (shmem_procinfo__getprocessmask pid1 sync_query g1).2.2 = g1 := by
  refine ⟨?_, ?_, ?_⟩
  · intro hd
    unfold shmem_procinfo__getprocessmask
    simp only [hh, Bool.not_true, Bool.false_eq_true, if_false, hk, hd, Bool.not_false, if_true]
  · intro hd
    unfold shmem_procinfo__getprocessmask
    simp only [hh, Bool.not_true, Bool.false_eq_true, if_false, hk, hd, Bool.not_false, if_true]
  · intro pid1 sync g1
    unfold shmem_procinfo__getprocessmask
    split
    · rfl
    · split
      · rfl
      · split
        · rfl
        · split <;> rfl

/-- Witness of C11: on the node of 4 CPUs p1 is not dirty and is told its
current mask {0,1}; after p2 has taken CPU 1 from it, it is dirty and is told
its future mask {0}. -/
theorem getprocessmask_nonblocking_witness :
    shmem_procinfo__getprocessmask 111 false node4 = (some DLB_SUCCESS, some {0, 1}, node4)
    ∧ shmem_procinfo__getprocessmask 111 false
        (shmem_procinfo__setprocessmask 222 {1, 2, 3} false node4).2 =
        (some DLB_SUCCESS, some {0},
          (shmem_procinfo__setprocessmask 222 {1, 2, 3} false node4).2) :=
  ⟨(getprocessmask_nonblocking 111 node4 0 (by decide) (by decide)).1 (by decide),
    (getprocessmask_nonblocking 111 (shmem_procinfo__setprocessmask 222 {1, 2, 3} false node4).2 0
      (by decide) (by decide)).2.1 (by decide)⟩

/-- C12 as stated fails: in the registry `node4_beyond` (reached from the empty
registry, see `node4_beyond_reached`) p1 = 111 is registered and not dirty, the
mask {0} is within `[0, max_cpus)` and `setprocessmask(p1, {0})` returns
`DLB_SUCCESS`, yet the non-blocking `getprocessmask(p1)` that follows returns
{0,7}, and the `polldrom(p1)` that follows returns `new_mask` = {0,7} and
`new_cpus` = 2, not {0} and 1: the CPU number 7 of the old future mask, which
the loop of `set_new_mask` never looks at, is still there. -/
theorem round_trip_keeps_cpus_beyond_max_cpus :
    get_process 111 node4_beyond.shdata = some 0
    ∧ (node4_beyond.shdata.proc 0).dirty = false
    ∧ (∀ c ∈ ({0} : cpu_set_t), c < node4_beyond.max_cpus)
    ∧ (shmem_procinfo__setprocessmask 111 {0} false node4_beyond).1 = some DLB_SUCCESS
    ∧ (shmem_procinfo__getprocessmask 111 false
        (shmem_procinfo__setprocessmask 111 {0} false node4_beyond).2).1 = some DLB_SUCCESS
    ∧ (shmem_procinfo__getprocessmask 111 false
        (shmem_procinfo__setprocessmask 111 {0} false node4_beyond).2).2.1 = some {0, 7}
    ∧ (shmem_procinfo__polldrom 111
        (shmem_procinfo__setprocessmask 111 {0} false node4_beyond).2).2.1
          = some { new_cpus := 2, new_mask := {0, 7} } := by
  decide

/-- C12, amended: for every state and pid found in slot `k` whose future mask
is within `[0, max_cpus)`, and every mask within `[0, max_cpus)`, if
`setprocessmask(pid, mask)` without `DLB_SYNC_QUERY` returns `DLB_SUCCESS` then
a non-blocking `getprocessmask(pid)` right after it returns `DLB_SUCCESS` and
`mask`, a `polldrom(pid)` right after it returns `DLB_SUCCESS` with `new_mask`
= `mask` and `new_cpus` = |mask|, and after that `polldrom` the current mask of
the process is `mask` and `getprocessmask(pid)` still returns `mask`. -/
theorem set_get_poll_round_trip (pid : pid_t) (mask : cpu_set_t) (g : shmem_procinfo)
    (k : Nat) (hk : get_process pid g.shdata = some k)
    (hmask : ∀ c ∈ mask, c < g.max_cpus)
    (hfut : ∀ c ∈ (g.shdata.proc k).future_process_mask, c < g.max_cpus)
    (hret : (shmem_procinfo__setprocessmask pid mask false g).1 = some DLB_SUCCESS) :
    shmem_procinfo__getprocessmask pid false (shmem_procinfo__setprocessmask pid mask false g).2
        = (some DLB_SUCCESS, some mask, (shmem_procinfo__setprocessmask pid mask false g).2)
    ∧ (shmem_procinfo__polldrom pid (shmem_procinfo__setprocessmask pid mask false g).2).1
        = DLB_SUCCESS
    ∧ (shmem_procinfo__polldrom pid (shmem_procinfo__setprocessmask pid mask false g).2).2.1
        = some { new_cpus := mask.card, new_mask := mask }
    ∧ ((shmem_procinfo__polldrom pid
        (shmem_procinfo__setprocessmask pid mask false g).2).2.2.shdata.proc
          k).current_process_mask = mask
    ∧ ∀ sync_query : Bool,
        shmem_procinfo__getprocessmask pid sync_query
          (shmem_procinfo__polldrom pid (shmem_procinfo__setprocessmask pid mask false g).2).2.2
        = (some DLB_SUCCESS, some mask,
            (shmem_procinfo__polldrom pid
              (shmem_procinfo__setprocessmask pid mask false g).2).2.2) := by
  have hklt := (get_process_some hk).2
  obtain ⟨hcode, hst, _, hh⟩ := setprocessmask_success pid mask g k hk hret
  have D := set_new_mask_dirties g.max_cpus k mask false g.shdata
  have hfuture : ((set_new_mask g.max_cpus k mask false g.shdata).2.proc k).future_process_mask
      = mask := by
    ext c
    rw [(set_new_mask_success_future g.max_cpus k mask g.shdata hklt hcode c).1]
    by_cases hlt : c < g.max_cpus
    · simp [hlt]
    · simp only [hlt, if_false]
      constructor
      · intro h; exact absurd (hfut c h) hlt
      · intro h; exact absurd (hmask c h) hlt
  have hdirty := (set_new_mask_success_future g.max_cpus k mask g.shdata hklt hcode 0).2
  have hk1 : get_process pid (set_new_mask g.max_cpus k mask false g.shdata).2 = some k := by
    rw [get_process_congr pid g.shdata _ D.len D.pid_eq]; exact hk
  rw [hst]
  exact dirty_round_trip pid mask _ k hh hk1 hdirty hfuture

/-- Witness of C12 amended: on the node of 4 CPUs p2 releases CPU 3 and takes
CPU 1; it is told {1,2} before and after it polls. -/
theorem set_get_poll_round_trip_witness :
    shmem_procinfo__getprocessmask 222 false
        (shmem_procinfo__setprocessmask 222 {1, 2} false node4).2
      = (some DLB_SUCCESS, some {1, 2}, (shmem_procinfo__setprocessmask 222 {1, 2} false node4).2)
    ∧ (shmem_procinfo__polldrom 222 (shmem_procinfo__setprocessmask 222 {1, 2} false node4).2).2.1
      = some { new_cpus := 2, new_mask := {1, 2} } :=
  have h := set_get_poll_round_trip 222 {1, 2} node4 1 (by decide) (by decide) (by decide)
    (by decide)
  ⟨h.1, h.2.2.1⟩

/-- C13: on an attached registry where `pid` is found in slot `k`,
`setprocessmask(pid, mask)` returns `DLB_ERR_PDIRTY` if and only if the process
is dirty at the time of the call, and then it leaves the registry as it is.
After a `setprocessmask(pid, ·)` that returned `DLB_SUCCESS`, and after any
further calls of `setprocessmask` (for any pid) and of `polldrom` for other
pids, every `setprocessmask(pid, ·)` returns `DLB_ERR_PDIRTY` and changes
nothing; the `polldrom(pid)` that follows returns `DLB_SUCCESS`, and after it
`setprocessmask(pid, ·)` does not return `DLB_ERR_PDIRTY`. -/
theorem pdirty_handshake (pid : pid_t) (g : shmem_procinfo) (k : Nat)
    (hh : g.shm_handler = true) (hk : get_process pid g.shdata = some k) :
    (∀ (mask : cpu_set_t) (sync_query : Bool),
      ((shmem_procinfo__setprocessmask pid mask sync_query g).1 = some DLB_ERR_PDIRTY
        ↔ (g.shdata.proc k).dirty = true)
      ∧ ((g.shdata.proc k).dirty = true →
          shmem_procinfo__setprocessmask pid mask sync_query g = (some DLB_ERR_PDIRTY, g)))
    ∧ ∀ mask0 : cpu_set_t,
        (shmem_procinfo__setprocessmask pid mask0 false g).1 = some DLB_SUCCESS →
        ∀ calls : List drom_call, (∀ call ∈ calls, call ≠ .polldrom pid) →
          (∀ (mask : cpu_set_t) (sync_query : Bool),
            shmem_procinfo__setprocessmask pid mask sync_query
                (run_calls calls (shmem_procinfo__setprocessmask pid mask0 false g).2)
              = (some DLB_ERR_PDIRTY,
                  run_calls calls (shmem_procinfo__setprocessmask pid mask0 false g).2))
          ∧ (shmem_procinfo__polldrom pid
              (run_calls calls (shmem_procinfo__setprocessmask pid mask0 false g).2)).1
                = DLB_SUCCESS
          ∧ ∀ (mask : cpu_set_t) (sync_query : Bool),
              (shmem_procinfo__setprocessmask pid mask sync_query
                (shmem_procinfo__polldrom pid
                  (run_calls calls
                    (shmem_procinfo__setprocessmask pid mask0 false g).2)).2.2).1
                ≠ some DLB_ERR_PDIRTY := by
  have hklt := (get_process_some hk).2
  constructor
  · intro mask sync
    by_cases hd : (g.shdata.proc k).dirty = true
    · have e := setprocessmask_dirty pid mask sync g k hh hk hd
      exact ⟨⟨fun _ => hd, fun _ => by rw [e]⟩, fun _ => e⟩
    · have hd' : (g.shdata.proc k).dirty = false := by simpa using hd
      have hne := setprocessmask_clean_code pid mask sync g k hh hk hd'
      exact ⟨⟨fun h => absurd h hne, fun h => absurd h hd⟩, fun h => absurd h hd⟩
  · intro mask0 hret calls hcalls
    obtain ⟨hcode, hst, _, _⟩ := setprocessmask_success pid mask0 g k hk hret
    have D := set_new_mask_dirties g.max_cpus k mask0 false g.shdata
    have hdirty := (set_new_mask_success_future g.max_cpus k mask0 g.shdata hklt hcode 0).2
    have hk1 : get_process pid (set_new_mask g.max_cpus k mask0 false g.shdata).2 = some k := by
      rw [get_process_congr pid g.shdata _ D.len D.pid_eq]; exact hk
    obtain ⟨h1, h2, h3⟩ := run_calls_keeps_dirty pid k calls
      (shmem_procinfo__setprocessmask pid mask0 false g).2 hcalls
      (by rw [hst]; exact hh) (by rw [hst]; exact hk1) (by rw [hst]; exact hdirty)
    generalize run_calls calls (shmem_procinfo__setprocessmask pid mask0 false g).2 = g1
      at h1 h2 h3 ⊢
    have hpoll := polldrom_dirty_eq pid g1 k h1 h2 h3
    have hp := polldrom_entry_dirties_other k g1.shdata
    refine ⟨fun mask sync => setprocessmask_dirty pid mask sync g1 k h1 h2 h3, ?_, ?_⟩
    · rw [hpoll]
    · intro mask sync
      rw [hpoll]
      have hk2 : get_process pid (polldrom_entry k g1.shdata) = some k := by
        rw [get_process_congr pid _ _ hp.1 hp.2.1]; exact h2
      have hd2 : ((polldrom_entry k g1.shdata).proc k).dirty = false := by
        unfold polldrom_entry
        rw [proc_setProc_self _ _ (get_process_some h2).2]
      exact setprocessmask_clean_code pid mask sync
        ({ g1 with shdata := polldrom_entry k g1.shdata } : shmem_procinfo) k h1 hk2 hd2

/-- Witness of C13: on the node of 4 CPUs p2 = 222 takes CPU 1; while p1 is
asked to release CPU 0 (refused) and p1 polls, every further request for p2 is
answered `DLB_ERR_PDIRTY`; p2 polls, and its next request succeeds. -/
theorem pdirty_handshake_witness :
    shmem_procinfo__setprocessmask 222 {2} false
        (run_calls [.setprocessmask 111 {1} false, .polldrom 111]
          (shmem_procinfo__setprocessmask 222 {1, 2, 3} false node4).2)
      = (some DLB_ERR_PDIRTY,
          run_calls [.setprocessmask 111 {1} false, .polldrom 111]
            (shmem_procinfo__setprocessmask 222 {1, 2, 3} false node4).2)
    ∧ (shmem_procinfo__setprocessmask 222 {2} false
        (shmem_procinfo__polldrom 222
          (run_calls [.setprocessmask 111 {1} false, .polldrom 111]
            (shmem_procinfo__setprocessmask 222 {1, 2, 3} false node4).2)).2.2).1
      ≠ some DLB_ERR_PDIRTY :=
  have h := (pdirty_handshake 222 node4 1 (by decide) (by decide)).2 {1, 2, 3} (by decide)
    [.setprocessmask 111 {1} false, .polldrom 111] (by decide)
  ⟨h.1 {2} false, h.2.2 {2} false⟩

/-- C14: on an attached registry, each of `setprocessmask`, `getprocessmask`,
`polldrom`, `recover_stolen_cpus` and `postfinalize` called with a pid that no
entry holds returns `DLB_ERR_NOPROC`, writes nothing through its output
pointers and leaves the whole registry (the free mask and every entry) as it is. -/
theorem noproc_leaves_registry (pid : pid_t) (g : shmem_procinfo)
    (hh : g.shm_handler = true)
    (hno : ∀ i, i < g.shdata.max_processes → (g.shdata.proc i).pid ≠ pid) :
    (∀ (mask : cpu_set_t) (sync_query : Bool),
        shmem_procinfo__setprocessmask pid mask sync_query g = (some DLB_ERR_NOPROC, g))
    ∧ (∀ sync_query : Bool,
        shmem_procinfo__getprocessmask pid sync_query g = (some DLB_ERR_NOPROC, none, g))
    ∧ shmem_procinfo__polldrom pid g = (DLB_ERR_NOPROC, none, g)
    ∧ shmem_procinfo_ext__recover_stolen_cpus pid g = (DLB_ERR_NOPROC, g)
    ∧ (∀ return_stolen : Bool,
        shmem_procinfo_ext__postfinalize pid return_stolen g = (DLB_ERR_NOPROC, g)) := by
  have hk := get_process_eq_none hno
  refine ⟨?_, ?_, ?_, ?_, ?_⟩
  · intro mask sync
    unfold shmem_procinfo__setprocessmask
    simp only [hh, Bool.not_true, Bool.false_eq_true, if_false, hk]
  · intro sync
    unfold shmem_procinfo__getprocessmask
    simp only [hh, Bool.not_true, Bool.false_eq_true, if_false, hk]
  · unfold shmem_procinfo__polldrom
    simp only [hh, Bool.not_true, Bool.false_eq_true, if_false, hk]
  · unfold shmem_procinfo_ext__recover_stolen_cpus
    simp only [hh, Bool.not_true, Bool.false_eq_true, if_false, hk]
  · intro rs
    unfold shmem_procinfo_ext__postfinalize
    simp only [hh, Bool.not_true, Bool.false_eq_true, if_false, hk]

/-- Witness of C14: the pid 333 is not registered on the node of 4 CPUs. -/
theorem noproc_leaves_registry_witness :
    shmem_procinfo__setprocessmask 333 {0} false node4 = (some DLB_ERR_NOPROC, node4)
    ∧ shmem_procinfo__getprocessmask 333 false node4 = (some DLB_ERR_NOPROC, none, node4)
    ∧ shmem_procinfo__polldrom 333 node4 = (DLB_ERR_NOPROC, none, node4)
    ∧ shmem_procinfo_ext__recover_stolen_cpus 333 node4 = (DLB_ERR_NOPROC, node4)
    ∧ shmem_procinfo_ext__postfinalize 333 true node4 = (DLB_ERR_NOPROC, node4) :=
  have h := noproc_leaves_registry 333 node4 (by decide) (by decide)
  ⟨h.1 {0} false, h.2.1 false, h.2.2.1, h.2.2.2.1, h.2.2.2.2 true⟩

/-- C15: on an attached registry, for the registered process in entry `i`:
`setprocessmask` and `recover_stolen_cpus` (for any pid, whatever they return)
leave its current mask as it is and `getprocessmask` leaves the whole registry
as it is; more generally every call of `init`, `preinit`, `setprocessmask`,
`polldrom`, `recover_stolen_cpus`, `finalize` and `postfinalize` leaves its
current mask as it is, unless it is the `polldrom`, the `finalize` or the
`postfinalize` of that process itself; and the `finalize` and the
`postfinalize` of a process clear the current mask of its entry. -/
theorem only_polldrom_acknowledges (system_size : Nat) (g : shmem_procinfo) (i : Nat)
    (hh : g.shm_handler = true) (hi : (g.shdata.proc i).pid ≠ NOBODY) :
    (∀ (pid : pid_t) (mask : cpu_set_t) (sync_query : Bool),
      ((shmem_procinfo__setprocessmask pid mask sync_query g).2.shdata.proc
        i).current_process_mask = (g.shdata.proc i).current_process_mask)
    ∧ (∀ pid : pid_t,
      ((shmem_procinfo_ext__recover_stolen_cpus pid g).2.shdata.proc i).current_process_mask
        = (g.shdata.proc i).current_process_mask)
    ∧ (∀ (pid : pid_t) (sync_query : Bool),
      (shmem_procinfo__getprocessmask pid sync_query g).2.2 = g)
    ∧ (∀ call : registry_call,
      (call ≠ .polldrom (g.shdata.proc i).pid
        ∧ ∀ rs, call ≠ .finalize (g.shdata.proc i).pid rs
          ∧ call ≠ .postfinalize (g.shdata.proc i).pid rs) →
      ((call.run system_size g).shdata.proc i).current_process_mask
        = (g.shdata.proc i).current_process_mask)
    ∧ ∀ (k : Nat) (return_stolen : Bool), get_process (g.shdata.proc i).pid g.shdata = some k →
        ((shmem_procinfo__finalize (g.shdata.proc i).pid return_stolen g).2.shdata.proc
          k).current_process_mask = ∅
        ∧ ((shmem_procinfo_ext__postfinalize (g.shdata.proc i).pid return_stolen g).2.shdata.proc
          k).current_process_mask = ∅ := by
  refine ⟨?_, ?_, ?_, ?_, ?_⟩
  · intro pid mask sync
    exact registry_call_current system_size (.setprocessmask pid mask sync) g i hh hi
      ⟨by simp, fun rs => by simp⟩
  · intro pid
    exact registry_call_current system_size (.recover_stolen_cpus pid) g i hh hi
      ⟨by simp, fun rs => by simp⟩
  · intro pid sync
    unfold shmem_procinfo__getprocessmask
    split
    · rfl
    · split
      · rfl
      · split
        · rfl
        · split <;> rfl
  · intro call hcall
    exact registry_call_current system_size call g i hh hi hcall
  · intro k rs hk
    have hklt := (get_process_some hk).2
    constructor
    · rw [finalize_eq _ rs g k hh hk]
      simp only [close_shmem_shdata]
      rw [finalize_entry_proc_self _ _ _ _ hklt]
      rfl
    · rw [postfinalize_eq _ rs g k hh hk]
      simp only
      rw [finalize_entry_proc_self _ _ _ _ hklt]
      rfl

/-- Witness of C15: on the node of 4 CPUs, p2 = 222 taking CPU 1 from p1 = 111
does not change the current mask {0,1} of p1, and finalizing p1 clears it. -/
theorem only_polldrom_acknowledges_witness :
    ((shmem_procinfo__setprocessmask 222 {1, 2, 3} false node4).2.shdata.proc
        0).current_process_mask = {0, 1}
    ∧ ((shmem_procinfo__finalize 111 false node4).2.shdata.proc 0).current_process_mask = ∅ :=
  have h := only_polldrom_acknowledges 4 node4 0 (by decide) (by decide)
  ⟨h.1 222 {1, 2, 3} false, (h.2.2.2.2 0 false (by decide)).1⟩

/-- C16 fails on the code: from the empty registry of a node of 4 CPUs, p1 =
111 registers CPUs 0,1 and p2 = 222 CPUs 2,3; p2 takes CPU 1 from p1; both
poll; p1 takes CPU 1 back from p2 with `setprocessmask(p1, {0,1})`.  Then p1
is registered with CPU 1 both in its future mask {0,1} and in its stolen CPUs
{1}: `steal_cpu` gave the CPU to p1 without clearing it from the stolen CPUs of
p1.  The same happens when p2 first releases CPU 1 to the free mask and p1
then registers it with `setprocessmask(p1, {0,1})`.  The sibling path
`recover_stolen_cpus(p1)` does clear it: after it p1 has CPU 1 in its future
mask only. -/
theorem stolen_cpu_taken_back_stays_stolen :
    empty_registry 4 node4_empty
    ∧ get_process 111 (run_registry_calls 4
        [.init 111 {0, 1}, .init 222 {2, 3}, .setprocessmask 222 {1, 2, 3} false,
          .polldrom 111, .polldrom 222, .setprocessmask 111 {0, 1} false]
        node4_empty).shdata = some 0
    ∧ ((run_registry_calls 4
        [.init 111 {0, 1}, .init 222 {2, 3}, .setprocessmask 222 {1, 2, 3} false,
          .polldrom 111, .polldrom 222, .setprocessmask 111 {0, 1} false]
        node4_empty).shdata.proc 0).future_process_mask = {0, 1}
    ∧ ((run_registry_calls 4
        [.init 111 {0, 1}, .init 222 {2, 3}, .setprocessmask 222 {1, 2, 3} false,
          .polldrom 111, .polldrom 222, .setprocessmask 111 {0, 1} false]
        node4_empty).shdata.proc 0).stolen_cpus = {1}
    ∧ ¬ stolen_future_disjoint (run_registry_calls 4
        [.init 111 {0, 1}, .init 222 {2, 3}, .setprocessmask 222 {1, 2, 3} false,
          .polldrom 111, .polldrom 222, .setprocessmask 111 {0, 1} false]
        node4_empty).shdata
    ∧ ¬ stolen_future_disjoint (run_registry_calls 4
        [.init 111 {0, 1}, .init 222 {2, 3}, .setprocessmask 222 {1, 2, 3} false,
          .polldrom 111, .polldrom 222, .setprocessmask 222 {2, 3} false,
          .setprocessmask 111 {0, 1} false]
        node4_empty).shdata
    ∧ ((run_registry_calls 4
        [.init 111 {0, 1}, .init 222 {2, 3}, .setprocessmask 222 {1, 2, 3} false,
          .polldrom 111, .polldrom 222, .setprocessmask 222 {2, 3} false,
          .recover_stolen_cpus 111]
        node4_empty).shdata.proc 0).future_process_mask = {0, 1}
    ∧ ((run_registry_calls 4
        [.init 111 {0, 1}, .init 222 {2, 3}, .setprocessmask 222 {1, 2, 3} false,
          .polldrom 111, .polldrom 222, .setprocessmask 222 {2, 3} false,
          .recover_stolen_cpus 111]
        node4_empty).shdata.proc 0).stolen_cpus = ∅ := by
  decide

/-- C17 as stated fails, through masks that name a CPU the node does not have.
From the empty registry of a node of 4 CPUs, all pids being non-zero:
`preinit(1, {3,7}, steal)` leaves the entry not dirty with current mask {3,7}
and future mask {3}, and `postfinalize(1)` puts the current mask, CPU 7
included, into the free mask; `preinit(2, {7}, no steal)` registers CPU 7 for
pid 2; `preinit(3, {2,7}, steal)` and `postfinalize(3)` put CPU 7 into the free
mask again.  Now CPU 7 is in the future mask of pid 2 and in the free mask; and
after `init(4, {7})` it is in the future masks of pids 2 and 4. -/
theorem cpu_beyond_max_cpus_gets_two_owners :
    empty_registry 4 node4_empty
    ∧ (∀ call ∈ ([.preinit 1 {3, 7} 1, .postfinalize 1 false, .preinit 2 {7} 0,
          .preinit 3 {2, 7} 1, .postfinalize 3 false, .init 4 {7}] : List registry_call),
        call.pid ≠ NOBODY)
    ∧ ¬ futures_not_free (run_registry_calls 4
        [.preinit 1 {3, 7} 1, .postfinalize 1 false, .preinit 2 {7} 0,
          .preinit 3 {2, 7} 1, .postfinalize 3 false] node4_empty).shdata
    ∧ ¬ futures_disjoint (run_registry_calls 4
        [.preinit 1 {3, 7} 1, .postfinalize 1 false, .preinit 2 {7} 0,
          .preinit 3 {2, 7} 1, .postfinalize 3 false, .init 4 {7}] node4_empty).shdata := by
  decide

/-- C17, amended: in every state reached from the empty registry by a sequence
of `init`, `preinit`, `setprocessmask`, `polldrom`, `recover_stolen_cpus`,
`finalize` and `postfinalize` calls with non-zero pids, in which the mask of
every `preinit` that steals is within `[0, max_cpus)`, the future masks of the
registered processes are pairwise disjoint and each is disjoint from the free
mask. -/
theorem single_owner_reachable (system_size : Nat) (g0 : shmem_procinfo)
    (calls : List registry_call) (h0 : empty_registry system_size g0)
    (hpid : ∀ call ∈ calls, call.pid ≠ NOBODY)
    (hsteal : ∀ call ∈ calls, call.steals_in_range system_size) :
    futures_disjoint (run_registry_calls system_size calls g0).shdata
    ∧ futures_not_free (run_registry_calls system_size calls g0).shdata :=
  run_registry_calls_single_owner system_size calls g0 h0.1 hpid
    (fun call hc => steals_in_range_within system_size call (hsteal call hc)) h0.2.1
    ((dirty_invariant_iff_on _).mpr (empty_registry_dirty_invariant_on _ system_size g0 h0))
    (empty_registry_single_owner system_size g0 h0)

/-- Witness of C17 amended: p1 and p2 register, p3 is preregistered with CPUs
1,2 stolen from them, they poll, and p1 finalizes returning its CPU. -/
theorem single_owner_reachable_witness :
    futures_disjoint (run_registry_calls 4
        [.init 111 {0, 1}, .init 222 {2, 3}, .preinit 333 {1, 2} 1, .polldrom 111,
          .polldrom 222, .finalize 111 true] node4_empty).shdata
    ∧ futures_not_free (run_registry_calls 4
        [.init 111 {0, 1}, .init 222 {2, 3}, .preinit 333 {1, 2} 1, .polldrom 111,
          .polldrom 222, .finalize 111 true] node4_empty).shdata :=
  single_owner_reachable 4 node4_empty
    [.init 111 {0, 1}, .init 222 {2, 3}, .preinit 333 {1, 2} 1, .polldrom 111,
      .polldrom 222, .finalize 111 true] (by decide) (by decide) (by decide)

/-- C18 as stated fails, in two ways.  (1) A call for the pid 0, which marks a
free entry: from the empty registry of a node of 4 CPUs, after `init(111,
{0,1})` the call `setprocessmask(0, {2})` finds the first free entry and gives
it CPU 2, which is then neither free nor in the future mask of a registered
process.  (2) With non-zero pids: p1 = 111 registers CPUs 0,1 and p2 = 222
CPUs 2,3, p2 takes CPU 1 from p1, both poll, and p1 takes CPU 1 back; p1 then
has CPU 1 in its future mask and in its stolen CPUs, invariant 7 is broken,
and `finalize(111, return_stolen)` gives CPU 1 back to p1 itself and then
clears the entry of p1: CPU 1 is lost, the free mask is {0} and p2 holds
{2,3}. -/
theorem cpu_lost :
    empty_registry 4 node4_empty
    ∧ ¬ cpus_covered 4 (run_registry_calls 4
        [.init 111 {0, 1}, .setprocessmask 0 {2} false] node4_empty).shdata
    ∧ (∀ call ∈ ([.init 111 {0, 1}, .init 222 {2, 3}, .setprocessmask 222 {1, 2, 3} false,
          .polldrom 111, .polldrom 222, .setprocessmask 111 {0, 1} false,
          .finalize 111 true] : List registry_call), call.pid ≠ NOBODY)
    ∧ ¬ returns_stolen_guarded 4
        [.init 111 {0, 1}, .init 222 {2, 3}, .setprocessmask 222 {1, 2, 3} false,
          .polldrom 111, .polldrom 222, .setprocessmask 111 {0, 1} false,
          .finalize 111 true] node4_empty
    ∧ ¬ cpus_covered 4 (run_registry_calls 4
        [.init 111 {0, 1}, .init 222 {2, 3}, .setprocessmask 222 {1, 2, 3} false,
          .polldrom 111, .polldrom 222, .setprocessmask 111 {0, 1} false,
          .finalize 111 true] node4_empty).shdata
    ∧ (run_registry_calls 4
        [.init 111 {0, 1}, .init 222 {2, 3}, .setprocessmask 222 {1, 2, 3} false,
          .polldrom 111, .polldrom 222, .setprocessmask 111 {0, 1} false,
          .finalize 111 true] node4_empty).shdata.free_mask = {0}
    ∧ ((run_registry_calls 4
        [.init 111 {0, 1}, .init 222 {2, 3}, .setprocessmask 222 {1, 2, 3} false,
          .polldrom 111, .polldrom 222, .setprocessmask 111 {0, 1} false,
          .finalize 111 true] node4_empty).shdata.proc 1).future_process_mask = {2, 3} := by
  decide

/-- C18, amended: in every state reached from the empty registry by a sequence
of `init`, `preinit`, `setprocessmask`, `polldrom`, `recover_stolen_cpus`,
`finalize` and `postfinalize` calls with non-zero pids, in which every
`finalize` and `postfinalize` with `return_stolen` is made on a registry that
satisfies invariant 7, the free mask together with the future masks of the
registered processes covers every CPU in `[0, max_cpus)`. -/
theorem cpus_covered_reachable (system_size : Nat) (g0 : shmem_procinfo)
    (calls : List registry_call) (h0 : empty_registry system_size g0)
    (hpid : ∀ call ∈ calls, call.pid ≠ NOBODY)
    (hrs : returns_stolen_guarded system_size calls g0) :
    cpus_covered system_size (run_registry_calls system_size calls g0).shdata :=
  run_registry_calls_cpus_covered system_size calls g0 h0.1 hpid hrs
    (empty_registry_dirty_invariant_on _ system_size g0 h0)
    (empty_registry_cpus_covered system_size g0 h0)

/-- Witness of C18 amended: p2 takes CPU 1 from p1, both poll, and p2
finalizes returning CPU 1 to p1; no CPU is lost. -/
theorem cpus_covered_reachable_witness :
    returns_stolen_guarded 4
        [.init 111 {0, 1}, .init 222 {2, 3}, .setprocessmask 222 {1, 2, 3} false,
          .polldrom 111, .polldrom 222, .finalize 222 true] node4_empty
    ∧ cpus_covered 4 (run_registry_calls 4
        [.init 111 {0, 1}, .init 222 {2, 3}, .setprocessmask 222 {1, 2, 3} false,
          .polldrom 111, .polldrom 222, .finalize 222 true] node4_empty).shdata :=
  ⟨by decide,
    cpus_covered_reachable 4 node4_empty
      [.init 111 {0, 1}, .init 222 {2, 3}, .setprocessmask 222 {1, 2, 3} false,
        .polldrom 111, .polldrom 222, .finalize 222 true] (by decide) (by decide) (by decide)⟩

/-- C19 as stated fails: from the empty registry of a node of 4 CPUs,
`preinit(111, {3,7}, steal)` returns `DLB_SUCCESS` and leaves pid 111
registered and not dirty with current mask {3,7} and future mask {3}: the
current mask is a copy of the mask, while `set_new_mask` only looks at the CPUs
below `max_cpus`. -/
theorem preinit_steal_breaks_dirty_invariant :
    empty_registry 4 node4_empty
    ∧ (shmem_procinfo_ext__preinit 111 {3, 7} 1 node4_empty).1 = some DLB_SUCCESS
    ∧ get_process 111
        (run_registry_calls 4 [.preinit 111 {3, 7} 1] node4_empty).shdata = some 0
    ∧ ((run_registry_calls 4 [.preinit 111 {3, 7} 1] node4_empty).shdata.proc 0).dirty = false
    ∧ ((run_registry_calls 4 [.preinit 111 {3, 7} 1]
        node4_empty).shdata.proc 0).current_process_mask = {3, 7}
    ∧ ((run_registry_calls 4 [.preinit 111 {3, 7} 1]
        node4_empty).shdata.proc 0).future_process_mask = {3}
    ∧ ¬ dirty_invariant (run_registry_calls 4 [.preinit 111 {3, 7} 1] node4_empty).shdata := by
  decide

/-- C19, amended: in every state reached from the empty registry by a sequence
of `init`, `preinit`, `setprocessmask`, `polldrom`, `recover_stolen_cpus`,
`finalize` and `postfinalize` calls in which the mask of every `preinit` that
steals is within `[0, max_cpus)`, every registered process that is not dirty
has its current mask equal to its future mask. -/
theorem dirty_invariant_reachable (system_size : Nat) (g0 : shmem_procinfo)
    (calls : List registry_call) (h0 : empty_registry system_size g0)
    (hsteal : ∀ call ∈ calls, call.steals_in_range system_size) :
    dirty_invariant (run_registry_calls system_size calls g0).shdata :=
  (dirty_invariant_iff_on _).mpr
    (run_registry_calls_dirty_invariant_on system_size calls g0 h0.1
      (fun call hc => steals_in_range_within system_size call (hsteal call hc))
      (empty_registry_dirty_invariant_on _ system_size g0 h0)).1

/-- Witness of C19 amended: p3 is preregistered with CPUs 1,2 stolen from p1
and p2, which are dirty until they poll; p2 polls. -/
theorem dirty_invariant_reachable_witness :
    dirty_invariant (run_registry_calls 4
      [.init 111 {0, 1}, .init 222 {2, 3}, .preinit 333 {1, 2} 1, .polldrom 222]
      node4_empty).shdata :=
  dirty_invariant_reachable 4 node4_empty
    [.init 111 {0, 1}, .init 222 {2, 3}, .preinit 333 {1, 2} 1, .polldrom 222]
    (by decide) (by decide)

/-- C20: let `s` be the registry as `init` finds it (the region after the
attach, with the free mask set to the system mask if this call is its first
user; it is the registry of `g` itself when the region exists and is
initialized).  If no entry of `s` holds `pid`, `mask ⊆ free_mask` and `k` is
the lowest-indexed free entry (so the pid is not 0), then `init(pid, mask)`
returns `DLB_SUCCESS`, writes nothing to `new_process_mask`, and afterwards
entry `k` holds `pid` with current mask = future mask = `mask`, not dirty,
return code 0 (its other fields as before), the free mask is the old one
without `mask`, and every other entry is unchanged. -/
theorem init_registers (system_size : Nat) (pid : pid_t) (mask : cpu_set_t)
    (g : shmem_procinfo) (s : shdata_t) (k : Nat)
    (hs : (shmem_procinfo__init_attach system_size g).shdata = s)
    (hno : ∀ i, i < s.max_processes → (s.proc i).pid ≠ pid)
    (hsub : mask ⊆ s.free_mask)
    (hk : k < s.max_processes) (hfree : (s.proc k).pid = NOBODY)
    (hmin : ∀ j, j < k → (s.proc j).pid ≠ NOBODY) :
    ((g.shm_handler = true ∨ g.region_deleted = false) → g.shdata.initialized = true →
      s = g.shdata)
    ∧ (shmem_procinfo__init system_size pid mask g).1 = DLB_SUCCESS
    ∧ (shmem_procinfo__init system_size pid mask g).2.1 = none
    ∧ (shmem_procinfo__init system_size pid mask g).2.2.shdata.proc k =
        { s.proc k with
          pid := pid
          dirty := false
          returncode := 0
          current_process_mask := mask
          future_process_mask := mask }
    ∧ (shmem_procinfo__init system_size pid mask g).2.2.shdata.free_mask = s.free_mask \ mask
    ∧ (∀ i, i ≠ k →
        (shmem_procinfo__init system_size pid mask g).2.2.shdata.proc i = s.proc i)
    ∧ (shmem_procinfo__init system_size pid mask g).2.2.shdata.max_processes = s.max_processes
    ∧ (shmem_procinfo__init system_size pid mask g).2.2.shm_handler = true := by
  have hh := init_attach_handler system_size g
  have hk0 : get_process pid s = none := get_process_eq_none hno
  have hk1 : get_process NOBODY s = some k := get_process_eq_some hk hfree hmin
  refine ⟨fun hex hini => ?_, ?_⟩
  · rw [← hs]
    exact init_attach_shdata_of_initialized system_size g hex hini
  · rw [init_eq, hs]
    simp only [hk0, hk1, hsub, if_true]
    refine ⟨trivial, trivial, ?_, rfl, ?_, ?_, hh⟩
    · unfold init_entry
      exact proc_setProc_self _ _ hk
    · intro i hi
      unfold init_entry
      exact proc_setProc_of_ne _ _ (Ne.symm hi)
    · unfold init_entry
      exact max_processes_setProc _ _ _

/-- Witness of C20: p3 = 333 registers CPU 3 on a node of 4 CPUs where p1 =
111 holds CPUs 0,1 and CPUs 2,3 are free; it gets entry 1, the first free one. -/
theorem init_registers_witness :
    (shmem_procinfo__init 4 333 {3}
        (shmem_procinfo__init 4 111 {0, 1} node4_empty).2.2).1 = DLB_SUCCESS
    ∧ (shmem_procinfo__init 4 333 {3}
        (shmem_procinfo__init 4 111 {0, 1} node4_empty).2.2).2.2.shdata.proc 1
      = pinfo_t.clean 333 {3}
    ∧ (shmem_procinfo__init 4 333 {3}
        (shmem_procinfo__init 4 111 {0, 1} node4_empty).2.2).2.2.shdata.free_mask = {2} :=
  have h := init_registers 4 333 {3} (shmem_procinfo__init 4 111 {0, 1} node4_empty).2.2
    (shmem_procinfo__init 4 111 {0, 1} node4_empty).2.2.shdata 1
    (by decide) (by decide) (by decide) (by decide) (by decide) (by decide)
  ⟨h.2.1, h.2.2.2.1.trans (by decide), h.2.2.2.2.1.trans (by decide)⟩

/-- C21 as stated fails when no entry is free: from the empty registry of a
node of 4 CPUs, pids 1 to 4 register one CPU each, which fills the four entries
of the table and empties the free mask.  Then `init(5, {0})`, for a non-zero
pid that no entry holds and a mask that is not within the free mask, returns
`DLB_ERR_NOMEM`, not `DLB_ERR_PERM`: an entry is looked for first, and the mask
is only registered when one is found. -/
theorem full_table_init_returns_nomem :
    empty_registry 4 node4_empty
    ∧ (run_registry_calls 4 [.init 1 {0}, .init 2 {1}, .init 3 {2}, .init 4 {3}]
        node4_empty).shm_handler = true
    ∧ (∀ i, i < 4 → ((run_registry_calls 4 [.init 1 {0}, .init 2 {1}, .init 3 {2}, .init 4 {3}]
        node4_empty).shdata.proc i).pid ≠ 5)
    ∧ ¬ ({0} : cpu_set_t) ⊆ (run_registry_calls 4
        [.init 1 {0}, .init 2 {1}, .init 3 {2}, .init 4 {3}] node4_empty).shdata.free_mask
    ∧ (shmem_procinfo__init 4 5 {0} (run_registry_calls 4
        [.init 1 {0}, .init 2 {1}, .init 3 {2}, .init 4 {3}] node4_empty)).1 = DLB_ERR_NOMEM
    ∧ (shmem_procinfo__init 4 5 {0} (run_registry_calls 4
        [.init 1 {0}, .init 2 {1}, .init 3 {2}, .init 4 {3}] node4_empty)).1 ≠ DLB_ERR_PERM := by
  decide

/-- C21, amended: let `s` be the registry as `init` finds it (the region after
the attach; it is the registry of `g` itself when the region exists and is
initialized).  If some entry of `s` is free, no entry holds `pid` (so the pid
is not 0) and `mask` is not a subset of the free mask, then `init(pid, mask)`
returns `DLB_ERR_PERM`, writes nothing to `new_process_mask`, and leaves the
free mask and every entry as they were: no entry holds `pid` afterwards.  (The
failed call gives up the attachment it made; if it was the only one the region
is detached, and destroyed when no entry is in use.) -/
theorem init_conflict (system_size : Nat) (pid : pid_t) (mask : cpu_set_t)
    (g : shmem_procinfo) (s : shdata_t) (k : Nat)
    (hs : (shmem_procinfo__init_attach system_size g).shdata = s)
    (hno : ∀ i, i < s.max_processes → (s.proc i).pid ≠ pid)
    (hk : k < s.max_processes) (hfree : (s.proc k).pid = NOBODY)
    (hnsub : ¬ mask ⊆ s.free_mask) :
    ((g.shm_handler = true ∨ g.region_deleted = false) → g.shdata.initialized = true →
      s = g.shdata)
    ∧ (shmem_procinfo__init system_size pid mask g).1 = DLB_ERR_PERM
    ∧ (shmem_procinfo__init system_size pid mask g).2.1 = none
    ∧ (shmem_procinfo__init system_size pid mask g).2.2.shdata = s
    ∧ (∀ i, i < s.max_processes →
        ((shmem_procinfo__init system_size pid mask g).2.2.shdata.proc i).pid ≠ pid)
    ∧ pid ≠ NOBODY := by
  have hk0 : get_process pid s = none := get_process_eq_none hno
  refine ⟨fun hex hini => ?_, ?_⟩
  · rw [← hs]
    exact init_attach_shdata_of_initialized system_size g hex hini
  · rw [init_eq, hs]
    cases hf : get_process NOBODY s with
    | none => exact absurd hfree (get_process_none hf k hk)
    | some p =>
      simp only [hk0, hnsub, if_false, close_shmem_shdata, hs]
      exact ⟨trivial, trivial, trivial, hno, fun h => hno k hk (hfree.trans h.symm)⟩

/-- Witness of C21 amended: on a node of 4 CPUs where p1 = 111 holds CPUs 0,1,
`init(333, {1,2})` fails with `DLB_ERR_PERM` and changes nothing. -/
theorem init_conflict_witness :
    (shmem_procinfo__init 4 333 {1, 2}
        (shmem_procinfo__init 4 111 {0, 1} node4_empty).2.2).1 = DLB_ERR_PERM
    ∧ (shmem_procinfo__init 4 333 {1, 2}
        (shmem_procinfo__init 4 111 {0, 1} node4_empty).2.2).2.2.shdata
      = (shmem_procinfo__init 4 111 {0, 1} node4_empty).2.2.shdata :=
  have h := init_conflict 4 333 {1, 2} (shmem_procinfo__init 4 111 {0, 1} node4_empty).2.2
    (shmem_procinfo__init 4 111 {0, 1} node4_empty).2.2.shdata 1
    (by decide) (by decide) (by decide) (by decide) (by decide)
  ⟨h.2.1, h.2.2.2.1⟩

/-- C22 as stated fails on its own example: from the empty registry of a node
of 4 CPUs, after `preinit(333, {0,1}, no steal)` the entry of pid 333 is not
dirty, and `init(333, {2})` returns `DLB_SUCCESS` without writing anything to
`new_process_mask`: the future mask {0,1} is only written when the entry is
dirty. -/
theorem preregistered_init_writes_nothing :
    empty_registry 4 node4_empty
    ∧ (shmem_procinfo_ext__preinit 333 {0, 1} 0 node4_empty).1 = some DLB_SUCCESS
    ∧ get_process 333 (shmem_procinfo_ext__preinit 333 {0, 1} 0 node4_empty).2.shdata = some 0
    ∧ ((shmem_procinfo_ext__preinit 333 {0, 1} 0 node4_empty).2.shdata.proc
        0).future_process_mask = {0, 1}
    ∧ ((shmem_procinfo_ext__preinit 333 {0, 1} 0 node4_empty).2.shdata.proc 0).dirty = false
    ∧ (shmem_procinfo__init 4 333 {2}
        (shmem_procinfo_ext__preinit 333 {0, 1} 0 node4_empty).2).1 = DLB_SUCCESS
    ∧ (shmem_procinfo__init 4 333 {2}
        (shmem_procinfo_ext__preinit 333 {0, 1} 0 node4_empty).2).2.1 = none := by
  decide

/-- C22, amended: let `s` be the registry as `init` finds it (the region after
the attach; it is the registry of `g` itself when the region exists and is
initialized).  If `pid` is found in entry `k` of `s`, then `init(pid, mask)`
returns `DLB_SUCCESS`, writes the future mask of the entry to
`new_process_mask` if the entry is dirty and writes nothing if it is not, and
leaves the free mask and every entry as they were. -/
theorem init_preregistered (system_size : Nat) (pid : pid_t) (mask : cpu_set_t)
    (g : shmem_procinfo) (s : shdata_t) (k : Nat)
    (hs : (shmem_procinfo__init_attach system_size g).shdata = s)
    (hk : get_process pid s = some k) :
    ((g.shm_handler = true ∨ g.region_deleted = false) → g.shdata.initialized = true →
      s = g.shdata)
    ∧ (shmem_procinfo__init system_size pid mask g).1 = DLB_SUCCESS
    ∧ (shmem_procinfo__init system_size pid mask g).2.1 =
        (if (s.proc k).dirty then some (s.proc k).future_process_mask else none)
    ∧ (shmem_procinfo__init system_size pid mask g).2.2.shdata = s
    ∧ (shmem_procinfo__init system_size pid mask g).2.2.shm_handler = true := by
  refine ⟨fun hex hini => ?_, ?_⟩
  · rw [← hs]
    exact init_attach_shdata_of_initialized system_size g hex hini
  · rw [init_eq, hs]
    simp only [hk]
    exact ⟨trivial, trivial, hs, init_attach_handler system_size g⟩

/-- Witness of C22 amended: pid 333 is preregistered with CPUs 0,1 and an
administrator then leaves it CPU 0 only, so that its entry is dirty;
`init(333, {2})` succeeds, writes {0} to `new_process_mask` and changes
nothing. -/
theorem init_preregistered_witness :
    (shmem_procinfo__init 4 333 {2} (run_registry_calls 4
        [.preinit 333 {0, 1} 0, .setprocessmask 333 {0} false] node4_empty)).1 = DLB_SUCCESS
    ∧ (shmem_procinfo__init 4 333 {2} (run_registry_calls 4
        [.preinit 333 {0, 1} 0, .setprocessmask 333 {0} false] node4_empty)).2.1 = some {0}
    ∧ (shmem_procinfo__init 4 333 {2} (run_registry_calls 4
        [.preinit 333 {0, 1} 0, .setprocessmask 333 {0} false] node4_empty)).2.2.shdata
      = (run_registry_calls 4
        [.preinit 333 {0, 1} 0, .setprocessmask 333 {0} false] node4_empty).shdata :=
  have h := init_preregistered 4 333 {2} (run_registry_calls 4
      [.preinit 333 {0, 1} 0, .setprocessmask 333 {0} false] node4_empty)
    (run_registry_calls 4
      [.preinit 333 {0, 1} 0, .setprocessmask 333 {0} false] node4_empty).shdata 0
    (by decide) (by decide)
  ⟨h.2.1, h.2.2.1.trans (by decide), h.2.2.2.1⟩

/-- C23: let `s` be the registry as `init` finds it (the region after the
attach; it is the registry of `g` itself when the region exists and is
initialized).  Then `init(pid, mask)` returns `DLB_ERR_NOMEM` if and only if no
entry of `s` holds `pid` and no entry of `s` is free, and in that case it
writes nothing to `new_process_mask` and leaves the free mask and every entry
as they were. -/
theorem init_nomem_iff (system_size : Nat) (pid : pid_t) (mask : cpu_set_t)
    (g : shmem_procinfo) (s : shdata_t)
    (hs : (shmem_procinfo__init_attach system_size g).shdata = s) :
    ((g.shm_handler = true ∨ g.region_deleted = false) → g.shdata.initialized = true →
      s = g.shdata)
    ∧ ((shmem_procinfo__init system_size pid mask g).1 = DLB_ERR_NOMEM ↔
        (∀ i, i < s.max_processes → (s.proc i).pid ≠ pid)
        ∧ (∀ i, i < s.max_processes → (s.proc i).pid ≠ NOBODY))
    ∧ ((shmem_procinfo__init system_size pid mask g).1 = DLB_ERR_NOMEM →
        (shmem_procinfo__init system_size pid mask g).2.1 = none
        ∧ (shmem_procinfo__init system_size pid mask g).2.2.shdata = s) := by
  have hne1 : DLB_SUCCESS ≠ DLB_ERR_NOMEM := by decide
  have hne2 : DLB_ERR_PERM ≠ DLB_ERR_NOMEM := by decide
  refine ⟨fun hex hini => ?_, ?_⟩
  · rw [← hs]
    exact init_attach_shdata_of_initialized system_size g hex hini
  · rw [init_eq, hs]
    cases hk : get_process pid s with
    | some p =>
      have hp := get_process_some hk
      refine ⟨⟨fun h => absurd h hne1, fun h => absurd hp.1 (h.1 p hp.2)⟩, fun h => absurd h hne1⟩
    | none =>
      cases hf : get_process NOBODY s with
      | none =>
        exact ⟨⟨fun _ => ⟨get_process_none hk, get_process_none hf⟩, fun _ => rfl⟩,
          fun _ => ⟨rfl, by simp [hs]⟩⟩
      | some p =>
        have hp := get_process_some hf
        by_cases hsub : mask ⊆ s.free_mask
        · simp only [hsub, if_true]
          exact ⟨⟨fun h => absurd h hne1, fun h => absurd hp.1 (h.2 p hp.2)⟩,
            fun h => absurd h hne1⟩
        · simp only [hsub, if_false]
          exact ⟨⟨fun h => absurd h hne2, fun h => absurd hp.1 (h.2 p hp.2)⟩,
            fun h => absurd h hne2⟩

/-- Witness of C23: on a node of 4 CPUs whose four entries are held by pids 1
to 4, `init(5, {0})` returns `DLB_ERR_NOMEM` and changes nothing. -/
theorem init_nomem_iff_witness :
    (shmem_procinfo__init 4 5 {0} (run_registry_calls 4
        [.init 1 {0}, .init 2 {1}, .init 3 {2}, .init 4 {3}] node4_empty)).1 = DLB_ERR_NOMEM
    ∧ (shmem_procinfo__init 4 5 {0} (run_registry_calls 4
        [.init 1 {0}, .init 2 {1}, .init 3 {2}, .init 4 {3}] node4_empty)).2.2.shdata
      = (run_registry_calls 4
        [.init 1 {0}, .init 2 {1}, .init 3 {2}, .init 4 {3}] node4_empty).shdata :=
  have h := init_nomem_iff 4 5 {0} (run_registry_calls 4
      [.init 1 {0}, .init 2 {1}, .init 3 {2}, .init 4 {3}] node4_empty)
    (run_registry_calls 4
      [.init 1 {0}, .init 2 {1}, .init 3 {2}, .init 4 {3}] node4_empty).shdata (by decide)
  ⟨h.2.1.mpr (by decide), (h.2.2 (h.2.1.mpr (by decide))).2⟩

/-- C24: on an attached registry where `pid` is found in entry `k`, with `M`
the future mask of the entry if it is dirty and its current mask otherwise,
`finalize(pid, false)` and `postfinalize(pid, false)` both return
`DLB_SUCCESS` and leave the same registry, in which the free mask is the old
one together with `M`, entry `k` is cleared (pid `NOBODY`, not dirty, return
code 0, current, future and stolen masks empty, no active CPUs) and every other
entry is unchanged.  (`finalize` also gives up an attachment: the registry
described is the one it leaves in the region.) -/
theorem finalize_releases_to_free_mask (pid : pid_t) (g : shmem_procinfo) (k : Nat)
    (M : cpu_set_t) (hh : g.shm_handler = true) (hk : get_process pid g.shdata = some k)
    (hM : M = if (g.shdata.proc k).dirty then (g.shdata.proc k).future_process_mask
      else (g.shdata.proc k).current_process_mask) :
    (shmem_procinfo__finalize pid false g).1 = DLB_SUCCESS
    ∧ (shmem_procinfo_ext__postfinalize pid false g).1 = DLB_SUCCESS
    ∧ (shmem_procinfo__finalize pid false g).2.shdata
        = (shmem_procinfo_ext__postfinalize pid false g).2.shdata
    ∧ (shmem_procinfo__finalize pid false g).2.shdata.free_mask = g.shdata.free_mask ∪ M
    ∧ (shmem_procinfo__finalize pid false g).2.shdata.proc k =
        { pid := NOBODY, dirty := false, returncode := 0, current_process_mask := ∅,
          future_process_mask := ∅, stolen_cpus := ∅, active_cpus := 0 }
    ∧ (∀ i, i ≠ k → (shmem_procinfo__finalize pid false g).2.shdata.proc i = g.shdata.proc i)
    ∧ (shmem_procinfo__finalize pid false g).2.shdata.max_processes
        = g.shdata.max_processes := by
  have hklt := (get_process_some hk).2
  rw [finalize_eq pid false g k hh hk, postfinalize_eq pid false g k hh hk]
  simp only [close_shmem_shdata]
  rw [finalize_entry_eq g.max_cpus k false g.shdata M hM]
  refine ⟨trivial, trivial, trivial, ?_, ?_, ?_, ?_⟩
  · rw [free_mask_setProc, unregister_mask_false_free_mask]
  · rw [proc_setProc_self _ _ (by rw [unregister_mask_max_processes]; exact hklt)]
    rfl
  · intro i hik
    rw [proc_setProc_of_ne _ _ (Ne.symm hik), unregister_mask_false_proc_of_ne _ _ _ _ _ hik]
  · rw [max_processes_setProc, unregister_mask_max_processes]

/-- Witness of C24: on the node of 4 CPUs where p2 = 222 has taken CPU 1 from
p1 = 111, finalizing p2 without `return_stolen` puts CPUs 1,2,3 in the free
mask, clears its entry and leaves p1 on CPU 0, still remembering CPU 1. -/
theorem finalize_releases_to_free_mask_witness :
    (shmem_procinfo__finalize 222 false node4_stolen).1 = DLB_SUCCESS
    ∧ (shmem_procinfo__finalize 222 false node4_stolen).2.shdata.free_mask = {1, 2, 3}
    ∧ (shmem_procinfo__finalize 222 false node4_stolen).2.shdata.proc 1 = pinfo_t.zero
    ∧ (shmem_procinfo__finalize 222 false node4_stolen).2.shdata.proc 0
        = { pinfo_t.clean 111 {0} with stolen_cpus := {1} } :=
  have h := finalize_releases_to_free_mask 222 node4_stolen 1 {1, 2, 3} (by decide)
    (by decide) (by decide)
  ⟨h.1, h.2.2.2.1.trans (by decide), h.2.2.2.2.1, (h.2.2.2.2.2.1 0 (by decide)).trans (by decide)⟩

/-- C25 as stated fails, in two ways.  (1) With a CPU number the node does not
have: from the empty registry of a node of 4 CPUs, `preinit(111, {3,7}, steal)`
leaves pid 111 not dirty with current mask {3,7}; `finalize(111, true)` and
`postfinalize(111, true)` unregister that mask, no process has CPU 7 in its
stolen CPUs, and CPU 7 is not put in the free mask: the loop only looks at the
CPUs below `max_cpus`.  (2) With the CPUs of the node: p1 = 111 registers CPUs
0,1 and p2 = 222 CPUs 2,3, p2 takes CPU 1 from p1, both poll, p2 releases CPU 1
and p1 registers it again with `setprocessmask(111, {0,1})`; p1 is then dirty
with CPU 1 in its future mask {0,1} and in its own stolen CPUs.
`finalize(111, true)` gives CPU 1 back to p1 itself and then clears the entry
of p1: afterwards CPU 1 is not in the free mask and in the future mask of no
registered process. -/
theorem finalize_return_stolen_loses_cpu :
    empty_registry 4 node4_empty
    ∧ (get_process 111 (run_registry_calls 4 [.preinit 111 {3, 7} 1] node4_empty).shdata
          = some 0
      ∧ ((run_registry_calls 4 [.preinit 111 {3, 7} 1] node4_empty).shdata.proc 0).dirty = false
      ∧ 7 ∈ ((run_registry_calls 4 [.preinit 111 {3, 7} 1]
          node4_empty).shdata.proc 0).current_process_mask
      ∧ ¬ 7 < (run_registry_calls 4 [.preinit 111 {3, 7} 1] node4_empty).max_cpus
      ∧ (∀ i, i < 4 → 7 ∉ ((run_registry_calls 4 [.preinit 111 {3, 7} 1]
          node4_empty).shdata.proc i).stolen_cpus)
      ∧ 7 ∉ (shmem_procinfo__finalize 111 true
          (run_registry_calls 4 [.preinit 111 {3, 7} 1] node4_empty)).2.shdata.free_mask
      ∧ 7 ∉ (shmem_procinfo_ext__postfinalize 111 true
          (run_registry_calls 4 [.preinit 111 {3, 7} 1] node4_empty)).2.shdata.free_mask)
    ∧ (get_process 111 (run_registry_calls 4
          [.init 111 {0, 1}, .init 222 {2, 3}, .setprocessmask 222 {1, 2, 3} false,
            .polldrom 111, .polldrom 222, .setprocessmask 222 {2, 3} false,
            .setprocessmask 111 {0, 1} false] node4_empty).shdata = some 0
      ∧ ((run_registry_calls 4
          [.init 111 {0, 1}, .init 222 {2, 3}, .setprocessmask 222 {1, 2, 3} false,
            .polldrom 111, .polldrom 222, .setprocessmask 222 {2, 3} false,
            .setprocessmask 111 {0, 1} false] node4_empty).shdata.proc 0).dirty = true
      ∧ ((run_registry_calls 4
          [.init 111 {0, 1}, .init 222 {2, 3}, .setprocessmask 222 {1, 2, 3} false,
            .polldrom 111, .polldrom 222, .setprocessmask 222 {2, 3} false,
            .setprocessmask 111 {0, 1} false] node4_empty).shdata.proc 0).future_process_mask
          = {0, 1}
      ∧ ((run_registry_calls 4
          [.init 111 {0, 1}, .init 222 {2, 3}, .setprocessmask 222 {1, 2, 3} false,
            .polldrom 111, .polldrom 222, .setprocessmask 222 {2, 3} false,
            .setprocessmask 111 {0, 1} false] node4_empty).shdata.proc 0).stolen_cpus = {1}
      ∧ 1 ∉ (shmem_procinfo__finalize 111 true (run_registry_calls 4
          [.init 111 {0, 1}, .init 222 {2, 3}, .setprocessmask 222 {1, 2, 3} false,
            .polldrom 111, .polldrom 222, .setprocessmask 222 {2, 3} false,
            .setprocessmask 111 {0, 1} false] node4_empty)).2.shdata.free_mask
      ∧ (∀ i, i < 4 → 1 ∉ ((shmem_procinfo__finalize 111 true (run_registry_calls 4
          [.init 111 {0, 1}, .init 222 {2, 3}, .setprocessmask 222 {1, 2, 3} false,
            .polldrom 111, .polldrom 222, .setprocessmask 222 {2, 3} false,
            .setprocessmask 111 {0, 1} false]
          node4_empty)).2.shdata.proc i).future_process_mask)) := by
  decide

/-- C25, amended: on an attached registry where `pid` is found in entry `k`,
with `M` the future mask of the entry if it is dirty and its current mask
otherwise: if every CPU of `M` is below `max_cpus` and none is in the stolen
CPUs of the entry itself, then `finalize(pid, true)` and `postfinalize(pid,
true)` return `DLB_SUCCESS` and leave the same registry, in which every CPU `c`
of `M` is either in the future mask of another entry `p` that is still
registered, with the pid it had, and had `c` in its stolen CPUs before the call,
that entry now being dirty and without `c` in its stolen CPUs, or, no
registered process having had `c` in its stolen CPUs, in the free mask. -/
theorem finalize_returns_stolen (pid : pid_t) (g : shmem_procinfo) (k : Nat)
    (M : cpu_set_t) (hh : g.shm_handler = true) (hk : get_process pid g.shdata = some k)
    (hM : M = if (g.shdata.proc k).dirty then (g.shdata.proc k).future_process_mask
      else (g.shdata.proc k).current_process_mask)
    (hrange : ∀ c ∈ M, c < g.max_cpus)
    (hown : Disjoint M (g.shdata.proc k).stolen_cpus) :
    (shmem_procinfo__finalize pid true g).1 = DLB_SUCCESS
    ∧ (shmem_procinfo_ext__postfinalize pid true g).1 = DLB_SUCCESS
    ∧ (shmem_procinfo__finalize pid true g).2.shdata
        = (shmem_procinfo_ext__postfinalize pid true g).2.shdata
    ∧ ∀ c ∈ M,
        (∃ p, p ≠ k ∧ p < g.shdata.max_processes ∧ (g.shdata.proc p).pid ≠ NOBODY
          ∧ c ∈ (g.shdata.proc p).stolen_cpus
          ∧ ((shmem_procinfo__finalize pid true g).2.shdata.proc p).pid = (g.shdata.proc p).pid
          ∧ c ∈ ((shmem_procinfo__finalize pid true g).2.shdata.proc p).future_process_mask
          ∧ c ∉ ((shmem_procinfo__finalize pid true g).2.shdata.proc p).stolen_cpus
          ∧ ((shmem_procinfo__finalize pid true g).2.shdata.proc p).dirty = true)
        ∨ ((∀ i, i < g.shdata.max_processes → (g.shdata.proc i).pid ≠ NOBODY →
              c ∉ (g.shdata.proc i).stolen_cpus)
          ∧ c ∈ (shmem_procinfo__finalize pid true g).2.shdata.free_mask) := by
  rw [finalize_eq pid true g k hh hk, postfinalize_eq pid true g k hh hk]
  simp only [close_shmem_shdata]
  rw [finalize_entry_eq g.max_cpus k true g.shdata M hM]
  refine ⟨trivial, trivial, trivial, ?_⟩
  intro c hc
  have hfr := unregister_mask_true_returned g.max_cpus k M g.shdata
  have hD : c < g.max_cpus ∧ c ∈ M := ⟨hrange c hc, hc⟩
  cases hcl : claimant g.shdata c with
  | none =>
    right
    refine ⟨?_, ?_⟩
    · intro i hi hreg hst
      unfold claimant at hcl
      have := List.find?_eq_none.mp hcl i (by simpa using hi)
      simp [claims, hreg, hst] at this
    · rw [free_mask_setProc]
      exact (hfr.free c).mpr (Or.inr ⟨hD, hcl⟩)
  | some p =>
    left
    obtain ⟨hplt, hpreg, hpst⟩ := claimant_some hcl
    have hpk : p ≠ k := by
      intro e
      rw [e] at hpst
      exact Finset.disjoint_left.mp hown hc hpst
    refine ⟨p, hpk, hplt, hpreg, hpst, ?_, ?_, ?_, ?_⟩
    · rw [proc_setProc_of_ne _ _ (Ne.symm hpk)]
      exact (unregister_mask_dirties g.max_cpus k M true g.shdata).pid_eq p
    · rw [proc_setProc_of_ne _ _ (Ne.symm hpk)]
      exact (hfr.future p hpk c).mpr (Or.inr ⟨hD, hcl⟩)
    · rw [proc_setProc_of_ne _ _ (Ne.symm hpk)]
      exact fun h => ((hfr.stolen p hpk c).mp h).2 ⟨hD, hcl⟩
    · rw [proc_setProc_of_ne _ _ (Ne.symm hpk)]
      exact (hfr.dirty p hpk).mpr (Or.inr ⟨c, hD, hcl⟩)

/-- Witness of C25 amended: on the node of 4 CPUs where p2 = 222 has taken CPU
1 from p1 = 111, finalizing p2 with `return_stolen` gives CPU 1 back to p1,
which is left dirty with future mask {0,1} and no stolen CPU, and puts CPUs 2,3
in the free mask. -/
theorem finalize_returns_stolen_witness :
    (shmem_procinfo__finalize 222 true node4_stolen).1 = DLB_SUCCESS
    ∧ (shmem_procinfo__finalize 222 true node4_stolen).2.shdata.free_mask = {2, 3}
    ∧ ((shmem_procinfo__finalize 222 true node4_stolen).2.shdata.proc 0).future_process_mask
        = {0, 1}
    ∧ ((shmem_procinfo__finalize 222 true node4_stolen).2.shdata.proc 0).stolen_cpus = ∅
    ∧ ((shmem_procinfo__finalize 222 true node4_stolen).2.shdata.proc 0).dirty = true
    ∧ ∀ c ∈ ({1, 2, 3} : cpu_set_t),
        (∃ p, p ≠ 1 ∧ p < node4_stolen.shdata.max_processes
          ∧ (node4_stolen.shdata.proc p).pid ≠ NOBODY
          ∧ c ∈ (node4_stolen.shdata.proc p).stolen_cpus
          ∧ ((shmem_procinfo__finalize 222 true node4_stolen).2.shdata.proc p).pid
              = (node4_stolen.shdata.proc p).pid
          ∧ c ∈ ((shmem_procinfo__finalize 222 true
              node4_stolen).2.shdata.proc p).future_process_mask
          ∧ c ∉ ((shmem_procinfo__finalize 222 true node4_stolen).2.shdata.proc p).stolen_cpus
          ∧ ((shmem_procinfo__finalize 222 true node4_stolen).2.shdata.proc p).dirty = true)
        ∨ ((∀ i, i < node4_stolen.shdata.max_processes →
              (node4_stolen.shdata.proc i).pid ≠ NOBODY →
              c ∉ (node4_stolen.shdata.proc i).stolen_cpus)
          ∧ c ∈ (shmem_procinfo__finalize 222 true node4_stolen).2.shdata.free_mask) :=
  have h := finalize_returns_stolen 222 node4_stolen 1 {1, 2, 3} (by decide) (by decide)
    (by decide) (by decide) (by decide)
  ⟨h.1, by decide, by decide, by decide, by decide, h.2.2.2⟩

/-- C26: on a registry in which the future masks of the registered processes
are pairwise disjoint and disjoint from the free mask, every registered process
that is not dirty has its current mask equal to its future mask, and no entry
remembers a stolen CPU: if `preinit(q, mask, steal)` with `steal` set returns
`DLB_SUCCESS` for a pid `q` that no entry holds, then `postfinalize(q, true)`
called next returns `DLB_SUCCESS` and afterwards the free mask is the one
before the `preinit`, every process registered before the `preinit` has the pid,
future mask and current mask it had then, no entry remembers a stolen CPU, the
processes that had a CPU of `mask` below `max_cpus` are dirty, and the entries
hold the pids they held before the `preinit`. -/
theorem steal_then_return_round_trip (q : pid_t) (mask : cpu_set_t) (steal : Int)
    (g : shmem_procinfo) (hsteal : steal ≠ 0)
    (hdis : futures_disjoint g.shdata) (hnf : futures_not_free g.shdata)
    (hinv : dirty_invariant g.shdata)
    (hstolen : ∀ i, i < g.shdata.max_processes → (g.shdata.proc i).stolen_cpus = ∅)
    (hnew : ∀ i, i < g.shdata.max_processes → (g.shdata.proc i).pid ≠ q)
    (hret : (shmem_procinfo_ext__preinit q mask steal g).1 = some DLB_SUCCESS) :
    (shmem_procinfo_ext__postfinalize q true
        (shmem_procinfo_ext__preinit q mask steal g).2).1 = DLB_SUCCESS
    ∧ (shmem_procinfo_ext__postfinalize q true
        (shmem_procinfo_ext__preinit q mask steal g).2).2.shdata.free_mask = g.shdata.free_mask
    ∧ (∀ i, (g.shdata.proc i).pid ≠ NOBODY →
        ((shmem_procinfo_ext__postfinalize q true
            (shmem_procinfo_ext__preinit q mask steal g).2).2.shdata.proc i).future_process_mask
          = (g.shdata.proc i).future_process_mask
        ∧ ((shmem_procinfo_ext__postfinalize q true
            (shmem_procinfo_ext__preinit q mask steal g).2).2.shdata.proc i).current_process_mask
          = (g.shdata.proc i).current_process_mask)
    ∧ (∀ i, ((shmem_procinfo_ext__postfinalize q true
        (shmem_procinfo_ext__preinit q mask steal g).2).2.shdata.proc i).stolen_cpus = ∅)
    ∧ (∀ i, (g.shdata.proc i).pid ≠ NOBODY →
        (∃ c, c ∈ (g.shdata.proc i).future_process_mask ∧ c < g.max_cpus ∧ c ∈ mask) →
        ((shmem_procinfo_ext__postfinalize q true
          (shmem_procinfo_ext__preinit q mask steal g).2).2.shdata.proc i).dirty = true)
    ∧ (∀ i, ((shmem_procinfo_ext__postfinalize q true
        (shmem_procinfo_ext__preinit q mask steal g).2).2.shdata.proc i).pid
        = (g.shdata.proc i).pid) := by
  obtain ⟨p, hp, hfree, _, _, hh, hentry, hg1⟩ := preinit_success q mask steal g hret
  have hsr := preinit_entry_steal_registered g.max_cpus q mask steal p g.shdata hsteal hp hinv
    hdis hnf hentry
  have hk : get_process q (preinit_entry g.max_cpus q mask steal p g.shdata).2 = some p :=
    get_process_eq_some (by rw [hsr.len]; exact hp) hsr.new_pid
      (fun j hj => by rw [hsr.pid_eq j (ne_of_lt hj)]; exact hnew j (hj.trans hp))
  have hM : mask =
      if ((preinit_entry g.max_cpus q mask steal p g.shdata).2.proc p).dirty then
        ((preinit_entry g.max_cpus q mask steal p g.shdata).2.proc p).future_process_mask
      else ((preinit_entry g.max_cpus q mask steal p g.shdata).2.proc p).current_process_mask := by
    rw [hsr.new_dirty, hsr.new_current]
    rfl
  have hpf := postfinalize_eq q true
    ({ g with shdata := (preinit_entry g.max_cpus q mask steal p g.shdata).2 } : shmem_procinfo)
    p hh hk
  rw [hg1, hpf]
  dsimp only
  rw [finalize_entry_eq g.max_cpus p true _ mask hM]
  exact ⟨rfl, steal_then_return g.max_cpus q mask p g.shdata _ hsr hfree hdis hnf hstolen⟩

/-- Witness of C26: on a node of 4 CPUs where p1 = 111 holds CPUs 0,1 and CPUs
2,3 are free, `preinit(333, {1,2,3}, steal)` followed by `postfinalize(333,
true)` leaves CPUs 2,3 free and p1 with future mask {0,1}, no stolen CPU, and
dirty. -/
theorem steal_then_return_round_trip_witness :
    (shmem_procinfo_ext__postfinalize 333 true (shmem_procinfo_ext__preinit 333 {1, 2, 3} 1
        (run_registry_calls 4 [.init 111 {0, 1}] node4_empty)).2).2.shdata.free_mask = {2, 3}
    ∧ ((shmem_procinfo_ext__postfinalize 333 true (shmem_procinfo_ext__preinit 333 {1, 2, 3} 1
        (run_registry_calls 4 [.init 111 {0, 1}] node4_empty)).2).2.shdata.proc
          0).future_process_mask = {0, 1}
    ∧ ((shmem_procinfo_ext__postfinalize 333 true (shmem_procinfo_ext__preinit 333 {1, 2, 3} 1
        (run_registry_calls 4 [.init 111 {0, 1}] node4_empty)).2).2.shdata.proc
          0).stolen_cpus = ∅
    ∧ ((shmem_procinfo_ext__postfinalize 333 true (shmem_procinfo_ext__preinit 333 {1, 2, 3} 1
        (run_registry_calls 4 [.init 111 {0, 1}] node4_empty)).2).2.shdata.proc
          0).dirty = true :=
  have h := steal_then_return_round_trip 333 {1, 2, 3} 1
    (run_registry_calls 4 [.init 111 {0, 1}] node4_empty) (by decide) (by decide) (by decide)
    (by decide) (by decide) (by decide) (by decide)
  ⟨h.2.1.trans (by decide), (h.2.2.1 0 (by decide)).1.trans (by decide), h.2.2.2.1 0,
    h.2.2.2.2.1 0 (by decide) ⟨1, by decide, by decide, by decide⟩⟩

/-- C27: on an attached registry where `pid` is found in entry `k`, with `R`
the stolen CPUs of the entry that are in the free mask,
`recover_stolen_cpus(pid)` returns `DLB_SUCCESS` and afterwards the future mask
of the entry is the old one together with `R`, its stolen CPUs are the old ones
without `R`, the free mask is the old one without `R`, the entry is dirty (also
when `R` is empty), its pid, current mask and return code are as before, and
every other entry is unchanged. -/
theorem recover_stolen_cpus_effect (pid : pid_t) (g : shmem_procinfo) (k : Nat)
    (R : cpu_set_t) (hh : g.shm_handler = true) (hk : get_process pid g.shdata = some k)
    (hR : R = (g.shdata.proc k).stolen_cpus ∩ g.shdata.free_mask) :
    (shmem_procinfo_ext__recover_stolen_cpus pid g).1 = DLB_SUCCESS
    ∧ (shmem_procinfo_ext__recover_stolen_cpus pid g).1 ≠ DLB_ERR_PERM
    ∧ ((shmem_procinfo_ext__recover_stolen_cpus pid g).2.shdata.proc k).future_process_mask
        = (g.shdata.proc k).future_process_mask ∪ R
    ∧ ((shmem_procinfo_ext__recover_stolen_cpus pid g).2.shdata.proc k).stolen_cpus
        = (g.shdata.proc k).stolen_cpus \ R
    ∧ (shmem_procinfo_ext__recover_stolen_cpus pid g).2.shdata.free_mask
        = g.shdata.free_mask \ R
    ∧ ((shmem_procinfo_ext__recover_stolen_cpus pid g).2.shdata.proc k).dirty = true
    ∧ ((shmem_procinfo_ext__recover_stolen_cpus pid g).2.shdata.proc k).pid = pid
    ∧ ((shmem_procinfo_ext__recover_stolen_cpus pid g).2.shdata.proc k).current_process_mask
        = (g.shdata.proc k).current_process_mask
    ∧ ((shmem_procinfo_ext__recover_stolen_cpus pid g).2.shdata.proc k).returncode
        = (g.shdata.proc k).returncode
    ∧ (∀ i, i ≠ k →
        (shmem_procinfo_ext__recover_stolen_cpus pid g).2.shdata.proc i = g.shdata.proc i)
    ∧ (shmem_procinfo_ext__recover_stolen_cpus pid g).2.shdata.max_processes
        = g.shdata.max_processes := by
  have hklt := (get_process_some hk).2
  have hself : (recover_entry k g.shdata).proc k =
      { g.shdata.proc k with
        future_process_mask := (g.shdata.proc k).future_process_mask
          ∪ ((g.shdata.proc k).stolen_cpus ∩ g.shdata.free_mask)
        dirty := true
        stolen_cpus := (g.shdata.proc k).stolen_cpus
          \ ((g.shdata.proc k).stolen_cpus ∩ g.shdata.free_mask) } := by
    unfold recover_entry
    exact proc_setProc_self _ _ hklt
  rw [recover_eq pid g k hh hk, hR]
  dsimp only
  rw [hself]
  refine ⟨rfl, by decide, rfl, rfl, rfl, rfl, (get_process_some hk).1, rfl, rfl, ?_, ?_⟩
  · intro i hik
    unfold recover_entry
    rw [proc_setProc_of_ne _ _ (Ne.symm hik)]
    rfl
  · unfold recover_entry
    rw [max_processes_setProc]
    rfl

/-- Witness of C27: p2 = 222 takes CPU 1 from p1 = 111 and releases it again;
`recover_stolen_cpus(111)` then takes CPU 1 out of the free mask and gives it
back to p1, which is left dirty. -/
theorem recover_stolen_cpus_effect_witness :
    (shmem_procinfo_ext__recover_stolen_cpus 111
        (shmem_procinfo__setprocessmask 222 {2, 3} false node4_stolen).2).1 = DLB_SUCCESS
    ∧ ((shmem_procinfo_ext__recover_stolen_cpus 111
        (shmem_procinfo__setprocessmask 222 {2, 3} false node4_stolen).2).2.shdata.proc
          0).future_process_mask = {0, 1}
    ∧ ((shmem_procinfo_ext__recover_stolen_cpus 111
        (shmem_procinfo__setprocessmask 222 {2, 3} false node4_stolen).2).2.shdata.proc
          0).stolen_cpus = ∅
    ∧ (shmem_procinfo_ext__recover_stolen_cpus 111
        (shmem_procinfo__setprocessmask 222 {2, 3} false node4_stolen).2).2.shdata.free_mask = ∅
    ∧ ((shmem_procinfo_ext__recover_stolen_cpus 111
        (shmem_procinfo__setprocessmask 222 {2, 3} false node4_stolen).2).2.shdata.proc
          0).dirty = true :=
  have h := recover_stolen_cpus_effect 111
    (shmem_procinfo__setprocessmask 222 {2, 3} false node4_stolen).2 0 {1}
    (by decide) (by decide) (by decide)
  ⟨h.1, h.2.2.1.trans (by decide), h.2.2.2.1.trans (by decide), h.2.2.2.2.1.trans (by decide),
    h.2.2.2.2.2.1⟩

/-- C28: a process that is detached makes `init` calls that all return
`DLB_SUCCESS` and then one `finalize` call for the pid of each of them, in any
order.  Afterwards it is detached again, so that a further `finalize` of any
pid returns `DLB_ERR_NOSHMEM`; and on a detached process `preinit`,
`postfinalize`, `recover_stolen_cpus`, `getprocessmask`, `setprocessmask`,
`polldrom` and `getpidlist` return `DLB_ERR_NOSHMEM` as well.  (The process
detaches with the last of the `finalize` calls whatever they return and whether
or not the pids are distinct: each successful `init` adds an attachment and
each `finalize` gives one up.) -/
theorem detached_after_finalizes (system_size : Nat) (g0 : shmem_procinfo)
    (inits fins : List registry_call) (h0 : g0.shm_handler = false)
    (hinits : ∀ call ∈ inits, call.is_init = true)
    (hfins : ∀ call ∈ fins, call.is_finalize = true)
    (hpids : (fins.map registry_call.pid).Perm (inits.map registry_call.pid))
    (hsucc : all_succeed system_size inits g0) :
    (run_registry_calls system_size (inits ++ fins) g0).shm_handler = false
    ∧ (∀ pid rs, (shmem_procinfo__finalize pid rs
        (run_registry_calls system_size (inits ++ fins) g0)).1 = DLB_ERR_NOSHMEM)
    ∧ ∀ g : shmem_procinfo, g.shm_handler = false →
        ∀ (pid : pid_t) (mask : cpu_set_t) (steal : Int) (rs sync : Bool) (max_len : Int),
          (shmem_procinfo_ext__preinit pid mask steal g).1 = some DLB_ERR_NOSHMEM
          ∧ (shmem_procinfo_ext__postfinalize pid rs g).1 = DLB_ERR_NOSHMEM
          ∧ (shmem_procinfo_ext__recover_stolen_cpus pid g).1 = DLB_ERR_NOSHMEM
          ∧ (shmem_procinfo__getprocessmask pid sync g).1 = some DLB_ERR_NOSHMEM
          ∧ (shmem_procinfo__setprocessmask pid mask sync g).1 = some DLB_ERR_NOSHMEM
          ∧ (shmem_procinfo__polldrom pid g).1 = DLB_ERR_NOSHMEM
          ∧ (shmem_procinfo__getpidlist max_len g).1 = DLB_ERR_NOSHMEM := by
  have hlen : fins.length = inits.length := by
    have := hpids.length_eq
    simpa using this
  have hdet : (run_registry_calls system_size (inits ++ fins) g0).shm_handler = false := by
    rw [run_registry_calls_append]
    by_cases hne : inits = []
    · have hf : fins = [] := List.length_eq_zero.mp (by rw [hlen, hne]; rfl)
      rw [hne, hf]
      exact h0
    · have h1 := run_inits_from_detached system_size inits g0 hinits hsucc h0 hne
      refine run_finalizes_detach system_size fins _ hfins h1.1 (by rw [h1.2, hlen]) ?_
      intro hf
      rw [hf] at hlen
      exact hne (List.length_eq_zero.mp hlen.symm)
  refine ⟨hdet, fun pid rs => (detached_noshmem _ hdet pid ∅ 0 rs false 0).1, ?_⟩
  intro g hg pid mask steal rs sync max_len
  exact (detached_noshmem g hg pid mask steal rs sync max_len).2

/-- Witness of C28: on a node of 4 CPUs a detached process registers p1 = 111
and p2 = 222 and finalizes both, each call returning `DLB_SUCCESS`; it is then
detached, and `finalize(222)` again returns `DLB_ERR_NOSHMEM`. -/
theorem detached_after_finalizes_witness :
    all_succeed 4 [.init 111 {0, 1}, .init 222 {2, 3}, .finalize 111 false, .finalize 222 false]
      node_detached
    ∧ (run_registry_calls 4
        ([.init 111 {0, 1}, .init 222 {2, 3}] ++ [.finalize 111 false, .finalize 222 false])
        node_detached).shm_handler = false
    ∧ (shmem_procinfo__finalize 222 false (run_registry_calls 4
        ([.init 111 {0, 1}, .init 222 {2, 3}] ++ [.finalize 111 false, .finalize 222 false])
        node_detached)).1 = DLB_ERR_NOSHMEM :=
  have h := detached_after_finalizes 4 node_detached [.init 111 {0, 1}, .init 222 {2, 3}]
    [.finalize 111 false, .finalize 222 false] (by decide) (by decide) (by decide) (by decide)
    (by decide)
  ⟨by decide, h.1, h.2.1 222 false⟩

/-- C29: on an attached, initialized registry in which no entry holds `pid`,
`mask` is within the free mask and `k` is the lowest-indexed free entry (so the
pid is not 0): `preinit(pid, mask, 0)` and `init(pid, mask)` both return
`DLB_SUCCESS` and leave the same registry, in which entry `k` holds `pid` with
current mask = future mask = `mask`, not dirty, return code 0, the free mask is
the old one without `mask`, and every other entry is unchanged.  (`init` also
counts one more attachment of the calling process.) -/
theorem preinit_without_steal_like_init (system_size : Nat) (pid : pid_t) (mask : cpu_set_t)
    (g : shmem_procinfo) (k : Nat) (hh : g.shm_handler = true)
    (hini : g.shdata.initialized = true)
    (hno : ∀ i, i < g.shdata.max_processes → (g.shdata.proc i).pid ≠ pid)
    (hsub : mask ⊆ g.shdata.free_mask)
    (hk : k < g.shdata.max_processes) (hfree : (g.shdata.proc k).pid = NOBODY)
    (hmin : ∀ j, j < k → (g.shdata.proc j).pid ≠ NOBODY) :
    (shmem_procinfo_ext__preinit pid mask 0 g).1 = some DLB_SUCCESS
    ∧ (shmem_procinfo__init system_size pid mask g).1 = DLB_SUCCESS
    ∧ (shmem_procinfo_ext__preinit pid mask 0 g).2.shdata
        = (shmem_procinfo__init system_size pid mask g).2.2.shdata
    ∧ (shmem_procinfo__init system_size pid mask g).2.2.shdata.proc k =
        { g.shdata.proc k with
          pid := pid
          dirty := false
          returncode := 0
          current_process_mask := mask
          future_process_mask := mask }
    ∧ (shmem_procinfo__init system_size pid mask g).2.2.shdata.free_mask
        = g.shdata.free_mask \ mask
    ∧ (∀ i, i ≠ k →
        (shmem_procinfo__init system_size pid mask g).2.2.shdata.proc i = g.shdata.proc i)
    ∧ pid ≠ NOBODY := by
  have hk0 : get_process pid g.shdata = none := get_process_eq_none hno
  have hk1 : get_process NOBODY g.shdata = some k := get_process_eq_some hk hfree hmin
  rw [preinit_eq pid mask 0 g k hh hno hk hfree hmin,
    preinit_entry_register g.max_cpus pid mask k g.shdata hk hsub, init_eq,
    init_attach_shdata_of_initialized system_size g (Or.inl hh) hini]
  simp only [hk0, hk1, hsub, if_true]
  refine ⟨trivial, trivial, trivial, ?_, rfl, ?_, fun h => hno k hk (hfree.trans h.symm)⟩
  · unfold init_entry
    exact proc_setProc_self _ _ hk
  · intro i hi
    unfold init_entry
    exact proc_setProc_of_ne _ _ (Ne.symm hi)

/-- Witness of C29: on a node of 4 CPUs where p1 = 111 holds CPUs 0,1,
`preinit(333, {2,3}, 0)` and `init(333, {2,3})` both register pid 333 in entry
1 with CPUs 2,3 and leave the same registry. -/
theorem preinit_without_steal_like_init_witness :
    (shmem_procinfo_ext__preinit 333 {2, 3} 0
        (run_registry_calls 4 [.init 111 {0, 1}] node4_empty)).1 = some DLB_SUCCESS
    ∧ (shmem_procinfo__init 4 333 {2, 3}
        (run_registry_calls 4 [.init 111 {0, 1}] node4_empty)).1 = DLB_SUCCESS
    ∧ (shmem_procinfo_ext__preinit 333 {2, 3} 0
        (run_registry_calls 4 [.init 111 {0, 1}] node4_empty)).2.shdata
      = (shmem_procinfo__init 4 333 {2, 3}
        (run_registry_calls 4 [.init 111 {0, 1}] node4_empty)).2.2.shdata
    ∧ (shmem_procinfo__init 4 333 {2, 3}
        (run_registry_calls 4 [.init 111 {0, 1}] node4_empty)).2.2.shdata.proc 1
      = pinfo_t.clean 333 {2, 3} :=
  have h := preinit_without_steal_like_init 4 333 {2, 3}
    (run_registry_calls 4 [.init 111 {0, 1}] node4_empty) 1 (by decide) (by decide) (by decide)
    (by decide) (by decide) (by decide) (by decide)
  ⟨h.1, h.2.1, h.2.2.1, h.2.2.2.1.trans (by decide)⟩

/-- C30 as stated fails when the mask names a CPU the node does not have: on a
node of 4 CPUs where p1 = 111 holds CPUs 0,1 and CPUs 2,3 are free (a registry
that satisfies the invariants), `preinit(333, {1,2,3,7}, steal)` returns
`DLB_SUCCESS` and registers pid 333 not dirty with current mask {1,2,3,7} and
future mask {1,2,3}: the current mask is a copy of the mask, while
`set_new_mask` only looks at the CPUs below `max_cpus`. -/
theorem preinit_steal_beyond_max_cpus :
    empty_registry 4 node4_empty
    ∧ futures_disjoint (run_registry_calls 4 [.init 111 {0, 1}] node4_empty).shdata
    ∧ futures_not_free (run_registry_calls 4 [.init 111 {0, 1}] node4_empty).shdata
    ∧ dirty_invariant (run_registry_calls 4 [.init 111 {0, 1}] node4_empty).shdata
    ∧ (∀ i, i < 4 →
        ((run_registry_calls 4 [.init 111 {0, 1}] node4_empty).shdata.proc i).pid ≠ 333)
    ∧ ¬ (∀ c ∈ ({1, 2, 3, 7} : cpu_set_t),
        c < (run_registry_calls 4 [.init 111 {0, 1}] node4_empty).max_cpus)
    ∧ (shmem_procinfo_ext__preinit 333 {1, 2, 3, 7} 1
        (run_registry_calls 4 [.init 111 {0, 1}] node4_empty)).1 = some DLB_SUCCESS
    ∧ get_process 333 (shmem_procinfo_ext__preinit 333 {1, 2, 3, 7} 1
        (run_registry_calls 4 [.init 111 {0, 1}] node4_empty)).2.shdata = some 1
    ∧ ((shmem_procinfo_ext__preinit 333 {1, 2, 3, 7} 1
        (run_registry_calls 4 [.init 111 {0, 1}] node4_empty)).2.shdata.proc
          1).current_process_mask = {1, 2, 3, 7}
    ∧ ((shmem_procinfo_ext__preinit 333 {1, 2, 3, 7} 1
        (run_registry_calls 4 [.init 111 {0, 1}] node4_empty)).2.shdata.proc
          1).future_process_mask = {1, 2, 3}
    ∧ ((shmem_procinfo_ext__preinit 333 {1, 2, 3, 7} 1
        (run_registry_calls 4 [.init 111 {0, 1}] node4_empty)).2.shdata.proc
          1).future_process_mask ≠ {1, 2, 3, 7} := by
  decide

/-- C30, amended: on a registry in which the future masks of the registered
processes are pairwise disjoint and disjoint from the free mask and every
registered process that is not dirty has its current mask equal to its future
mask, for a pid `q` that no entry holds and a mask within `[0, max_cpus)`: if
`preinit(q, mask, steal)` with `steal` set returns `DLB_SUCCESS`, then `q`
(which is not 0) is registered in the lowest-indexed free entry `p` with current
mask = future mask = `mask`, not dirty, return code 0; the free mask is the old
one without `mask`; and every process `v` registered before keeps its pid and
current mask, has the CPUs of `mask` taken out of its future mask and added to
its stolen CPUs, is dirty if it has lost a CPU, and is unchanged if it has
not. -/
theorem preinit_steal_registers (q : pid_t) (mask : cpu_set_t) (steal : Int)
    (g : shmem_procinfo) (p : Nat) (hsteal : steal ≠ 0)
    (hdis : futures_disjoint g.shdata) (hnf : futures_not_free g.shdata)
    (hinv : dirty_invariant g.shdata)
    (hnew : ∀ i, i < g.shdata.max_processes → (g.shdata.proc i).pid ≠ q)
    (hrange : ∀ c ∈ mask, c < g.max_cpus)
    (hp : p < g.shdata.max_processes) (hfree : (g.shdata.proc p).pid = NOBODY)
    (hmin : ∀ j, j < p → (g.shdata.proc j).pid ≠ NOBODY)
    (hret : (shmem_procinfo_ext__preinit q mask steal g).1 = some DLB_SUCCESS) :
    q ≠ NOBODY
    ∧ get_process q (shmem_procinfo_ext__preinit q mask steal g).2.shdata = some p
    ∧ ((shmem_procinfo_ext__preinit q mask steal g).2.shdata.proc p).current_process_mask = mask
    ∧ ((shmem_procinfo_ext__preinit q mask steal g).2.shdata.proc p).future_process_mask = mask
    ∧ ((shmem_procinfo_ext__preinit q mask steal g).2.shdata.proc p).dirty = false
    ∧ ((shmem_procinfo_ext__preinit q mask steal g).2.shdata.proc p).returncode = 0
    ∧ (shmem_procinfo_ext__preinit q mask steal g).2.shdata.free_mask
        = g.shdata.free_mask \ mask
    ∧ ∀ v, (g.shdata.proc v).pid ≠ NOBODY →
        ((shmem_procinfo_ext__preinit q mask steal g).2.shdata.proc v).pid = (g.shdata.proc v).pid
        ∧ ((shmem_procinfo_ext__preinit q mask steal g).2.shdata.proc v).current_process_mask
            = (g.shdata.proc v).current_process_mask
        ∧ ((shmem_procinfo_ext__preinit q mask steal g).2.shdata.proc v).future_process_mask
            = (g.shdata.proc v).future_process_mask \ mask
        ∧ ((shmem_procinfo_ext__preinit q mask steal g).2.shdata.proc v).stolen_cpus
            = (g.shdata.proc v).stolen_cpus ∪ ((g.shdata.proc v).future_process_mask ∩ mask)
        ∧ (((g.shdata.proc v).future_process_mask ∩ mask).Nonempty →
            ((shmem_procinfo_ext__preinit q mask steal g).2.shdata.proc v).dirty = true)
        ∧ ((g.shdata.proc v).future_process_mask ∩ mask = ∅ →
            (shmem_procinfo_ext__preinit q mask steal g).2.shdata.proc v = g.shdata.proc v) := by
  obtain ⟨_, _, _, hq, _, hh, _, _⟩ := preinit_success q mask steal g hret
  rw [preinit_eq q mask steal g p hh hnew hp hfree hmin] at hret ⊢
  dsimp only at hret ⊢
  have hsr := preinit_entry_steal_registered g.max_cpus q mask steal p g.shdata hsteal hp hinv
    hdis hnf hret
  refine ⟨hq, ?_, hsr.new_current, ?_, hsr.new_dirty, hsr.new_returncode, ?_, ?_⟩
  · exact get_process_eq_some (by rw [hsr.len]; exact hp) hsr.new_pid
      (fun j hj => by rw [hsr.pid_eq j (ne_of_lt hj)]; exact hnew j (hj.trans hp))
  · ext c
    rw [hsr.new_future c]
    exact ⟨fun h => h.2, fun h => ⟨hrange c h, h⟩⟩
  · ext c
    rw [hsr.free c, Finset.mem_sdiff]
    exact ⟨fun h => ⟨h.1, fun hm => h.2 ⟨hrange c hm, hm⟩⟩, fun h => ⟨h.1, fun hm => h.2 hm.2⟩⟩
  · intro v hreg
    have hvp : v ≠ p := fun e => hreg (e ▸ hfree)
    refine ⟨hsr.pid_eq v hvp, hsr.current_eq v hvp, ?_, ?_, ?_, ?_⟩
    · ext c
      rw [hsr.future v hvp hreg c, Finset.mem_sdiff]
      exact ⟨fun h => ⟨h.1, fun hm => h.2 ⟨hrange c hm, hm⟩⟩,
        fun h => ⟨h.1, fun hm => h.2 hm.2⟩⟩
    · ext c
      rw [hsr.stolen v hvp hreg c, Finset.mem_union, Finset.mem_inter]
      exact ⟨fun h => h.imp id (fun h1 => ⟨h1.1, h1.2.2⟩),
        fun h => h.imp id (fun h1 => ⟨h1.1, hrange c h1.2, h1.2⟩)⟩
    · rintro ⟨c, hc⟩
      rw [Finset.mem_inter] at hc
      exact hsr.dirty v hvp hreg ⟨c, hc.1, hrange c hc.2, hc.2⟩
    · intro hem
      refine hsr.same v hvp (Or.inr (fun c hc hm => ?_))
      have : c ∈ (g.shdata.proc v).future_process_mask ∩ mask := Finset.mem_inter.mpr ⟨hc, hm.2⟩
      rw [hem] at this
      simp at this

/-- Witness of C30 amended, the scenario of the specification: p1 = 111 holds
CPUs 0,1 and CPUs 2,3 are free; `preinit(333, {1,2,3}, steal)` registers pid
333 with CPUs 1,2,3 and leaves p1 with future mask {0}, stolen CPUs {1}, and
dirty. -/
theorem preinit_steal_registers_witness :
    get_process 333 (shmem_procinfo_ext__preinit 333 {1, 2, 3} 1
        (run_registry_calls 4 [.init 111 {0, 1}] node4_empty)).2.shdata = some 1
    ∧ ((shmem_procinfo_ext__preinit 333 {1, 2, 3} 1
        (run_registry_calls 4 [.init 111 {0, 1}] node4_empty)).2.shdata.proc
          1).future_process_mask = {1, 2, 3}
    ∧ ((shmem_procinfo_ext__preinit 333 {1, 2, 3} 1
        (run_registry_calls 4 [.init 111 {0, 1}] node4_empty)).2.shdata.proc
          0).future_process_mask = {0}
    ∧ ((shmem_procinfo_ext__preinit 333 {1, 2, 3} 1
        (run_registry_calls 4 [.init 111 {0, 1}] node4_empty)).2.shdata.proc
          0).stolen_cpus = {1}
    ∧ ((shmem_procinfo_ext__preinit 333 {1, 2, 3} 1
        (run_registry_calls 4 [.init 111 {0, 1}] node4_empty)).2.shdata.proc 0).dirty = true :=
  have h := preinit_steal_registers 333 {1, 2, 3} 1
    (run_registry_calls 4 [.init 111 {0, 1}] node4_empty) 1 (by decide) (by decide) (by decide)
    (by decide) (by decide) (by decide) (by decide) (by decide) (by decide) (by decide)
  ⟨h.2.1, h.2.2.2.1, (h.2.2.2.2.2.2.2 0 (by decide)).2.2.1.trans (by decide),
    (h.2.2.2.2.2.2.2 0 (by decide)).2.2.2.1.trans (by decide),
    (h.2.2.2.2.2.2.2 0 (by decide)).2.2.2.2.1 ⟨1, by decide⟩⟩

/-- C31 fails on the code.  On a node of 4 CPUs where p1 = 111 holds CPUs 0,1
and CPUs 2,3 are free, `preinit(333, {1,2}, no steal)` cannot register the mask
(CPU 1 is not free) and ends in `fatal`; it has claimed entry 1 for pid 333
before, and leaves it so: the entry, which was free, holds pid 333 with empty
masks, and `get_process(333)` finds it.  The same happens when the steals are
refused: `preinit(333, {0,1,2}, steal)` ends in `fatal` with entry 1 held by pid
333, and with CPU 1 already moved from p1 to it.  The code says so itself, in
the comment before that `fatal`: "FIXME: we should clean the shmem before
that".  The calls that fail before an entry is claimed (pid found, no free
entry) change nothing: `preinit(111, {2}, no steal)` leaves the registry as it
is. -/
theorem preinit_failure_keeps_claimed_entry :
    empty_registry 4 node4_empty
    ∧ ((run_registry_calls 4 [.init 111 {0, 1}] node4_empty).shdata.proc 1).pid = NOBODY
    ∧ get_process 333 (run_registry_calls 4 [.init 111 {0, 1}] node4_empty).shdata = none
    ∧ (shmem_procinfo_ext__preinit 333 {1, 2} 0
        (run_registry_calls 4 [.init 111 {0, 1}] node4_empty)).1 = none
    ∧ ((shmem_procinfo_ext__preinit 333 {1, 2} 0
        (run_registry_calls 4 [.init 111 {0, 1}] node4_empty)).2.shdata.proc 1).pid = 333
    ∧ get_process 333 (shmem_procinfo_ext__preinit 333 {1, 2} 0
        (run_registry_calls 4 [.init 111 {0, 1}] node4_empty)).2.shdata = some 1
    ∧ (shmem_procinfo_ext__preinit 333 {1, 2} 0
        (run_registry_calls 4 [.init 111 {0, 1}] node4_empty)).2.shdata
      ≠ (run_registry_calls 4 [.init 111 {0, 1}] node4_empty).shdata
    ∧ (shmem_procinfo_ext__preinit 333 {0, 1, 2} 1
        (run_registry_calls 4 [.init 111 {0, 1}] node4_empty)).1 = none
    ∧ ((shmem_procinfo_ext__preinit 333 {0, 1, 2} 1
        (run_registry_calls 4 [.init 111 {0, 1}] node4_empty)).2.shdata.proc 1).pid = 333
    ∧ ((shmem_procinfo_ext__preinit 333 {0, 1, 2} 1
        (run_registry_calls 4 [.init 111 {0, 1}] node4_empty)).2.shdata.proc
          1).future_process_mask = {1}
    ∧ ((shmem_procinfo_ext__preinit 333 {0, 1, 2} 1
        (run_registry_calls 4 [.init 111 {0, 1}] node4_empty)).2.shdata.proc
          0).future_process_mask = {0}
    ∧ (shmem_procinfo_ext__preinit 111 {2} 0
        (run_registry_calls 4 [.init 111 {0, 1}] node4_empty)).1 = none
    ∧ (shmem_procinfo_ext__preinit 111 {2} 0
        (run_registry_calls 4 [.init 111 {0, 1}] node4_empty)).2
      = run_registry_calls 4 [.init 111 {0, 1}] node4_empty := by
  decide

/-- C32: the values of the enumeration `DLBErrorCodes`: the eleven codes of
the specification have the values it gives; the codes of the enumeration are
pairwise distinct; every `DLB_ERR_*` code is negative and the three other codes
are not; and every code is strictly between `_DLB_ERROR_LOWER_BOUND` and
`_DLB_ERROR_UPPER_BOUND`. -/
theorem error_codes_stable :
    (DLB_SUCCESS = 0 ∧ DLB_NOTED = 1 ∧ DLB_NOUPDT = 2 ∧ DLB_ERR_UNKNOWN = -1
      ∧ DLB_ERR_NOINIT = -2 ∧ DLB_ERR_NOSHMEM = -5 ∧ DLB_ERR_NOPROC = -6
      ∧ DLB_ERR_PDIRTY = -7 ∧ DLB_ERR_PERM = -8 ∧ DLB_ERR_TIMEOUT = -9
      ∧ DLB_ERR_NOMEM = -14)
    ∧ [DLB_NOUPDT, DLB_NOTED, DLB_SUCCESS, DLB_ERR_UNKNOWN, DLB_ERR_NOINIT, DLB_ERR_INIT,
        DLB_ERR_DISBLD, DLB_ERR_NOSHMEM, DLB_ERR_NOPROC, DLB_ERR_PDIRTY, DLB_ERR_PERM,
        DLB_ERR_TIMEOUT, DLB_ERR_NOCBK, DLB_ERR_NOENT, DLB_ERR_NOCOMP, DLB_ERR_REQST,
        DLB_ERR_NOMEM, DLB_ERR_NOPOL].Nodup
    ∧ (∀ code ∈ [DLB_ERR_UNKNOWN, DLB_ERR_NOINIT, DLB_ERR_INIT, DLB_ERR_DISBLD,
        DLB_ERR_NOSHMEM, DLB_ERR_NOPROC, DLB_ERR_PDIRTY, DLB_ERR_PERM, DLB_ERR_TIMEOUT,
        DLB_ERR_NOCBK, DLB_ERR_NOENT, DLB_ERR_NOCOMP, DLB_ERR_REQST, DLB_ERR_NOMEM,
        DLB_ERR_NOPOL], code < 0)
    ∧ (∀ code ∈ [DLB_NOUPDT, DLB_NOTED, DLB_SUCCESS], 0 ≤ code)
    ∧ (∀ code ∈ [DLB_NOUPDT, DLB_NOTED, DLB_SUCCESS, DLB_ERR_UNKNOWN, DLB_ERR_NOINIT,
        DLB_ERR_INIT, DLB_ERR_DISBLD, DLB_ERR_NOSHMEM, DLB_ERR_NOPROC, DLB_ERR_PDIRTY,
        DLB_ERR_PERM, DLB_ERR_TIMEOUT, DLB_ERR_NOCBK, DLB_ERR_NOENT, DLB_ERR_NOCOMP,
        DLB_ERR_REQST, DLB_ERR_NOMEM, DLB_ERR_NOPOL],
      _DLB_ERROR_LOWER_BOUND < code ∧ code < _DLB_ERROR_UPPER_BOUND) := by
  decide

/-- C33, on the CPU-Info registry as the specification describes it:
`shmem_cpuinfo__init(pid, mask)` returns `DLB_ERR_PERM` and changes nothing
when some CPU of `mask` is owned by another process, and returns `DLB_SUCCESS`
when no CPU of `mask` is owned, every CPU of `mask` the node has being then
owned by `pid`, busy, with `pid` as guest. -/
theorem cpuinfo_init_conflict (pid : pid_t) (mask : cpu_set_t) (r : shmem_cpuinfo) :
    ((∃ c ∈ mask, (r.cpu c).owner ≠ NOBODY ∧ (r.cpu c).owner ≠ pid) →
      shmem_cpuinfo__init pid mask r = (DLB_ERR_PERM, r))
    ∧ ((∀ c ∈ mask, (r.cpu c).owner = NOBODY) →
      (shmem_cpuinfo__init pid mask r).1 = DLB_SUCCESS
      ∧ ∀ c ∈ mask, c < r.node_info.length →
          ((shmem_cpuinfo__init pid mask r).2.cpu c).owner = pid
          ∧ ((shmem_cpuinfo__init pid mask r).2.cpu c).state = cpu_state.BUSY
          ∧ ((shmem_cpuinfo__init pid mask r).2.cpu c).guest = pid) := by
  constructor
  · rintro ⟨c, hc, hown, _⟩
    unfold shmem_cpuinfo__init
    rw [if_pos ⟨c, hc, hown⟩]
  · intro hfree
    have hno : ¬ ∃ c ∈ mask, (r.cpu c).owner ≠ NOBODY := by
      rintro ⟨c, hc, hown⟩
      exact hown (hfree c hc)
    unfold shmem_cpuinfo__init
    rw [if_neg hno]
    refine ⟨rfl, ?_⟩
    intro c hc hlt
    simp [shmem_cpuinfo.cpu, hlt, hc]

/-- Witness of C33, the calls of the test `cpuinfo_01.c` on a node of 4 CPUs:
`init(111, {0,1})` returns `DLB_SUCCESS`, then `init(222, {0,1})` returns
`DLB_ERR_PERM`, then `init(222, {2,3})` returns `DLB_SUCCESS`. -/
theorem cpuinfo_init_conflict_witness :
    (shmem_cpuinfo__init 111 {0, 1} cpuinfo4_empty).1 = DLB_SUCCESS
    ∧ shmem_cpuinfo__init 222 {0, 1} (shmem_cpuinfo__init 111 {0, 1} cpuinfo4_empty).2
        = (DLB_ERR_PERM, (shmem_cpuinfo__init 111 {0, 1} cpuinfo4_empty).2)
    ∧ (shmem_cpuinfo__init 222 {2, 3}
        (shmem_cpuinfo__init 222 {0, 1}
          (shmem_cpuinfo__init 111 {0, 1} cpuinfo4_empty).2).2).1 = DLB_SUCCESS :=
  ⟨((cpuinfo_init_conflict 111 {0, 1} cpuinfo4_empty).2 (by decide)).1,
    (cpuinfo_init_conflict 222 {0, 1} (shmem_cpuinfo__init 111 {0, 1} cpuinfo4_empty).2).1
      ⟨0, by decide, by decide, by decide⟩,
    ((cpuinfo_init_conflict 222 {2, 3} (shmem_cpuinfo__init 222 {0, 1}
      (shmem_cpuinfo__init 111 {0, 1} cpuinfo4_empty).2).2).2 (by decide)).1⟩

/-- C34, on the CPU-Info registry as the specification describes it: for a
CPU `c` that is lent, with owner `o` and held by a guest `g` other than the
owner, `reclaim_cpu(p, c)` by a pid `p` other than `o` returns `DLB_ERR_PERM`
and changes nothing; `reclaim_cpu(o, c)` returns `DLB_NOTED` with `new_guest =
o` and `victim = g`; and `return_cpu(g, c)` called next returns `DLB_SUCCESS`
with `new_guest = o`, the CPU being then busy with its owner. -/
theorem cpuinfo_reclaim_return (r : shmem_cpuinfo) (c : Nat) (o g : pid_t)
    (ho : (r.cpu c).owner = o) (hs : (r.cpu c).state = cpu_state.LENT)
    (hg : (r.cpu c).guest = g) (hgo : g ≠ o) (hgn : g ≠ NOBODY) :
    (∀ p, p ≠ o → shmem_cpuinfo__reclaim_cpu p c r =
        some { error := DLB_ERR_PERM, new_guest := none, victim := none, registry := r })
    ∧ (∃ r1, shmem_cpuinfo__reclaim_cpu o c r =
          some { error := DLB_NOTED, new_guest := some o, victim := some g, registry := r1 }
        ∧ ∃ r2, shmem_cpuinfo__return_cpu g c r1 =
            some { error := DLB_SUCCESS, new_guest := some o, victim := none, registry := r2 }
          ∧ (r2.cpu c).state = cpu_state.BUSY ∧ (r2.cpu c).guest = o
          ∧ (r2.cpu c).owner = o) := by
  have hlt : c < r.node_info.length := by
    by_contra hge
    have hz : r.cpu c = cpuinfo_t.zero := by
      unfold shmem_cpuinfo.cpu
      simp [List.getD_eq_getElem?_getD, List.getElem?_eq_none (not_lt.mp hge)]
    rw [hz] at hs
    cases hs
  have hset : ∀ (e : cpuinfo_t), (r.setCpu c e).cpu c = e := by
    intro e
    simp [shmem_cpuinfo.cpu, shmem_cpuinfo.setCpu, hlt]
  constructor
  · intro p hp
    unfold shmem_cpuinfo__reclaim_cpu
    rw [ho, if_pos (Ne.symm hp)]
  · refine ⟨r.setCpu c { r.cpu c with state := cpu_state.RECLAIMED }, ?_, ?_⟩
    · unfold shmem_cpuinfo__reclaim_cpu
      rw [ho, if_neg (fun h => h rfl), hs]
      dsimp only
      rw [hg, if_neg hgn]
    · refine ⟨(r.setCpu c { r.cpu c with state := cpu_state.RECLAIMED }).setCpu c
          { owner := o, guest := o, state := cpu_state.BUSY,
            requesters := (r.cpu c).requesters }, ?_, ?_⟩
      · unfold shmem_cpuinfo__return_cpu
        rw [hset]
        dsimp only
        rw [ho, hg, if_neg (by simp [Ne.symm hgo])]
      · have hlt1 : c < (r.setCpu c { r.cpu c with state := cpu_state.RECLAIMED }).node_info.length := by
          simpa [shmem_cpuinfo.setCpu] using hlt
        simp [shmem_cpuinfo.cpu, shmem_cpuinfo.setCpu, hlt]

/-- Witness of C34, scenario S1 on a node of 4 CPUs: CPU 3 is owned by p2 =
222, lent, and held by p1 = 111.  `reclaim_cpu(111, 3)` returns `DLB_ERR_PERM`,
`reclaim_cpu(222, 3)` returns `DLB_NOTED` with `new_guest = 222` and `victim =
111`, and `return_cpu(111, 3)` then returns `DLB_SUCCESS` with `new_guest =
222`. -/
theorem cpuinfo_reclaim_return_witness :
    (shmem_cpuinfo__reclaim_cpu 111 3 cpuinfo4_lent).map cpu_result.error = some DLB_ERR_PERM
    ∧ ∃ r1, shmem_cpuinfo__reclaim_cpu 222 3 cpuinfo4_lent =
          some { error := DLB_NOTED, new_guest := some 222, victim := some 111, registry := r1 }
        ∧ ∃ r2, shmem_cpuinfo__return_cpu 111 3 r1 =
            some { error := DLB_SUCCESS, new_guest := some 222, victim := none, registry := r2 }
          ∧ (r2.cpu 3).state = cpu_state.BUSY ∧ (r2.cpu 3).guest = 222
          ∧ (r2.cpu 3).owner = 222 :=
  have h := cpuinfo_reclaim_return cpuinfo4_lent 3 222 111 (by decide) (by decide) (by decide)
    (by decide) (by decide)
  ⟨by rw [h.1 111 (by decide)]; rfl, h.2⟩

/-- C35: a call to `shmem_procinfo__finalize` made while the region is
attached returns `DLB_SUCCESS` or `DLB_ERR_NOPROC`; whichever it returns, the
attach counter of the process goes down by exactly one, and the handle of the
region is released exactly when the counter reaches zero; a call that returns
`DLB_ERR_NOPROC` leaves `free_mask` and every slot as they were. -/
theorem finalize_attach_counting (pid : pid_t) (return_stolen : Bool) (g : shmem_procinfo)
    (hh : g.shm_handler = true) :
    ((shmem_procinfo__finalize pid return_stolen g).1 = DLB_SUCCESS
      ∨ (shmem_procinfo__finalize pid return_stolen g).1 = DLB_ERR_NOPROC)
    ∧ (shmem_procinfo__finalize pid return_stolen g).2.subprocesses_attached
        = g.subprocesses_attached - 1
    ∧ ((shmem_procinfo__finalize pid return_stolen g).2.shm_handler = false
        ↔ (shmem_procinfo__finalize pid return_stolen g).2.subprocesses_attached = 0)
    ∧ ((shmem_procinfo__finalize pid return_stolen g).1 = DLB_ERR_NOPROC →
        (shmem_procinfo__finalize pid return_stolen g).2.shdata = g.shdata) := by
  have hc := finalize_counter pid return_stolen g
  refine ⟨?_, hc.1, ?_, ?_⟩
  · cases hk : get_process pid g.shdata with
    | none => right; rw [finalize_noproc pid return_stolen g hh hk]
    | some k => left; rw [finalize_eq pid return_stolen g k hh hk]
  · rw [hc.1, hc.2, hh]
    by_cases h0 : g.subprocesses_attached - 1 = 0
    · simp [h0]
    · simp [h0]
  · intro hcode
    cases hk : get_process pid g.shdata with
    | none =>
      rw [finalize_noproc pid return_stolen g hh hk]
      unfold close_shmem
      dsimp only
      split <;> rfl
    | some k =>
      rw [finalize_eq pid return_stolen g k hh hk] at hcode
      have hne : DLB_SUCCESS ≠ DLB_ERR_NOPROC := by decide
      exact absurd hcode hne

/-- Witness of C35: on a node of 4 CPUs where process 111 holds CPUs 0 and 1
and the region is attached twice, `finalize(333)` returns `DLB_ERR_NOPROC`,
the counter goes from 2 to 1, the region stays attached and nothing is
changed in it; the following `finalize(111)` returns `DLB_SUCCESS`, the counter
reaches zero and the handle is released. -/
theorem finalize_attach_counting_witness :
    (run_registry_calls 4 [.init 111 {0, 1}] node4_empty).shm_handler = true
    ∧ (run_registry_calls 4 [.init 111 {0, 1}] node4_empty).subprocesses_attached
        = 2
    ∧ (shmem_procinfo__finalize 333 false
        (run_registry_calls 4 [.init 111 {0, 1}] node4_empty)).1
        = DLB_ERR_NOPROC
    ∧ (shmem_procinfo__finalize 333 false
        (run_registry_calls 4 [.init 111 {0, 1}] node4_empty)).2.subprocesses_attached
        = 1
    ∧ (shmem_procinfo__finalize 333 false
        (run_registry_calls 4 [.init 111 {0, 1}] node4_empty)).2.shm_handler
        = true
    ∧ (shmem_procinfo__finalize 111 false
        (shmem_procinfo__finalize 333 false
          (run_registry_calls 4 [.init 111 {0, 1}] node4_empty)).2).1
        = DLB_SUCCESS
    ∧ (shmem_procinfo__finalize 111 false
        (shmem_procinfo__finalize 333 false
          (run_registry_calls 4 [.init 111 {0, 1}] node4_empty)).2).2.shm_handler
        = false
    ∧ ((shmem_procinfo__finalize 333 false
          (run_registry_calls 4 [.init 111 {0, 1}] node4_empty)).1
          = DLB_ERR_NOPROC →
        (shmem_procinfo__finalize 333 false
          (run_registry_calls 4 [.init 111 {0, 1}] node4_empty)).2.shdata
          = (run_registry_calls 4 [.init 111 {0, 1}] node4_empty).shdata) :=
  ⟨by decide, by decide, by decide, by decide, by decide, by decide, by decide,
    (finalize_attach_counting 333 false
      (run_registry_calls 4 [.init 111 {0, 1}] node4_empty) (by decide)).2.2.2⟩

/-- C36 fails on the code for the pid 0, which is the mark of a free entry:
`get_process(0)` finds a free entry, and the CPUs moved to or from its future
mask enter or leave the masks of the registered processes.  On a node of 4
CPUs where 111 holds CPUs 0,1 (reached by `init`), `setprocessmask(0, {2})`
returns `DLB_SUCCESS` and takes CPU 2 out of `free_mask` into a free entry:
the union goes from {0,1,2,3} to {0,1,3}.  On the state
`node4_free_entry_masks`, which satisfies the hypothesis of the claim and has
disjoint masks, `recover_stolen_cpus(0)` takes CPU 2 out of the union, and
`setprocessmask(0, {1})` puts CPU 0, which 111 holds, into `free_mask`. -/
theorem conservation_fails_for_free_entry :
    (empty_registry 4 node4_empty
      ∧ dirty_invariant (run_registry_calls 4 [.init 111 {0, 1}] node4_empty).shdata
      ∧ (shmem_procinfo__setprocessmask 0 {2} false
          (run_registry_calls 4 [.init 111 {0, 1}] node4_empty)).1 = some DLB_SUCCESS
      ∧ accounted_cpus (run_registry_calls 4 [.init 111 {0, 1}] node4_empty).shdata
          = {0, 1, 2, 3}
      ∧ accounted_cpus (shmem_procinfo__setprocessmask 0 {2} false
          (run_registry_calls 4 [.init 111 {0, 1}] node4_empty)).2.shdata = {0, 1, 3})
    ∧ (dirty_invariant node4_free_entry_masks.shdata
      ∧ single_owner node4_free_entry_masks.shdata
      ∧ accounted_cpus node4_free_entry_masks.shdata = {0, 1, 2, 3}
      ∧ (shmem_procinfo_ext__recover_stolen_cpus 0 node4_free_entry_masks).1 = DLB_SUCCESS
      ∧ accounted_cpus
          (shmem_procinfo_ext__recover_stolen_cpus 0 node4_free_entry_masks).2.shdata
          = {0, 1, 3}
      ∧ (shmem_procinfo__setprocessmask 0 {1} false node4_free_entry_masks).1
          = some DLB_SUCCESS
      ∧ ¬ single_owner
          (shmem_procinfo__setprocessmask 0 {1} false node4_free_entry_masks).2.shdata) := by
  decide

/-- C36, for a non-zero pid: in a state in which every registered process
that is not dirty has its current mask equal to its future mask,
`setprocessmask(pid, mask)`, whatever it returns, and
`recover_stolen_cpus(pid)` leave the set of the free CPUs and of the CPUs in
the future mask of a registered process unchanged; and if the future masks of
the registered processes and `free_mask` were pairwise disjoint before the
call they are so after it (for `recover_stolen_cpus` also with the pid 0). -/
theorem cpu_conservation (pid : pid_t) (mask : cpu_set_t) (sync_query : Bool)
    (g : shmem_procinfo) (hinv : dirty_invariant g.shdata) :
    (pid ≠ 0 →
      accounted_cpus (shmem_procinfo__setprocessmask pid mask sync_query g).2.shdata
        = accounted_cpus g.shdata
      ∧ accounted_cpus (shmem_procinfo_ext__recover_stolen_cpus pid g).2.shdata
        = accounted_cpus g.shdata
      ∧ (single_owner g.shdata →
          single_owner (shmem_procinfo__setprocessmask pid mask sync_query g).2.shdata))
    ∧ (single_owner g.shdata →
        single_owner (shmem_procinfo_ext__recover_stolen_cpus pid g).2.shdata) :=
  ⟨fun hpid =>
    ⟨setprocessmask_accounted pid mask sync_query g hpid hinv,
      recover_accounted pid g hpid,
      setprocessmask_single_owner pid mask sync_query g hpid hinv⟩,
    recover_single_owner pid g⟩

/-- Witness of C36: on a node of 4 CPUs where 111 holds CPUs 0,1 and 222 holds
CPUs 2,3, `setprocessmask(111, {1,2})` returns `DLB_SUCCESS`, steals CPU 2
from 222 and frees CPU 0; the union stays {0,1,2,3} and the masks stay
disjoint, also after `recover_stolen_cpus(111)`. -/
theorem cpu_conservation_witness :
    dirty_invariant
      (run_registry_calls 4 [.init 111 {0, 1}, .init 222 {2, 3}] node4_empty).shdata
    ∧ single_owner
      (run_registry_calls 4 [.init 111 {0, 1}, .init 222 {2, 3}] node4_empty).shdata
    ∧ (shmem_procinfo__setprocessmask 111 {1, 2} false
        (run_registry_calls 4 [.init 111 {0, 1}, .init 222 {2, 3}] node4_empty)).1
        = some DLB_SUCCESS
    ∧ accounted_cpus
        (run_registry_calls 4 [.init 111 {0, 1}, .init 222 {2, 3}] node4_empty).shdata
        = {0, 1, 2, 3}
    ∧ accounted_cpus (shmem_procinfo__setprocessmask 111 {1, 2} false
        (run_registry_calls 4 [.init 111 {0, 1}, .init 222 {2, 3}] node4_empty)).2.shdata
        = accounted_cpus
          (run_registry_calls 4 [.init 111 {0, 1}, .init 222 {2, 3}] node4_empty).shdata
    ∧ accounted_cpus (shmem_procinfo_ext__recover_stolen_cpus 111
        (run_registry_calls 4 [.init 111 {0, 1}, .init 222 {2, 3}] node4_empty)).2.shdata
        = accounted_cpus
          (run_registry_calls 4 [.init 111 {0, 1}, .init 222 {2, 3}] node4_empty).shdata
    ∧ single_owner (shmem_procinfo__setprocessmask 111 {1, 2} false
        (run_registry_calls 4 [.init 111 {0, 1}, .init 222 {2, 3}] node4_empty)).2.shdata
    ∧ single_owner (shmem_procinfo_ext__recover_stolen_cpus 111
        (run_registry_calls 4 [.init 111 {0, 1}, .init 222 {2, 3}] node4_empty)).2.shdata :=
  have h := cpu_conservation 111 {1, 2} false
    (run_registry_calls 4 [.init 111 {0, 1}, .init 222 {2, 3}] node4_empty) (by decide)
  ⟨by decide, by decide, by decide, by decide, (h.1 (by decide)).1, (h.1 (by decide)).2.1,
    (h.1 (by decide)).2.2 (by decide), h.2 (by decide)⟩

/-- C37 fails on the code.  The loop of `shmem_procinfo_ext__preinit` takes the
first free entry it meets and stops there, so an entry of the same pid further
down the table is never seen (the loop of `shmem_procinfo__init` goes on past
the free entry: "We obtain the first free spot, but we cannot break").  On a
node of 4 CPUs, after `init(111, {0})`, `init(222, {1})` and `finalize(111)`
the pid 222 is in entry 1 and entry 0 is free; all pids of the calls are
non-zero; `preinit(222, {2}, 0)` then returns `DLB_SUCCESS` and entries 0 and
1 both hold the pid 222. -/
theorem preinit_registers_pid_twice :
    empty_registry 4 node4_empty
    ∧ (∀ call ∈ [registry_call.init 111 {0}, .init 222 {1}, .finalize 111 false,
          .preinit 222 {2} 0], call.pid ≠ 0)
    ∧ get_process 222
        (run_registry_calls 4 [.init 111 {0}, .init 222 {1}, .finalize 111 false]
          node4_empty).shdata = some 1
    ∧ pids_distinct
        (run_registry_calls 4 [.init 111 {0}, .init 222 {1}, .finalize 111 false]
          node4_empty).shdata
    ∧ (shmem_procinfo_ext__preinit 222 {2} 0
        (run_registry_calls 4 [.init 111 {0}, .init 222 {1}, .finalize 111 false]
          node4_empty)).1 = some DLB_SUCCESS
    ∧ ((run_registry_calls 4
          [.init 111 {0}, .init 222 {1}, .finalize 111 false, .preinit 222 {2} 0]
          node4_empty).shdata.proc 0).pid = 222
    ∧ ((run_registry_calls 4
          [.init 111 {0}, .init 222 {1}, .finalize 111 false, .preinit 222 {2} 0]
          node4_empty).shdata.proc 1).pid = 222
    ∧ ¬ pids_distinct
        (run_registry_calls 4
          [.init 111 {0}, .init 222 {1}, .finalize 111 false, .preinit 222 {2} 0]
          node4_empty).shdata := by
  decide

/-- C38 fails on the code.  The loop of `shmem_procinfo__getpidlist` compares
`*nelems` with `max_len` after the write, so with `max_len = 0` and entry 0 in
use the test never succeeds: on a node of 4 CPUs where 111 and 222 are
registered, `getpidlist` with `max_len = 0` writes both pids and leaves
`*nelems = 2`.  With `max_len = 1` it writes one pid. -/
theorem getpidlist_zero_length_writes :
    empty_registry 4 node4_empty
    ∧ shmem_procinfo__getpidlist 0
        (run_registry_calls 4 [.init 111 {0}, .init 222 {1, 2}] node4_empty)
        = (DLB_SUCCESS, [111, 222])
    ∧ shmem_procinfo__getpidlist 1
        (run_registry_calls 4 [.init 111 {0}, .init 222 {1, 2}] node4_empty)
        = (DLB_SUCCESS, [111]) := by
  decide

/-- C39: for the hostnames gathered from the MPI ranks (that of rank 0 and
those of the other ranks), none of them empty, with a number of distinct
hostnames that is at most the number of ranks divided by the number of ranks
that share the hostname of rank 0, rounded up: the rank-0 block of `after_init`
runs to its end and the pair (`_process_id`, `_node_id`) it computes for rank
`i` is the number of ranks `j < i` with the hostname of `i`, and the index of
the hostname of `i` in the order of first appearance.  Hence two ranks have the
same `_node_id` exactly when they are on the same host, and the pairs of two
different ranks are different. -/
theorem after_init_numbering (hostname : String) (rest : List String)
    (hnames : ∀ name ∈ hostname :: rest, name ≠ "")
    (hnodes : (hostname :: rest).toFinset.card ≤ nodes_bound (hostname :: rest)) :
    after_init (hostname :: rest) =
      some ((List.range (hostname :: rest).length).map (fun i =>
        (local_rank (hostname :: rest) i, node_index (hostname :: rest) i)))
    ∧ (∀ i j, i < (hostname :: rest).length → j < (hostname :: rest).length →
        (node_index (hostname :: rest) i = node_index (hostname :: rest) j ↔
          (hostname :: rest).getD i "" = (hostname :: rest).getD j ""))
    ∧ (∀ i j, i < (hostname :: rest).length → j < (hostname :: rest).length → i ≠ j →
        (local_rank (hostname :: rest) i, node_index (hostname :: rest) i)
          ≠ (local_rank (hostname :: rest) j, node_index (hostname :: rest) j)) := by
  refine ⟨?_, ?_, ?_⟩
  · apply after_init_table hostname rest hnames
    rw [first_appearances_length]
    exact hnodes
  · intro i j hi hj
    exact node_index_eq_iff _ i j hi hj
  · intro i j hi hj hij hpair
    have hrank : local_rank (hostname :: rest) i = local_rank (hostname :: rest) j :=
      congrArg Prod.fst hpair
    have hnode : node_index (hostname :: rest) i = node_index (hostname :: rest) j :=
      congrArg Prod.snd hpair
    have hhost := (node_index_eq_iff _ i j hi hj).mp hnode
    rcases Nat.lt_or_gt_of_ne hij with hlt | hgt
    · have := local_rank_lt _ i j hlt hj hhost
      omega
    · have := local_rank_lt _ j i hgt hi hhost.symm
      omega

/-- Witness of C39: four ranks on the hosts n1, n2, n1, n2.  Two ranks share
the hostname of rank 0, so the bound is 2, which is the number of hosts; the
pairs are (0,0), (0,1), (1,0), (1,1). -/
theorem after_init_numbering_witness :
    (∀ name ∈ ["n1", "n2", "n1", "n2"], name ≠ "")
    ∧ ["n1", "n2", "n1", "n2"].toFinset.card ≤ nodes_bound ["n1", "n2", "n1", "n2"]
    ∧ after_init ["n1", "n2", "n1", "n2"] = some [(0, 0), (0, 1), (1, 0), (1, 1)]
    ∧ after_init ["n1", "n2", "n1", "n2"] =
        some ((List.range ["n1", "n2", "n1", "n2"].length).map (fun i =>
          (local_rank ["n1", "n2", "n1", "n2"] i, node_index ["n1", "n2", "n1", "n2"] i))) :=
  ⟨by decide, by decide, by decide,
    (after_init_numbering "n1" ["n2", "n1", "n2"] (by decide) (by decide)).1⟩

end DLB
